import Mathlib

/-!
# Aseprite bitmap codecs: PCX and ICO

A shallow embedding of `src/app/file/pcx_format.cpp` and
`src/app/file/ico_format.cpp`.  Stateful C++ is rendered as explicit state
passing: an input stream is a `File`, an output stream is the list of bytes
written so far, and the `FileOp` record carries what the codecs reach through
`fop`.  C `int` values that may be negative (`EOF`, header-derived sizes) are
`Int`; bytes and pixel bit patterns are `Nat`.
-/

namespace Aseprite

/-! ## Binary stream primitives (C stdio and `base/cfile.h`) -/

/-- The value `fgetc` returns when no byte can be read. -/
def EOF : Int := -1

/-- An input stream opened with `"rb"`: `all` is the whole content (needed by
`fseek`), `rest` the bytes not yet consumed.  `fault` says that running out of
bytes is a device failure rather than a clean end of file; `eof` and `error`
are the two stdio indicators (`feof`, `ferror`). -/
structure File where
  all : List Nat
  rest : List Nat
  fault : Bool
  eof : Bool
  error : Bool

/-- A freshly opened stream over `bytes`. -/
def File.open (bytes : List Nat) : File :=
  { all := bytes, rest := bytes, fault := false, eof := false, error := false }

/-- C `fgetc`: the next byte as an `int` in `0..255`, or `EOF`.  A list element
is read modulo 256, so every list is a stream of bytes. -/
def fgetc (f : File) : Int × File :=
  match f.rest with
  | b :: tl => (((b % 256 : Nat) : Int), { f with rest := tl })
  | [] => (EOF, if f.fault then { f with error := true } else { f with eof := true })

/-- C `ferror`. -/
def ferror (f : File) : Bool := f.error

/-- C `fseek(f, offset, SEEK_SET)`; it clears the end-of-file indicator. -/
def fseek (f : File) (offset : Nat) : File :=
  { f with rest := f.all.drop offset, eof := false }

/-- Conversion of an `int` to `unsigned char` (what `fputc` writes, and the bit
pattern a `char` variable keeps). -/
def toByte (c : Int) : Nat := (c % 256).toNat

/-- Modelled from the spec: `fgetw` of `base/cfile.h` is not among the sources.
It reads a 16-bit little-endian unsigned integer; when either byte is missing
it returns `EOF`, like `fgetc`. -/
def fgetw (f : File) : Int × File :=
  let r1 := fgetc f
  if r1.1 = EOF then (EOF, r1.2)
  else
    let r2 := fgetc r1.2
    if r2.1 = EOF then (EOF, r2.2)
    else (r2.1 * 256 + r1.1, r2.2)

/-- Modelled from the spec: `fgetl` of `base/cfile.h` is not among the sources.
It reads a 32-bit little-endian unsigned integer, or `EOF` when a byte is
missing. -/
def fgetl (f : File) : Int × File :=
  let r1 := fgetc f
  if r1.1 = EOF then (EOF, r1.2)
  else
    let r2 := fgetc r1.2
    if r2.1 = EOF then (EOF, r2.2)
    else
      let r3 := fgetc r2.2
      if r3.1 = EOF then (EOF, r3.2)
      else
        let r4 := fgetc r3.2
        if r4.1 = EOF then (EOF, r4.2)
        else (r4.1 * 16777216 + r3.1 * 65536 + r2.1 * 256 + r1.1, r4.2)

/-- C `fputc` on an output stream that accepts every byte: the byte written is
the argument converted to `unsigned char`. -/
def fputc (c : Int) (out : List Nat) : List Nat := out ++ [toByte c]

/-- Modelled from the spec: `fputw` of `base/cfile.h` is not among the sources.
It writes the low 16 bits of its argument, least significant byte first. -/
def fputw (w : Int) (out : List Nat) : List Nat :=
  fputc (w / 256) (fputc w out)

/-- Modelled from the spec: `fputl` of `base/cfile.h` is not among the sources.
It writes the low 32 bits of its argument, least significant byte first. -/
def fputl (l : Int) (out : List Nat) : List Nat :=
  fputc (l / 16777216) (fputc (l / 65536) (fputc (l / 256) (fputc l out)))

/-! ## Pixel buffer model (`raster/raster.h`) -/

/-- Pixel formats of `raster/`. -/
inductive PixelFormat where
  | IMAGE_RGB
  | IMAGE_GRAYSCALE
  | IMAGE_INDEXED
  deriving DecidableEq

open PixelFormat

/-- Modelled from the spec: `Image` of `raster/` is not among the sources.  It
owns a `w` by `h` pixel buffer, here the function `pix x y`; the accessors
below read a stored value modulo the width of the format's storage cell. -/
@[ext]
structure Image where
  format : PixelFormat
  w : Nat
  h : Nat
  pix : Nat → Nat → Nat

/-- Bits of one stored pixel: `uint32_t`, `uint16_t`, `uint8_t`. -/
def pixelBits : PixelFormat → Nat
  | IMAGE_RGB => 32
  | IMAGE_GRAYSCALE => 16
  | IMAGE_INDEXED => 8

/-- Modelled from the spec: `Image::create`, a new buffer of `w` by `h` pixels.
The sources do not fix the content of a new buffer; it is taken as zeroed. -/
def Image.create (format : PixelFormat) (w h : Nat) : Image :=
  { format := format, w := w, h := h, pix := fun _ _ => 0 }

/-- Modelled from the spec: `image_clear`, every pixel set to `color`. -/
def image_clear (image : Image) (color : Nat) : Image :=
  { image with pix := fun _ _ => color }

/-- Modelled from the spec: `image_getpixel_fast<Traits>`, an unchecked read of
the storage cell at `(x, y)`. -/
def image_getpixel_fast (image : Image) (x y : Nat) : Nat :=
  image.pix x y % 2 ^ pixelBits image.format

/-- Unchecked store into the cell `((T**)image->line)[y] + x`. -/
def Image.store (image : Image) (x y v : Nat) : Image :=
  { image with pix := fun x' y' => if x' = x ∧ y' = y then v else image.pix x' y' }

/-- Modelled from the spec: `image_getpixel`, a bounds-checked read that gives
`-1` outside the image. -/
def image_getpixel (image : Image) (x y : Nat) : Int :=
  if x < image.w ∧ y < image.h then (image_getpixel_fast image x y : Int) else -1

/-- Modelled from the spec: `image_putpixel`, a bounds-checked write that does
nothing outside the image. -/
def image_putpixel (image : Image) (x y : Nat) (color : Nat) : Image :=
  if x < image.w ∧ y < image.h then image.store x y color else image

/-- Bit position of the red channel in an RGBA pixel. -/
def _rgba_r_shift : Nat := 0

/-- Bit position of the green channel. -/
def _rgba_g_shift : Nat := 8

/-- Bit position of the blue channel. -/
def _rgba_b_shift : Nat := 16

/-- Bit position of the alpha channel. -/
def _rgba_a_shift : Nat := 24

/-- Modelled from the spec: `_rgba` packs four channels into a 32-bit pixel;
each argument is taken as an 8-bit value. -/
def _rgba (r g b a : Int) : Nat :=
  (toByte r <<< _rgba_r_shift) ||| (toByte g <<< _rgba_g_shift) |||
    (toByte b <<< _rgba_b_shift) ||| (toByte a <<< _rgba_a_shift)

/-- Red channel of an RGBA pixel held in an `int`. -/
def _rgba_getr (c : Int) : Nat := toByte (c / 2 ^ _rgba_r_shift)

/-- Green channel. -/
def _rgba_getg (c : Int) : Nat := toByte (c / 2 ^ _rgba_g_shift)

/-- Blue channel. -/
def _rgba_getb (c : Int) : Nat := toByte (c / 2 ^ _rgba_b_shift)

/-- Alpha channel. -/
def _rgba_geta (c : Int) : Nat := toByte (c / 2 ^ _rgba_a_shift)

/-- Value channel of a grayscale pixel (low byte). -/
def _graya_getv (c : Int) : Nat := toByte c

/-- Alpha channel of a grayscale pixel (high byte). -/
def _graya_geta (c : Int) : Nat := toByte (c / 256)

/-! ## Palette table -/

/-- Modelled from the spec: `Palette` of `raster/`, an ordered table of `size`
colours, each a packed RGBA value. -/
structure Palette where
  size : Nat
  color : Nat → Nat

/-- A palette of `ncolors` black entries. -/
def Palette.create (ncolors : Nat) : Palette :=
  { size := ncolors, color := fun _ => _rgba 0 0 0 255 }

/-- Entry `i` of the table. -/
def Palette.getEntry (p : Palette) (i : Nat) : Nat := p.color i

/-- Overwrite entry `i`. -/
def Palette.setEntry (p : Palette) (i : Nat) (c : Nat) : Palette :=
  { p with color := fun j => if j = i then c else p.color j }

/-! ## Sprite and file-operation context -/

/-- A cel: the image shown by a layer at one frame. -/
structure Cel where
  frame : Nat
  image : Image

/-- An image layer: its cels. -/
structure LayerImage where
  cels : List Cel

/-- Modelled from the spec: `Sprite` (and the `Document` wrapping it), the
object model the codecs consume: pixel format, size, number of palette
colours, frame count, one palette per frame and the layers of the folder. -/
structure Sprite where
  pixelFormat : PixelFormat
  width : Nat
  height : Nat
  ncolors : Nat
  totalFrames : Nat
  palette : Nat → Palette
  layers : List LayerImage

/-- Modelled from the spec: `FileOp`, the context of one load or save.
`seq_palette` and `seq_image` are `fop->seq.palette` and `fop->seq.image`;
`errors` collects the messages passed to `fop_error`; `progress` the
arguments of `fop_progress` (numerator and denominator, before the division);
the stop flag is raised at the poll number `stop_at` and stays raised;
`can_allocate` tells whether `fop_sequence_image` hands out an image. -/
structure FileOp where
  seq_palette : Palette
  seq_image : Option Image
  document : Option Sprite
  errors : List String
  progress : List (Int × Int)
  stop_at : Option Nat
  polls : Nat
  can_allocate : Bool

/-- Report an error message to the caller. -/
def fop_error (fop : FileOp) (msg : String) : FileOp :=
  { fop with errors := fop.errors ++ [msg] }

/-- Report progress `num / den`. -/
def fop_progress (fop : FileOp) (num den : Int) : FileOp :=
  { fop with progress := fop.progress ++ [(num, den)] }

/-- Poll the cooperative stop flag. -/
def fop_is_stop (fop : FileOp) : Bool × FileOp :=
  ((match fop.stop_at with
    | some k => decide (k ≤ fop.polls)
    | none => false),
   { fop with polls := fop.polls + 1 })

/-- Modelled from the spec: `fop_sequence_set_color`, palette entry `index`
becomes the opaque colour `(r, g, b)`. -/
def fop_sequence_set_color (fop : FileOp) (index : Nat) (r g b : Int) : FileOp :=
  { fop with seq_palette := fop.seq_palette.setEntry index (_rgba r g b 255) }

/-- Modelled from the spec: `fop_sequence_get_color`, the three channels of
palette entry `index`, black when the table is shorter. -/
def fop_sequence_get_color (fop : FileOp) (index : Nat) : Nat × Nat × Nat :=
  let c : Nat := if index < fop.seq_palette.size then fop.seq_palette.getEntry index
                 else _rgba 0 0 0 255
  (_rgba_getr c, _rgba_getg c, _rgba_getb c)

/-- Modelled from the spec: `fop_sequence_image`, the destination image of a
sequence load together with the document that will own it; `none` stands for
the `NULL` result.  The sizes are C `int`s, and an image has sizes from 0 on:
for a request with a size below 0 there is no image to hand out, and the
record built here for that case, with the size cut at 0, only keeps the
function total.  What the decoder derives from a header is therefore stated
on the sizes it requests, not on this record. -/
def fop_sequence_image (fop : FileOp) (pixelFormat : PixelFormat) (w h : Int) :
    Option Image × FileOp :=
  if fop.can_allocate then
    let image := Image.create pixelFormat w.toNat h.toNat
    let sprite : Sprite :=
      { pixelFormat := pixelFormat, width := w.toNat, height := h.toNat, ncolors := 256,
        totalFrames := 1, palette := fun _ => Palette.create 256, layers := [⟨[]⟩] }
    (some image,
     { fop with seq_image := some image,
                document := some (fop.document.getD sprite) })
  else (none, fop)

/-! ## PCX decoder (`PcxFormat::onLoad`) -/

/-- What a codec entry point leaves behind: the `bool` it returns, the file
operation context and the stream. -/
structure LoadResult where
  ok : Bool
  fop : FileOp
  f : File

/-- Loop `for (c=0; c<16; c++)` of `onLoad`, from index `c` for `n` rounds:
three bytes per palette entry. -/
def pcxReadColors : (n : Nat) → (c : Nat) → FileOp → File → FileOp × File
  | 0, _, fop, f => (fop, f)
  | n + 1, c, fop, f =>
    let r := fgetc f
    let g := fgetc r.2
    let b := fgetc g.2
    pcxReadColors n (c + 1) (fop_sequence_set_color fop c r.1 g.1 b.1) b.2

/-- Loop `for (c=0; c<60; c++) fgetc(f)`, for `n` rounds. -/
def skipBytes : (n : Nat) → File → File
  | 0, f => f
  | n + 1, f => skipBytes n (fgetc f).2

/-- The part of the scanline loop state that the expansion of a run updates:
the image and the counters `x`, `xx`, `po`. -/
structure PcxPen where
  image : Image
  x : Nat
  xx : Nat
  po : Nat

/-- State of the scanline loop of `onLoad`: the stream and the pen. -/
structure PcxScan where
  f : File
  pen : PcxPen

/-- The `while (c--)` loop of the 8-bit branch: `c` copies of `ch` from
column `x`, clipped to the image width. -/
def pcxRun8 (y ch : Nat) : (c : Nat) → PcxPen → PcxPen
  | 0, p => p
  | c + 1, p =>
    pcxRun8 y ch c
      { p with image := if p.x < p.image.w then p.image.store p.x y ch else p.image,
               x := p.x + 1 }

/-- The `while (c--)` loop of the 24-bit branch: `c` copies of `ch` or-ed into
channel `po` of column `xx`, switching channel when a plane is complete. -/
def pcxRun24 (bytes_per_line : Int) (y ch : Nat) : (c : Nat) → PcxPen → PcxPen
  | 0, p => p
  | c + 1, p =>
    let image1 := if p.xx < p.image.w
      then p.image.store p.xx y (p.image.pix p.xx y ||| ((ch &&& 0xff) <<< p.po))
      else p.image
    let x1 := p.x + 1
    if (x1 : Int) = bytes_per_line then
      pcxRun24 bytes_per_line y ch c { image := image1, x := x1, xx := 0, po := _rgba_g_shift }
    else if (x1 : Int) = bytes_per_line * 2 then
      pcxRun24 bytes_per_line y ch c { image := image1, x := x1, xx := 0, po := _rgba_b_shift }
    else
      pcxRun24 bytes_per_line y ch c { image := image1, x := x1, xx := p.xx + 1, po := p.po }

/-- One round of `while (x < bytes_per_line*bpp/8)`: read a literal or a
count and a literal, then expand it. -/
def pcxItem (bpp bytes_per_line : Int) (y : Nat) (s : PcxScan) : PcxScan :=
  let r1 := fgetc s.f
  let ch1 := toByte r1.1
  let isRun : Bool := decide (ch1 &&& 0xC0 = 0xC0)
  let c := if isRun then ch1 &&& 0x3F else 1
  let r2 := if isRun then fgetc r1.2 else r1
  let ch := toByte r2.1
  { f := r2.2,
    pen := if bpp = 8 then pcxRun8 y ch c s.pen
           else pcxRun24 bytes_per_line y ch c s.pen }

/-- The bound `bytes_per_line*bpp/8` of the scanline loop (C division). -/
def pcxLineBytes (bpp bytes_per_line : Int) : Int := (bytes_per_line * bpp).tdiv 8

/-- The loop `while (x < bytes_per_line*bpp/8)`, at most `fuel` rounds. -/
def pcxWhile (bpp bytes_per_line : Int) (y : Nat) : (fuel : Nat) → PcxScan → PcxScan
  | 0, s => s
  | fuel + 1, s =>
    if (s.pen.x : Int) < pcxLineBytes bpp bytes_per_line then
      pcxWhile bpp bytes_per_line y fuel (pcxItem bpp bytes_per_line y s)
    else s

/-- Rounds that always suffice for the scanline loop: a round either consumes
a byte of the stream or, at end of stream, advances `x` by 63. -/
def pcxFuel (bpp bytes_per_line : Int) (s : PcxScan) : Nat :=
  s.f.rest.length + (pcxLineBytes bpp bytes_per_line - s.pen.x).toNat

/-- Body of `for (y=0; y<height; y++)` up to the progress call: decode the
scanline `y`. -/
def pcxScanline (bpp bytes_per_line : Int) (y : Nat) (f : File) (image : Image) :
    File × Image :=
  let s0 : PcxScan :=
    { f := f, pen := { image := image, x := 0, xx := 0, po := _rgba_r_shift } }
  let s := pcxWhile bpp bytes_per_line y (pcxFuel bpp bytes_per_line s0) s0
  (s.f, s.pen.image)

/-- The loop `for (y=0; y<height; y++)` with its `break` on the stop flag,
from row `y` for at most `n` rows. -/
def pcxRows (bpp bytes_per_line height : Int) :
    (n : Nat) → (y : Nat) → FileOp → File → Image → FileOp × File × Image
  | 0, _, fop, f, image => (fop, f, image)
  | n + 1, y, fop, f, image =>
    let r := pcxScanline bpp bytes_per_line y f image
    let fop1 := fop_progress fop (y + 1) height
    let st := fop_is_stop fop1
    if st.1 then (st.2, r.1, r.2)
    else pcxRows bpp bytes_per_line height n (y + 1) st.2 r.1 r.2

/-- The loop `while ((c = fgetc(f)) != EOF)` that looks for the marker 12 and
then reads 256 palette entries; at most `fuel` bytes are inspected. -/
def pcxFindPalette : (fuel : Nat) → FileOp → File → FileOp × File
  | 0, fop, f => (fop, f)
  | fuel + 1, fop, f =>
    let r := fgetc f
    if r.1 = EOF then (fop, r.2)
    else if r.1 = 12 then pcxReadColors 256 0 fop r.2
    else pcxFindPalette fuel fop r.2

/-- Lines 161 to 183 of `PcxFormat::onLoad`: the search for the 256 colour
palette and the final check of the stream. -/
def pcxFinish (fop : FileOp) (bpp : Int) (f : File) : LoadResult :=
  let st := fop_is_stop fop
  let fin := if ¬ st.1 ∧ bpp = 8 then pcxFindPalette (f.rest.length + 1) st.2 f
             else (st.2, f)
  if ferror fin.2 then
    { ok := false, fop := fop_error fin.1 "Error reading file.\n", f := fin.2 }
  else
    { ok := true, fop := fin.1, f := fin.2 }

/-- Lines 101 to 159 of `PcxFormat::onLoad`, followed by `pcxFinish`: what the
decoder does once the depth is accepted. -/
def pcxLoadImage (fop : FileOp) (width height bpp : Int) (f : File) : LoadResult :=
  let bpl := fgetw f
  let bytes_per_line := bpl.1
  let f := skipBytes 60 bpl.2            -- skip some more junk
  let a := fop_sequence_image fop (if bpp = 8 then IMAGE_INDEXED else IMAGE_RGB) width height
  match a.1 with
  | none => { ok := false, fop := a.2, f := f }
  | some image =>
    let image := if bpp = 24 then image_clear image (_rgba 0 0 0 255) else image
    let rows := pcxRows bpp bytes_per_line height height.toNat 0 a.2 f image
    pcxFinish { rows.1 with seq_image := some rows.2.2 } bpp rows.2.1

/-- Lines 80 to 99 of `PcxFormat::onLoad`: what the decoder does once the
bits-per-plane byte is accepted, up to the check of the depth. -/
def pcxLoadDepth (fop : FileOp) (f : File) : LoadResult :=
  let xmin := fgetw f
  let ymin := fgetw xmin.2
  let xmax := fgetw ymin.2
  let ymax := fgetw xmax.2
  let width : Int := -xmin.1 + (xmax.1 + 1)
  let height : Int := -ymin.1 + (ymax.1 + 1)
  let f := (fgetl ymax.2).2              -- skip DPI values
  let pal := pcxReadColors 16 0 fop f    -- read the 16 color palette
  let f := (fgetc pal.2).2
  let planes := fgetc f
  let bpp : Int := planes.1 * 8          -- how many color planes?
  if bpp ≠ 8 ∧ bpp ≠ 24 then
    { ok := false, fop := pal.1, f := planes.2 }
  else
    pcxLoadImage pal.1 width height bpp planes.2

/-- The decoder `PcxFormat::onLoad`, reading the stream `f`. -/
def PcxFormat.onLoad (fop : FileOp) (f : File) : LoadResult :=
  let f := (fgetc f).2                     -- skip manufacturer ID
  let f := (fgetc f).2                     -- skip version flag
  let f := (fgetc f).2                     -- skip encoding flag
  let r := fgetc f
  if r.1 ≠ 8 then                          -- we like 8 bit color planes
    { ok := false, fop := fop_error fop "This PCX doesn't have 8 bit color planes.\n", f := r.2 }
  else
    pcxLoadDepth fop r.2

/-! ## PCX encoder (`PcxFormat::onSave`) -/

/-- What an encoder leaves behind: the `bool` it returns, the file operation
context and the bytes written to the stream. -/
structure SaveResult where
  ok : Bool
  fop : FileOp
  out : List Nat

/-- Loop `for (c=0; c<16; c++)` of `onSave` (also used with 256 rounds): the
three channels of palette entries `c`, `c+1`, ... -/
def pcxWriteColors (fop : FileOp) : (n : Nat) → (c : Nat) → List Nat → List Nat
  | 0, _, out => out
  | n + 1, c, out =>
    let rgb := fop_sequence_get_color fop c
    pcxWriteColors fop n (c + 1) (fputc rgb.2.2 (fputc rgb.2.1 (fputc rgb.1 out)))

/-- Loop `for (c=0; c<54; c++) fputc(0, f)`, for `n` rounds. -/
def writeZeros : (n : Nat) → List Nat → List Nat
  | 0, out => out
  | n + 1, out => writeZeros n (fputc 0 out)

/-- State of the run-length encoder: the variables `runcount`, `runchar`, `ch`
and the stream. -/
structure PcxRle where
  runcount : Nat
  runchar : Nat
  ch : Nat
  out : List Nat

/-- The sample `ch` fetched for loop index `x` of scanline `y`; `ch` keeps its
previous value when no branch assigns it. -/
def pcxSample (image : Image) (depth : Nat) (ch x y : Nat) : Nat :=
  if depth = 8 then
    if image.format = IMAGE_INDEXED then
      toByte (image_getpixel_fast image x y)
    else if image.format = IMAGE_GRAYSCALE then
      _graya_getv (image_getpixel_fast image x y)
    else ch
  else
    if x < image.w then
      _rgba_getr (image_getpixel_fast image x y)
    else if x < image.w * 2 then
      _rgba_getg (image_getpixel_fast image (x - image.w) y)
    else
      _rgba_getb (image_getpixel_fast image (x - image.w * 2) y)

/-- Write the pending run: a count byte when the run is longer than one or the
value has its two top bits set, then the value. -/
def pcxFlush (runcount runchar : Nat) (out : List Nat) : List Nat :=
  let out1 := if runcount > 1 ∨ runchar &&& 0xC0 = 0xC0
    then fputc ((0xC0 ||| runcount : Nat) : Int) out else out
  fputc runchar out1

/-- The run-length step taken for one sample `ch` (lines 260 to 274). -/
def pcxRleStep (s : PcxRle) (ch : Nat) : PcxRle :=
  if s.runcount = 0 then
    { runcount := 1, runchar := ch, ch := ch, out := s.out }
  else if ch ≠ s.runchar ∨ s.runcount ≥ 0x3f then
    { runcount := 1, runchar := ch, ch := ch, out := pcxFlush s.runcount s.runchar s.out }
  else
    { runcount := s.runcount + 1, runchar := s.runchar, ch := ch, out := s.out }

/-- The loop `for (x=0; x<image->w*planes; x++)`, from index `x` for `n`
rounds. -/
def pcxSaveSamples (image : Image) (depth y : Nat) : (n : Nat) → (x : Nat) → PcxRle → PcxRle
  | 0, _, s => s
  | n + 1, x, s =>
    pcxSaveSamples image depth y n (x + 1) (pcxRleStep s (pcxSample image depth s.ch x y))

/-- Body of `for (y=0; y<image->h; y++)`: encode scanline `y`; the value of
`ch` is carried from one scanline to the next. -/
def pcxSaveLine (image : Image) (depth planes y : Nat) (ch : Nat) (out : List Nat) : PcxRle :=
  let s := pcxSaveSamples image depth y (image.w * planes) 0
    { runcount := 0, runchar := 0, ch := ch, out := out }
  { s with out := pcxFlush s.runcount s.runchar s.out }

/-- The loop `for (y=0; y<image->h; y++)`, from row `y` for `n` rows. -/
def pcxSaveRows (image : Image) (depth planes : Nat) :
    (n : Nat) → (y : Nat) → FileOp → Nat → List Nat → FileOp × Nat × List Nat
  | 0, _, fop, ch, out => (fop, ch, out)
  | n + 1, y, fop, ch, out =>
    let s := pcxSaveLine image depth planes y ch out
    pcxSaveRows image depth planes n (y + 1) (fop_progress fop (y + 1) image.h) s.ch s.out

/-- The header written by `onSave` (lines 207 to 232). -/
def pcxSaveHeader (fop : FileOp) (image : Image) (planes : Nat) (out : List Nat) : List Nat :=
  let out := fputc 10 out                  -- manufacturer
  let out := fputc 5 out                   -- version
  let out := fputc 1 out                   -- run length encoding
  let out := fputc 8 out                   -- 8 bits per pixel
  let out := fputw 0 out                   -- xmin
  let out := fputw 0 out                   -- ymin
  let out := fputw ((image.w : Int) - 1) out   -- xmax
  let out := fputw ((image.h : Int) - 1) out   -- ymax
  let out := fputw 320 out                 -- HDpi
  let out := fputw 200 out                 -- VDpi
  let out := pcxWriteColors fop 16 0 out
  let out := fputc 0 out                   -- reserved
  let out := fputc planes out              -- one or three color planes
  let out := fputw image.w out             -- number of bytes per scanline
  let out := fputw 1 out                   -- color palette
  let out := fputw image.w out             -- hscreen size
  let out := fputw image.h out             -- vscreen size
  writeZeros 54 out                        -- filler

/-- The `depth` chosen in lines 198 to 205 of `onSave`. -/
def pcxDepth (image : Image) : Nat := if image.format = IMAGE_RGB then 24 else 8

/-- The `planes` chosen in lines 198 to 205 of `onSave`. -/
def pcxPlanes (image : Image) : Nat := if image.format = IMAGE_RGB then 3 else 1

/-- The encoder `PcxFormat::onSave`; `image` is `fop->seq.image`.  The output
stream accepts every byte, so `ferror` is clear at the end. -/
def PcxFormat.onSave (fop : FileOp) (image : Image) : SaveResult :=
  let depth := pcxDepth image
  let planes := pcxPlanes image
  let out := pcxSaveHeader fop image planes []
  let rows := pcxSaveRows image depth planes image.h 0 fop 0 out
  let out := rows.2.2
  let out := if depth = 8 then pcxWriteColors fop 256 0 (fputc 12 out) else out
  { ok := true, fop := rows.1, out := out }

/-! ## ICO decoder (`IcoFormat::onLoad`) -/

/-- The icon directory header; the fields are `uint16_t`. -/
structure ICONDIR where
  reserved : Nat
  type : Nat
  entries : Nat

/-- One directory entry; four `uint8_t`, two `uint16_t` and two `uint32_t`
fields. -/
structure ICONDIRENTRY where
  width : Nat
  height : Nat
  color_count : Nat
  reserved : Nat
  planes : Nat
  bpp : Nat
  image_size : Nat
  image_offset : Nat

/-- The bitmap-info header that precedes each image. -/
structure BITMAPINFOHEADER where
  size : Nat
  width : Nat
  height : Nat
  planes : Nat
  bpp : Nat
  compression : Nat
  imageSize : Nat
  xPelsPerMeter : Nat
  yPelsPerMeter : Nat
  clrUsed : Nat
  clrImportant : Nat

/-- Conversion of an `int` to `uint16_t`. -/
def toU16 (c : Int) : Nat := (c % 65536).toNat

/-- Conversion of a `long` to `uint32_t`. -/
def toU32 (c : Int) : Nat := (c % 4294967296).toNat

/-- The three `fgetw` calls that fill `header` (lines 97 to 99). -/
def icoReadHeader (f : File) : ICONDIR × File :=
  let reserved := fgetw f
  let type := fgetw reserved.2
  let entries := fgetw type.2
  ({ reserved := toU16 reserved.1, type := toU16 type.1, entries := toU16 entries.1 },
   entries.2)

/-- Body of the loop that reads one directory entry (lines 115 to 124). -/
def icoReadEntry (f : File) : ICONDIRENTRY × File :=
  let width := fgetc f
  let height := fgetc width.2
  let color_count := fgetc height.2
  let reserved := fgetc color_count.2
  let planes := fgetw reserved.2
  let bpp := fgetw planes.2
  let image_size := fgetl bpp.2
  let image_offset := fgetl image_size.2
  ({ width := toByte width.1, height := toByte height.1,
     color_count := toByte color_count.1, reserved := toByte reserved.1,
     planes := toU16 planes.1, bpp := toU16 bpp.1,
     image_size := toU32 image_size.1, image_offset := toU32 image_offset.1 },
   image_offset.2)

/-- The loop `for (n=0; n<header.entries; ++n)` filling the vector `entries`,
for `n` rounds. -/
def icoReadEntries : (n : Nat) → File → List ICONDIRENTRY × File
  | 0, f => ([], f)
  | n + 1, f =>
    let e := icoReadEntry f
    let r := icoReadEntries n e.2
    (e.1 :: r.1, r.2)

/-- The eleven reads that fill `bmpHeader` (lines 153 to 163). -/
def icoReadBmpHeader (f : File) : BITMAPINFOHEADER × File :=
  let size := fgetl f
  let width := fgetl size.2
  let height := fgetl width.2
  let planes := fgetw height.2
  let bpp := fgetw planes.2
  let compression := fgetl bpp.2
  let imageSize := fgetl compression.2
  let xPelsPerMeter := fgetl imageSize.2
  let yPelsPerMeter := fgetl xPelsPerMeter.2
  let clrUsed := fgetl yPelsPerMeter.2
  let clrImportant := fgetl clrUsed.2
  ({ size := toU32 size.1, width := toU32 width.1, height := toU32 height.1,
     planes := toU16 planes.1, bpp := toU16 bpp.1, compression := toU32 compression.1,
     imageSize := toU32 imageSize.1, xPelsPerMeter := toU32 xPelsPerMeter.1,
     yPelsPerMeter := toU32 yPelsPerMeter.1, clrUsed := toU32 clrUsed.1,
     clrImportant := toU32 clrImportant.1 },
   clrImportant.2)

/-- The loop `for (int i=0; i<numcolors; ++i)` reading B, G, R and a pad byte
per palette entry, from entry `i` for `n` rounds. -/
def icoReadPalette : (n : Nat) → (i : Nat) → Palette → File → Palette × File
  | 0, _, pal, f => (pal, f)
  | n + 1, i, pal, f =>
    let b := fgetc f
    let g := fgetc b.2
    let r := fgetc g.2
    let pad := fgetc r.2
    icoReadPalette n (i + 1) (pal.setEntry i (_rgba r.1 g.1 b.1 255)) pad.2

/-- The loop `while (x & 3)` that discards pad bytes; three rounds always
suffice. -/
def icoSkipPad : (fuel : Nat) → (x : Nat) → File → File
  | 0, _, f => f
  | fuel + 1, x, f =>
    if x &&& 3 ≠ 0 then icoSkipPad fuel (x + 1) (fgetc f).2 else f

/-- The loop `for (x=0; x<image->w; ++x)` of the XOR mask, from column `x` for
`n` rounds, in row `y`. -/
def icoXorPixels (bpp numcolors : Nat) (y : Nat) :
    (n : Nat) → (x : Nat) → File → Image → File × Image
  | 0, _, f, image => (f, image)
  | n + 1, x, f, image =>
    if bpp = 8 then
      let c := fgetc f
      let image1 := if 0 ≤ c.1 ∧ c.1 < (numcolors : Int)
        then image_putpixel image x y c.1.toNat
        else image_putpixel image x y 0
      icoXorPixels bpp numcolors y n (x + 1) c.2 image1
    else if bpp = 24 then
      let b := fgetc f
      let g := fgetc b.2
      let r := fgetc g.2
      icoXorPixels bpp numcolors y n (x + 1) r.2
        (image_putpixel image x y (_rgba r.1 g.1 b.1 255))
    else
      icoXorPixels bpp numcolors y n (x + 1) f image

/-- The loop `for (y=image->h-1; y>=0; --y)` of the XOR mask; `n` rows are
left, the next one is row `n - 1`. -/
def icoXorRows (bpp numcolors : Nat) : (n : Nat) → File → Image → File × Image
  | 0, f, image => (f, image)
  | n + 1, f, image =>
    let r := icoXorPixels bpp numcolors n image.w 0 f image
    icoXorRows bpp numcolors n (icoSkipPad 3 image.w r.1) r.2

/-- The loop `for (b=0; b<8; b++)` of the AND mask: a set bit of `m` clears
the pixel; only the low byte of `m` is tested since `v` is at most 128. -/
def icoAndBits (m : Int) (x y : Nat) : (n : Nat) → (b : Nat) → (v : Nat) → Image → Image
  | 0, _, _, image => image
  | n + 1, b, v, image =>
    icoAndBits m x y n (b + 1) (v >>> 1)
      (if toByte m &&& v = v then image_putpixel image (x * 8 + b) y 0 else image)

/-- The loop `for (x=0; x<(image->w+7)/8; ++x)` of the AND mask, from byte `x`
for `n` rounds, in row `y`. -/
def icoAndBytes (y : Nat) : (n : Nat) → (x : Nat) → File → Image → File × Image
  | 0, _, f, image => (f, image)
  | n + 1, x, f, image =>
    let m := fgetc f
    icoAndBytes y n (x + 1) m.2 (icoAndBits m.1 x y 8 0 128 image)

/-- The loop `for (y=image->h-1; y>=0; --y)` of the AND mask. -/
def icoAndRows : (n : Nat) → File → Image → File × Image
  | 0, f, image => (f, image)
  | n + 1, f, image =>
    let r := icoAndBytes n ((image.w + 7) / 8) 0 f image
    icoAndRows n (icoSkipPad 3 ((image.w + 7) / 8) r.1) r.2

/-- Lines 128 to 234 of `IcoFormat::onLoad`: the sprite built from the first
directory entry `entry`, with the stream `f` left behind by the loop over the
entries. -/
def icoLoadEntry (fop : FileOp) (entry : ICONDIRENTRY) (f : File) : LoadResult :=
  let width : Nat := if entry.width = 0 then 256 else entry.width
  let height : Nat := if entry.height = 0 then 256 else entry.height
  let numcolors : Nat := if entry.color_count = 0 then 256 else entry.color_count
  let pixelFormat := if entry.bpp > 8 then IMAGE_RGB else IMAGE_INDEXED
  let image := image_clear (Image.create pixelFormat width height) 0
  let f := fseek f entry.image_offset
  let bmp := icoReadBmpHeader f
  let pal := if entry.bpp ≤ 8
    then icoReadPalette numcolors 0 (Palette.create numcolors) bmp.2
    else (Palette.create numcolors, bmp.2)
  let xor := icoXorRows entry.bpp numcolors image.h pal.2 image
  let and := icoAndRows xor.2.h xor.1 xor.2
  let sprite : Sprite :=
    { pixelFormat := pixelFormat, width := width, height := height, ncolors := numcolors,
      totalFrames := 1, palette := fun _ => pal.1,
      layers := [⟨[⟨0, and.2⟩]⟩] }
  { ok := true, fop := { fop with document := some sprite }, f := and.1 }

/-- Lines 111 to 234 of `IcoFormat::onLoad`: what the decoder does once the
directory header is accepted.  The vector `entries` is not empty where its
first element is taken, since `header.entries` is at least 1. -/
def icoLoadImage (fop : FileOp) (header : ICONDIR) (f : File) : LoadResult :=
  let es := icoReadEntries header.entries f
  icoLoadEntry fop (es.1.headD ⟨0, 0, 0, 0, 0, 0, 0, 0⟩) es.2

/-- The decoder `IcoFormat::onLoad`, reading the stream `f`. -/
def IcoFormat.onLoad (fop : FileOp) (f : File) : LoadResult :=
  let h := icoReadHeader f
  let header := h.1
  if header.type ≠ 1 then
    { ok := false, fop := fop_error fop "Invalid ICO file type.\n", f := h.2 }
  else if header.entries < 1 then
    { ok := false, fop := fop_error fop "This ICO files does not contain images.\n", f := h.2 }
  else
    icoLoadImage fop header h.2

/-! ## ICO encoder (`IcoFormat::onSave`) -/

/-- Bits per pixel chosen by the encoder. -/
def icoBpp (sprite : Sprite) : Nat := if sprite.pixelFormat = IMAGE_INDEXED then 8 else 24

/-- The value `size` computed for an image of width `w` and height `h`
(lines 257 to 262 and 286 to 291). -/
def icoSize (bpp w h : Nat) : Nat :=
  let bw := (((w * bpp / 8) + 3) / 4) * 4
  let bitsw := ((((w + 7) / 8) + 3) / 4) * 4
  let size := h * (bw + bitsw) + 40
  if bpp = 8 then size + 256 * 4 else size

/-- The loop that writes the directory entries, for `n` frames, with the
running `offset`. -/
def icoWriteEntries (sprite : Sprite) : (n : Nat) → (offset : Nat) → List Nat → List Nat
  | 0, _, out => out
  | n + 1, offset, out =>
    let bpp := icoBpp sprite
    let size := icoSize bpp sprite.width sprite.height
    let out := fputc sprite.width out      -- width
    let out := fputc sprite.height out     -- height
    let out := fputc 0 out                 -- color count
    let out := fputc 0 out                 -- reserved
    let out := fputw 1 out                 -- color planes
    let out := fputw bpp out               -- bits per pixel
    let out := fputl size out              -- size in bytes of image data
    let out := fputl offset out            -- file offset to image data
    icoWriteEntries sprite n (offset + size) out

/-- The loop `for (i=1; i<256; i++)` writing B, G, R, 0 per palette entry,
from entry `i` for `n` rounds. -/
def icoWritePalette (pal : Palette) : (n : Nat) → (i : Nat) → List Nat → List Nat
  | 0, _, out => out
  | n + 1, i, out =>
    let out := fputc (_rgba_getb (pal.getEntry i)) out
    let out := fputc (_rgba_getg (pal.getEntry i)) out
    let out := fputc (_rgba_getr (pal.getEntry i)) out
    let out := fputc 0 out
    icoWritePalette pal n (i + 1) out

/-- The loop `while (x & 3)` that writes pad bytes; three rounds always
suffice. -/
def icoWritePad : (fuel : Nat) → (x : Nat) → List Nat → List Nat
  | 0, _, out => out
  | fuel + 1, x, out =>
    if x &&& 3 ≠ 0 then icoWritePad fuel (x + 1) (fputc 0 out) else out

/-- The loop `for (x=0; x<image->w; ++x)` of the XOR mask, from column `x` for
`n` rounds, in row `y`. -/
def icoWriteXorPixels (image : Image) (y : Nat) : (n : Nat) → (x : Nat) → List Nat → List Nat
  | 0, _, out => out
  | n + 1, x, out =>
    let c := image_getpixel image x y
    let out :=
      match image.format with
      | IMAGE_RGB => fputc (_rgba_getr c) (fputc (_rgba_getg c) (fputc (_rgba_getb c) out))
      | IMAGE_GRAYSCALE =>
        fputc (_graya_getv c) (fputc (_graya_getv c) (fputc (_graya_getv c) out))
      | IMAGE_INDEXED => fputc c out
    icoWriteXorPixels image y n (x + 1) out

/-- The loop `for (y=image->h-1; y>=0; --y)` of the XOR mask; `n` rows are
left. -/
def icoWriteXorRows (image : Image) : (n : Nat) → List Nat → List Nat
  | 0, out => out
  | n + 1, out =>
    icoWriteXorRows image n (icoWritePad 3 image.w (icoWriteXorPixels image n image.w 0 out))

/-- The loop `for (b=0; b<8; b++)` collecting the mask byte `m`. -/
def icoMaskBits (image : Image) (x y : Nat) : (n : Nat) → (b : Nat) → (m v : Nat) → Nat
  | 0, _, m, _ => m
  | n + 1, b, m, v =>
    let c := image_getpixel image (x * 8 + b) y
    let m1 :=
      match image.format with
      | IMAGE_RGB => if _rgba_geta c = 0 then m ||| v else m
      | IMAGE_GRAYSCALE => if _graya_geta c = 0 then m ||| v else m
      | IMAGE_INDEXED => if c = 0 then m ||| v else m
    icoMaskBits image x y n (b + 1) m1 (v >>> 1)

/-- The loop `for (x=0; x<(image->w+7)/8; ++x)` of the AND mask, from byte `x`
for `n` rounds, in row `y`. -/
def icoWriteAndBytes (image : Image) (y : Nat) : (n : Nat) → (x : Nat) → List Nat → List Nat
  | 0, _, out => out
  | n + 1, x, out =>
    icoWriteAndBytes image y n (x + 1) (fputc (icoMaskBits image x y 8 0 0 128) out)

/-- The loop `for (y=image->h-1; y>=0; --y)` of the AND mask. -/
def icoWriteAndRows (image : Image) : (n : Nat) → List Nat → List Nat
  | 0, out => out
  | n + 1, out =>
    icoWriteAndRows image n
      (icoWritePad 3 ((image.w + 7) / 8)
        (icoWriteAndBytes image n ((image.w + 7) / 8) 0 out))

/-- The eleven writes of the `BITMAPINFOHEADER` (lines 294 to 304). -/
def icoWriteBmpHeader (bpp size w h : Nat) (out : List Nat) : List Nat :=
  let out := fputl 40 out                  -- size
  let out := fputl w out                   -- width
  let out := fputl (h * 2 : Nat) out       -- XOR height + AND height
  let out := fputw 1 out                   -- planes
  let out := fputw bpp out                 -- bitcount
  let out := fputl 0 out                   -- unused for ico
  let out := fputl size out                -- size
  let out := fputl 0 out                   -- unused for ico
  let out := fputl 0 out                   -- unused for ico
  let out := fputl 0 out                   -- unused for ico
  fputl 0 out                              -- unused for ico

/-- Body of the second loop over the frames: header, palette, XOR and AND
mask of frame `n`.  The composited frame is `layer_render sprite n`. -/
def icoWriteImage (layer_render : Sprite → Nat → Nat → Nat → Nat) (sprite : Sprite)
    (n : Nat) (out : List Nat) : List Nat :=
  let image : Image :=
    { format := sprite.pixelFormat, w := sprite.width, h := sprite.height,
      pix := layer_render sprite n }
  let bpp := icoBpp sprite
  let size := icoSize bpp image.w image.h
  let out := icoWriteBmpHeader bpp size image.w image.h out
  let out := if bpp = 8
    then icoWritePalette (sprite.palette n) 255 1 (fputl 0 out)
    else out
  let out := icoWriteXorRows image image.h out
  icoWriteAndRows image image.h out

/-- The second loop `for (n=0; n<num; ++n)`, from frame `n` for `k` frames. -/
def icoWriteImages (layer_render : Sprite → Nat → Nat → Nat → Nat) (sprite : Sprite) :
    (k : Nat) → (n : Nat) → List Nat → List Nat
  | 0, _, out => out
  | k + 1, n, out =>
    icoWriteImages layer_render sprite k (n + 1) (icoWriteImage layer_render sprite n out)

/-- The encoder `IcoFormat::onSave`; `sprite` is `fop->document->getSprite()`
and `layer_render sprite n x y` is the pixel that `image_clear` followed by
`layer_render` leaves at `(x, y)` for frame `n`. -/
def IcoFormat.onSave (layer_render : Sprite → Nat → Nat → Nat → Nat) (fop : FileOp)
    (sprite : Sprite) : SaveResult :=
  let num := sprite.totalFrames
  let offset := 6 + num * 16               -- ICONDIR + ICONDIRENTRYs
  let out := fputw 0 []                    -- reserved
  let out := fputw 1 out                   -- resource type: 1=ICON
  let out := fputw num out                 -- number of icons
  let out := icoWriteEntries sprite num offset out
  let out := icoWriteImages layer_render sprite num 0 out
  { ok := true, fop := fop, out := out }

/-- The byte, or `EOF`, that the `i`-th next `fgetc` on a stream with the
unread bytes `l` returns. -/
def peek (l : List Nat) (i : Nat) : Int :=
  match l[i]? with
  | some b => ((b % 256 : Nat) : Int)
  | none => EOF

/-- A file operation context with nothing in it yet: a black 256-colour
sequence palette, no image, no document, no message. -/
def FileOp.blank : FileOp :=
  { seq_palette := Palette.create 256, seq_image := none, document := none, errors := [],
    progress := [], stop_at := none, polls := 0, can_allocate := true }

/-- A 128-byte PCX header for a 1 by 1 image that declares two colour planes
(depth 16), followed by nothing. -/
def pcxDepth16Header : List Nat :=
  [10, 5, 1, 8, 0, 0, 0, 0, 0, 0, 0, 0, 64, 1, 200, 0] ++ List.replicate 48 0 ++
    [0, 2, 1, 0, 1, 0, 1, 0, 1, 0] ++ List.replicate 54 0

/-- A 128-byte PCX header for a 1 by 1 image with one colour plane and one
byte per line, followed by no scanline data at all. -/
def pcxHeaderOnly : List Nat :=
  [10, 5, 1, 8, 0, 0, 0, 0, 0, 0, 0, 0, 64, 1, 200, 0] ++ List.replicate 48 0 ++
    [0, 1, 1, 0, 1, 0, 1, 0, 1, 0] ++ List.replicate 54 0

/-! ## Vocabulary for the run-length properties -/

/-- The bytes that stand for a run of `r.1` copies of the value `r.2`: a count
byte `0xC0 | count` and the value, or the bare value. -/
def pcxItemBytes (r : Nat × Nat) : List Nat :=
  if r.1 > 1 ∨ r.2 &&& 0xC0 = 0xC0 then [0xC0 ||| r.1, r.2] else [r.2]

/-- The runs `(count, value)` flushed by the encoder when it holds the pending
run `(runcount, runchar)` and is fed the samples of the list, the final flush
included. -/
def pcxRuns : (runcount runchar : Nat) → List Nat → List (Nat × Nat)
  | rc, rchar, [] => [(rc, rchar)]
  | rc, rchar, ch :: l =>
    if rc = 0 then pcxRuns 1 ch l
    else if ch ≠ rchar ∨ rc ≥ 0x3f then (rc, rchar) :: pcxRuns 1 ch l
    else pcxRuns (rc + 1) rchar l

/-- The samples a list of runs stands for. -/
def pcxExpand (runs : List (Nat × Nat)) : List Nat :=
  runs.flatMap (fun r => List.replicate r.1 r.2)

/-- The samples of scanline `y` in the order the encoder visits them. -/
def pcxLineSamples (image : Image) (y : Nat) : List Nat :=
  (List.range (image.w * pcxPlanes image)).map
    (fun x => pcxSample image (pcxDepth image) 0 x y)

/-- An indexed image of one row of 65 pixels, all of value `0xC5`. -/
def pcxRow65 : Image :=
  { format := IMAGE_INDEXED, w := 65, h := 1, pix := fun _ _ => 0xC5 }

/-- The pen after the samples `σ x`, `σ (x+1)`, ... have been expanded one at
a time, `n` of them, `x` being the pen's own counter. -/
def pcxPaint (bpp bytes_per_line : Int) (y : Nat) (σ : Nat → Nat) :
    (n : Nat) → PcxPen → PcxPen
  | 0, p => p
  | n + 1, p =>
    pcxPaint bpp bytes_per_line y σ n
      (if bpp = 8 then pcxRun8 y (σ p.x) 1 p else pcxRun24 bytes_per_line y (σ p.x) 1 p)

/-- The image after the rows `y .. y+n-1` have been decoded from the samples
`σ y x`: an 8-bit row holds the samples themselves, a 24-bit row has the three
planes of samples or-ed into the red, green and blue channel of what the
pixel held before. -/
def pcxRowsImage (bpp : Int) (σ : Nat → Nat → Nat) (y n : Nat) (image : Image) : Image :=
  { image with pix := fun x' y' =>
      (if y ≤ y' ∧ y' < y + n ∧ x' < image.w then
        (if bpp = 8 then σ y' x'
         else ((image.pix x' y' ||| ((σ y' x' &&& 0xff) <<< _rgba_r_shift)) |||
                ((σ y' (image.w + x') &&& 0xff) <<< _rgba_g_shift)) |||
                ((σ y' (image.w * 2 + x') &&& 0xff) <<< _rgba_b_shift))
      else image.pix x' y') }

/-- The bytes the encoder writes for the scanline with the samples
`σ 0 .. σ (n-1)`. -/
def pcxLineCode (σ : Nat → Nat) (n : Nat) : List Nat :=
  (pcxRuns 0 0 ((List.range n).map σ)).flatMap pcxItemBytes

/-- The bytes `pcxWriteColors` appends: three channels for each of the palette
entries `c .. c+n-1`. -/
def pcxColorBytes (fop : FileOp) : (n : Nat) → (c : Nat) → List Nat
  | 0, _ => []
  | n + 1, c =>
    [(fop_sequence_get_color fop c).1, (fop_sequence_get_color fop c).2.1,
      (fop_sequence_get_color fop c).2.2] ++ pcxColorBytes fop n (c + 1)

/-- The palette after the entries `c .. c+n-1` have been set to the opaque
colours that `src` gives for them. -/
def pcxPaletteFrom (src : FileOp) (c n : Nat) (pal : Palette) : Palette :=
  { pal with color := fun j =>
      (if c ≤ j ∧ j < c + n then
        _rgba (fop_sequence_get_color src j).1 (fop_sequence_get_color src j).2.1
          (fop_sequence_get_color src j).2.2 255
      else pal.color j) }

/-- The sample function of a source image: `pcxSample` with the depth that
`onSave` chooses. -/
def pcxSamples (image : Image) (y x : Nat) : Nat := pcxSample image (pcxDepth image) 0 x y

/-- Encode `image` with the context `src`, then decode the bytes written with
the context `dst`. -/
def pcxReload (src dst : FileOp) (image : Image) : LoadResult :=
  PcxFormat.onLoad dst (File.open (PcxFormat.onSave src image).out)

/-- The image the decoder starts from: what `fop_sequence_image` hands out,
cleared to opaque black for a 24-bit stream. -/
def pcxBlankImage (bpp : Int) (w h : Int) : Image :=
  if bpp = 24 then image_clear (Image.create IMAGE_RGB w.toNat h.toNat) (_rgba 0 0 0 255)
  else Image.create (if bpp = 8 then IMAGE_INDEXED else IMAGE_RGB) w.toNat h.toNat

/-- The context after `n` scanlines from row `y` have been decoded without a
stop signal: one progress report and one poll per row. -/
def pcxRowsFop (fop : FileOp) (height : Int) (y n : Nat) : FileOp :=
  { fop with progress := fop.progress ++ (List.range' y n).map (fun y => ((y : Int) + 1, height)),
             polls := fop.polls + n }

/-- An RGB image of one pixel with red 1, green 2, blue 3 and alpha 0. -/
def pcxTranslucent : Image :=
  { format := IMAGE_RGB, w := 1, h := 1, pix := fun _ _ => 0x00030201 }

/-- The opaque colour of palette entry `i` as the encoder reads it from `src`:
what `fop_sequence_set_color` stores for the three channels that
`fop_sequence_get_color` gives. -/
def pcxOpaque (src : FileOp) (i : Nat) : Nat :=
  _rgba (fop_sequence_get_color src i).1 (fop_sequence_get_color src i).2.1
    (fop_sequence_get_color src i).2.2 255

/-- An indexed image of one row of 65536 pixels that alternate between the
values 12 and 1. -/
def pcxWide : Image :=
  { format := IMAGE_INDEXED, w := 65536, h := 1, pix := fun x _ => if x % 2 = 0 then 12 else 1 }

/-! ## Vocabulary for the ICO statements -/

/-- The frame that `onSave` composites for frame number `n`: the image that
`image_clear` followed by `layer_render` leaves. -/
def icoRendered (layer_render : Sprite → Nat → Nat → Nat → Nat) (sprite : Sprite)
    (n : Nat) : Image :=
  { format := sprite.pixelFormat, w := sprite.width, h := sprite.height,
    pix := layer_render sprite n }

/-- Encoding `sprite` in the context `src` and decoding exactly the bytes
written, in the context `dst`. -/
def icoReload (layer_render : Sprite → Nat → Nat → Nat → Nat) (src dst : FileOp)
    (sprite : Sprite) : LoadResult :=
  IcoFormat.onLoad dst (File.open (IcoFormat.onSave layer_render src sprite).out)

/-- The palette section as the specification words it: 256 quads of four
bytes, quad 0 being (0, 0, 0, 0) and quad `i` being blue, green, red and 0 of
palette entry `i`. -/
def icoQuads (pal : Palette) : List Nat :=
  (List.range 256).flatMap fun i =>
    if i = 0 then [0, 0, 0, 0]
    else [_rgba_getb (pal.getEntry i), _rgba_getg (pal.getEntry i),
      _rgba_getr (pal.getEntry i), 0]

/-- The palette that comes back from the quads of `pal`: entry 0 opaque black,
entries 1 to 255 the opaque colour with the channels of the source entry. -/
def icoPaletteBack (pal : Palette) : Palette :=
  { size := 256,
    color := fun j =>
      if 1 ≤ j ∧ j < 256 then
        _rgba (_rgba_getr (pal.getEntry j)) (_rgba_getg (pal.getEntry j))
          (_rgba_getb (pal.getEntry j)) 255
      else _rgba 0 0 0 255 }

/-- The image that comes back from the frame `src`. -/
def icoImageBack (src : Image) : Image :=
  { format := IMAGE_INDEXED, w := src.w, h := src.h,
    pix := fun x y => if y < src.h ∧ x < src.w then image_getpixel_fast src x y else 0 }

/-- A palette whose entry `i` has red `i`, green `255 - i`, blue `7` and
alpha `i`. -/
def icoRamp : Palette :=
  { size := 256, color := fun i => _rgba i (255 - i) 7 i }

/-- An indexed sprite of 3 by 2 pixels with `frames` frames; the composited
pixel at `(x, y)` of frame `n` is `icoPlain x y n` below. -/
def icoSmall (frames : Nat) : Sprite :=
  { pixelFormat := IMAGE_INDEXED, width := 3, height := 2, ncolors := 256,
    totalFrames := frames, palette := fun _ => icoRamp, layers := [] }

/-- A compositor for the examples: pixel `(x, y)` of frame `n` has the index
`x + 3 * y + n`, whatever the sprite. -/
def icoPlain (_ : Sprite) (n x y : Nat) : Nat := x + 3 * y + n

/-- A compositor for the RGB examples: every pixel is the opaque colour with
red 1, green 2 and blue 3. -/
def icoInk (_ : Sprite) (_ _ _ : Nat) : Nat := 0xFF030201

/-- An RGB sprite of one pixel with one frame. -/
def icoRgbDot : Sprite :=
  { pixelFormat := IMAGE_RGB, width := 1, height := 1, ncolors := 256,
    totalFrames := 1, palette := fun _ => icoRamp, layers := [] }

/-- An indexed sprite of `w` by `h` pixels with one frame. -/
def icoSized (w h : Nat) : Sprite :=
  { pixelFormat := IMAGE_INDEXED, width := w, height := h, ncolors := 256,
    totalFrames := 1, palette := fun _ => icoRamp, layers := [] }

/-- An ICO stream with one image of 1 by 1 pixel at 4 bits per pixel: the
directory, one entry (16 colours, 4 bits per pixel, 112 bytes at offset 22),
the 40-byte header, 16 quads, one XOR row and one AND row of 4 bytes each. -/
def ico4bpp : List Nat :=
  [0, 0, 1, 0, 1, 0] ++
  [1, 1, 16, 0, 1, 0, 4, 0, 112, 0, 0, 0, 22, 0, 0, 0] ++
  [40, 0, 0, 0, 1, 0, 0, 0, 2, 0, 0, 0, 1, 0, 4, 0, 0, 0, 0, 0, 8, 0, 0, 0] ++
  List.replicate 16 0 ++
  List.replicate 64 0 ++
  [0x10, 0, 0, 0] ++ [0, 0, 0, 0]

/-! ## Vocabulary for the PCX header and run-length statements -/

/-- The item for a run as the specification words it: a single literal byte
when the run length is 1 and the byte's top two bits are not both set,
otherwise the control byte `0xC0 | runlength` followed by the literal byte. -/
def pcxSpecItem (runlength byte : Nat) : List Nat :=
  if runlength = 1 ∧ ¬ (byte &&& 0xC0 = 0xC0) then [byte] else [0xC0 ||| runlength, byte]

/-- The two bytes of a 16-bit little-endian field holding `v`. -/
def le16 (v : Nat) : List Nat := [v % 256, v / 256 % 256]

/-- The 128-byte header as the specification lists it: manufacturer 10,
version 5, encoding 1, 8 bits per pixel, the bounding box, the resolution
320 by 200, red, green and blue of palette entries 0 to 15, a reserved byte,
the planes, the bytes per line, the palette kind 1, the screen size and 54
filler bytes. -/
def pcxSpecHeader (fop : FileOp) (image : Image) : List Nat :=
  [10, 5, 1, 8] ++ le16 0 ++ le16 0 ++ le16 (image.w - 1) ++ le16 (image.h - 1) ++
    le16 320 ++ le16 200 ++
    (List.range 16).flatMap (fun c =>
      [(fop_sequence_get_color fop c).1, (fop_sequence_get_color fop c).2.1,
        (fop_sequence_get_color fop c).2.2]) ++
    [0, if image.format = IMAGE_RGB then 3 else 1] ++
    le16 image.w ++ le16 1 ++ le16 image.w ++ le16 image.h ++ List.replicate 54 0

/-- The stream and the image after the scanlines `y .. y+n-1` have been
decoded one after the other, each from where the previous one stopped. -/
def pcxScanRows (bpp bytes_per_line : Int) : (n : Nat) → (y : Nat) → File → Image → File × Image
  | 0, _, f, image => (f, image)
  | n + 1, y, f, image =>
    let r := pcxScanline bpp bytes_per_line y f image
    pcxScanRows bpp bytes_per_line n (y + 1) r.1 r.2

/-- A file operation context whose stop flag is raised from the first poll
on. -/
def FileOp.stopping : FileOp := { FileOp.blank with stop_at := some 0 }

/-- The unsigned value of a 16-bit little-endian field with the low byte `lo`
and the high byte `hi`, as `fgetw` reads it. -/
def pcxField (lo hi : Nat) : Int := ((hi % 256 * 256 + lo % 256 : Nat) : Int)

/-- A 128-byte PCX header whose xmin field holds the bytes FF FF and whose
xmax field is 0, with ymin = ymax = 0, one plane and two bytes per line,
followed by nothing. -/
def pcxSignedHeader : List Nat :=
  [10, 5, 1, 8, 0xFF, 0xFF, 0, 0, 0, 0, 0, 0, 64, 1, 200, 0] ++ List.replicate 48 0 ++
    [0, 1, 2, 0, 1, 0, 2, 0, 1, 0] ++ List.replicate 54 0

/-! ## Vocabulary for the PCX decoding of one row -/

/-- The byte that the read number `i` from the unread bytes `l` leaves in the
`char` variable `ch`: the byte itself, or 0xFF (the low byte of `EOF`) at the
end of the stream. -/
def pcxByteAt (l : List Nat) (i : Nat) : Nat := toByte (peek l i)

/-- The expansion of one row as the specification words it: items are read
until at least `bpl` bytes are produced; a byte with both top bits set is a
repeat count (its low 6 bits) applied to the next byte, any other byte is a
literal of count 1.  The result is the expansion and the bytes left unread;
`acc` is what has been produced so far and `fuel` bounds the number of
items. -/
def pcxSpecRow (bpl : Int) : (fuel : Nat) → (acc : List Nat) → (l : List Nat) →
    List Nat × List Nat
  | 0, acc, l => (acc, l)
  | fuel + 1, acc, l =>
    if (acc.length : Int) < bpl then
      if pcxByteAt l 0 &&& 0xC0 = 0xC0 then
        pcxSpecRow bpl fuel
          (acc ++ List.replicate (pcxByteAt l 0 &&& 0x3F) (pcxByteAt l 1)) (l.drop 2)
      else
        pcxSpecRow bpl fuel (acc ++ [pcxByteAt l 0]) (l.drop 1)
    else (acc, l)

/-- Row `y` of `image` overwritten with the bytes of `row` from column 0,
clipped to the image width: column `x` takes `row[x]` when `x` is less than
the width and than the length of `row`; every other pixel is as in
`image`. -/
def pcxRowImage (image : Image) (y : Nat) (row : List Nat) : Image :=
  { image with pix := fun x1 y1 =>
      (if y1 = y ∧ x1 < image.w ∧ x1 < row.length then row.getD x1 0
       else image.pix x1 y1) }

/-- The four bytes of a 32-bit little-endian field holding `v`. -/
def le32 (v : Nat) : List Nat :=
  [v % 256, v / 256 % 256, v / 65536 % 256, v / 16777216 % 256]

/-- The 40-byte bitmap-info header as the encoder fills it: its own size 40,
the width, twice the height, one plane, the bits per pixel, compression 0,
the image-size field `size`, and four zero fields. -/
def icoSpecBmpHeader (bpp size w h : Nat) : List Nat :=
  le32 40 ++ le32 w ++ le32 (2 * h) ++ le16 1 ++ le16 bpp ++ le32 0 ++ le32 size ++
    le32 0 ++ le32 0 ++ le32 0 ++ le32 0

/-- The pixel `(x, y)` counts as transparent for the AND mask: it lies inside
the image and has alpha 0 (RGB, grayscale) or index 0 (indexed). -/
def icoTransparent (image : Image) (x y : Nat) : Bool :=
  decide (x < image.w ∧ y < image.h) &&
    (match image.format with
     | IMAGE_RGB => decide (_rgba_geta (image_getpixel_fast image x y) = 0)
     | IMAGE_GRAYSCALE => decide (_graya_geta (image_getpixel_fast image x y) = 0)
     | IMAGE_INDEXED => decide (image_getpixel_fast image x y = 0))

/-- The first directory entry, `entries[0]`, that the decoder takes from the
stream `f` (lines 97 to 128). -/
def icoFirstEntry (f : File) : ICONDIRENTRY :=
  (icoReadEntries (icoReadHeader f).1.entries (icoReadHeader f).2).1.headD
    ⟨0, 0, 0, 0, 0, 0, 0, 0⟩

/-- The stream behind the directory, where the loop over the entries leaves
it. -/
def icoEntriesEnd (f : File) : File :=
  (icoReadEntries (icoReadHeader f).1.entries (icoReadHeader f).2).2

/-- Lines 128 to 211 of `IcoFormat::onLoad`: the stream, the image and the
palette when the XOR pass is over, before the AND pass. -/
def icoXorStage (entry : ICONDIRENTRY) (f : File) : File × Image × Palette :=
  let width : Nat := if entry.width = 0 then 256 else entry.width
  let height : Nat := if entry.height = 0 then 256 else entry.height
  let numcolors : Nat := if entry.color_count = 0 then 256 else entry.color_count
  let pixelFormat := if entry.bpp > 8 then IMAGE_RGB else IMAGE_INDEXED
  let image := image_clear (Image.create pixelFormat width height) 0
  let f := fseek f entry.image_offset
  let bmp := icoReadBmpHeader f
  let pal := if entry.bpp ≤ 8
    then icoReadPalette numcolors 0 (Palette.create numcolors) bmp.2
    else (Palette.create numcolors, bmp.2)
  let xor := icoXorRows entry.bpp numcolors image.h pal.2 image
  (xor.1, xor.2, pal.1)

/-- Bytes of one row of the AND mask: `(w + 7) / 8` mask bytes, padded to a
multiple of 4. -/
def icoMaskRowBytes (w : Nat) : Nat := (w + 7) / 8 + (4 - (w + 7) / 8 % 4) % 4

/-- An icon stream of one image of 2 by 2 pixels at 8 bits per pixel with two
palette entries: every XOR index is 0 and every bit of the two AND-mask bytes
is 1. -/
def icoBlank : List Nat :=
  [0, 0, 1, 0, 1, 0] ++
  [2, 2, 2, 0, 1, 0, 8, 0, 64, 0, 0, 0, 22, 0, 0, 0] ++
  [40, 0, 0, 0, 2, 0, 0, 0, 4, 0, 0, 0, 1, 0, 8, 0, 0, 0, 0, 0, 64, 0, 0, 0] ++
  List.replicate 16 0 ++
  [0, 0, 0, 0, 255, 255, 255, 0] ++
  [0, 0, 0, 0, 0, 0, 0, 0] ++
  [255, 0, 0, 0, 255, 0, 0, 0]

/-- The pixels `(0, 0)`, `(1, 0)`, `(0, 1)`, `(1, 1)` of the image of each cel
of each layer of a document, when there is one. -/
def icoCorners (r : LoadResult) : Option (List (List (List Nat))) :=
  r.fop.document.map (fun d => d.layers.map (fun l => l.cels.map (fun c =>
    [c.image.pix 0 0, c.image.pix 1 0, c.image.pix 0 1, c.image.pix 1 1])))

/-- The pixel that the decoder stores for the three bytes B, G, R that the
encoder writes for the RGB pixel `c`: the same red, green and blue with alpha
255. -/
def icoOpaque (c : Int) : Nat := _rgba (_rgba_getr c) (_rgba_getg c) (_rgba_getb c) 255

/-- Lines 128 to 180 of `IcoFormat::onLoad`: the stream and the palette when
the palette section is read, before the XOR pass. -/
def icoPaletteStage (entry : ICONDIRENTRY) (f : File) : File × Palette :=
  let numcolors : Nat := if entry.color_count = 0 then 256 else entry.color_count
  let f := fseek f entry.image_offset
  let bmp := icoReadBmpHeader f
  let pal := if entry.bpp ≤ 8
    then icoReadPalette numcolors 0 (Palette.create numcolors) bmp.2
    else (Palette.create numcolors, bmp.2)
  (pal.2, pal.1)

/-- Bytes of one row of the XOR mask at 8 bits per pixel: `w` bytes, padded
to a multiple of 4. -/
def icoXorRowBytes (w : Nat) : Nat := w + (4 - w % 4) % 4

/-- The index that the decoder stores for the XOR byte `c` (or `EOF`) of an
image at 8 bits per pixel. -/
def icoIndex (numcolors : Nat) (c : Int) : Nat :=
  if 0 ≤ c ∧ c < (numcolors : Int) then c.toNat else 0

/-- An icon stream of one image of 2 by 1 pixels at 8 bits per pixel with two
palette entries, whose XOR bytes are 1 and 7 (7 is not an index of the
palette) and whose AND-mask bits are clear. -/
def icoStray : List Nat :=
  [0, 0, 1, 0, 1, 0] ++
  [2, 1, 2, 0, 1, 0, 8, 0, 56, 0, 0, 0, 22, 0, 0, 0] ++
  [40, 0, 0, 0, 2, 0, 0, 0, 2, 0, 0, 0, 1, 0, 8, 0, 0, 0, 0, 0, 56, 0, 0, 0] ++
  List.replicate 16 0 ++
  [0, 0, 0, 0, 255, 255, 255, 0] ++
  [1, 7, 0, 0] ++
  [0, 0, 0, 0]

/-- An icon stream that is nothing but a directory of four entries: the first
entry declares an image of 1 by 1 pixel at 8 bits per pixel with two colours
at the image offset 0, so that the decoder reads the record from the
directory itself.  The 48 bytes of the entries 1 to 3 are zeros. -/
def icoOverlapA : List Nat :=
  [0, 0, 1, 0, 4, 0] ++
  [1, 1, 2, 0, 1, 0, 8, 0, 0, 0, 0, 0, 0, 0, 0, 0] ++
  List.replicate 48 0

/-- The stream `icoOverlapA` with one byte of its third entry (byte 48 of the
stream) changed from 0 to 1. -/
def icoOverlapB : List Nat :=
  [0, 0, 1, 0, 4, 0] ++
  [1, 1, 2, 0, 1, 0, 8, 0, 0, 0, 0, 0, 0, 0, 0, 0] ++
  List.replicate 26 0 ++ [1] ++ List.replicate 21 0

/-- Lines 71 to 96 of `PcxFormat::onLoad`: the context with the 16 header
colours, the width, the height, the depth and the stream as they are when
the depth has been read. -/
def pcxHeaderStage (fop : FileOp) (f : File) : FileOp × Int × Int × Int × File :=
  let f := (fgetc f).2
  let f := (fgetc f).2
  let f := (fgetc f).2
  let f := (fgetc f).2
  let xmin := fgetw f
  let ymin := fgetw xmin.2
  let xmax := fgetw ymin.2
  let ymax := fgetw xmax.2
  let width : Int := -xmin.1 + (xmax.1 + 1)
  let height : Int := -ymin.1 + (ymax.1 + 1)
  let f := (fgetl ymax.2).2
  let pal := pcxReadColors 16 0 fop f
  let f := (fgetc pal.2).2
  let planes := fgetc f
  (pal.1, width, height, planes.1 * 8, planes.2)

/-- The stream and the image when the loop over the scanlines ends without a
stop signal (lines 101 to 159 of `PcxFormat::onLoad`). -/
def pcxAfterRows (fop : FileOp) (f : File) : File × Image :=
  let st := pcxHeaderStage fop f
  let bpl := fgetw st.2.2.2.2
  pcxScanRows st.2.2.2.1 bpl.1 st.2.2.1.toNat 0 (skipBytes 60 bpl.2)
    (pcxBlankImage st.2.2.2.1 st.2.1 st.2.2.1)

/-- A PCX stream of a 1 by 1 image with one plane: the header, the scanline
byte 5, the marker 12 and a palette cut short after its first triple. -/
def pcxShortPalette : List Nat := pcxHeaderOnly ++ [5, 12, 1, 2, 3]

/-- The stream `g` is the stream `f` read further: the same bytes, with the
unread part of `g` being what is left of the unread part of `f` after some
more bytes are read.  No byte is read twice between `f` and `g`. -/
def File.behind (g f : File) : Prop := (∃ k, g.rest = f.rest.drop k) ∧ g.all = f.all

/-- A PCX stream of depth 24 for an image of 2 by 1 pixels with two bytes per
line: the header and the two runs `C3 09` and `C3 05`, the first of which
spans the boundary between the red and the green plane. -/
def pcxRgbRuns : List Nat :=
  [10, 5, 1, 8, 0, 0, 0, 0, 1, 0, 0, 0, 64, 1, 200, 0] ++ List.replicate 48 0 ++
    [0, 3, 2, 0, 1, 0, 2, 0, 1, 0] ++ List.replicate 54 0 ++ [0xC3, 9, 0xC3, 5]

/-- The RLE expansion of row `y` of the stream `f`, in the words of the
specification: the items read from where the rows before `y` ended, until at
least `bytes_per_line * bpp / 8` bytes are produced. -/
def pcxRowExpansion (fop : FileOp) (f : File) (y : Nat) : List Nat :=
  let st := pcxHeaderStage fop f
  let bpl := fgetw st.2.2.2.2
  let g := (pcxScanRows st.2.2.2.1 bpl.1 y 0 (skipBytes 60 bpl.2)
    (pcxBlankImage st.2.2.2.1 st.2.1 st.2.2.1)).1
  (pcxSpecRow (pcxLineBytes st.2.2.2.1 bpl.1)
    (g.rest.length + (pcxLineBytes st.2.2.2.1 bpl.1).toNat) [] g.rest).1

/-- A file operation context whose sequence palette has 256 entries, entry
`i` being the opaque colour with red `i`, green `i + 1` and blue `i + 2`
(modulo 256); no entry is the black of the blank context. -/
def pcxTinted : FileOp :=
  { FileOp.blank with
    seq_palette :=
      { size := 256, color := fun i => _rgba (i : Int) ((i : Int) + 1) ((i : Int) + 2) 255 } }

/-- An icon stream with a directory of two entries.  The first entry declares
an image of 1 by 1 pixel at 8 bits per pixel with two colours, 56 bytes at the
offset 38, right behind the directory; the second entry declares 16 by 16
pixels at 4 bits per pixel.  The record is the 40-byte header, two palette
quads, one XOR row holding the index 1 and one AND row without a set bit. -/
def icoPairA : List Nat :=
  [0, 0, 1, 0, 2, 0] ++
  [1, 1, 2, 0, 1, 0, 8, 0, 56, 0, 0, 0, 38, 0, 0, 0] ++
  [16, 16, 16, 0, 1, 0, 4, 0, 40, 1, 0, 0, 94, 0, 0, 0] ++
  [40, 0, 0, 0, 1, 0, 0, 0, 2, 0, 0, 0, 1, 0, 8, 0, 0, 0, 0, 0, 56, 0, 0, 0] ++
  List.replicate 16 0 ++
  [0, 0, 0, 0, 255, 255, 255, 0] ++
  [1, 0, 0, 0] ++
  [0, 0, 0, 0]

/-- The stream `icoPairA` with another second directory entry (32 by 32
pixels at 24 bits per pixel, another size and another offset); the directory
header, the first entry and the record are the same. -/
def icoPairB : List Nat :=
  [0, 0, 1, 0, 2, 0] ++
  [1, 1, 2, 0, 1, 0, 8, 0, 56, 0, 0, 0, 38, 0, 0, 0] ++
  [32, 32, 0, 0, 1, 0, 24, 0, 168, 12, 0, 0, 200, 0, 0, 0] ++
  [40, 0, 0, 0, 1, 0, 0, 0, 2, 0, 0, 0, 1, 0, 8, 0, 0, 0, 0, 0, 56, 0, 0, 0] ++
  List.replicate 16 0 ++
  [0, 0, 0, 0, 255, 255, 255, 0] ++
  [1, 0, 0, 0] ++
  [0, 0, 0, 0]

/-! # Theorems -/

/-! ## Stream primitives -/

theorem fgetc_nil (f : File) (h : f.rest = []) :
    fgetc f = (EOF, if f.fault then { f with error := true } else { f with eof := true }) := by
  unfold fgetc; rw [h]

theorem fgetc_cons (f : File) (b : Nat) (tl : List Nat) (h : f.rest = b :: tl) :
    fgetc f = (((b % 256 : Nat) : Int), { f with rest := tl }) := by
  unfold fgetc; rw [h]

theorem fgetc_fst (f : File) : (fgetc f).1 = peek f.rest 0 := by
  unfold fgetc peek
  cases h : f.rest <;> simp

@[simp] theorem fgetc_rest (f : File) : (fgetc f).2.rest = f.rest.drop 1 := by
  unfold fgetc
  cases h : f.rest
  · simp only []; split <;> simp [h]
  · simp

@[simp] theorem fgetc_fault (f : File) : (fgetc f).2.fault = f.fault := by
  unfold fgetc
  cases h : f.rest
  · simp only []; split <;> simp
  · simp

@[simp] theorem fgetc_all (f : File) : (fgetc f).2.all = f.all := by
  unfold fgetc
  cases h : f.rest
  · simp only []; split <;> simp
  · simp

theorem peek_drop (l : List Nat) (k i : Nat) : peek (l.drop k) i = peek l (k + i) := by
  unfold peek
  rw [List.getElem?_drop]

theorem peek_zero_eof (l : List Nat) (h : peek l 0 = EOF) : l = [] := by
  cases l with
  | nil => rfl
  | cons a tl => simp [peek, EOF] at h; omega

/-! ## C7: when the ICO decoder fails -/

/-- C7. `IcoFormat::onLoad` returns `false` exactly when the `type` field of
the directory header is not 1 or its `entries` field is below 1; a failing
decode adds one non-empty message to the error report and leaves the
document of the file operation as it was (none is produced).  A header of
type 2 (cursor) and a header with zero entries are both rejected, whatever
follows them in the stream. -/
theorem ico_decode_fails_iff_bad_header (fop : FileOp) (f : File) :
    ((IcoFormat.onLoad fop f).ok = false ↔
      ((icoReadHeader f).1.type ≠ 1 ∨ (icoReadHeader f).1.entries < 1)) ∧
    ((IcoFormat.onLoad fop f).ok = false →
      (IcoFormat.onLoad fop f).fop.document = fop.document ∧
      ∃ msg, msg ≠ "" ∧ (IcoFormat.onLoad fop f).fop.errors = fop.errors ++ [msg]) ∧
    (∀ tl : List Nat,
      (IcoFormat.onLoad fop (File.open ([0, 0, 2, 0, 1, 0] ++ tl))).ok = false ∧
      (IcoFormat.onLoad fop (File.open ([0, 0, 2, 0, 1, 0] ++ tl))).fop.document
        = fop.document ∧
      (IcoFormat.onLoad fop (File.open ([0, 0, 2, 0, 1, 0] ++ tl))).fop.errors
        = fop.errors ++ ["Invalid ICO file type.\n"]) ∧
    (∀ tl : List Nat,
      (IcoFormat.onLoad fop (File.open ([0, 0, 1, 0, 0, 0] ++ tl))).ok = false ∧
      (IcoFormat.onLoad fop (File.open ([0, 0, 1, 0, 0, 0] ++ tl))).fop.document
        = fop.document ∧
      (IcoFormat.onLoad fop (File.open ([0, 0, 1, 0, 0, 0] ++ tl))).fop.errors
        = fop.errors ++ ["This ICO files does not contain images.\n"]) := by
  refine ⟨?_, ?_, ?_, ?_⟩
  · unfold IcoFormat.onLoad
    simp only []
    split_ifs with h1 h2
    · simp [h1]
    · simp [h2]
    · have h3 : (icoReadHeader f).1.type = 1 := not_not.mp h1
      simp [icoLoadImage, icoLoadEntry, h3, h2]
  · unfold IcoFormat.onLoad
    simp only []
    split_ifs with h1 h2
    · intro _
      exact ⟨rfl, _, by decide, rfl⟩
    · intro _
      exact ⟨rfl, _, by decide, rfl⟩
    · intro h
      simp [icoLoadImage, icoLoadEntry] at h
  · intro tl
    simp [IcoFormat.onLoad, icoReadHeader, fgetw, fgetc, File.open, EOF, toU16, fop_error]
  · intro tl
    simp [IcoFormat.onLoad, icoReadHeader, fgetw, fgetc, File.open, EOF, toU16, fop_error]

theorem fgetc_error (f : File) (h : f.fault = false) : (fgetc f).2.error = f.error := by
  unfold fgetc
  cases h1 : f.rest <;> simp [h]

@[simp] theorem fgetw_rest (f : File) : (fgetw f).2.rest = f.rest.drop 2 := by
  unfold fgetw
  simp only []
  split_ifs with h1 h2 <;> simp
  rw [fgetc_fst] at h1
  simp [peek_zero_eof _ h1]

@[simp] theorem fgetw_fault (f : File) : (fgetw f).2.fault = f.fault := by
  unfold fgetw
  simp only []
  split_ifs <;> simp

theorem fgetw_error (f : File) (h : f.fault = false) : (fgetw f).2.error = f.error := by
  unfold fgetw
  simp only []
  split_ifs <;> simp [fgetc_error, h]

theorem drop_nil_mono (l : List Nat) (k n : Nat) (h : l.drop k = []) (hk : k ≤ n) :
    l.drop n = [] := by
  rw [List.drop_eq_nil_iff] at *
  omega

@[simp] theorem fgetl_rest (f : File) : (fgetl f).2.rest = f.rest.drop 4 := by
  unfold fgetl
  simp only []
  split_ifs with h1 h2 h3 h4 <;> simp
  · rw [fgetc_fst] at h1
    simp [peek_zero_eof _ h1]
  · rw [fgetc_fst, fgetc_rest] at h2
    have := peek_zero_eof _ h2
    rw [drop_nil_mono _ 1 2 this (by omega), drop_nil_mono _ 1 4 this (by omega)]
  · rw [fgetc_fst, fgetc_rest, fgetc_rest, List.drop_drop] at h3
    have := peek_zero_eof _ h3
    rw [drop_nil_mono _ 2 3 this (by omega), drop_nil_mono _ 2 4 this (by omega)]

@[simp] theorem fgetl_fault (f : File) : (fgetl f).2.fault = f.fault := by
  unfold fgetl
  simp only []
  split_ifs <;> simp

theorem fgetl_error (f : File) (h : f.fault = false) : (fgetl f).2.error = f.error := by
  unfold fgetl
  simp only []
  split_ifs <;> simp [fgetc_error, h]

@[simp] theorem skipBytes_rest (n : Nat) (f : File) : (skipBytes n f).rest = f.rest.drop n := by
  induction n generalizing f with
  | zero => simp [skipBytes]
  | succ n ih => simp [skipBytes, ih, Nat.add_comm]

@[simp] theorem skipBytes_fault (n : Nat) (f : File) : (skipBytes n f).fault = f.fault := by
  induction n generalizing f with
  | zero => simp [skipBytes]
  | succ n ih => simp [skipBytes, ih]

theorem skipBytes_error (n : Nat) (f : File) (h : f.fault = false) :
    (skipBytes n f).error = f.error := by
  induction n generalizing f with
  | zero => simp [skipBytes]
  | succ n ih => simp [skipBytes, ih, fgetc_error, h]

/-! ## The PCX decoder: what the reads of the header leave untouched -/

@[simp] theorem pcxReadColors_rest (n c : Nat) (fop : FileOp) (f : File) :
    (pcxReadColors n c fop f).2.rest = f.rest.drop (3 * n) := by
  induction n generalizing c fop f with
  | zero => simp [pcxReadColors]
  | succ n ih =>
    simp only [pcxReadColors, ih, fgetc_rest, List.drop_drop]
    congr 1; omega

@[simp] theorem pcxReadColors_fault (n c : Nat) (fop : FileOp) (f : File) :
    (pcxReadColors n c fop f).2.fault = f.fault := by
  induction n generalizing c fop f with
  | zero => simp [pcxReadColors]
  | succ n ih => simp [pcxReadColors, ih]

theorem pcxReadColors_error (n c : Nat) (fop : FileOp) (f : File) (h : f.fault = false) :
    (pcxReadColors n c fop f).2.error = f.error := by
  induction n generalizing c fop f with
  | zero => simp [pcxReadColors]
  | succ n ih => simp [pcxReadColors, ih, fgetc_error, h]

/-- Reading palette entries changes nothing of the context but the palette. -/
theorem pcxReadColors_frame (n c : Nat) (fop : FileOp) (f : File) :
    (pcxReadColors n c fop f).1.seq_image = fop.seq_image ∧
    (pcxReadColors n c fop f).1.document = fop.document ∧
    (pcxReadColors n c fop f).1.errors = fop.errors ∧
    (pcxReadColors n c fop f).1.can_allocate = fop.can_allocate ∧
    (pcxReadColors n c fop f).1.stop_at = fop.stop_at ∧
    (pcxReadColors n c fop f).1.polls = fop.polls := by
  induction n generalizing c fop f with
  | zero => simp [pcxReadColors]
  | succ n ih =>
    simp only [pcxReadColors]
    have := ih (c + 1) (fop_sequence_set_color fop c (fgetc f).1 (fgetc (fgetc f).2).1
      (fgetc (fgetc (fgetc f).2).2).1) (fgetc (fgetc (fgetc f).2).2).2
    simpa [fop_sequence_set_color] using this

/-- The first check of `onLoad`, on the fourth byte of the stream. -/
theorem pcx_onLoad_bad_bits (fop : FileOp) (f : File) (h : peek f.rest 3 ≠ 8) :
    PcxFormat.onLoad fop f =
      { ok := false, fop := fop_error fop "This PCX doesn't have 8 bit color planes.\n",
        f := (fgetc (fgetc (fgetc (fgetc f).2).2).2).2 } := by
  unfold PcxFormat.onLoad
  simp only []
  rw [if_pos]
  rw [fgetc_fst]
  simpa [peek_drop] using h

theorem pcx_onLoad_good_bits (fop : FileOp) (f : File) (h : peek f.rest 3 = 8) :
    PcxFormat.onLoad fop f = pcxLoadDepth fop (fgetc (fgetc (fgetc (fgetc f).2).2).2).2 := by
  unfold PcxFormat.onLoad
  simp only []
  rw [if_neg]
  rw [fgetc_fst]
  simpa [peek_drop] using h

/-- The file handed to `pcxLoadImage` and the depth computed from byte 65. -/
theorem pcxLoadDepth_planes (fop : FileOp) (f : File) :
    (fgetc (fgetc (pcxReadColors 16 0 fop
      (fgetl (fgetw (fgetw (fgetw (fgetw f).2).2).2).2).2).2).2).1 = peek f.rest 61 := by
  rw [fgetc_fst]
  simp [peek_drop]

theorem pcxLoadDepth_bad (fop : FileOp) (f : File)
    (h8 : peek f.rest 61 * 8 ≠ 8) (h24 : peek f.rest 61 * 8 ≠ 24) :
    (pcxLoadDepth fop f).ok = false ∧
    (pcxLoadDepth fop f).fop.seq_image = fop.seq_image ∧
    (pcxLoadDepth fop f).fop.document = fop.document ∧
    (pcxLoadDepth fop f).fop.errors = fop.errors := by
  unfold pcxLoadDepth
  simp only []
  rw [if_pos]
  · simp [pcxReadColors_frame]
  · rw [pcxLoadDepth_planes]
    exact ⟨h8, h24⟩

/-! ## The PCX decoder: the stream indicators through the loops -/

@[simp] theorem pcxItem_fault (bpp bpl : Int) (y : Nat) (s : PcxScan) :
    (pcxItem bpp bpl y s).f.fault = s.f.fault := by
  unfold pcxItem
  simp only []
  split_ifs <;> simp

theorem pcxItem_error (bpp bpl : Int) (y : Nat) (s : PcxScan) (h : s.f.fault = false) :
    (pcxItem bpp bpl y s).f.error = s.f.error := by
  unfold pcxItem
  simp only []
  split_ifs <;> simp [fgetc_error, h]

@[simp] theorem pcxWhile_fault (bpp bpl : Int) (y fuel : Nat) (s : PcxScan) :
    (pcxWhile bpp bpl y fuel s).f.fault = s.f.fault := by
  induction fuel generalizing s with
  | zero => rfl
  | succ n ih =>
    simp only [pcxWhile]
    split_ifs
    · rw [ih]; simp
    · rfl

theorem pcxWhile_error (bpp bpl : Int) (y fuel : Nat) (s : PcxScan) (h : s.f.fault = false) :
    (pcxWhile bpp bpl y fuel s).f.error = s.f.error := by
  induction fuel generalizing s with
  | zero => rfl
  | succ n ih =>
    simp only [pcxWhile]
    split_ifs
    · rw [ih _ (by simp [h]), pcxItem_error _ _ _ _ h]
    · rfl

@[simp] theorem pcxScanline_fault (bpp bpl : Int) (y : Nat) (f : File) (image : Image) :
    (pcxScanline bpp bpl y f image).1.fault = f.fault := by
  simp [pcxScanline]

theorem pcxScanline_error (bpp bpl : Int) (y : Nat) (f : File) (image : Image)
    (h : f.fault = false) : (pcxScanline bpp bpl y f image).1.error = f.error := by
  simp [pcxScanline, pcxWhile_error, h]

@[simp] theorem pcxRows_fault (bpp bpl height : Int) (n y : Nat) (fop : FileOp) (f : File)
    (image : Image) : (pcxRows bpp bpl height n y fop f image).2.1.fault = f.fault := by
  induction n generalizing y fop f image with
  | zero => rfl
  | succ n ih =>
    simp only [pcxRows]
    split_ifs
    · simp
    · rw [ih]; simp

theorem pcxRows_error (bpp bpl height : Int) (n y : Nat) (fop : FileOp) (f : File)
    (image : Image) (h : f.fault = false) :
    (pcxRows bpp bpl height n y fop f image).2.1.error = f.error := by
  induction n generalizing y fop f image with
  | zero => rfl
  | succ n ih =>
    simp only [pcxRows]
    split_ifs
    · simp [pcxScanline_error, h]
    · rw [ih _ _ _ _ (by simp [h]), pcxScanline_error _ _ _ _ _ h]

theorem pcxFindPalette_error (fuel : Nat) (fop : FileOp) (f : File) (h : f.fault = false) :
    (pcxFindPalette fuel fop f).2.error = f.error := by
  induction fuel generalizing fop f with
  | zero => rfl
  | succ n ih =>
    simp only [pcxFindPalette]
    split_ifs
    · simp [fgetc_error, h]
    · rw [pcxReadColors_error _ _ _ _ (by simp [h]), fgetc_error _ h]
    · rw [ih _ _ (by simp [h]), fgetc_error _ h]

/-- Allocation refused: the decoder fails. -/
theorem pcxLoadImage_no_alloc (fop : FileOp) (width height bpp : Int) (f : File)
    (ha : fop.can_allocate = false) : (pcxLoadImage fop width height bpp f).ok = false := by
  simp [pcxLoadImage, fop_sequence_image, ha]

theorem pcxFinish_ok (fop : FileOp) (bpp : Int) (f : File) :
    (pcxFinish fop bpp f).ok = !(pcxFinish fop bpp f).f.error := by
  unfold pcxFinish
  simp only []
  split_ifs with h1 h2 <;> simp_all [ferror]

theorem pcxFinish_error (fop : FileOp) (bpp : Int) (f : File) (hf : f.fault = false) :
    (pcxFinish fop bpp f).f.error = f.error := by
  unfold pcxFinish
  simp only []
  split_ifs with h1 h2 <;> simp [pcxFindPalette_error, hf]

/-- Allocation granted: the decoder succeeds exactly when the error indicator
of the stream is clear at the end. -/
theorem pcxLoadImage_ok_iff (fop : FileOp) (width height bpp : Int) (f : File)
    (ha : fop.can_allocate = true) :
    (pcxLoadImage fop width height bpp f).ok = !(pcxLoadImage fop width height bpp f).f.error := by
  simp only [pcxLoadImage, fop_sequence_image, ha, if_true]
  exact pcxFinish_ok _ _ _

/-- Without a device fault the error indicator stays as it was. -/
theorem pcxLoadImage_error (fop : FileOp) (width height bpp : Int) (f : File)
    (hf : f.fault = false) :
    (pcxLoadImage fop width height bpp f).f.error = f.error := by
  cases ha : fop.can_allocate
  · simp [pcxLoadImage, fop_sequence_image, ha, skipBytes_error, fgetw_error, hf]
  · simp only [pcxLoadImage, fop_sequence_image, ha, if_true]
    rw [pcxFinish_error _ _ _ (by simp [hf]), pcxRows_error _ _ _ _ _ _ _ _ (by simp [hf]),
      skipBytes_error _ _ (by simp [hf]), fgetw_error _ hf]

set_option maxRecDepth 100000

/-- The second check of `onLoad`, on byte 65 of the stream. -/
theorem pcx_onLoad_bad_depth (fop : FileOp) (f : File) (h : peek f.rest 3 = 8)
    (h8 : peek f.rest 65 * 8 ≠ 8) (h24 : peek f.rest 65 * 8 ≠ 24) :
    (PcxFormat.onLoad fop f).ok = false ∧
    (PcxFormat.onLoad fop f).fop.seq_image = fop.seq_image ∧
    (PcxFormat.onLoad fop f).fop.document = fop.document ∧
    (PcxFormat.onLoad fop f).fop.errors = fop.errors := by
  rw [pcx_onLoad_good_bits _ _ h]
  apply pcxLoadDepth_bad
  · simpa [peek_drop] using h8
  · simpa [peek_drop] using h24

/-- Both header fields accepted: the rest of the decoder runs. -/
theorem pcx_onLoad_good_depth (fop : FileOp) (f : File) (h : peek f.rest 3 = 8)
    (hd : peek f.rest 65 * 8 = 8 ∨ peek f.rest 65 * 8 = 24) :
    ∃ (fop1 : FileOp) (width height bpp : Int) (f1 : File),
      PcxFormat.onLoad fop f = pcxLoadImage fop1 width height bpp f1 ∧
      fop1.can_allocate = fop.can_allocate ∧ f1.fault = f.fault ∧
      (f.fault = false → f1.error = f.error) := by
  rw [pcx_onLoad_good_bits _ _ h]
  unfold pcxLoadDepth
  simp only []
  rw [if_neg]
  · refine ⟨_, _, _, _, _, rfl, ?_, ?_, ?_⟩
    · exact (pcxReadColors_frame _ _ _ _).2.2.2.1
    · simp
    · intro hf
      simp [fgetc_error, pcxReadColors_error, fgetl_error, fgetw_error, hf]
  · rw [pcxLoadDepth_planes]
    simp only [fgetc_rest, List.drop_drop, peek_drop]
    intro hc
    rcases hd with hd | hd
    · exact hc.1 hd
    · exact hc.2 hd

/-! ## C8: header validation of the PCX decoder -/

/-- C8. `PcxFormat::onLoad` returns `false` when the fourth byte of the
stream (bits per plane) is not 8, and when the planes byte (byte 65) times 8
is neither 8 nor 24; in both cases the image and the document of the file
operation are as before, so nothing was allocated.  When both fields are
valid, the allocation is granted and the error indicator of the stream is
clear at the end, it returns `true`. -/
theorem pcx_decode_header_validation (fop : FileOp) (f : File) :
    (peek f.rest 3 ≠ 8 →
      (PcxFormat.onLoad fop f).ok = false ∧
      (PcxFormat.onLoad fop f).fop.seq_image = fop.seq_image ∧
      (PcxFormat.onLoad fop f).fop.document = fop.document) ∧
    (peek f.rest 3 = 8 → peek f.rest 65 * 8 ≠ 8 → peek f.rest 65 * 8 ≠ 24 →
      (PcxFormat.onLoad fop f).ok = false ∧
      (PcxFormat.onLoad fop f).fop.seq_image = fop.seq_image ∧
      (PcxFormat.onLoad fop f).fop.document = fop.document) ∧
    (peek f.rest 3 = 8 → (peek f.rest 65 * 8 = 8 ∨ peek f.rest 65 * 8 = 24) →
      fop.can_allocate = true → ferror (PcxFormat.onLoad fop f).f = false →
      (PcxFormat.onLoad fop f).ok = true) := by
  refine ⟨?_, ?_, ?_⟩
  · intro h
    rw [pcx_onLoad_bad_bits _ _ h]
    simp [fop_error]
  · intro h h8 h24
    obtain ⟨h1, h2, h3, _⟩ := pcx_onLoad_bad_depth fop f h h8 h24
    exact ⟨h1, h2, h3⟩
  · intro h hd ha he
    obtain ⟨fop1, width, height, bpp, f1, heq, hc, _, _⟩ := pcx_onLoad_good_depth fop f h hd
    rw [heq] at he ⊢
    rw [pcxLoadImage_ok_iff _ _ _ _ _ (hc.trans ha)]
    simpa [ferror] using he

/-! ## C9: which rejections carry a message -/

/-- C9 (the code departs from the claim). On a header with bits per plane 8
and two planes (depth 16) `PcxFormat::onLoad` returns `false` and the error
report is still empty: the depth check returns without calling `fop_error`. -/
theorem pcx_bad_depth_reports_nothing :
    (PcxFormat.onLoad FileOp.blank (File.open pcxDepth16Header)).ok = false ∧
    (PcxFormat.onLoad FileOp.blank (File.open pcxDepth16Header)).fop.errors = [] := by
  constructor <;> rfl

/-! ## C10: truncated PCX streams -/

/-- C10 as stated fails: on a valid header followed by no scanline data the
decoder meets the end of the stream while reading the first scanline, and
still returns `true` without reporting an error. -/
theorem pcx_truncated_stream_is_accepted :
    (PcxFormat.onLoad FileOp.blank (File.open pcxHeaderOnly)).ok = true ∧
    (PcxFormat.onLoad FileOp.blank (File.open pcxHeaderOnly)).f.eof = true ∧
    (PcxFormat.onLoad FileOp.blank (File.open pcxHeaderOnly)).fop.errors = [] := by
  refine ⟨?_, ?_, ?_⟩ <;> rfl

/-- C10, amended. For every PCX stream with a valid header (bits per plane
8, depth 8 or 24), however early it ends: when the allocation is granted and
running out of bytes is a plain end of file (no device fault, error indicator
clear), `PcxFormat::onLoad` returns `true` and the error indicator is still
clear.  End of stream inside the scanlines is not detected. -/
theorem pcx_truncated_stream_succeeds (fop : FileOp) (f : File)
    (h8 : peek f.rest 3 = 8)
    (hd : peek f.rest 65 * 8 = 8 ∨ peek f.rest 65 * 8 = 24)
    (ha : fop.can_allocate = true) (hf : f.fault = false) (he : f.error = false) :
    (PcxFormat.onLoad fop f).ok = true ∧ ferror (PcxFormat.onLoad fop f).f = false := by
  obtain ⟨fop1, width, height, bpp, f1, heq, hc, hf1, he1⟩ := pcx_onLoad_good_depth fop f h8 hd
  have herr : (pcxLoadImage fop1 width height bpp f1).f.error = false := by
    rw [pcxLoadImage_error _ _ _ _ _ (hf1.trans hf), he1 hf, he]
  rw [heq, pcxLoadImage_ok_iff _ _ _ _ _ (hc.trans ha), herr]
  exact ⟨rfl, by simpa [ferror] using herr⟩

/-- Witness for C10: the hypotheses hold for the header-only stream. -/
theorem pcx_truncated_stream_succeeds_witness :
    (PcxFormat.onLoad FileOp.blank (File.open pcxHeaderOnly)).ok = true ∧
    ferror (PcxFormat.onLoad FileOp.blank (File.open pcxHeaderOnly)).f = false :=
  pcx_truncated_stream_succeeds FileOp.blank (File.open pcxHeaderOnly)
    (by decide) (by decide) rfl rfl rfl

/-! ## The run-length encoder -/

theorem toByte_lt (c : Int) : toByte c < 256 := by
  unfold toByte; omega

@[simp] theorem toByte_natCast (n : Nat) : toByte (n : Int) = n % 256 := by
  unfold toByte; omega

theorem fputc_eq (c : Int) (out : List Nat) : fputc c out = out ++ [toByte c] := rfl

/-- With the depth that `onSave` chooses, a sample is a byte and does not
depend on the previous value of `ch`. -/
theorem pcxSample_indep (image : Image) (ch x y : Nat) :
    pcxSample image (pcxDepth image) ch x y = pcxSample image (pcxDepth image) 0 x y := by
  unfold pcxSample pcxDepth
  cases h : image.format <;> simp

theorem pcxSample_lt (image : Image) (ch x y : Nat) :
    pcxSample image (pcxDepth image) ch x y < 256 := by
  unfold pcxSample pcxDepth
  cases h : image.format
  · simp only [if_true]
    rw [if_neg (by decide)]
    split_ifs <;> exact toByte_lt _
  · simp only [_graya_getv, toByte_natCast]; simp; omega
  · simp only [toByte_natCast]; simp; omega

theorem pcxSaveSamples_eq_foldl (image : Image) (y n x : Nat) (s : PcxRle) :
    pcxSaveSamples image (pcxDepth image) y n x s =
      ((List.range' x n).map (fun x => pcxSample image (pcxDepth image) 0 x y)).foldl
        pcxRleStep s := by
  induction n generalizing x s with
  | zero => rfl
  | succ n ih =>
    simp only [pcxSaveSamples, List.range', List.map_cons, List.foldl_cons]
    rw [ih, pcxSample_indep]

theorem pcxFlush_eq (rc rchar : Nat) (out : List Nat) (h1 : rc ≤ 63) (h2 : rchar < 256) :
    pcxFlush rc rchar out = out ++ pcxItemBytes (rc, rchar) := by
  have hk : ∀ k, k ≤ 63 → (0xC0 ||| k) % 256 = 0xC0 ||| k := by decide
  unfold pcxFlush pcxItemBytes
  simp only [fputc_eq, toByte_natCast]
  split_ifs <;> simp [hk rc h1, Nat.mod_eq_of_lt h2]

/-- The bytes of a scanline are the bytes of its runs. -/
theorem pcxRle_foldl (l : List Nat) (s : PcxRle) (h1 : s.runcount ≤ 63) (h2 : s.runchar < 256)
    (hl : ∀ v ∈ l, v < 256) :
    pcxFlush (l.foldl pcxRleStep s).runcount (l.foldl pcxRleStep s).runchar
        (l.foldl pcxRleStep s).out =
      s.out ++ (pcxRuns s.runcount s.runchar l).flatMap pcxItemBytes := by
  induction l generalizing s with
  | nil => simp [pcxRuns, pcxFlush_eq _ _ _ h1 h2]
  | cons ch l ih =>
    have hch : ch < 256 := hl ch (by simp)
    have hl1 : ∀ v ∈ l, v < 256 := fun v hv => hl v (by simp [hv])
    simp only [List.foldl_cons, pcxRuns]
    by_cases h0 : s.runcount = 0
    · rw [ih _ (by simp [pcxRleStep, h0]) (by simpa [pcxRleStep, h0] using hch) hl1]
      simp [pcxRleStep, h0]
    · by_cases hc : ch ≠ s.runchar ∨ s.runcount ≥ 0x3f
      · rw [ih _ (by simp [pcxRleStep, h0, hc]) (by simpa [pcxRleStep, h0, hc] using hch) hl1]
        simp [pcxRleStep, h0, hc, pcxFlush_eq _ _ _ h1 h2]
      · have hlt : s.runcount + 1 ≤ 63 := by
          simp only [not_or, not_le, ge_iff_le] at hc; omega
        rw [ih _ (by simpa [pcxRleStep, h0, hc] using hlt)
          (by simpa [pcxRleStep, h0, hc] using h2) hl1]
        simp [pcxRleStep, h0, hc]

theorem pcxRuns_expand (l : List Nat) (rc rchar : Nat) :
    pcxExpand (pcxRuns rc rchar l) = List.replicate rc rchar ++ l := by
  induction l generalizing rc rchar with
  | nil => simp [pcxRuns, pcxExpand]
  | cons ch l ih =>
    simp only [pcxRuns]
    split_ifs with h0 hc
    · rw [ih]; simp [h0]
    · have := ih 1 ch
      simp only [pcxExpand, List.flatMap_cons] at this ⊢
      rw [this]; simp
    · rw [ih]
      simp only [not_or, not_not] at hc
      rw [List.replicate_succ', hc.1]; simp

theorem pcxRuns_bounds (l : List Nat) (rc rchar : Nat) (h1 : rc ≤ 63) (h2 : rchar < 256)
    (hl : ∀ v ∈ l, v < 256) (hne : 1 ≤ rc ∨ l ≠ []) :
    ∀ r ∈ pcxRuns rc rchar l, 1 ≤ r.1 ∧ r.1 ≤ 63 ∧ r.2 < 256 := by
  induction l generalizing rc rchar with
  | nil =>
    intro r hr
    simp only [pcxRuns, List.mem_singleton] at hr
    subst hr
    simp at hne
    exact ⟨hne, h1, h2⟩
  | cons ch l ih =>
    have hch : ch < 256 := hl ch (by simp)
    have hl1 : ∀ v ∈ l, v < 256 := fun v hv => hl v (by simp [hv])
    simp only [pcxRuns]
    split_ifs with h0 hc
    · exact ih 1 ch (by omega) hch hl1 (Or.inl (le_refl 1))
    · intro r hr
      rcases List.mem_cons.mp hr with hr | hr
      · subst hr; exact ⟨by omega, h1, h2⟩
      · exact ih 1 ch (by omega) hch hl1 (Or.inl (le_refl 1)) r hr
    · simp only [not_or, not_le, ge_iff_le] at hc
      exact ih (rc + 1) rchar (by omega) h2 hl1 (Or.inl (by omega))

theorem pcxRuns_sum (l : List Nat) (rc rchar : Nat) :
    ((pcxRuns rc rchar l).map Prod.fst).sum = rc + l.length := by
  induction l generalizing rc rchar with
  | nil => simp [pcxRuns]
  | cons ch l ih =>
    simp only [pcxRuns]
    split_ifs with h0 hc
    · rw [ih]; simp [h0]; omega
    · simp only [List.map_cons, List.sum_cons, ih, List.length_cons]; omega
    · rw [ih]; simp; omega

theorem pcxLineSamples_lt (image : Image) (y : Nat) : ∀ v ∈ pcxLineSamples image y, v < 256 := by
  intro v hv
  simp only [pcxLineSamples, List.mem_map] at hv
  obtain ⟨x, _, rfl⟩ := hv
  exact pcxSample_lt _ _ _ _

@[simp] theorem pcxLineSamples_length (image : Image) (y : Nat) :
    (pcxLineSamples image y).length = image.w * pcxPlanes image := by
  simp [pcxLineSamples]

/-- What `pcxSaveLine` appends to the stream: the bytes of the runs of the
scanline. -/
theorem pcxSaveLine_out (image : Image) (y ch : Nat) (out : List Nat) :
    (pcxSaveLine image (pcxDepth image) (pcxPlanes image) y ch out).out =
      out ++ (pcxRuns 0 0 (pcxLineSamples image y)).flatMap pcxItemBytes := by
  simp only [pcxSaveLine, pcxSaveSamples_eq_foldl]
  rw [← List.range_eq_range']
  exact pcxRle_foldl (pcxLineSamples image y) _ (by simp) (by simp) (pcxLineSamples_lt image y)

/-! ## C6: the run cap of the PCX encoder -/

/-- C6. For every scanline of at least one sample, the bytes `onSave` writes
for it are the concatenation of items, one per run `(k, v)`: the count byte
`0xC0 | k` followed by `v`, or the bare byte `v` (then `k = 1`).  Every run
has `1 ≤ k ≤ 63`, the run lengths sum to the number of samples, and the runs
expand to the samples of the scanline.  In particular 65 samples of value
`0xC5` are written as the four bytes `FF C5 C2 C5`. -/
theorem pcx_rle_run_cap (image : Image) (y ch : Nat) (out : List Nat)
    (hn : 1 ≤ image.w * pcxPlanes image) :
    (∃ runs : List (Nat × Nat),
      (pcxSaveLine image (pcxDepth image) (pcxPlanes image) y ch out).out
        = out ++ runs.flatMap pcxItemBytes ∧
      (∀ r ∈ runs, 1 ≤ r.1 ∧ r.1 ≤ 63 ∧ r.2 < 256) ∧
      (runs.map Prod.fst).sum = image.w * pcxPlanes image ∧
      pcxExpand runs = pcxLineSamples image y) ∧
    (pcxSaveLine pcxRow65 (pcxDepth pcxRow65) (pcxPlanes pcxRow65) 0 0 []).out
      = [0xFF, 0xC5, 0xC2, 0xC5] := by
  refine ⟨⟨pcxRuns 0 0 (pcxLineSamples image y), pcxSaveLine_out image y ch out, ?_, ?_, ?_⟩, ?_⟩
  · apply pcxRuns_bounds _ _ _ (by omega) (by omega) (pcxLineSamples_lt image y)
    right
    intro h
    have := congrArg List.length h
    rw [pcxLineSamples_length] at this
    simp only [List.length_nil] at this
    omega
  · simp [pcxRuns_sum]
  · simp [pcxRuns_expand]
  · rfl

/-- Witness for C6: the row of 65 samples has at least one sample. -/
theorem pcx_rle_run_cap_witness :
    1 ≤ pcxRow65.w * pcxPlanes pcxRow65 ∧
    ((∃ runs : List (Nat × Nat),
      (pcxSaveLine pcxRow65 (pcxDepth pcxRow65) (pcxPlanes pcxRow65) 0 0 []).out
        = [] ++ runs.flatMap pcxItemBytes ∧
      (∀ r ∈ runs, 1 ≤ r.1 ∧ r.1 ≤ 63 ∧ r.2 < 256) ∧
      (runs.map Prod.fst).sum = pcxRow65.w * pcxPlanes pcxRow65 ∧
      pcxExpand runs = pcxLineSamples pcxRow65 0) ∧
    (pcxSaveLine pcxRow65 (pcxDepth pcxRow65) (pcxPlanes pcxRow65) 0 0 []).out
      = [0xFF, 0xC5, 0xC2, 0xC5]) :=
  ⟨by decide, pcx_rle_run_cap pcxRow65 0 0 [] (by decide)⟩

/-! ## The PCX decoder: expansion of runs -/

@[simp] theorem pcxRun8_x (y ch c : Nat) (p : PcxPen) : (pcxRun8 y ch c p).x = p.x + c := by
  induction c generalizing p with
  | zero => rfl
  | succ c ih => simp only [pcxRun8, ih]; omega

@[simp] theorem pcxRun24_x (bpl : Int) (y ch c : Nat) (p : PcxPen) :
    (pcxRun24 bpl y ch c p).x = p.x + c := by
  induction c generalizing p with
  | zero => rfl
  | succ c ih =>
    simp only [pcxRun24]
    split_ifs <;> simp only [ih] <;> omega

/-- Expanding `c + 1` copies is expanding one copy and then `c` copies. -/
theorem pcxRun8_succ (y ch c : Nat) (p : PcxPen) :
    pcxRun8 y ch (c + 1) p = pcxRun8 y ch c (pcxRun8 y ch 1 p) := by
  simp [pcxRun8]

theorem pcxRun24_succ (bpl : Int) (y ch c : Nat) (p : PcxPen) :
    pcxRun24 bpl y ch (c + 1) p = pcxRun24 bpl y ch c (pcxRun24 bpl y ch 1 p) := by
  simp only [pcxRun24]
  split_ifs <;> rfl

@[simp] theorem pcxPaint_x (bpp bpl : Int) (y : Nat) (σ : Nat → Nat) (n : Nat) (p : PcxPen) :
    (pcxPaint bpp bpl y σ n p).x = p.x + n := by
  induction n generalizing p with
  | zero => rfl
  | succ n ih =>
    simp only [pcxPaint, ih]
    split_ifs <;> simp <;> omega

theorem pcxPaint_add (bpp bpl : Int) (y : Nat) (σ : Nat → Nat) (n m : Nat) (p : PcxPen) :
    pcxPaint bpp bpl y σ (n + m) p = pcxPaint bpp bpl y σ m (pcxPaint bpp bpl y σ n p) := by
  induction n generalizing p with
  | zero => simp [pcxPaint]
  | succ n ih =>
    rw [show n + 1 + m = (n + m) + 1 by omega]
    simp only [pcxPaint, ih]

/-- A run of `k` copies of `v` paints the samples `σ x .. σ (x+k-1)` when
these all equal `v`. -/
theorem pcxRun_eq_paint (bpp bpl : Int) (y : Nat) (σ : Nat → Nat) (v k : Nat) (p : PcxPen)
    (h : ∀ i, i < k → σ (p.x + i) = v) :
    (if bpp = 8 then pcxRun8 y v k p else pcxRun24 bpl y v k p) = pcxPaint bpp bpl y σ k p := by
  induction k generalizing p with
  | zero => simp [pcxRun8, pcxRun24, pcxPaint]
  | succ k ih =>
    have h0 : σ p.x = v := by simpa using h 0 (by omega)
    simp only [pcxPaint, h0]
    by_cases hb : bpp = 8
    · simp only [hb, if_true]
      rw [pcxRun8_succ]
      have := ih (pcxRun8 y v 1 p) (fun i hi => by
        have := h (i + 1) (by omega)
        simpa [Nat.add_assoc, Nat.add_comm 1 i] using this)
      simpa [hb] using this
    · simp only [hb, if_false]
      rw [pcxRun24_succ]
      have := ih (pcxRun24 bpl y v 1 p) (fun i hi => by
        have := h (i + 1) (by omega)
        simpa [Nat.add_assoc, Nat.add_comm 1 i] using this)
      simpa [hb] using this

/-- Reading one item of the encoder: the count and the value come back. -/
theorem pcxItem_bytes (bpp bpl : Int) (y : Nat) (s : PcxScan) (k v : Nat) (tl : List Nat)
    (hr : s.f.rest = pcxItemBytes (k, v) ++ tl) (hk1 : 1 ≤ k) (hk : k ≤ 63) (hv : v < 256) :
    pcxItem bpp bpl y s =
      { f := { s.f with rest := tl },
        pen := if bpp = 8 then pcxRun8 y v k s.pen else pcxRun24 bpl y v k s.pen } := by
  have hk0 : ∀ k, k ≤ 63 → ((0xC0 ||| k) % 256) &&& 0xC0 = 0xC0 := by decide
  have hk3 : ∀ k, k ≤ 63 → ((0xC0 ||| k) % 256) &&& 0x3F = k := by decide
  unfold pcxItemBytes at hr
  unfold pcxItem
  split_ifs at hr with hc
  · simp only [List.cons_append, List.nil_append] at hr
    rw [fgetc_cons _ _ _ hr]
    simp only [toByte_natCast, Nat.mod_mod, hk0 k hk, hk3 k hk, decide_True, if_true]
    rw [fgetc_cons _ v tl rfl]
    simp [Nat.mod_eq_of_lt hv]
  · simp only [List.cons_append, List.nil_append] at hr
    rw [fgetc_cons _ _ _ hr]
    have hk' : k = 1 := by
      simp only [not_or, not_lt] at hc; omega
    have hv' : ¬ (v &&& 0xC0 = 0xC0) := fun h => hc (Or.inr h)
    simp [toByte_natCast, hv', hk', Nat.mod_eq_of_lt hv]

theorem expand_split (σ : Nat → Nat) (x n k v : Nat) (E : List Nat)
    (h : List.replicate k v ++ E = (List.range' x n).map σ) :
    k ≤ n ∧ (∀ i, i < k → σ (x + i) = v) ∧ E = (List.range' (x + k) (n - k)).map σ := by
  have hlen := congrArg List.length h
  simp only [List.length_append, List.length_replicate, List.length_map, List.length_range'] at hlen
  have hkn : k ≤ n := by omega
  have hsplit : List.range' x n = List.range' x k ++ List.range' (x + k) (n - k) := by
    rw [List.range'_append_1]; congr 1; omega
  rw [hsplit, List.map_append] at h
  have := List.append_inj h (by simp)
  refine ⟨hkn, ?_, this.2⟩
  intro i hi
  have h1 := congrArg (fun l => l[i]?) this.1
  simp only [List.getElem?_replicate, hi, if_true, List.getElem?_map] at h1
  rw [List.getElem?_range' _ _ hi] at h1
  simp at h1
  exact h1.symm

/-- Decoding the bytes of the runs of a scanline paints the samples the runs
stand for and leaves the stream right after them. -/
theorem pcxWhile_runs (bpp bpl : Int) (y : Nat) (σ : Nat → Nat) (runs : List (Nat × Nat)) :
    ∀ (n fuel : Nat) (s : PcxScan) (tl : List Nat),
      (∀ r ∈ runs, 1 ≤ r.1 ∧ r.1 ≤ 63 ∧ r.2 < 256) →
      pcxExpand runs = (List.range' s.pen.x n).map σ →
      s.f.rest = runs.flatMap pcxItemBytes ++ tl →
      ((s.pen.x + n : Nat) : Int) = pcxLineBytes bpp bpl →
      runs.length ≤ fuel →
      pcxWhile bpp bpl y fuel s =
        { f := { s.f with rest := tl }, pen := pcxPaint bpp bpl y σ n s.pen } := by
  induction runs with
  | nil =>
    intro n fuel s tl _ hx hr ht _
    have hn : n = 0 := by
      have := congrArg List.length hx
      simpa [pcxExpand] using this.symm
    subst hn
    simp only [List.flatMap_nil, List.nil_append] at hr
    have hs : s = { f := { s.f with rest := tl }, pen := pcxPaint bpp bpl y σ 0 s.pen } := by
      cases s with
      | mk f pen =>
        cases f
        simp only [pcxPaint] at hr ⊢
        simp_all
    cases fuel with
    | zero => exact hs
    | succ fuel =>
      simp only [pcxWhile]
      rw [if_neg]
      · exact hs
      · simp only [Nat.add_zero] at ht
        omega
  | cons r rs ih =>
    intro n fuel s tl hb hx hr ht hfuel
    obtain ⟨k, v⟩ := r
    have hkv := hb (k, v) (by simp)
    simp only [pcxExpand, List.flatMap_cons] at hx
    obtain ⟨hkn, hσ, hE⟩ := expand_split σ s.pen.x n k v _ hx
    cases fuel with
    | zero => simp at hfuel
    | succ fuel =>
      simp only [pcxWhile]
      rw [if_pos (by omega)]
      simp only [List.flatMap_cons, List.append_assoc] at hr
      rw [pcxItem_bytes bpp bpl y s k v _ hr hkv.1 hkv.2.1 hkv.2.2]
      rw [pcxRun_eq_paint bpp bpl y σ v k s.pen hσ]
      rw [ih (n - k) fuel _ tl (fun r hr => hb r (by simp [hr]))
        (by simpa [pcxExpand] using hE) rfl
        (by simp only [pcxPaint_x]; rw [← ht]; congr 1; omega)
        (by simp at hfuel; omega)]
      rw [← pcxPaint_add]
      congr 2
      omega

/-! ## The PCX decoder: what a painted scanline looks like -/

theorem pcxPaint8_image (bpl : Int) (y : Nat) (σ : Nat → Nat) (n : Nat) (p : PcxPen) :
    (pcxPaint 8 bpl y σ n p).image =
      { p.image with pix := fun x' y' =>
          if y' = y ∧ p.x ≤ x' ∧ x' < p.x + n ∧ x' < p.image.w then σ x'
          else p.image.pix x' y' } := by
  induction n generalizing p with
  | zero =>
    apply Image.ext <;> simp [pcxPaint]
    funext x' y'
    rw [if_neg (by omega)]
  | succ n ih =>
    simp only [pcxPaint, if_true, ih, pcxRun8]
    by_cases hx : p.x < p.image.w
    · simp only [hx, if_true, Image.store]
      apply Image.ext <;> simp
      funext x' y'
      by_cases c1 : y' = y ∧ p.x + 1 ≤ x' ∧ x' < p.x + 1 + n ∧ x' < p.image.w
      · rw [if_pos c1, if_pos (by omega)]
      · rw [if_neg c1]
        by_cases c2 : x' = p.x ∧ y' = y
        · rw [if_pos c2, if_pos (by omega), c2.1]
        · rw [if_neg c2, if_neg (by omega)]
    · simp only [hx, if_false]
      apply Image.ext <;> simp
      funext x' y'
      by_cases c1 : y' = y ∧ p.x + 1 ≤ x' ∧ x' < p.x + 1 + n ∧ x' < p.image.w
      · rw [if_pos c1, if_pos (by omega)]
      · rw [if_neg c1, if_neg (by omega)]

/-- One plane of a 24-bit scanline: `n` samples or-ed into channel `po` of the
columns from `xx`, when no plane boundary is met before the last sample. -/
theorem pcxPaint24_plane (w : Nat) (y : Nat) (σ : Nat → Nat) (n : Nat) (p : PcxPen)
    (hno : ∀ j, 1 ≤ j → j < n → p.x + j ≠ w ∧ p.x + j ≠ w * 2) (hn : 1 ≤ n) :
    pcxPaint 24 (w : Int) y σ n p =
      { image := { p.image with pix := fun x' y' =>
          (if y' = y ∧ p.xx ≤ x' ∧ x' < p.xx + n ∧ x' < p.image.w then
            p.image.pix x' y' ||| ((σ (p.x + (x' - p.xx)) &&& 0xff) <<< p.po)
          else p.image.pix x' y') },
        x := p.x + n,
        xx := if p.x + n = w ∨ p.x + n = w * 2 then 0 else p.xx + n,
        po := if p.x + n = w then _rgba_g_shift
              else if p.x + n = w * 2 then _rgba_b_shift else p.po } := by
  induction n generalizing p with
  | zero => omega
  | succ n ih =>
    simp only [pcxPaint, show ((24 : Int) = 8) = False by simp, if_false, pcxRun24]
    by_cases hn0 : n = 0
    · subst hn0
      simp only [pcxPaint]
      have e1 : (((p.x + 1 : Nat) : Int) = (w : Int)) = (p.x + 1 = w) := by
        simp only [eq_iff_iff]; omega
      have e2 : (((p.x + 1 : Nat) : Int) = (w : Int) * 2) = (p.x + 1 = w * 2) := by
        simp only [eq_iff_iff]; omega
      simp only [e1, e2]
      have himg : (if p.xx < p.image.w then
            p.image.store p.xx y (p.image.pix p.xx y ||| (σ p.x &&& 0xff) <<< p.po)
          else p.image) =
          { p.image with pix := fun x' y' =>
            if y' = y ∧ p.xx ≤ x' ∧ x' < p.xx + (0 + 1) ∧ x' < p.image.w then
              p.image.pix x' y' ||| ((σ (p.x + (x' - p.xx)) &&& 0xff) <<< p.po)
            else p.image.pix x' y' } := by
        split_ifs with hx
        · apply Image.ext <;> simp [Image.store]
          funext x' y'
          by_cases c2 : x' = p.xx ∧ y' = y
          · rw [if_pos c2, if_pos (by omega), c2.1, c2.2]; simp
          · rw [if_neg c2, if_neg (by omega)]
        · apply Image.ext <;> simp
          funext x' y'
          rw [if_neg (by omega)]
      rw [himg]
      split_ifs <;> first | rfl | omega
    · have h1 := hno 1 (le_refl 1) (by omega)
      have e1 : ¬ (((p.x + 1 : Nat) : Int) = (w : Int)) := by omega
      have e2 : ¬ (((p.x + 1 : Nat) : Int) = (w : Int) * 2) := by omega
      simp only [e1, e2, if_false]
      rw [ih _ (fun j hj1 hj2 => by
        have := hno (j + 1) (by omega) (by omega)
        simp only []; omega) (by omega)]
      simp only []
      have ex : p.x + 1 + n = p.x + (n + 1) := by omega
      have exx : p.xx + 1 + n = p.xx + (n + 1) := by omega
      rw [ex, exx]
      congr 1
      by_cases hx : p.xx < p.image.w
      · simp only [hx, if_true, Image.store]
        apply Image.ext <;> simp
        funext x' y'
        by_cases c1 : y' = y ∧ p.xx + 1 ≤ x' ∧ x' < p.xx + (n + 1) ∧ x' < p.image.w
        · have hA : ¬ (x' = p.xx ∧ y' = y) := by omega
          have hB : y' = y ∧ p.xx ≤ x' ∧ x' < p.xx + (n + 1) ∧ x' < p.image.w := by omega
          have hC : p.x + 1 + (x' - (p.xx + 1)) = p.x + (x' - p.xx) := by omega
          rw [if_pos c1, if_neg hA, if_pos hB, hC]
        · rw [if_neg c1]
          by_cases c2 : x' = p.xx ∧ y' = y
          · have hB : y' = y ∧ p.xx ≤ x' ∧ x' < p.xx + (n + 1) ∧ x' < p.image.w := by omega
            rw [if_pos c2, if_pos hB, c2.1, c2.2]; simp
          · have hB : ¬ (y' = y ∧ p.xx ≤ x' ∧ x' < p.xx + (n + 1) ∧ x' < p.image.w) := by omega
            rw [if_neg c2, if_neg hB]
      · simp only [hx, if_false]
        apply Image.ext <;> simp
        funext x' y'
        have hA : ¬ (y' = y ∧ p.xx + 1 ≤ x' ∧ x' < p.xx + (n + 1) ∧ x' < p.image.w) := by omega
        have hB : ¬ (y' = y ∧ p.xx ≤ x' ∧ x' < p.xx + (n + 1) ∧ x' < p.image.w) := by omega
        rw [if_neg hA, if_neg hB]

theorem pcxLineBytes_eight (w : Nat) : pcxLineBytes 8 (w : Int) = ((w * 1 : Nat) : Int) := by
  unfold pcxLineBytes
  rw [Int.tdiv_eq_ediv (by positivity) (by norm_num)]
  push_cast
  omega

theorem pcxLineBytes_twentyfour (w : Nat) :
    pcxLineBytes 24 (w : Int) = ((w * 3 : Nat) : Int) := by
  unfold pcxLineBytes
  rw [Int.tdiv_eq_ediv (by positivity) (by norm_num)]
  push_cast
  omega

theorem pcxItemBytes_length (r : Nat × Nat) : 1 ≤ (pcxItemBytes r).length := by
  unfold pcxItemBytes
  split_ifs <;> simp

theorem pcxRuns_code_length (runs : List (Nat × Nat)) :
    runs.length ≤ (runs.flatMap pcxItemBytes).length := by
  induction runs with
  | nil => simp
  | cons r rs ih =>
    simp only [List.flatMap_cons, List.length_cons, List.length_append]
    have := pcxItemBytes_length r
    omega

/-- One whole plane, from its first column. -/
theorem pcxPaint24_whole (w y : Nat) (σ : Nat → Nat) (image : Image) (c po : Nat)
    (hw : 1 ≤ w) (hiw : image.w = w) (hc : c = 0 ∨ c = w ∨ c = w * 2) :
    pcxPaint 24 (w : Int) y σ w { image := image, x := c, xx := 0, po := po } =
      { image := { image with pix := fun x' y' =>
          (if y' = y ∧ x' < w then image.pix x' y' ||| ((σ (c + x') &&& 0xff) <<< po)
           else image.pix x' y') },
        x := c + w,
        xx := if c = w * 2 then w else 0,
        po := if c = 0 then _rgba_g_shift else if c = w then _rgba_b_shift else po } := by
  rw [pcxPaint24_plane w y σ w _ (fun j h1 h2 => by (try simp only []); omega) hw]
  simp only [Nat.zero_add, Nat.sub_zero, Nat.zero_le, true_and, hiw]
  congr 1
  · apply Image.ext <;> simp only []
    funext x' y'
    by_cases h : y' = y ∧ x' < w
    · rw [if_pos (by omega), if_pos h]
    · rw [if_neg (by omega), if_neg h]
  · rcases hc with h | h | h <;> subst h <;> split_ifs <;> first | rfl | omega
  · rcases hc with h | h | h <;> subst h <;> split_ifs <;> first | rfl | omega

/-- A 24-bit scanline: the three planes in turn. -/
theorem pcxPaint24_line (w y : Nat) (σ : Nat → Nat) (image : Image) (hw : 1 ≤ w)
    (hiw : image.w = w) :
    (pcxPaint 24 (w : Int) y σ (w * 3)
        { image := image, x := 0, xx := 0, po := _rgba_r_shift }).image =
      pcxRowsImage 24 (fun _ => σ) y 1 image := by
  rw [show w * 3 = w + (w + w) by omega, pcxPaint_add, pcxPaint_add]
  rw [pcxPaint24_whole w y σ image 0 _ hw hiw (Or.inl rfl)]
  simp only [if_true, Nat.zero_add, show ¬ (0 = w * 2) by omega, if_false]
  rw [pcxPaint24_whole w y σ]
  rotate_left
  · exact hw
  · exact hiw
  · exact Or.inr (Or.inl rfl)
  simp only [show ¬ (w = 0) by omega, show ¬ (w = w * 2) by omega, if_true, if_false]
  rw [pcxPaint24_whole w y σ]
  rotate_left
  · exact hw
  · exact hiw
  · exact Or.inr (Or.inr (by omega))
  simp only [pcxRowsImage, show ((24 : Int) = 8) = False by simp, if_false]
  apply Image.ext <;> simp only []
  funext x' y'
  by_cases h : y' = y ∧ x' < w
  · have h' : y ≤ y' ∧ y' < y + 1 ∧ x' < image.w := by omega
    rw [if_pos h, if_pos h, if_pos h, if_pos h', show w + w = w * 2 by omega, hiw]
  · have h' : ¬ (y ≤ y' ∧ y' < y + 1 ∧ x' < image.w) := by omega
    rw [if_neg h, if_neg h, if_neg h, if_neg h']

/-- An 8-bit scanline. -/
theorem pcxPaint8_line (w y : Nat) (σ : Nat → Nat) (image : Image) (hiw : image.w = w) :
    (pcxPaint 8 (w : Int) y σ (w * 1)
        { image := image, x := 0, xx := 0, po := _rgba_r_shift }).image =
      pcxRowsImage 8 (fun _ => σ) y 1 image := by
  rw [pcxPaint8_image]
  simp only [pcxRowsImage, if_true]
  apply Image.ext <;> simp only []
  funext x' y'
  by_cases c : y' = y ∧ x' < w
  · rw [if_pos (by omega), if_pos (by omega)]
  · rw [if_neg (by omega), if_neg (by omega)]

/-- Decoding the code of one scanline. -/
theorem pcxScanline_code (bpp : Int) (w y : Nat) (σ : Nat → Nat) (f : File) (image : Image)
    (tl : List Nat) (hbpp : bpp = 8 ∨ bpp = 24) (hw : 1 ≤ w) (hiw : image.w = w)
    (hσ : ∀ x, σ x < 256)
    (hr : f.rest = pcxLineCode σ (w * (if bpp = 8 then 1 else 3)) ++ tl) :
    pcxScanline bpp (w : Int) y f image =
      ({ f with rest := tl }, pcxRowsImage bpp (fun _ => σ) y 1 image) := by
  have hlt : ∀ n, ∀ v ∈ (List.range n).map σ, v < 256 := by
    intro n v hv
    simp only [List.mem_map] at hv
    obtain ⟨x, _, rfl⟩ := hv
    exact hσ x
  have key : ∀ n, 1 ≤ n → f.rest = pcxLineCode σ n ++ tl →
      ((n : Nat) : Int) = pcxLineBytes bpp (w : Int) →
      pcxScanline bpp (w : Int) y f image =
        ({ f with rest := tl },
         (pcxPaint bpp (w : Int) y σ n
           { image := image, x := 0, xx := 0, po := _rgba_r_shift }).image) := by
    intro n hn hr ht
    unfold pcxScanline
    simp only []
    rw [pcxWhile_runs bpp (w : Int) y σ (pcxRuns 0 0 ((List.range n).map σ)) n _ _ tl]
    · apply pcxRuns_bounds _ _ _ (by omega) (by omega) (hlt n)
      right
      intro h
      have := congrArg List.length h
      simp at this
      omega
    · rw [pcxRuns_expand]
      simp [List.range_eq_range']
    · exact hr
    · simpa using ht
    · unfold pcxFuel
      simp only [hr, pcxLineCode, List.length_append]
      have := pcxRuns_code_length (pcxRuns 0 0 ((List.range n).map σ))
      omega
  rcases hbpp with h | h <;> subst h
  · simp only [if_true] at hr
    rw [key (w * 1) (by omega) hr (pcxLineBytes_eight w).symm, pcxPaint8_line w y σ image hiw]
  · simp only [show ¬ ((24 : Int) = 8) by decide, if_false] at hr
    rw [key (w * 3) (by omega) hr (pcxLineBytes_twentyfour w).symm,
      pcxPaint24_line w y σ image hw hiw]

theorem pcxRowsImage_succ (bpp : Int) (σ : Nat → Nat → Nat) (y n : Nat) (image : Image) :
    pcxRowsImage bpp σ (y + 1) n (pcxRowsImage bpp (fun _ => σ y) y 1 image) =
      pcxRowsImage bpp σ y (n + 1) image := by
  unfold pcxRowsImage
  apply Image.ext <;> simp only []
  funext x' y'
  by_cases h1 : y + 1 ≤ y' ∧ y' < y + 1 + n ∧ x' < image.w
  · have h2 : ¬ (y ≤ y' ∧ y' < y + 1 ∧ x' < image.w) := by omega
    have h3 : y ≤ y' ∧ y' < y + (n + 1) ∧ x' < image.w := by omega
    rw [if_pos h1, if_neg h2, if_pos h3]
  · rw [if_neg h1]
    by_cases h2 : y ≤ y' ∧ y' < y + 1 ∧ x' < image.w
    · have h3 : y ≤ y' ∧ y' < y + (n + 1) ∧ x' < image.w := by omega
      have h4 : y' = y := by omega
      rw [if_pos h2, if_pos h3, h4]
    · have h3 : ¬ (y ≤ y' ∧ y' < y + (n + 1) ∧ x' < image.w) := by omega
      rw [if_neg h2, if_neg h3]

theorem pcxRowsImage_zero (bpp : Int) (σ : Nat → Nat → Nat) (y : Nat) (image : Image) :
    pcxRowsImage bpp σ y 0 image = image := by
  unfold pcxRowsImage
  apply Image.ext <;> simp only []
  funext x' y'
  rw [if_neg (by omega)]

@[simp] theorem pcxRowsImage_w (bpp : Int) (σ : Nat → Nat → Nat) (y n : Nat) (image : Image) :
    (pcxRowsImage bpp σ y n image).w = image.w := rfl

theorem fop_is_stop_none (fop : FileOp) (h : fop.stop_at = none) :
    (fop_is_stop fop).1 = false ∧ (fop_is_stop fop).2.stop_at = none := by
  simp [fop_is_stop, h]

/-- The scanline loop only reports progress and polls the stop flag. -/
theorem pcxRows_frame (bpp bpl height : Int) (n y : Nat) (fop : FileOp) (f : File)
    (image : Image) :
    (pcxRows bpp bpl height n y fop f image).1.seq_palette = fop.seq_palette ∧
    (pcxRows bpp bpl height n y fop f image).1.stop_at = fop.stop_at ∧
    (pcxRows bpp bpl height n y fop f image).1.errors = fop.errors ∧
    (pcxRows bpp bpl height n y fop f image).1.document = fop.document := by
  induction n generalizing y fop f image with
  | zero => simp [pcxRows]
  | succ n ih =>
    simp only [pcxRows]
    split_ifs
    · simp [fop_is_stop, fop_progress]
    · have := ih (y + 1) (fop_is_stop (fop_progress fop (↑y + 1) height)).2
        (pcxScanline bpp bpl y f image).1 (pcxScanline bpp bpl y f image).2
      simpa [fop_is_stop, fop_progress] using this

/-- Decoding the code of the rows `y .. y+n-1` when no stop is signalled. -/
theorem pcxRows_code (bpp : Int) (w : Nat) (height : Int) (σ : Nat → Nat → Nat)
    (hbpp : bpp = 8 ∨ bpp = 24) (hw : 1 ≤ w) (hσ : ∀ y x, σ y x < 256) :
    ∀ (n y : Nat) (fop : FileOp) (f : File) (image : Image) (tl : List Nat),
      fop.stop_at = none → image.w = w →
      f.rest = (List.range' y n).flatMap
          (fun y => pcxLineCode (σ y) (w * (if bpp = 8 then 1 else 3))) ++ tl →
      (pcxRows bpp (w : Int) height n y fop f image).2 =
        ({ f with rest := tl }, pcxRowsImage bpp σ y n image) := by
  intro n
  induction n with
  | zero =>
    intro y fop f image tl _ _ hr
    simp only [List.range', List.flatMap_nil, List.nil_append] at hr
    simp only [pcxRows, pcxRowsImage_zero]
    cases f
    simp_all
  | succ n ih =>
    intro y fop f image tl hs hiw hr
    simp only [List.range', List.flatMap_cons, List.append_assoc] at hr
    simp only [pcxRows]
    rw [pcxScanline_code bpp w y (σ y) f image _ hbpp hw hiw (hσ y) hr]
    have hp : (fop_progress fop (↑y + 1) height).stop_at = none := by
      simpa [fop_progress] using hs
    obtain ⟨h1, h2⟩ := fop_is_stop_none _ hp
    simp only [h1, Bool.false_eq_true, if_false]
    rw [ih (y + 1) _ _ _ tl h2 (by simpa using hiw) rfl, pcxRowsImage_succ]

/-! ## The PCX encoder: the shape of its output -/

theorem fputw_eq (w : Int) (out : List Nat) :
    fputw w out = out ++ [toByte w, toByte (w / 256)] := by
  simp [fputw, fputc_eq]

theorem writeZeros_eq (n : Nat) (out : List Nat) :
    writeZeros n out = out ++ List.replicate n 0 := by
  induction n generalizing out with
  | zero => simp [writeZeros]
  | succ n ih =>
    simp only [writeZeros, ih, fputc_eq, List.replicate_succ]
    simp [toByte]

theorem get_color_lt (fop : FileOp) (c : Nat) :
    (fop_sequence_get_color fop c).1 < 256 ∧ (fop_sequence_get_color fop c).2.1 < 256 ∧
    (fop_sequence_get_color fop c).2.2 < 256 := by
  simp only [fop_sequence_get_color, _rgba_getr, _rgba_getg, _rgba_getb]
  exact ⟨toByte_lt _, toByte_lt _, toByte_lt _⟩

theorem pcxWriteColors_eq (fop : FileOp) (n c : Nat) (out : List Nat) :
    pcxWriteColors fop n c out = out ++ pcxColorBytes fop n c := by
  induction n generalizing c out with
  | zero => simp [pcxWriteColors, pcxColorBytes]
  | succ n ih =>
    obtain ⟨h1, h2, h3⟩ := get_color_lt fop c
    simp only [pcxWriteColors, ih, fputc_eq, pcxColorBytes, toByte_natCast,
      Nat.mod_eq_of_lt h1, Nat.mod_eq_of_lt h2, Nat.mod_eq_of_lt h3]
    simp

@[simp] theorem pcxColorBytes_length (fop : FileOp) (n c : Nat) :
    (pcxColorBytes fop n c).length = 3 * n := by
  induction n generalizing c with
  | zero => rfl
  | succ n ih => simp [pcxColorBytes, ih]; omega

/-- The 128 bytes of the header. -/
theorem pcxSaveHeader_eq (fop : FileOp) (image : Image) (planes : Nat) :
    pcxSaveHeader fop image planes [] =
      [10, 5, 1, 8, 0, 0, 0, 0,
        toByte ((image.w : Int) - 1), toByte (((image.w : Int) - 1) / 256),
        toByte ((image.h : Int) - 1), toByte (((image.h : Int) - 1) / 256),
        64, 1, 200, 0] ++
      (pcxColorBytes fop 16 0 ++
        ([0, planes % 256, toByte image.w, toByte ((image.w : Int) / 256), 1, 0,
          toByte image.w, toByte ((image.w : Int) / 256),
          toByte image.h, toByte ((image.h : Int) / 256)] ++ List.replicate 54 0)) := by
  simp only [pcxSaveHeader, fputw_eq, fputc_eq, writeZeros_eq, pcxWriteColors_eq, toByte_natCast,
    List.nil_append, List.append_assoc, List.cons_append]
  simp [toByte]

theorem pcxSaveRows_out (image : Image) (n y : Nat) (fop : FileOp) (ch : Nat) (out : List Nat) :
    (pcxSaveRows image (pcxDepth image) (pcxPlanes image) n y fop ch out).2.2 =
      out ++ (List.range' y n).flatMap
        (fun y => pcxLineCode (pcxSamples image y) (image.w * pcxPlanes image)) := by
  induction n generalizing y fop ch out with
  | zero => simp [pcxSaveRows]
  | succ n ih =>
    simp only [pcxSaveRows, ih, pcxSaveLine_out, List.range', List.flatMap_cons,
      List.append_assoc]
    rfl

/-- The whole output of `onSave`: header, scanlines, and for depth 8 the
marker 12 with the 256 palette entries. -/
theorem pcxOnSave_out (fop : FileOp) (image : Image) :
    (PcxFormat.onSave fop image).out =
      pcxSaveHeader fop image (pcxPlanes image) [] ++
      ((List.range' 0 image.h).flatMap
          (fun y => pcxLineCode (pcxSamples image y) (image.w * pcxPlanes image)) ++
        (if pcxDepth image = 8 then 12 :: pcxColorBytes fop 256 0 else [])) := by
  simp only [PcxFormat.onSave, pcxSaveRows_out]
  split_ifs
  · simp [pcxWriteColors_eq, fputc_eq, toByte]
  · simp

/-! ## The PCX decoder on an encoded header -/

@[simp] theorem fgetc_mk (A tl : List Nat) (b : Nat) (fa e er : Bool) :
    fgetc ⟨A, b :: tl, fa, e, er⟩ = (((b % 256 : Nat) : Int), ⟨A, tl, fa, e, er⟩) := rfl

@[simp] theorem fgetw_mk (A tl : List Nat) (b0 b1 : Nat) (fa e er : Bool) :
    fgetw ⟨A, b0 :: b1 :: tl, fa, e, er⟩ =
      (((b1 % 256 : Nat) : Int) * 256 + ((b0 % 256 : Nat) : Int), ⟨A, tl, fa, e, er⟩) := by
  have h0 : ¬ (((b0 % 256 : Nat) : Int) = EOF) := by unfold EOF; omega
  have h1 : ¬ (((b1 % 256 : Nat) : Int) = EOF) := by unfold EOF; omega
  simp only [fgetw, fgetc_mk, h0, h1, if_false]

@[simp] theorem fgetl_mk (A tl : List Nat) (b0 b1 b2 b3 : Nat) (fa e er : Bool) :
    fgetl ⟨A, b0 :: b1 :: b2 :: b3 :: tl, fa, e, er⟩ =
      (((b3 % 256 : Nat) : Int) * 16777216 + ((b2 % 256 : Nat) : Int) * 65536 +
        ((b1 % 256 : Nat) : Int) * 256 + ((b0 % 256 : Nat) : Int), ⟨A, tl, fa, e, er⟩) := by
  have h0 : ¬ (((b0 % 256 : Nat) : Int) = EOF) := by unfold EOF; omega
  have h1 : ¬ (((b1 % 256 : Nat) : Int) = EOF) := by unfold EOF; omega
  have h2 : ¬ (((b2 % 256 : Nat) : Int) = EOF) := by unfold EOF; omega
  have h3 : ¬ (((b3 % 256 : Nat) : Int) = EOF) := by unfold EOF; omega
  simp only [fgetl, fgetc_mk, h0, h1, h2, h3, if_false]

theorem skipBytes_mk (A : List Nat) (fa e er : Bool) (pre tl : List Nat) :
    skipBytes pre.length ⟨A, pre ++ tl, fa, e, er⟩ = ⟨A, tl, fa, e, er⟩ := by
  induction pre with
  | nil => rfl
  | cons b pre ih => simp only [List.length_cons, skipBytes, List.cons_append, fgetc_mk, ih]

theorem pcxPaletteFrom_zero (src : FileOp) (c : Nat) (pal : Palette) :
    pcxPaletteFrom src c 0 pal = pal := by
  cases pal
  simp only [pcxPaletteFrom, Palette.mk.injEq, true_and]
  funext j
  rw [if_neg (by omega)]

/-- Reading back palette entries written by `pcxWriteColors`. -/
theorem pcxReadColors_mk (src : FileOp) (A : List Nat) (fa e er : Bool) (n c : Nat)
    (fop : FileOp) (tl : List Nat) :
    pcxReadColors n c fop ⟨A, pcxColorBytes src n c ++ tl, fa, e, er⟩ =
      ({ fop with seq_palette := pcxPaletteFrom src c n fop.seq_palette },
       ⟨A, tl, fa, e, er⟩) := by
  induction n generalizing c fop with
  | zero =>
    simp only [pcxReadColors, pcxColorBytes, List.nil_append, pcxPaletteFrom_zero]
  | succ n ih =>
    obtain ⟨h1, h2, h3⟩ := get_color_lt src c
    simp only [pcxReadColors, pcxColorBytes, List.cons_append, List.nil_append, fgetc_mk, ih,
      Nat.mod_eq_of_lt h1, Nat.mod_eq_of_lt h2, Nat.mod_eq_of_lt h3]
    simp only [fop_sequence_set_color, pcxPaletteFrom, Palette.setEntry]
    congr 3
    funext j
    by_cases a : c + 1 ≤ j ∧ j < c + 1 + n
    · rw [if_pos a, if_pos (by omega)]
    · rw [if_neg a]
      by_cases b : j = c
      · rw [if_pos b, if_pos (by omega), b]
      · rw [if_neg b, if_neg (by omega)]

theorem le16_read (v : Int) (h0 : 0 ≤ v) (h1 : v < 65536) :
    ((toByte (v / 256) % 256 : Nat) : Int) * 256 + ((toByte v % 256 : Nat) : Int) = v := by
  unfold toByte; omega

/-- The decoder on an encoded header: the fields come back and the rest of
the decoder runs on what follows the bytes-per-line field. -/
theorem pcx_onLoad_header (dfop sfop : FileOp) (image : Image) (body : List Nat)
    (hw : 1 ≤ image.w ∧ image.w ≤ 65536) (hh : 1 ≤ image.h ∧ image.h ≤ 65536) :
    PcxFormat.onLoad dfop
        (File.open (pcxSaveHeader sfop image (pcxPlanes image) [] ++ body)) =
      pcxLoadImage { dfop with seq_palette := pcxPaletteFrom sfop 0 16 dfop.seq_palette }
        image.w image.h (pcxDepth image)
        ⟨pcxSaveHeader sfop image (pcxPlanes image) [] ++ body,
          [toByte image.w, toByte ((image.w : Int) / 256)] ++
            (([1, 0, toByte image.w, toByte ((image.w : Int) / 256),
              toByte image.h, toByte ((image.h : Int) / 256)] ++ List.replicate 54 0) ++ body),
          false, false, false⟩ := by
  have e1 : -(((0 % 256 : Nat) : Int) * 256 + ((0 % 256 : Nat) : Int)) +
      (((toByte (((image.w : Int) - 1) / 256) % 256 : Nat) : Int) * 256 +
        ((toByte ((image.w : Int) - 1) % 256 : Nat) : Int) + 1) = (image.w : Int) := by
    have := le16_read ((image.w : Int) - 1) (by omega) (by omega)
    omega
  have e2 : -(((0 % 256 : Nat) : Int) * 256 + ((0 % 256 : Nat) : Int)) +
      (((toByte (((image.h : Int) - 1) / 256) % 256 : Nat) : Int) * 256 +
        ((toByte ((image.h : Int) - 1) % 256 : Nat) : Int) + 1) = (image.h : Int) := by
    have := le16_read ((image.h : Int) - 1) (by omega) (by omega)
    omega
  have e3 : ((pcxPlanes image % 256 % 256 : Nat) : Int) * 8 = ((pcxDepth image : Nat) : Int) := by
    unfold pcxPlanes pcxDepth; split_ifs <;> rfl
  have e4 : ¬ (((pcxDepth image : Nat) : Int) ≠ 8 ∧ ((pcxDepth image : Nat) : Int) ≠ 24) := by
    unfold pcxDepth; split_ifs <;> simp
  conv_lhs => rw [pcxSaveHeader_eq]
  simp only [PcxFormat.onLoad, File.open, List.cons_append, List.nil_append, fgetc_mk,
    List.append_assoc]
  rw [if_neg (by simp)]
  simp only [pcxLoadDepth, fgetw_mk, fgetl_mk, pcxReadColors_mk, fgetc_mk, e1, e2, e3]
  rw [if_neg e4]
  rw [pcxSaveHeader_eq]
  simp only [List.cons_append, List.nil_append, List.append_assoc]

/-! ## The PCX decoder on an encoded body -/

theorem pcxFindPalette_marker (fuel : Nat) (fop : FileOp) (A cb : List Nat) (fa e er : Bool) :
    pcxFindPalette (fuel + 1) fop ⟨A, 12 :: cb, fa, e, er⟩ =
      pcxReadColors 256 0 fop ⟨A, cb, fa, e, er⟩ := by
  have h12 : ¬ (((12 % 256 : Nat) : Int) = EOF) := by decide
  have h12' : ((12 % 256 : Nat) : Int) = 12 := by decide
  simp only [pcxFindPalette, fgetc_mk]
  rw [if_neg h12, if_pos h12']

/-- The end of the decoder on the palette block of an 8-bit stream. -/
theorem pcxFinish_palette (src fop : FileOp) (A : List Nat) (hs : fop.stop_at = none) :
    (pcxFinish fop 8 ⟨A, 12 :: pcxColorBytes src 256 0, false, false, false⟩).ok = true ∧
    (pcxFinish fop 8 ⟨A, 12 :: pcxColorBytes src 256 0, false, false, false⟩).fop.seq_palette
      = pcxPaletteFrom src 0 256 fop.seq_palette ∧
    (pcxFinish fop 8 ⟨A, 12 :: pcxColorBytes src 256 0, false, false, false⟩).fop.seq_image
      = fop.seq_image ∧
    (pcxFinish fop 8 ⟨A, 12 :: pcxColorBytes src 256 0, false, false, false⟩).fop.errors
      = fop.errors ∧
    (pcxFinish fop 8 ⟨A, 12 :: pcxColorBytes src 256 0, false, false, false⟩).f.rest = [] := by
  have key := pcxReadColors_mk src A false false false 256 0 (fop_is_stop fop).2 []
  rw [List.append_nil] at key
  unfold pcxFinish
  simp only [(fop_is_stop_none fop hs).1, Bool.false_eq_true, not_false_eq_true, true_and,
    if_true, List.length_cons, pcxFindPalette_marker, key, ferror]
  simp [fop_is_stop]

/-- The end of the decoder at the end of a 24-bit stream. -/
theorem pcxFinish_rgb (fop : FileOp) (A : List Nat) :
    (pcxFinish fop 24 ⟨A, [], false, false, false⟩).ok = true ∧
    (pcxFinish fop 24 ⟨A, [], false, false, false⟩).fop.seq_palette = fop.seq_palette ∧
    (pcxFinish fop 24 ⟨A, [], false, false, false⟩).fop.seq_image = fop.seq_image ∧
    (pcxFinish fop 24 ⟨A, [], false, false, false⟩).fop.errors = fop.errors ∧
    (pcxFinish fop 24 ⟨A, [], false, false, false⟩).f.rest = [] := by
  unfold pcxFinish
  simp [ferror, fop_is_stop]

theorem pcxSamples_lt (image : Image) (y x : Nat) : pcxSamples image y x < 256 :=
  pcxSample_lt image 0 x y

theorem pcxRows_fop (bpp bpl height : Int) (n y : Nat) (fop : FileOp) (f : File)
    (image : Image) (hs : fop.stop_at = none) :
    (pcxRows bpp bpl height n y fop f image).1 = pcxRowsFop fop height y n := by
  induction n generalizing y fop f image with
  | zero =>
    cases fop
    simp [pcxRows, pcxRowsFop]
  | succ n ih =>
    simp only [pcxRows]
    have hp : (fop_progress fop (↑y + 1) height).stop_at = none := by
      simpa [fop_progress] using hs
    obtain ⟨h1, h2⟩ := fop_is_stop_none _ hp
    simp only [h1, Bool.false_eq_true, if_false]
    rw [ih _ _ _ _ h2]
    simp only [pcxRowsFop, fop_is_stop, fop_progress, List.range', List.map_cons,
      List.append_assoc, List.singleton_append]
    congr 1
    omega

/-- Decoding the code of the rows `y .. y+n-1` when no stop is signalled: the
whole state after the loop. -/
theorem pcxRows_code_full (bpp : Int) (w : Nat) (height : Int) (σ : Nat → Nat → Nat)
    (hbpp : bpp = 8 ∨ bpp = 24) (hw : 1 ≤ w) (hσ : ∀ y x, σ y x < 256)
    (n y : Nat) (fop : FileOp) (A : List Nat) (fa e er : Bool) (image : Image) (tl : List Nat)
    (hs : fop.stop_at = none) (hiw : image.w = w) :
    pcxRows bpp (w : Int) height n y fop
        ⟨A, (List.range' y n).flatMap
          (fun y => pcxLineCode (σ y) (w * (if bpp = 8 then 1 else 3))) ++ tl, fa, e, er⟩ image =
      (pcxRowsFop fop height y n, ⟨A, tl, fa, e, er⟩, pcxRowsImage bpp σ y n image) := by
  apply Prod.ext
  · exact pcxRows_fop _ _ _ _ _ _ _ _ hs
  · exact pcxRows_code bpp w height σ hbpp hw hσ n y fop _ image tl hs hiw rfl

/-- The decoder past the header, on the encoded bytes-per-line field, filler,
scanlines and palette block. -/
theorem pcxLoadImage_encoded (sfop fop : FileOp) (image : Image) (A : List Nat)
    (hw : 1 ≤ image.w ∧ image.w ≤ 65535) (hs : fop.stop_at = none)
    (ha : fop.can_allocate = true) (pre : List Nat) (hpre : pre.length = 60) :
    let r := pcxLoadImage fop image.w image.h (pcxDepth image)
      ⟨A, [toByte image.w, toByte ((image.w : Int) / 256)] ++ (pre ++
          ((List.range' 0 image.h).flatMap
              (fun y => pcxLineCode (pcxSamples image y) (image.w * pcxPlanes image)) ++
            (if pcxDepth image = 8 then 12 :: pcxColorBytes sfop 256 0 else []))),
        false, false, false⟩
    r.ok = true ∧
    r.fop.seq_image = some (pcxRowsImage (pcxDepth image) (pcxSamples image) 0 image.h
      (pcxBlankImage (pcxDepth image) image.w image.h)) ∧
    r.fop.seq_palette = (if pcxDepth image = 8 then pcxPaletteFrom sfop 0 256 fop.seq_palette
      else fop.seq_palette) ∧
    r.fop.errors = fop.errors ∧
    r.f.rest = [] := by
  intro r
  have ew : ((toByte ((image.w : Int) / 256) % 256 : Nat) : Int) * 256 +
      ((toByte (image.w : Int) % 256 : Nat) : Int) = (image.w : Int) :=
    le16_read image.w (by omega) (by omega)
  have hskip := fun tl => skipBytes_mk A false false false pre tl
  rw [hpre] at hskip
  have hr : r = pcxLoadImage fop image.w image.h (pcxDepth image)
      ⟨A, [toByte image.w, toByte ((image.w : Int) / 256)] ++ (pre ++
          ((List.range' 0 image.h).flatMap
              (fun y => pcxLineCode (pcxSamples image y) (image.w * pcxPlanes image)) ++
            (if pcxDepth image = 8 then 12 :: pcxColorBytes sfop 256 0 else []))),
        false, false, false⟩ := rfl
  simp only [pcxLoadImage, List.cons_append, List.nil_append, fgetw_mk, ew, hskip,
    fop_sequence_image, ha, if_true, Int.toNat_ofNat] at hr
  by_cases hf : image.format = IMAGE_RGB
  · have hd : pcxDepth image = 24 := by simp [pcxDepth, hf]
    have hp : pcxPlanes image = 3 := by simp [pcxPlanes, hf]
    simp only [hd, hp, Nat.cast_ofNat, show ¬ ((24 : Int) = 8) by decide, if_false, if_true,
      show ¬ ((24 : Nat) = 8) by decide] at hr ⊢
    have hrows := fun fop0 hs0 => pcxRows_code_full 24 image.w image.h (pcxSamples image)
      (Or.inr rfl) hw.1
      (pcxSamples_lt image) image.h 0 fop0 A false false false
      (image_clear (Image.create IMAGE_RGB image.w image.h) (_rgba 0 0 0 255)) [] hs0
      (by simp [image_clear, Image.create])
    simp only [show ¬ ((24 : Int) = 8) by decide, if_false] at hrows
    rw [hrows _ (by simpa using hs)] at hr
    simp only [] at hr
    have g1 := fun fop0 => (pcxFinish_rgb fop0 A).1
    have g2 := fun fop0 => (pcxFinish_rgb fop0 A).2.1
    have g3 := fun fop0 => (pcxFinish_rgb fop0 A).2.2.1
    have g4 := fun fop0 => (pcxFinish_rgb fop0 A).2.2.2.1
    have g5 := fun fop0 => (pcxFinish_rgb fop0 A).2.2.2.2
    rw [hr]
    refine ⟨g1 _, ?_, ?_, ?_, g5 _⟩
    · rw [g3]; simp [pcxBlankImage]
    · rw [g2]; simp [pcxRowsFop]
    · rw [g4]; simp [pcxRowsFop]
  · have hd : pcxDepth image = 8 := by simp [pcxDepth, hf]
    have hp : pcxPlanes image = 1 := by simp [pcxPlanes, hf]
    simp only [hd, hp, Nat.cast_ofNat, show ¬ ((8 : Int) = 24) by decide, if_false, if_true]
      at hr ⊢
    have hrows := fun fop0 hs0 => pcxRows_code_full 8 image.w image.h (pcxSamples image)
      (Or.inl rfl) hw.1
      (pcxSamples_lt image) image.h 0 fop0 A false false false
      (Image.create IMAGE_INDEXED image.w image.h) (12 :: pcxColorBytes sfop 256 0) hs0
      (by simp [Image.create])
    simp only [if_true] at hrows
    rw [hrows _ (by simpa using hs)] at hr
    simp only [] at hr
    have g1 := fun fop0 hs0 => (pcxFinish_palette sfop fop0 A hs0).1
    have g2 := fun fop0 hs0 => (pcxFinish_palette sfop fop0 A hs0).2.1
    have g3 := fun fop0 hs0 => (pcxFinish_palette sfop fop0 A hs0).2.2.1
    have g4 := fun fop0 hs0 => (pcxFinish_palette sfop fop0 A hs0).2.2.2.1
    have g5 := fun fop0 hs0 => (pcxFinish_palette sfop fop0 A hs0).2.2.2.2
    rw [hr]
    have hs1 : ∀ img, ({ pcxRowsFop
        { fop with seq_image := some (Image.create IMAGE_INDEXED image.w image.h),
                   document := some (fop.document.getD
                     { pixelFormat := IMAGE_INDEXED, width := image.w, height := image.h,
                       ncolors := 256, totalFrames := 1,
                       palette := fun _ => Palette.create 256, layers := [⟨[]⟩] }),
                   can_allocate := true }
        image.h 0 image.h with seq_image := img } : FileOp).stop_at = none := by
      intro img; simpa [pcxRowsFop] using hs
    refine ⟨g1 _ (hs1 _), ?_, ?_, ?_, g5 _ (hs1 _)⟩
    · rw [g3 _ (hs1 _)]; simp [pcxBlankImage]
    · rw [g2 _ (hs1 _)]; simp [pcxRowsFop]
    · rw [g4 _ (hs1 _)]; simp [pcxRowsFop]

/-! ## The PCX round trip -/

/-- Decoding what `onSave` wrote: the decoder succeeds, consumes the whole
stream, and leaves the image and the palette described by the samples and the
palette of the encoder. -/
theorem pcxReload_spec (src dst : FileOp) (image : Image)
    (hw : 1 ≤ image.w ∧ image.w ≤ 65535) (hh : 1 ≤ image.h ∧ image.h ≤ 65535)
    (hs : dst.stop_at = none) (ha : dst.can_allocate = true) :
    (pcxReload src dst image).ok = true ∧
    (pcxReload src dst image).fop.seq_image =
      some (pcxRowsImage (pcxDepth image) (pcxSamples image) 0 image.h
        (pcxBlankImage (pcxDepth image) image.w image.h)) ∧
    (pcxReload src dst image).fop.seq_palette =
      (if pcxDepth image = 8
        then pcxPaletteFrom src 0 256 (pcxPaletteFrom src 0 16 dst.seq_palette)
        else pcxPaletteFrom src 0 16 dst.seq_palette) ∧
    (pcxReload src dst image).fop.errors = dst.errors ∧
    (pcxReload src dst image).f.rest = [] := by
  unfold pcxReload
  rw [pcxOnSave_out, pcx_onLoad_header dst src image _ ⟨hw.1, by omega⟩ ⟨hh.1, by omega⟩]
  exact pcxLoadImage_encoded src
    { dst with seq_palette := pcxPaletteFrom src 0 16 dst.seq_palette } image _ hw hs ha
    ([1, 0, toByte image.w, toByte ((image.w : Int) / 256),
      toByte image.h, toByte ((image.h : Int) / 256)] ++ List.replicate 54 0) (by simp)

/-! ## Packed colours -/

theorem and_ff (a : Nat) (h : a < 256) : a &&& 0xff = a := by
  have := Nat.and_pow_two_sub_one_eq_mod a 8
  simp only [show (2 : Nat) ^ 8 - 1 = 0xff by norm_num, show (2 : Nat) ^ 8 = 256 by norm_num] at this
  rw [this, Nat.mod_eq_of_lt h]

/-- Four bytes packed with shifts and ors are the base-256 number they spell. -/
theorem pack_eq (a b c d : Nat) (ha : a < 256) (hb : b < 256) (hc : c < 256) :
    (a <<< 0) ||| (b <<< 8) ||| (c <<< 16) ||| (d <<< 24) =
      a + 256 * b + 65536 * c + 16777216 * d := by
  have h1 : 2 ^ 8 * b + a = 2 ^ 8 * b ||| a :=
    @Nat.mul_add_lt_is_or 8 a (by norm_num; exact ha) b
  have h2 : 2 ^ 16 * c + (2 ^ 8 * b + a) = 2 ^ 16 * c ||| (2 ^ 8 * b + a) :=
    @Nat.mul_add_lt_is_or 16 (2 ^ 8 * b + a) (by norm_num; omega) c
  have h3 : 2 ^ 24 * d + (2 ^ 16 * c + (2 ^ 8 * b + a)) =
      2 ^ 24 * d ||| (2 ^ 16 * c + (2 ^ 8 * b + a)) :=
    @Nat.mul_add_lt_is_or 24 (2 ^ 16 * c + (2 ^ 8 * b + a)) (by norm_num; omega) d
  have e : a + 256 * b + 65536 * c + 16777216 * d =
      2 ^ 24 * d + (2 ^ 16 * c + (2 ^ 8 * b + a)) := by norm_num; omega
  rw [e, h3, h2, h1]
  simp only [Nat.shiftLeft_eq, Nat.pow_zero, Nat.mul_one, Nat.mul_comm _ (2 ^ 8),
    Nat.mul_comm _ (2 ^ 16), Nat.mul_comm _ (2 ^ 24)]
  ac_rfl

theorem toByte_byte (a : Nat) (h : a < 256) : toByte (a : Int) = a := by
  rw [toByte_natCast, Nat.mod_eq_of_lt h]

theorem rgba_eq (r g b a : Nat) (hr : r < 256) (hg : g < 256) (hb : b < 256) (ha : a < 256) :
    _rgba r g b a = r + 256 * g + 65536 * b + 16777216 * a := by
  unfold _rgba
  rw [toByte_byte _ hr, toByte_byte _ hg, toByte_byte _ hb, toByte_byte _ ha]
  exact pack_eq r g b a hr hg hb

theorem rgba_get_nat (p : Nat) :
    _rgba_getr (p : Int) = p % 256 ∧ _rgba_getg (p : Int) = p / 256 % 256 ∧
    _rgba_getb (p : Int) = p / 65536 % 256 ∧ _rgba_geta (p : Int) = p / 16777216 % 256 := by
  simp only [_rgba_getr, _rgba_getg, _rgba_getb, _rgba_geta, toByte,
    _rgba_r_shift, _rgba_g_shift, _rgba_b_shift, _rgba_a_shift]
  norm_num
  refine ⟨?_, ?_, ?_, ?_⟩ <;> omega

/-- The channels of a packed colour. -/
theorem rgba_channels (r g b a : Nat) (hr : r < 256) (hg : g < 256) (hb : b < 256)
    (ha : a < 256) :
    _rgba_getr (_rgba r g b a) = r ∧ _rgba_getg (_rgba r g b a) = g ∧
    _rgba_getb (_rgba r g b a) = b ∧ _rgba_geta (_rgba r g b a) = a := by
  obtain ⟨h1, h2, h3, h4⟩ := rgba_get_nat (_rgba r g b a)
  rw [h1, h2, h3, h4, rgba_eq r g b a hr hg hb ha]
  refine ⟨?_, ?_, ?_, ?_⟩ <;> omega

/-- A 32-bit pixel is the packing of its four channels. -/
theorem rgba_of_channels (p : Nat) (hp : p < 4294967296) :
    _rgba (_rgba_getr p) (_rgba_getg p) (_rgba_getb p) (_rgba_geta p) = p := by
  obtain ⟨h1, h2, h3, h4⟩ := rgba_get_nat p
  rw [h1, h2, h3, h4, rgba_eq _ _ _ _ (Nat.mod_lt _ (by norm_num)) (Nat.mod_lt _ (by norm_num))
    (Nat.mod_lt _ (by norm_num)) (Nat.mod_lt _ (by norm_num))]
  omega

/-- Or-ing three channels into opaque black gives the opaque colour. -/
theorem or_into_black (r g b : Nat) (hr : r < 256) (hg : g < 256) (hb : b < 256) :
    ((_rgba 0 0 0 255 ||| ((r &&& 0xff) <<< _rgba_r_shift)) |||
        ((g &&& 0xff) <<< _rgba_g_shift)) ||| ((b &&& 0xff) <<< _rgba_b_shift) =
      _rgba r g b 255 := by
  rw [and_ff r hr, and_ff g hg, and_ff b hb]
  simp only [_rgba, toByte_byte _ hr, toByte_byte _ hg, toByte_byte _ hb,
    _rgba_r_shift, _rgba_g_shift, _rgba_b_shift, _rgba_a_shift]
  have e0 : toByte 0 = 0 := by decide
  simp only [e0, Nat.zero_shiftLeft, Nat.zero_or]
  ac_rfl

/-! ## C1: PCX round trip of an indexed image -/

/-- C1. For every indexed image with `1 ≤ w ≤ 65535` and `1 ≤ h ≤ 65535` and
every palette of the encoder context, decoding exactly the bytes `onSave`
wrote, with no stop signal and the allocation granted, succeeds and leaves an
indexed image of the same width and height in which every pixel index equals
the original one. -/
theorem pcx_indexed_round_trip (src dst : FileOp) (image : Image)
    (hfmt : image.format = IMAGE_INDEXED)
    (hw : 1 ≤ image.w ∧ image.w ≤ 65535) (hh : 1 ≤ image.h ∧ image.h ≤ 65535)
    (hs : dst.stop_at = none) (ha : dst.can_allocate = true) :
    (pcxReload src dst image).ok = true ∧
    ∃ img, (pcxReload src dst image).fop.seq_image = some img ∧
      img.format = IMAGE_INDEXED ∧ img.w = image.w ∧ img.h = image.h ∧
      ∀ x y, x < image.w → y < image.h →
        image_getpixel_fast img x y = image_getpixel_fast image x y := by
  obtain ⟨h1, h2, _, _, _⟩ := pcxReload_spec src dst image hw hh hs ha
  have hd : pcxDepth image = 8 := by simp [pcxDepth, hfmt]
  refine ⟨h1, _, h2, ?_, ?_, ?_, ?_⟩
  · simp [pcxRowsImage, pcxBlankImage, hd, Image.create]
  · simp [pcxRowsImage, pcxBlankImage, hd, Image.create]
  · simp [pcxRowsImage, pcxBlankImage, hd, Image.create]
  · intro x y hx hy
    simp only [image_getpixel_fast, pcxRowsImage, pcxBlankImage, hd, Image.create,
      Nat.cast_ofNat, show ¬ ((8 : Int) = 24) by decide, if_false, if_true, Int.toNat_ofNat,
      pixelBits, Nat.zero_le, Nat.zero_add, true_and, hx, hy, and_self, pcxSamples, pcxSample,
      hfmt, toByte_natCast]
    norm_num

/-- Witness for C1: the row of 65 indexed pixels. -/
theorem pcx_indexed_round_trip_witness :
    (pcxReload FileOp.blank FileOp.blank pcxRow65).ok = true ∧
    ∃ img, (pcxReload FileOp.blank FileOp.blank pcxRow65).fop.seq_image = some img ∧
      img.format = IMAGE_INDEXED ∧ img.w = pcxRow65.w ∧ img.h = pcxRow65.h ∧
      ∀ x y, x < pcxRow65.w → y < pcxRow65.h →
        image_getpixel_fast img x y = image_getpixel_fast pcxRow65 x y :=
  pcx_indexed_round_trip FileOp.blank FileOp.blank pcxRow65 rfl (by decide) (by decide) rfl rfl

/-! ## C2: PCX round trip of an RGB image -/

/-- C2 as stated fails: the one-pixel image with colour (1, 2, 3) and alpha 0
comes back with alpha 255, so the decoded pixel differs from the original. -/
theorem pcx_rgb_round_trip_loses_alpha :
    (pcxReload FileOp.blank FileOp.blank pcxTranslucent).ok = true ∧
    ((pcxReload FileOp.blank FileOp.blank pcxTranslucent).fop.seq_image.map
      (fun img => image_getpixel_fast img 0 0)) = some 0xFF030201 ∧
    image_getpixel_fast pcxTranslucent 0 0 = 0x00030201 := by
  refine ⟨?_, ?_, ?_⟩ <;> decide

/-- C2, amended. For every RGB image with `1 ≤ w ≤ 65535` and
`1 ≤ h ≤ 65535`, decoding the bytes `onSave` wrote gives an RGB image of the
same width and height in which every pixel is the opaque colour with the red,
green and blue of the original pixel; it equals the original pixel when that
one has alpha 255. -/
theorem pcx_rgb_round_trip (src dst : FileOp) (image : Image)
    (hfmt : image.format = IMAGE_RGB)
    (hw : 1 ≤ image.w ∧ image.w ≤ 65535) (hh : 1 ≤ image.h ∧ image.h ≤ 65535)
    (hs : dst.stop_at = none) (ha : dst.can_allocate = true) :
    (pcxReload src dst image).ok = true ∧
    ∃ img, (pcxReload src dst image).fop.seq_image = some img ∧
      img.format = IMAGE_RGB ∧ img.w = image.w ∧ img.h = image.h ∧
      ∀ x y, x < image.w → y < image.h →
        image_getpixel_fast img x y =
          _rgba (_rgba_getr (image_getpixel_fast image x y))
            (_rgba_getg (image_getpixel_fast image x y))
            (_rgba_getb (image_getpixel_fast image x y)) 255 ∧
        (_rgba_geta (image_getpixel_fast image x y) = 255 →
          image_getpixel_fast img x y = image_getpixel_fast image x y) := by
  obtain ⟨h1, h2, _, _, _⟩ := pcxReload_spec src dst image hw hh hs ha
  have hd : pcxDepth image = 24 := by simp [pcxDepth, hfmt]
  have hpix : ∀ x y, x < image.w → y < image.h →
      image_getpixel_fast (pcxRowsImage (pcxDepth image) (pcxSamples image) 0 image.h
        (pcxBlankImage (pcxDepth image) image.w image.h)) x y =
      _rgba (_rgba_getr (image_getpixel_fast image x y))
        (_rgba_getg (image_getpixel_fast image x y))
        (_rgba_getb (image_getpixel_fast image x y)) 255 := by
    intro x y hx hy
    have e1 : ¬ (image.w + x < image.w) := by omega
    have e2 : image.w + x < image.w * 2 := by omega
    have e3 : ¬ (image.w * 2 + x < image.w) := by omega
    have e4 : ¬ (image.w * 2 + x < image.w * 2) := by omega
    simp only [image_getpixel_fast, pcxRowsImage, pcxBlankImage, hd, Image.create,
      Nat.cast_ofNat, show ¬ ((24 : Int) = 8) by decide, if_false, if_true, Int.toNat_ofNat,
      pixelBits, Nat.zero_le, Nat.zero_add, true_and, hx, hy, and_self, pcxSamples, pcxSample,
      hfmt, image_clear, show ¬ ((24 : Nat) = 8) by decide, e1, e2, e3, e4,
      Nat.add_sub_cancel_left]
    have a1 : _rgba_getr ((image.pix x y % 2 ^ 32 : Nat) : Int) < 256 := toByte_lt _
    have a2 : _rgba_getg ((image.pix x y % 2 ^ 32 : Nat) : Int) < 256 := toByte_lt _
    have a3 : _rgba_getb ((image.pix x y % 2 ^ 32 : Nat) : Int) < 256 := toByte_lt _
    rw [or_into_black _ _ _ a1 a2 a3]
    apply Nat.mod_eq_of_lt
    have e := rgba_eq _ _ _ 255 a1 a2 a3 (by norm_num)
    simp only [Nat.cast_ofNat] at e
    rw [e]
    omega
  refine ⟨h1, _, h2, ?_, ?_, ?_, ?_⟩
  · simp [pcxRowsImage, pcxBlankImage, hd, Image.create, image_clear]
  · simp [pcxRowsImage, pcxBlankImage, hd, Image.create, image_clear]
  · simp [pcxRowsImage, pcxBlankImage, hd, Image.create, image_clear]
  · intro x y hx hy
    refine ⟨hpix x y hx hy, ?_⟩
    intro halpha
    rw [hpix x y hx hy]
    have hlt : image_getpixel_fast image x y < 4294967296 := by
      simp only [image_getpixel_fast, hfmt, pixelBits]
      exact Nat.mod_lt _ (by norm_num)
    have := rgba_of_channels (image_getpixel_fast image x y) hlt
    rw [halpha] at this
    exact this

/-- Witness for C2: the one-pixel image. -/
theorem pcx_rgb_round_trip_witness :
    (pcxReload FileOp.blank FileOp.blank pcxTranslucent).ok = true ∧
    ∃ img, (pcxReload FileOp.blank FileOp.blank pcxTranslucent).fop.seq_image = some img ∧
      img.format = IMAGE_RGB ∧ img.w = pcxTranslucent.w ∧ img.h = pcxTranslucent.h ∧
      ∀ x y, x < pcxTranslucent.w → y < pcxTranslucent.h →
        image_getpixel_fast img x y =
          _rgba (_rgba_getr (image_getpixel_fast pcxTranslucent x y))
            (_rgba_getg (image_getpixel_fast pcxTranslucent x y))
            (_rgba_getb (image_getpixel_fast pcxTranslucent x y)) 255 ∧
        (_rgba_geta (image_getpixel_fast pcxTranslucent x y) = 255 →
          image_getpixel_fast img x y = image_getpixel_fast pcxTranslucent x y) :=
  pcx_rgb_round_trip FileOp.blank FileOp.blank pcxTranslucent rfl (by decide) (by decide)
    rfl rfl

/-! ## C3: the palette through a PCX round trip -/

/-- A 24-bit stream never changes the palette past the header. -/
theorem pcxLoadImage_palette_rgb (fop : FileOp) (W H : Int) (f : File) :
    (pcxLoadImage fop W H 24 f).fop.seq_palette = fop.seq_palette := by
  cases ha : fop.can_allocate
  · simp [pcxLoadImage, fop_sequence_image, ha]
  · simp only [pcxLoadImage, fop_sequence_image, ha, if_true]
    unfold pcxFinish
    simp only [show ¬ ((24 : Int) = 8) by decide, and_false, if_false]
    split_ifs <;> simp [fop_error, fop_is_stop, pcxRows_frame]

theorem pcxOpaque_channels (src : FileOp) (i : Nat) :
    (_rgba_getr (pcxOpaque src i), _rgba_getg (pcxOpaque src i), _rgba_getb (pcxOpaque src i))
      = fop_sequence_get_color src i := by
  obtain ⟨h1, h2, h3⟩ := get_color_lt src i
  obtain ⟨e1, e2, e3, _⟩ := rgba_channels _ _ _ 255 h1 h2 h3 (by norm_num)
  simp only [Nat.cast_ofNat] at e1 e2 e3
  simp only [pcxOpaque, e1, e2, e3]

/-- The decoder on the encoding of a 24-bit image of any size: the 16 header
colours are all the palette gets. -/
theorem pcx_rgb_palette (dfop sfop : FileOp) (image : Image) (body : List Nat)
    (hfmt : image.format = IMAGE_RGB) :
    (PcxFormat.onLoad dfop
        (File.open (pcxSaveHeader sfop image (pcxPlanes image) [] ++ body))).fop.seq_palette =
      pcxPaletteFrom sfop 0 16 dfop.seq_palette := by
  have e3 : ((pcxPlanes image % 256 % 256 : Nat) : Int) * 8 = 24 := by
    simp [pcxPlanes, hfmt]
  rw [pcxSaveHeader_eq]
  simp only [PcxFormat.onLoad, File.open, List.cons_append, List.nil_append, fgetc_mk,
    List.append_assoc]
  rw [if_neg (by simp)]
  simp only [pcxLoadDepth, fgetw_mk, fgetl_mk, pcxReadColors_mk, fgetc_mk, e3]
  rw [if_neg (by decide), pcxLoadImage_palette_rgb]

/-- C3, amended. After decoding the bytes `onSave` wrote (no stop signal,
allocation granted): for an 8-bit (indexed or grayscale) image with
`1 ≤ w ≤ 65535` and `1 ≤ h ≤ 65535`, each destination palette entry
`0 .. 255` is the opaque colour of the red, green and blue that the encoder
read for that entry, so its three channels equal the source ones; for every
24-bit image, of any size, the same holds for the entries `0 .. 15`. -/
theorem pcx_palette_round_trip (src dst : FileOp) (image : Image)
    (hs : dst.stop_at = none) (ha : dst.can_allocate = true) :
    (image.format ≠ IMAGE_RGB →
      1 ≤ image.w ∧ image.w ≤ 65535 → 1 ≤ image.h ∧ image.h ≤ 65535 →
      ∀ i, i < 256 →
        (pcxReload src dst image).fop.seq_palette.getEntry i = pcxOpaque src i ∧
        (_rgba_getr ((pcxReload src dst image).fop.seq_palette.getEntry i),
          _rgba_getg ((pcxReload src dst image).fop.seq_palette.getEntry i),
          _rgba_getb ((pcxReload src dst image).fop.seq_palette.getEntry i))
          = fop_sequence_get_color src i) ∧
    (image.format = IMAGE_RGB →
      ∀ i, i < 16 →
        (pcxReload src dst image).fop.seq_palette.getEntry i = pcxOpaque src i ∧
        (_rgba_getr ((pcxReload src dst image).fop.seq_palette.getEntry i),
          _rgba_getg ((pcxReload src dst image).fop.seq_palette.getEntry i),
          _rgba_getb ((pcxReload src dst image).fop.seq_palette.getEntry i))
          = fop_sequence_get_color src i) := by
  constructor
  · intro hfmt hw hh i hi
    obtain ⟨_, _, h3, _, _⟩ := pcxReload_spec src dst image hw hh hs ha
    have hd : pcxDepth image = 8 := by simp [pcxDepth, hfmt]
    have he : (pcxReload src dst image).fop.seq_palette.getEntry i = pcxOpaque src i := by
      rw [h3]
      simp only [hd, if_true, Palette.getEntry, pcxPaletteFrom, pcxOpaque]
      rw [if_pos (by omega)]
    exact ⟨he, by rw [he]; exact pcxOpaque_channels src i⟩
  · intro hfmt i hi
    have he : (pcxReload src dst image).fop.seq_palette.getEntry i = pcxOpaque src i := by
      unfold pcxReload
      rw [pcxOnSave_out, pcx_rgb_palette dst src image _ hfmt]
      simp only [Palette.getEntry, pcxPaletteFrom, pcxOpaque]
      rw [if_pos (by omega)]
    exact ⟨he, by rw [he]; exact pcxOpaque_channels src i⟩

/-- Witness for C3, with a source palette that differs from the palette of
the destination in every entry.  For the indexed image `pcxRow65` the four
conditions hold and all 256 entries of the destination come from the source:
entry 5 was black and is `rgba(5, 6, 7, 255)` afterwards, entry 255 is
`rgba(255, 0, 1, 255)`.  For the RGB image `pcxTranslucent` the entries 0 to
15 come from the source: entry 15 is `rgba(15, 16, 17, 255)`. -/
theorem pcx_palette_round_trip_witness :
    FileOp.blank.stop_at = none ∧ FileOp.blank.can_allocate = true ∧
    pcxRow65.format ≠ IMAGE_RGB ∧
    (1 ≤ pcxRow65.w ∧ pcxRow65.w ≤ 65535) ∧ (1 ≤ pcxRow65.h ∧ pcxRow65.h ≤ 65535) ∧
    (∀ i, i < 256 →
      (pcxReload pcxTinted FileOp.blank pcxRow65).fop.seq_palette.getEntry i
        = pcxOpaque pcxTinted i ∧
      (_rgba_getr ((pcxReload pcxTinted FileOp.blank pcxRow65).fop.seq_palette.getEntry i),
        _rgba_getg ((pcxReload pcxTinted FileOp.blank pcxRow65).fop.seq_palette.getEntry i),
        _rgba_getb ((pcxReload pcxTinted FileOp.blank pcxRow65).fop.seq_palette.getEntry i))
        = fop_sequence_get_color pcxTinted i) ∧
    fop_sequence_get_color pcxTinted 5 = (5, 6, 7) ∧
    FileOp.blank.seq_palette.getEntry 5 = 0xFF000000 ∧
    (pcxReload pcxTinted FileOp.blank pcxRow65).fop.seq_palette.getEntry 5 = 0xFF070605 ∧
    (pcxReload pcxTinted FileOp.blank pcxRow65).fop.seq_palette.getEntry 255 = 0xFF0100FF ∧
    pcxTranslucent.format = IMAGE_RGB ∧
    (∀ i, i < 16 →
      (pcxReload pcxTinted FileOp.blank pcxTranslucent).fop.seq_palette.getEntry i
        = pcxOpaque pcxTinted i ∧
      (_rgba_getr ((pcxReload pcxTinted FileOp.blank pcxTranslucent).fop.seq_palette.getEntry i),
        _rgba_getg ((pcxReload pcxTinted FileOp.blank pcxTranslucent).fop.seq_palette.getEntry i),
        _rgba_getb ((pcxReload pcxTinted FileOp.blank pcxTranslucent).fop.seq_palette.getEntry i))
        = fop_sequence_get_color pcxTinted i) ∧
    (pcxReload pcxTinted FileOp.blank pcxTranslucent).fop.seq_palette.getEntry 15
      = 0xFF11100F := by
  have h8 := (pcx_palette_round_trip pcxTinted FileOp.blank pcxRow65 rfl rfl).1
    (by decide) ⟨by decide, by decide⟩ ⟨by decide, by decide⟩
  have h24 := (pcx_palette_round_trip pcxTinted FileOp.blank pcxTranslucent rfl rfl).2 rfl
  exact ⟨rfl, rfl, by decide, ⟨by decide, by decide⟩, ⟨by decide, by decide⟩, h8, by decide,
    by decide, (h8 5 (by decide)).1.trans (by decide), (h8 255 (by decide)).1.trans (by decide),
    rfl, h24, (h24 15 (by decide)).1.trans (by decide)⟩

/-! ## C3 as stated: an image wider than the bytes-per-line field -/

theorem pcxWhile_stop (bpp bpl : Int) (y fuel : Nat) (s : PcxScan)
    (h : ¬ ((s.pen.x : Int) < pcxLineBytes bpp bpl)) : pcxWhile bpp bpl y fuel s = s := by
  cases fuel with
  | zero => rfl
  | succ n => simp only [pcxWhile, h, if_false]

/-- Entries below the first one read are not touched. -/
theorem pcxReadColors_keep (n c : Nat) (fop : FileOp) (f : File) (j : Nat) (hj : j < c) :
    (pcxReadColors n c fop f).1.seq_palette.color j = fop.seq_palette.color j := by
  induction n generalizing c fop f with
  | zero => rfl
  | succ n ih =>
    simp only [pcxReadColors]
    rw [ih _ _ _ (by omega)]
    simp only [fop_sequence_set_color, Palette.setEntry]
    rw [if_neg (by omega)]

/-- The first entry read is made of the first three bytes. -/
theorem pcxReadColors_first (n c : Nat) (fop : FileOp) (A tl : List Nat) (r g b : Nat)
    (fa e er : Bool) :
    (pcxReadColors (n + 1) c fop ⟨A, r :: g :: b :: tl, fa, e, er⟩).1.seq_palette.color c =
      _rgba ((r % 256 : Nat) : Int) ((g % 256 : Nat) : Int) ((b % 256 : Nat) : Int) 255 := by
  simp only [pcxReadColors, fgetc_mk]
  rw [pcxReadColors_keep _ _ _ _ _ (by omega)]
  simp [fop_sequence_set_color, Palette.setEntry]

theorem pcxScanline_zero_bpl (y : Nat) (f : File) (image : Image) :
    pcxScanline 8 0 y f image = (f, image) := by
  have hz : ¬ (((0 : Nat) : Int) < pcxLineBytes 8 0) := by decide
  unfold pcxScanline
  simp only []
  rw [pcxWhile_stop _ _ _ _ _ hz]

/-- With a zero bytes-per-line field the scanline loop reads nothing. -/
theorem pcxRows_zero_bpl (height : Int) (n y : Nat) (fop : FileOp) (f : File) (image : Image)
    (hs : fop.stop_at = none) :
    pcxRows 8 0 height n y fop f image = (pcxRowsFop fop height y n, f, image) := by
  apply Prod.ext
  · exact pcxRows_fop _ _ _ _ _ _ _ _ hs
  · simp only []
    induction n generalizing y fop with
    | zero => rfl
    | succ n ih =>
      simp only [pcxRows, pcxScanline_zero_bpl]
      have hp : (fop_progress fop (↑y + 1) height).stop_at = none := by
        simpa [fop_progress] using hs
      obtain ⟨h1, h2⟩ := fop_is_stop_none _ hp
      simp only [h1, Bool.false_eq_true, if_false]
      exact ih _ _ h2

/-- A byte 12 right where the palette search starts is taken for the marker:
entry 0 is made of the three bytes after it. -/
theorem pcxFinish_early_marker (fop : FileOp) (A tl : List Nat) (r g b : Nat)
    (hs : fop.stop_at = none) :
    (pcxFinish fop 8
      ⟨A, 12 :: r :: g :: b :: tl, false, false, false⟩).fop.seq_palette.color 0
      = _rgba ((r % 256 : Nat) : Int) ((g % 256 : Nat) : Int) ((b % 256 : Nat) : Int) 255 := by
  have key := pcxReadColors_first 255 0 (fop_is_stop fop).2 A tl r g b false false false
  unfold pcxFinish
  simp only [(fop_is_stop_none fop hs).1, Bool.false_eq_true, not_false_eq_true, true_and,
    if_true, List.length_cons, pcxFindPalette_marker]
  split_ifs
  · simpa [fop_error] using key
  · exact key

/-- With a zero bytes-per-line field no scanline byte is read, and a byte 12
at the start of the scanline data is taken for the palette marker. -/
theorem pcxLoadImage_zero_bpl (fop : FileOp) (W : Int) (A pre tl : List Nat) (r g b : Nat)
    (ha : fop.can_allocate = true) (hs : fop.stop_at = none) (hpre : pre.length = 60) :
    (pcxLoadImage fop W 1 8
      ⟨A, 0 :: 0 :: (pre ++ (12 :: r :: g :: b :: tl)), false, false, false⟩).fop.seq_palette.color 0
      = _rgba ((r % 256 : Nat) : Int) ((g % 256 : Nat) : Int) ((b % 256 : Nat) : Int) 255 := by
  have hskip := fun tl => skipBytes_mk A false false false pre tl
  rw [hpre] at hskip
  have e0 : ((0 % 256 : Nat) : Int) * 256 + ((0 % 256 : Nat) : Int) = 0 := by decide
  have hrows := fun fop0 f0 img0 hs0 => pcxRows_zero_bpl 1 (1 : Int).toNat 0 fop0 f0 img0 hs0
  simp only [pcxLoadImage, fgetw_mk, hskip, fop_sequence_image, ha, if_true, e0]
  rw [hrows _ _ _ (by simpa using hs)]
  simp only []
  rw [pcxFinish_early_marker _ _ _ _ _ _ (by simpa [pcxRowsFop] using hs)]

/-- The scanline of the wide image starts with the bare bytes 12, 1, 12, 1. -/
theorem pcxWide_code :
    ∃ T, (List.range' 0 pcxWide.h).flatMap
          (fun y => pcxLineCode (pcxSamples pcxWide y) (pcxWide.w * pcxPlanes pcxWide)) ++
        (if pcxDepth pcxWide = 8 then 12 :: pcxColorBytes FileOp.blank 256 0 else []) =
      12 :: 1 :: 12 :: 1 :: T := by
  have hn : pcxWide.w * pcxPlanes pcxWide = 65531 + 1 + 1 + 1 + 1 + 1 := by decide
  have hs : ∃ L, (List.range (pcxWide.w * pcxPlanes pcxWide)).map (pcxSamples pcxWide 0) =
      12 :: 1 :: 12 :: 1 :: 12 :: L := by
    rw [List.range_eq_range', hn, List.range'_succ, List.range'_succ, List.range'_succ,
      List.range'_succ, List.range'_succ]
    simp only [List.map_cons]
    have e0 : pcxSamples pcxWide 0 0 = 12 := by decide
    have e1 : pcxSamples pcxWide 0 (0 + 1) = 1 := by decide
    have e2 : pcxSamples pcxWide 0 (0 + 1 + 1) = 12 := by decide
    have e3 : pcxSamples pcxWide 0 (0 + 1 + 1 + 1) = 1 := by decide
    have e4 : pcxSamples pcxWide 0 (0 + 1 + 1 + 1 + 1) = 12 := by decide
    rw [e0, e1, e2, e3, e4]
    exact ⟨_, rfl⟩
  obtain ⟨L, hL⟩ := hs
  have hruns : pcxRuns 0 0 (12 :: 1 :: 12 :: 1 :: 12 :: L) =
      (1, 12) :: (1, 1) :: (1, 12) :: (1, 1) :: pcxRuns 1 12 L := by
    simp [pcxRuns]
  have hh : List.range' 0 pcxWide.h = [0] := rfl
  rw [hh]
  simp only [List.flatMap_cons, List.flatMap_nil, List.append_nil, pcxLineCode, hL, hruns]
  simp [pcxItemBytes]

/-- The decoder past the header when the bytes-per-line field reads 0 and the
scanline data starts with the bytes 12, 1, 12, 1. -/
theorem pcxLoadImage_wide (fop : FileOp) (W H D : Int) (A pre T : List Nat) (b0 b1 : Nat)
    (hb0 : b0 = 0) (hb1 : b1 = 0) (hH : H = 1) (hD : D = 8)
    (ha : fop.can_allocate = true) (hs : fop.stop_at = none) (hpre : pre.length = 60) :
    (pcxLoadImage fop W H D
      ⟨A, [b0, b1] ++ (pre ++ (12 :: 1 :: 12 :: 1 :: T)), false, false, false⟩).fop.seq_palette.getEntry 0
      = 0xFF010C01 := by
  subst hb0 hb1 hH hD
  have := pcxLoadImage_zero_bpl fop W A pre T 1 12 1 ha hs hpre
  have e : _rgba ((1 % 256 : Nat) : Int) ((12 % 256 : Nat) : Int) ((1 % 256 : Nat) : Int) 255
      = 0xFF010C01 := by decide
  rw [e] at this
  exact this

/-- C3 as stated fails: for the indexed image of width 65536 the
bytes-per-line field of the header is 0, the decoder reads no scanline byte
and takes the first pixel, of value 12, for the palette marker; destination
entry 0 becomes the colour (1, 12, 1) made of the next three pixels, while
the encoder read black for entry 0. -/
theorem pcx_palette_lost_on_wide_image :
    pcxWide.format ≠ IMAGE_RGB ∧
    (pcxReload FileOp.blank FileOp.blank pcxWide).fop.seq_palette.getEntry 0 = 0xFF010C01 ∧
    pcxOpaque FileOp.blank 0 = 0xFF000000 := by
  refine ⟨by decide, ?_, by decide⟩
  obtain ⟨T, hT⟩ := pcxWide_code
  have hw : 1 ≤ pcxWide.w ∧ pcxWide.w ≤ 65536 := by decide
  have hh : 1 ≤ pcxWide.h ∧ pcxWide.h ≤ 65536 := by decide
  unfold pcxReload
  rw [pcxOnSave_out, pcx_onLoad_header FileOp.blank FileOp.blank pcxWide _ hw hh, hT]
  exact pcxLoadImage_wide _ _ _ _ _ _ _ _ _ (by decide) (by decide) rfl rfl rfl rfl
    (by simp)

/-! ## The ICO encoder: every loop appends to the stream -/

theorem fputl_eq (l : Int) (out : List Nat) :
    fputl l out = out ++ [toByte l, toByte (l / 256), toByte (l / 65536),
      toByte (l / 16777216)] := by
  simp [fputl, fputc_eq]

theorem icoWritePalette_append (pal : Palette) (n i : Nat) (out : List Nat) :
    icoWritePalette pal n i out = out ++ icoWritePalette pal n i [] := by
  induction n generalizing i out with
  | zero => simp [icoWritePalette]
  | succ n ih =>
    simp only [icoWritePalette]
    rw [ih, ih (i + 1) (fputc _ (fputc _ (fputc _ (fputc _ []))))]
    simp [fputc_eq]

theorem icoWritePad_append (fuel x : Nat) (out : List Nat) :
    icoWritePad fuel x out = out ++ icoWritePad fuel x [] := by
  induction fuel generalizing x out with
  | zero => simp [icoWritePad]
  | succ n ih =>
    simp only [icoWritePad]
    split_ifs
    · rw [ih, ih (x + 1) (fputc 0 [])]
      simp [fputc_eq]
    · simp

theorem icoWriteXorPixels_append (image : Image) (y n x : Nat) (out : List Nat) :
    icoWriteXorPixels image y n x out = out ++ icoWriteXorPixels image y n x [] := by
  induction n generalizing x out with
  | zero => simp [icoWriteXorPixels]
  | succ n ih =>
    simp only [icoWriteXorPixels]
    rw [ih]
    conv_rhs => rw [ih]
    cases image.format <;> simp [fputc_eq]

theorem icoWriteXorRows_append (image : Image) (n : Nat) (out : List Nat) :
    icoWriteXorRows image n out = out ++ icoWriteXorRows image n [] := by
  induction n generalizing out with
  | zero => simp [icoWriteXorRows]
  | succ n ih =>
    simp only [icoWriteXorRows]
    rw [ih]
    conv_rhs => rw [ih]
    rw [icoWritePad_append, icoWriteXorPixels_append]
    conv_rhs => rw [icoWritePad_append]
    simp

theorem icoWriteAndBytes_append (image : Image) (y n x : Nat) (out : List Nat) :
    icoWriteAndBytes image y n x out = out ++ icoWriteAndBytes image y n x [] := by
  induction n generalizing x out with
  | zero => simp [icoWriteAndBytes]
  | succ n ih =>
    simp only [icoWriteAndBytes]
    rw [ih]
    conv_rhs => rw [ih]
    simp [fputc_eq]

theorem icoWriteAndRows_append (image : Image) (n : Nat) (out : List Nat) :
    icoWriteAndRows image n out = out ++ icoWriteAndRows image n [] := by
  induction n generalizing out with
  | zero => simp [icoWriteAndRows]
  | succ n ih =>
    simp only [icoWriteAndRows]
    rw [ih]
    conv_rhs => rw [ih]
    rw [icoWritePad_append, icoWriteAndBytes_append]
    conv_rhs => rw [icoWritePad_append]
    simp

/-! ## The ICO decoder on encoded data -/

theorem fgetw_all (f : File) : (fgetw f).2.all = f.all := by
  unfold fgetw
  simp only []
  split_ifs <;> simp [fgetc_all]

theorem fgetl_all (f : File) : (fgetl f).2.all = f.all := by
  unfold fgetl
  simp only []
  split_ifs <;> simp [fgetc_all]

theorem icoReadEntry_all (f : File) : (icoReadEntry f).2.all = f.all := by
  simp [icoReadEntry, fgetl_all, fgetw_all, fgetc_all]

theorem icoReadEntries_all (n : Nat) (f : File) : (icoReadEntries n f).2.all = f.all := by
  induction n generalizing f with
  | zero => rfl
  | succ n ih => simp [icoReadEntries, ih, icoReadEntry_all]

theorem icoReadEntries_head (n : Nat) (f : File) (d : ICONDIRENTRY) (hn : 1 ≤ n) :
    (icoReadEntries n f).1.headD d = (icoReadEntry f).1 := by
  cases n with
  | zero => omega
  | succ n => rfl

/-- The pad bytes that the encoder writes are the ones the decoder skips. -/
theorem icoSkipPad_mk (A tl : List Nat) (fa e er : Bool) (fuel x : Nat) :
    icoSkipPad fuel x ⟨A, icoWritePad fuel x [] ++ tl, fa, e, er⟩ = ⟨A, tl, fa, e, er⟩ := by
  induction fuel generalizing x with
  | zero => rfl
  | succ n ih =>
    simp only [icoSkipPad, icoWritePad]
    split_ifs with h
    · rw [icoWritePad_append]
      simp only [fputc_eq, List.nil_append, List.cons_append, fgetc_mk, ih]
    · rfl

theorem byte_back (a : Nat) (h : a < 256) : (toByte (a : Int)) % 256 = a := by
  rw [toByte_natCast]; omega

theorem getpixel_fast_indexed_lt (src : Image) (hf : src.format = IMAGE_INDEXED) (x y : Nat) :
    image_getpixel_fast src x y < 256 := by
  unfold image_getpixel_fast
  rw [hf]
  exact Nat.mod_lt _ (by decide)

/-- One row of the XOR mask comes back as the pixels of the source row. -/
theorem icoXorPixels_mk (src : Image) (hf : src.format = IMAGE_INDEXED) (y : Nat)
    (hy : y < src.h) (A tl : List Nat) (fa e er : Bool) (n x : Nat) (img : Image)
    (hx : x + n ≤ src.w) (hw : img.w = src.w) (hh : img.h = src.h) :
    icoXorPixels 8 256 y n x ⟨A, icoWriteXorPixels src y n x [] ++ tl, fa, e, er⟩ img =
      (⟨A, tl, fa, e, er⟩,
       { img with pix := fun x1 y1 =>
          if y1 = y ∧ x ≤ x1 ∧ x1 < x + n then image_getpixel_fast src x1 y
          else img.pix x1 y1 }) := by
  induction n generalizing x img with
  | zero =>
    simp only [icoXorPixels, icoWriteXorPixels, List.nil_append, Prod.mk.injEq, true_and]
    ext x1 y1 <;> try rfl
    simp only []
    rw [if_neg (by omega)]
  | succ n ih =>
    have hb := getpixel_fast_indexed_lt src hf x y
    have hin : x < src.w ∧ y < src.h := ⟨by omega, hy⟩
    simp only [icoXorPixels, icoWriteXorPixels, hf, if_true]
    rw [icoWriteXorPixels_append]
    simp only [fputc_eq, List.nil_append, List.cons_append, fgetc_mk, image_getpixel,
      if_pos hin, byte_back _ hb]
    rw [if_pos (by constructor <;> omega)]
    rw [ih (x + 1) _ (by omega) (by simp [image_putpixel, hw, hh, hin, Image.store])
      (by simp [image_putpixel, hw, hh, hin, Image.store])]
    simp only [Prod.mk.injEq, true_and]
    simp only [image_putpixel, hw, hh, hin, and_self, if_true, Image.store, Int.toNat_ofNat]
    ext x1 y1 <;> try rfl
    simp only []
    by_cases c1 : y1 = y ∧ x + 1 ≤ x1 ∧ x1 < x + 1 + n
    · rw [if_pos c1, if_pos (by omega)]
    · rw [if_neg c1]
      by_cases c2 : x1 = x ∧ y1 = y
      · rw [if_pos c2, if_pos (by omega), c2.1]
      · rw [if_neg c2, if_neg (by omega)]

/-- The XOR mask comes back as the rows of the source, bottom row first. -/
theorem icoXorRows_mk (src : Image) (hf : src.format = IMAGE_INDEXED)
    (A tl : List Nat) (fa e er : Bool) (n : Nat) (img : Image)
    (hn : n ≤ src.h) (hw : img.w = src.w) (hh : img.h = src.h) :
    icoXorRows 8 256 n ⟨A, icoWriteXorRows src n [] ++ tl, fa, e, er⟩ img =
      (⟨A, tl, fa, e, er⟩,
       { img with pix := fun x1 y1 =>
          if y1 < n ∧ x1 < src.w then image_getpixel_fast src x1 y1
          else img.pix x1 y1 }) := by
  induction n generalizing img with
  | zero =>
    simp only [icoXorRows, icoWriteXorRows, List.nil_append, Prod.mk.injEq, true_and]
    ext x1 y1 <;> simp
  | succ n ih =>
    simp only [icoXorRows, icoWriteXorRows]
    rw [icoWriteXorRows_append, icoWritePad_append, List.append_assoc, List.append_assoc]
    conv_lhs => rw [hw]
    have h1 := icoXorPixels_mk src hf n (by omega) A
      (icoWritePad 3 src.w [] ++ (icoWriteXorRows src n [] ++ tl)) fa e er src.w 0 img
      (by omega) hw hh
    rw [h1]
    simp only [icoSkipPad_mk]
    rw [ih]
    rotate_left
    · omega
    · exact hw
    · exact hh
    simp only [Prod.mk.injEq, true_and]
    ext x1 y1 <;> try rfl
    simp only []
    by_cases c1 : y1 < n ∧ x1 < src.w
    · rw [if_pos c1, if_pos (by omega)]
    · rw [if_neg c1]
      by_cases c2 : y1 = n ∧ 0 ≤ x1 ∧ x1 < 0 + src.w
      · rw [if_pos c2, if_pos (by omega), c2.1]
      · rw [if_neg c2, if_neg (by omega)]

/-! ## The AND mask of an indexed image -/

/-- A bit of the mask byte is set only for a pixel whose index is 0. -/
theorem icoMaskBits_testBit (image : Image) (hf : image.format = IMAGE_INDEXED)
    (x y k : Nat) (n b m v : Nat)
    (h : (icoMaskBits image x y n b m v).testBit k = true) :
    m.testBit k = true ∨
      ∃ j, j < n ∧ (v >>> j).testBit k = true ∧ image_getpixel image (x * 8 + (b + j)) y = 0 := by
  induction n generalizing b m v with
  | zero => exact Or.inl h
  | succ n ih =>
    simp only [icoMaskBits, hf] at h
    rcases ih _ _ _ h with h1 | ⟨j, hj, hv, hp⟩
    · by_cases c : image_getpixel image (x * 8 + b) y = 0
      · rw [if_pos c, Nat.testBit_lor, Bool.or_eq_true] at h1
        rcases h1 with h1 | h1
        · exact Or.inl h1
        · exact Or.inr ⟨0, by omega, by simpa using h1, by simpa using c⟩
      · rw [if_neg c] at h1
        exact Or.inl h1
    · refine Or.inr ⟨j + 1, by omega, ?_, ?_⟩
      · rw [Nat.add_comm j 1, Nat.shiftRight_add]
        exact hv
      · rw [show b + (j + 1) = b + 1 + j by omega]
        exact hp

theorem mask_bit_position :
    ∀ j, j < 8 → ∀ i, i < 8 → (128 >>> j).testBit (7 - i) = true → j = i := by
  decide

theorem mask_bit_test (M j : Nat) (hj : j < 8)
    (h : M % 256 &&& (128 >>> j) = 128 >>> j) : M.testBit (7 - j) = true := by
  have h2 : (M % 2 ^ 8 &&& (128 >>> j)).testBit (7 - j) = (128 >>> j).testBit (7 - j) := by
    have : (2 : Nat) ^ 8 = 256 := by norm_num
    rw [this, h]
  rw [Nat.testBit_and, Nat.testBit_mod_two_pow] at h2
  have h3 : (128 >>> j).testBit (7 - j) = true := by
    interval_cases j <;> decide
  rw [h3] at h2
  have h4 : 7 - j < 8 ∧ M.testBit (7 - j) = true := by simpa using h2
  exact h4.2

/-- The decoder's loop over the bits of a mask byte leaves the image as it is
when every set bit stands for a pixel that is already 0. -/
theorem icoAndBits_id (src img : Image) (m : Int) (x y : Nat)
    (hw : img.w = src.w) (hh : img.h = src.h)
    (hinv : ∀ x1 y1, x1 < src.w → y1 < src.h → img.pix x1 y1 = image_getpixel_fast src x1 y1)
    (n b v : Nat)
    (hbits : ∀ j, j < n → toByte m &&& (v >>> j) = v >>> j →
      image_getpixel src (x * 8 + (b + j)) y = 0) :
    icoAndBits m x y n b v img = img := by
  induction n generalizing b v with
  | zero => rfl
  | succ n ih =>
    simp only [icoAndBits]
    have hstep : (if toByte m &&& v = v then image_putpixel img (x * 8 + b) y 0 else img)
        = img := by
      by_cases c : toByte m &&& v = v
      · rw [if_pos c]
        have h0 := hbits 0 (by omega) (by simpa using c)
        simp only [Nat.add_zero, image_getpixel] at h0
        by_cases hin : x * 8 + b < src.w ∧ y < src.h
        · rw [if_pos hin] at h0
          have hz : img.pix (x * 8 + b) y = 0 := by
            rw [hinv _ _ hin.1 hin.2]
            exact_mod_cast h0
          have hin2 : x * 8 + b < img.w ∧ y < img.h := by rw [hw, hh]; exact hin
          simp only [image_putpixel, if_pos hin2, Image.store]
          ext x1 y1 <;> try rfl
          simp only []
          by_cases c2 : x1 = x * 8 + b ∧ y1 = y
          · rw [if_pos c2, c2.1, c2.2, hz]
          · rw [if_neg c2]
        · rw [if_neg hin] at h0
          omega
      · rw [if_neg c]
    rw [hstep]
    apply ih
    intro j hj hb
    have := hbits (j + 1) (by omega) (by rw [Nat.add_comm j 1, Nat.shiftRight_add]; exact hb)
    rw [show b + 1 + j = b + (j + 1) by omega]
    exact this

/-- The decoder's AND pass over one encoded mask byte changes nothing. -/
theorem icoAndBits_encoded (src img : Image) (hf : src.format = IMAGE_INDEXED) (x y : Nat)
    (hw : img.w = src.w) (hh : img.h = src.h)
    (hinv : ∀ x1 y1, x1 < src.w → y1 < src.h → img.pix x1 y1 = image_getpixel_fast src x1 y1) :
    icoAndBits ((toByte (icoMaskBits src x y 8 0 0 128 : Nat) % 256 : Nat) : Int) x y 8 0 128 img
      = img := by
  apply icoAndBits_id src img _ x y hw hh hinv
  intro j hj hb
  rw [toByte_natCast, toByte_natCast, Nat.mod_mod, Nat.mod_mod] at hb
  have ht := mask_bit_test _ j hj hb
  rcases icoMaskBits_testBit src hf x y (7 - j) 8 0 0 128 ht with h0 | ⟨i, hi, hv, hp⟩
  · simp at h0
  · have := mask_bit_position i hi j hj hv
    rw [← this]
    exact hp

theorem icoAndBytes_mk (src img : Image) (hf : src.format = IMAGE_INDEXED) (y : Nat)
    (hw : img.w = src.w) (hh : img.h = src.h)
    (hinv : ∀ x1 y1, x1 < src.w → y1 < src.h → img.pix x1 y1 = image_getpixel_fast src x1 y1)
    (A tl : List Nat) (fa e er : Bool) (n x : Nat) :
    icoAndBytes y n x ⟨A, icoWriteAndBytes src y n x [] ++ tl, fa, e, er⟩ img =
      (⟨A, tl, fa, e, er⟩, img) := by
  induction n generalizing x with
  | zero => rfl
  | succ n ih =>
    simp only [icoAndBytes, icoWriteAndBytes]
    rw [icoWriteAndBytes_append]
    simp only [fputc_eq, List.nil_append, List.cons_append, fgetc_mk]
    rw [icoAndBits_encoded src img hf x y hw hh hinv, ih]

/-- The decoder's AND pass over the encoded mask changes nothing: a set bit
stands for a pixel that the XOR pass already set to 0. -/
theorem icoAndRows_mk (src img : Image) (hf : src.format = IMAGE_INDEXED)
    (hw : img.w = src.w) (hh : img.h = src.h)
    (hinv : ∀ x1 y1, x1 < src.w → y1 < src.h → img.pix x1 y1 = image_getpixel_fast src x1 y1)
    (A tl : List Nat) (fa e er : Bool) (n : Nat) :
    icoAndRows n ⟨A, icoWriteAndRows src n [] ++ tl, fa, e, er⟩ img =
      (⟨A, tl, fa, e, er⟩, img) := by
  induction n with
  | zero => rfl
  | succ n ih =>
    simp only [icoAndRows, icoWriteAndRows]
    rw [icoWriteAndRows_append, icoWritePad_append, List.append_assoc, List.append_assoc]
    conv_lhs => rw [hw]
    rw [icoAndBytes_mk src img hf n hw hh hinv]
    simp only [icoSkipPad_mk]
    exact ih

/-! ## The ICO palette section -/

theorem rgba_get_lt (c : Int) :
    _rgba_getr c < 256 ∧ _rgba_getg c < 256 ∧ _rgba_getb c < 256 ∧ _rgba_geta c < 256 :=
  ⟨toByte_lt _, toByte_lt _, toByte_lt _, toByte_lt _⟩

/-- The quads that the encoder writes come back as opaque colours. -/
theorem icoReadPalette_mk (src : Palette) (A tl : List Nat) (fa e er : Bool) (n i : Nat)
    (pal : Palette) :
    icoReadPalette n i pal ⟨A, icoWritePalette src n i [] ++ tl, fa, e, er⟩ =
      ({ pal with color := fun j =>
          (if i ≤ j ∧ j < i + n then
            _rgba (_rgba_getr (src.getEntry j)) (_rgba_getg (src.getEntry j))
              (_rgba_getb (src.getEntry j)) 255
          else pal.color j) },
       ⟨A, tl, fa, e, er⟩) := by
  induction n generalizing i pal with
  | zero =>
    cases pal
    simp only [icoReadPalette, icoWritePalette, List.nil_append, Prod.mk.injEq, and_true,
      Palette.mk.injEq, true_and]
    funext j
    rw [if_neg (by omega)]
  | succ n ih =>
    obtain ⟨hr, hg, hb, _⟩ := rgba_get_lt (src.getEntry i)
    simp only [icoReadPalette, icoWritePalette]
    rw [icoWritePalette_append]
    simp only [fputc_eq, List.nil_append, List.cons_append, fgetc_mk, byte_back _ hr,
      byte_back _ hg, byte_back _ hb]
    rw [ih]
    cases pal
    simp only [Palette.setEntry, Prod.mk.injEq, and_true, Palette.mk.injEq, true_and]
    funext j
    by_cases c1 : i + 1 ≤ j ∧ j < i + 1 + n
    · rw [if_pos c1, if_pos (by omega)]
    · rw [if_neg c1]
      by_cases c2 : j = i
      · rw [if_pos c2, if_pos (by omega), c2]
      · rw [if_neg c2, if_neg (by omega)]

/-- The palette section of the encoder is the 256 quads of the specification. -/
theorem icoWritePalette_quads (pal : Palette) :
    0 :: 0 :: 0 :: 0 :: icoWritePalette pal 255 1 [] = icoQuads pal := by
  have h : ∀ n i, 1 ≤ i → icoWritePalette pal n i [] =
      (List.range' i n).flatMap fun i =>
        if i = 0 then [0, 0, 0, 0]
        else [_rgba_getb (pal.getEntry i), _rgba_getg (pal.getEntry i),
          _rgba_getr (pal.getEntry i), 0] := by
    intro n
    induction n with
    | zero => intro i _; rfl
    | succ n ih =>
      intro i hi
      simp only [icoWritePalette]
      rw [icoWritePalette_append, ih (i + 1) (by omega)]
      simp only [List.range', List.flatMap_cons, if_neg (show ¬ i = 0 by omega), fputc_eq,
        List.nil_append, List.cons_append, toByte_natCast]
      obtain ⟨hr, hg, hb, _⟩ := rgba_get_lt (pal.getEntry i)
      rw [Nat.mod_eq_of_lt hr, Nat.mod_eq_of_lt hg, Nat.mod_eq_of_lt hb]
      rfl
  unfold icoQuads
  rw [h 255 1 (le_refl 1), List.range_eq_range', show (256 : Nat) = 255 + 1 by rfl,
    List.range'_succ]
  rfl

theorem icoQuads_length (pal : Palette) : (icoQuads pal).length = 1024 := by
  unfold icoQuads
  have h : ∀ (l : List Nat), (l.flatMap fun i =>
        if i = 0 then [0, 0, 0, 0]
        else [_rgba_getb (pal.getEntry i), _rgba_getg (pal.getEntry i),
          _rgba_getr (pal.getEntry i), 0]).length = 4 * l.length := by
    intro l
    induction l with
    | nil => rfl
    | cons a l ih =>
      rw [List.flatMap_cons, List.length_append, ih, List.length_cons]
      split_ifs <;> simp <;> omega
  rw [h, List.length_range]

/-! ## The shape of the ICO encoder's output -/

theorem icoWriteEntries_append (sprite : Sprite) (n offset : Nat) (out : List Nat) :
    icoWriteEntries sprite n offset out = out ++ icoWriteEntries sprite n offset [] := by
  induction n generalizing offset out with
  | zero => simp [icoWriteEntries]
  | succ n ih =>
    simp only [icoWriteEntries]
    rw [ih]
    conv_rhs => rw [ih]
    simp [fputl_eq, fputw_eq, fputc_eq]

theorem icoWriteEntries_length (sprite : Sprite) (n offset : Nat) :
    (icoWriteEntries sprite n offset []).length = 16 * n := by
  induction n generalizing offset with
  | zero => rfl
  | succ n ih =>
    simp only [icoWriteEntries]
    rw [icoWriteEntries_append, List.length_append, ih]
    simp [fputl_eq, fputw_eq, fputc_eq]
    omega

theorem icoWriteBmpHeader_eq (bpp size w h : Nat) (out : List Nat) :
    icoWriteBmpHeader bpp size w h out = out ++
      [toByte 40, toByte (40 / 256), toByte (40 / 65536), toByte (40 / 16777216),
       toByte w, toByte ((w : Int) / 256), toByte ((w : Int) / 65536),
       toByte ((w : Int) / 16777216),
       toByte ((h * 2 : Nat) : Int), toByte (((h * 2 : Nat) : Int) / 256),
       toByte (((h * 2 : Nat) : Int) / 65536), toByte (((h * 2 : Nat) : Int) / 16777216),
       toByte 1, toByte (1 / 256),
       toByte bpp, toByte ((bpp : Int) / 256),
       toByte 0, toByte (0 / 256), toByte (0 / 65536), toByte (0 / 16777216),
       toByte size, toByte ((size : Int) / 256), toByte ((size : Int) / 65536),
       toByte ((size : Int) / 16777216),
       toByte 0, toByte (0 / 256), toByte (0 / 65536), toByte (0 / 16777216),
       toByte 0, toByte (0 / 256), toByte (0 / 65536), toByte (0 / 16777216),
       toByte 0, toByte (0 / 256), toByte (0 / 65536), toByte (0 / 16777216),
       toByte 0, toByte (0 / 256), toByte (0 / 65536), toByte (0 / 16777216)] := by
  simp only [icoWriteBmpHeader, fputl_eq, fputw_eq, List.append_assoc, List.cons_append,
    List.nil_append]

theorem icoWriteBmpHeader_length (bpp size w h : Nat) :
    (icoWriteBmpHeader bpp size w h []).length = 40 := by
  rw [icoWriteBmpHeader_eq]; rfl

/-- The decoder reads past an encoded `BITMAPINFOHEADER`. -/
theorem icoReadBmpHeader_mk (bpp size w h : Nat) (A tl : List Nat) (fa e er : Bool) :
    (icoReadBmpHeader ⟨A, icoWriteBmpHeader bpp size w h [] ++ tl, fa, e, er⟩).2 =
      ⟨A, tl, fa, e, er⟩ := by
  rw [icoWriteBmpHeader_eq]
  simp only [icoReadBmpHeader, List.cons_append, List.nil_append, fgetl_mk, fgetw_mk]

/-- The record of one frame of an indexed sprite: header, the 256 quads, the
XOR mask and the AND mask. -/
theorem icoWriteImage_indexed (layer_render : Sprite → Nat → Nat → Nat → Nat) (sprite : Sprite)
    (hf : sprite.pixelFormat = IMAGE_INDEXED) (n : Nat) (out : List Nat) :
    icoWriteImage layer_render sprite n out = out ++
      (icoWriteBmpHeader 8 (icoSize 8 sprite.width sprite.height) sprite.width sprite.height []
        ++ (icoQuads (sprite.palette n)
        ++ (icoWriteXorRows (icoRendered layer_render sprite n) sprite.height []
        ++ icoWriteAndRows (icoRendered layer_render sprite n) sprite.height []))) := by
  have hb : icoBpp sprite = 8 := by simp [icoBpp, hf]
  simp only [icoWriteImage, hb, if_true]
  rw [icoWriteAndRows_append, icoWriteXorRows_append, icoWritePalette_append, fputl_eq,
    ← icoWritePalette_quads]
  have h0 : toByte 0 = 0 := rfl
  have h1 : toByte (0 / 256) = 0 := rfl
  have h2 : toByte (0 / 65536) = 0 := rfl
  have h3 : toByte (0 / 16777216) = 0 := rfl
  rw [h0, h1, h2, h3]
  conv_lhs => rw [icoWriteBmpHeader_eq]
  conv_rhs => rw [icoWriteBmpHeader_eq]
  simp only [List.append_assoc, List.cons_append, List.nil_append]
  rfl

theorem icoWriteImage_append (layer_render : Sprite → Nat → Nat → Nat → Nat) (sprite : Sprite)
    (n : Nat) (out : List Nat) :
    icoWriteImage layer_render sprite n out = out ++ icoWriteImage layer_render sprite n [] := by
  simp only [icoWriteImage]
  rw [icoWriteAndRows_append, icoWriteXorRows_append]
  conv_rhs => rw [icoWriteAndRows_append, icoWriteXorRows_append]
  split_ifs
  · rw [icoWritePalette_append, fputl_eq, icoWriteBmpHeader_eq]
    conv_rhs => rw [icoWritePalette_append, fputl_eq, icoWriteBmpHeader_eq]
    simp only [List.append_assoc, List.cons_append, List.nil_append]
  · rw [icoWriteBmpHeader_eq]
    conv_rhs => rw [icoWriteBmpHeader_eq]
    simp only [List.append_assoc, List.cons_append, List.nil_append]

theorem icoWriteImages_append (layer_render : Sprite → Nat → Nat → Nat → Nat) (sprite : Sprite)
    (k n : Nat) (out : List Nat) :
    icoWriteImages layer_render sprite k n out =
      out ++ icoWriteImages layer_render sprite k n [] := by
  induction k generalizing n out with
  | zero => simp [icoWriteImages]
  | succ k ih =>
    simp only [icoWriteImages]
    rw [ih]
    conv_rhs => rw [ih]
    rw [icoWriteImage_append]
    simp

/-- The whole output of `onSave`: the directory, the entries, the frames. -/
theorem icoOnSave_out (layer_render : Sprite → Nat → Nat → Nat → Nat) (fop : FileOp)
    (sprite : Sprite) :
    (IcoFormat.onSave layer_render fop sprite).out =
      0 :: 0 :: 1 :: 0 :: toByte sprite.totalFrames ::
        toByte ((sprite.totalFrames : Int) / 256) ::
        (icoWriteEntries sprite sprite.totalFrames (6 + sprite.totalFrames * 16) [] ++
          icoWriteImages layer_render sprite sprite.totalFrames 0 []) := by
  simp only [IcoFormat.onSave]
  rw [icoWriteImages_append, icoWriteEntries_append]
  simp only [fputw_eq, List.append_assoc, List.cons_append, List.nil_append]
  rfl

theorem icoReadPalette_succ (n i : Nat) (pal : Palette) (f : File) :
    icoReadPalette (n + 1) i pal f =
      icoReadPalette n (i + 1)
        (pal.setEntry i (_rgba (fgetc (fgetc (fgetc f).2).2).1 (fgetc (fgetc f).2).1
          (fgetc f).1 255))
        (fgetc (fgetc (fgetc (fgetc f).2).2).2).2 := rfl

/-- The decoder reads the 256 quads of the encoder back: entry 0 opaque
black, the others the opaque colours of the source. -/
theorem icoReadPalette_quads (src : Palette) (A tl : List Nat) (fa e er : Bool) :
    icoReadPalette 256 0 (Palette.create 256) ⟨A, icoQuads src ++ tl, fa, e, er⟩ =
      (icoPaletteBack src, ⟨A, tl, fa, e, er⟩) := by
  rw [← icoWritePalette_quads]
  show icoReadPalette (255 + 1) 0 _ _ = _
  rw [icoReadPalette_succ]
  simp only [List.cons_append, fgetc_mk]
  rw [icoReadPalette_mk]
  simp only [Prod.mk.injEq, and_true, icoPaletteBack, Palette.setEntry, Palette.create,
    Palette.mk.injEq, true_and]
  funext j
  by_cases c : 1 ≤ j ∧ j < 256
  · have c1 : 0 + 1 ≤ j ∧ j < 0 + 1 + 255 := by omega
    rw [if_pos c, if_pos c1]
  · have c1 : ¬ (0 + 1 ≤ j ∧ j < 0 + 1 + 255) := by omega
    rw [if_neg c, if_neg c1]
    split_ifs <;> rfl

theorem image_putpixel_h (image : Image) (x y c : Nat) : (image_putpixel image x y c).h = image.h := by
  unfold image_putpixel
  split_ifs <;> rfl

theorem icoXorPixels_h (bpp numcolors y n x : Nat) (f : File) (image : Image) :
    (icoXorPixels bpp numcolors y n x f image).2.h = image.h := by
  induction n generalizing x f image with
  | zero => rfl
  | succ n ih =>
    simp only [icoXorPixels]
    split_ifs <;> simp only [ih, image_putpixel_h]

theorem icoXorRows_h (bpp numcolors n : Nat) (f : File) (image : Image) :
    (icoXorRows bpp numcolors n f image).2.h = image.h := by
  induction n generalizing f image with
  | zero => rfl
  | succ n ih => simp only [icoXorRows, ih, icoXorPixels_h]

/-- The decoder on the record of an encoded indexed frame: header and palette
are read, the XOR and AND passes run on the two masks. -/
theorem icoLoadEntry_encoded (fop : FileOp) (entry : ICONDIRENTRY) (A R : List Nat)
    (fa e er : Bool) (layer_render : Sprite → Nat → Nat → Nat → Nat) (sprite : Sprite)
    (hf : sprite.pixelFormat = IMAGE_INDEXED) (n : Nat) (tl : List Nat)
    (hc : entry.color_count = 0) (hb : entry.bpp = 8)
    (hd : A.drop entry.image_offset = icoWriteImage layer_render sprite n [] ++ tl) :
    icoLoadEntry fop entry ⟨A, R, fa, e, er⟩ =
      { ok := true,
        fop := { fop with document := some (
          { pixelFormat := IMAGE_INDEXED,
            width := (if entry.width = 0 then 256 else entry.width),
            height := (if entry.height = 0 then 256 else entry.height),
            ncolors := 256, totalFrames := 1,
            palette := fun _ => icoPaletteBack (sprite.palette n),
            layers := [⟨[⟨0, (icoAndRows (if entry.height = 0 then 256 else entry.height)
              (icoXorRows 8 256 (if entry.height = 0 then 256 else entry.height)
                ⟨A, icoWriteXorRows (icoRendered layer_render sprite n) sprite.height [] ++
                  (icoWriteAndRows (icoRendered layer_render sprite n) sprite.height [] ++ tl),
                  fa, false, er⟩
                (image_clear (Image.create IMAGE_INDEXED
                  (if entry.width = 0 then 256 else entry.width)
                  (if entry.height = 0 then 256 else entry.height)) 0)).1
              (icoXorRows 8 256 (if entry.height = 0 then 256 else entry.height)
                ⟨A, icoWriteXorRows (icoRendered layer_render sprite n) sprite.height [] ++
                  (icoWriteAndRows (icoRendered layer_render sprite n) sprite.height [] ++ tl),
                  fa, false, er⟩
                (image_clear (Image.create IMAGE_INDEXED
                  (if entry.width = 0 then 256 else entry.width)
                  (if entry.height = 0 then 256 else entry.height)) 0)).2).2⟩]⟩] } : Sprite) },
        f := (icoAndRows (if entry.height = 0 then 256 else entry.height)
              (icoXorRows 8 256 (if entry.height = 0 then 256 else entry.height)
                ⟨A, icoWriteXorRows (icoRendered layer_render sprite n) sprite.height [] ++
                  (icoWriteAndRows (icoRendered layer_render sprite n) sprite.height [] ++ tl),
                  fa, false, er⟩
                (image_clear (Image.create IMAGE_INDEXED
                  (if entry.width = 0 then 256 else entry.width)
                  (if entry.height = 0 then 256 else entry.height)) 0)).1
              (icoXorRows 8 256 (if entry.height = 0 then 256 else entry.height)
                ⟨A, icoWriteXorRows (icoRendered layer_render sprite n) sprite.height [] ++
                  (icoWriteAndRows (icoRendered layer_render sprite n) sprite.height [] ++ tl),
                  fa, false, er⟩
                (image_clear (Image.create IMAGE_INDEXED
                  (if entry.width = 0 then 256 else entry.width)
                  (if entry.height = 0 then 256 else entry.height)) 0)).2).1 } := by
  have hh : ∀ (fmt : PixelFormat) (w h : Nat) (c : Nat),
      (image_clear (Image.create fmt w h) c).h = h := fun _ _ _ _ => rfl
  have hxh : ∀ (k : Nat) (f : File) (img : Image), (icoXorRows 8 256 k f img).2.h = img.h :=
    fun k f img => icoXorRows_h 8 256 k f img
  simp only [icoLoadEntry, hc, hb, if_true, fseek, hd, show ¬ (8 > 8) by decide, if_false,
    le_refl]
  rw [icoWriteImage_indexed layer_render sprite hf, List.nil_append, List.append_assoc,
    icoReadBmpHeader_mk, List.append_assoc, icoReadPalette_quads, List.append_assoc]
  simp only [hh, hxh, Int.toNat_ofNat]

/-! ## The ICO decoder on an encoded directory -/

theorem le32_read (v : Int) (h0 : 0 ≤ v) (h1 : v < 4294967296) :
    ((toByte (v / 16777216) % 256 : Nat) : Int) * 16777216 +
      ((toByte (v / 65536) % 256 : Nat) : Int) * 65536 +
      ((toByte (v / 256) % 256 : Nat) : Int) * 256 + ((toByte v % 256 : Nat) : Int) = v := by
  unfold toByte; omega

theorem toU16_natCast (n : Nat) : toU16 (n : Int) = n % 65536 := by
  unfold toU16; omega

theorem toU32_natCast (n : Nat) : toU32 (n : Int) = n % 4294967296 := by
  unfold toU32; omega

/-- The directory entries of the encoder, one entry unfolded. -/
theorem icoWriteEntries_succ (sprite : Sprite) (k offset : Nat) :
    icoWriteEntries sprite (k + 1) offset [] =
      toByte sprite.width :: toByte sprite.height :: toByte 0 :: toByte 0 ::
      toByte 1 :: toByte (1 / 256) ::
      toByte (icoBpp sprite) :: toByte ((icoBpp sprite : Int) / 256) ::
      toByte (icoSize (icoBpp sprite) sprite.width sprite.height) ::
      toByte ((icoSize (icoBpp sprite) sprite.width sprite.height : Int) / 256) ::
      toByte ((icoSize (icoBpp sprite) sprite.width sprite.height : Int) / 65536) ::
      toByte ((icoSize (icoBpp sprite) sprite.width sprite.height : Int) / 16777216) ::
      toByte offset :: toByte ((offset : Int) / 256) :: toByte ((offset : Int) / 65536) ::
      toByte ((offset : Int) / 16777216) ::
      icoWriteEntries sprite k
        (offset + icoSize (icoBpp sprite) sprite.width sprite.height) [] := by
  simp only [icoWriteEntries]
  rw [icoWriteEntries_append]
  simp only [fputl_eq, fputw_eq, fputc_eq, List.append_assoc, List.cons_append,
    List.nil_append]

/-- The decoder reads the first encoded directory entry back. -/
theorem icoReadEntry_encoded (sprite : Sprite) (hf : sprite.pixelFormat = IMAGE_INDEXED)
    (k offset : Nat) (hoff : offset < 4294967296) (A more : List Nat) (fa e er : Bool) :
    (icoReadEntry ⟨A, icoWriteEntries sprite (k + 1) offset [] ++ more, fa, e, er⟩).1 =
      ⟨sprite.width % 256, sprite.height % 256, 0, 0, 1, 8,
        icoSize 8 sprite.width sprite.height % 4294967296, offset⟩ := by
  have hb : icoBpp sprite = 8 := by simp [icoBpp, hf]
  have hsz : ∀ s : Nat, toU32 (((toByte ((s : Int) / 16777216) % 256 : Nat) : Int) * 16777216 +
      ((toByte ((s : Int) / 65536) % 256 : Nat) : Int) * 65536 +
      ((toByte ((s : Int) / 256) % 256 : Nat) : Int) * 256 +
      ((toByte (s : Int) % 256 : Nat) : Int)) = s % 4294967296 := by
    intro s
    unfold toU32 toByte; omega
  rw [icoWriteEntries_succ, hb]
  simp only [icoReadEntry, List.cons_append, fgetc_mk, fgetw_mk, fgetl_mk]
  rw [hsz, hsz, Nat.mod_eq_of_lt hoff]
  simp only [ICONDIRENTRY.mk.injEq]
  and_intros
  all_goals first
    | trivial
    | rfl
    | rw [toByte_natCast, toByte_natCast, Nat.mod_mod, Nat.mod_mod]

/-- The decoder accepts a directory of type 1 whose count is between 1 and
65535 and goes on to the entries. -/
theorem icoOnLoad_dir (dst : FileOp) (A rest : List Nat) (num : Nat)
    (hn : 1 ≤ num ∧ num ≤ 65535) :
    IcoFormat.onLoad dst
        ⟨A, 0 :: 0 :: 1 :: 0 :: toByte num :: toByte ((num : Int) / 256) :: rest,
          false, false, false⟩ =
      icoLoadImage dst ⟨0, 1, num⟩ ⟨A, rest, false, false, false⟩ := by
  have h1 : toU16 (((0 % 256 : Nat) : Int) * 256 + ((1 % 256 : Nat) : Int)) = 1 := rfl
  have h0 : toU16 (((0 % 256 : Nat) : Int) * 256 + ((0 % 256 : Nat) : Int)) = 0 := rfl
  have h2 : toU16 (((toByte ((num : Int) / 256) % 256 : Nat) : Int) * 256 +
      ((toByte (num : Int) % 256 : Nat) : Int)) = num := by
    rw [le16_read (num : Int) (by omega) (by omega), toU16_natCast]
    omega
  simp only [IcoFormat.onLoad, icoReadHeader, fgetw_mk, h0, h1, h2]
  rw [if_neg (by simp), if_neg (by omega)]

theorem icoWriteImages_succ (layer_render : Sprite → Nat → Nat → Nat → Nat) (sprite : Sprite)
    (k n : Nat) :
    icoWriteImages layer_render sprite (k + 1) n [] =
      icoWriteImage layer_render sprite n [] ++ icoWriteImages layer_render sprite k (n + 1) [] := by
  simp only [icoWriteImages]
  rw [icoWriteImages_append]

/-- Encoding an indexed sprite of 1 to 65535 frames and decoding the bytes:
the decoder takes the first directory entry and seeks to the record of frame
0. -/
theorem icoReload_entry (layer_render : Sprite → Nat → Nat → Nat → Nat) (src dst : FileOp)
    (sprite : Sprite) (hf : sprite.pixelFormat = IMAGE_INDEXED)
    (hn : 1 ≤ sprite.totalFrames ∧ sprite.totalFrames ≤ 65535) :
    ∃ (A R : List Nat) (fa e er : Bool) (tl : List Nat),
      icoReload layer_render src dst sprite =
        icoLoadEntry dst
          ⟨sprite.width % 256, sprite.height % 256, 0, 0, 1, 8,
            icoSize 8 sprite.width sprite.height % 4294967296, 6 + sprite.totalFrames * 16⟩
          ⟨A, R, fa, e, er⟩ ∧
      A.drop (6 + sprite.totalFrames * 16) = icoWriteImage layer_render sprite 0 [] ++ tl := by
  obtain ⟨k, hk⟩ : ∃ k, sprite.totalFrames = k + 1 := ⟨sprite.totalFrames - 1, by omega⟩
  have hlen : (0 :: 0 :: 1 :: 0 :: toByte sprite.totalFrames ::
        toByte ((sprite.totalFrames : Int) / 256) ::
        icoWriteEntries sprite sprite.totalFrames (6 + sprite.totalFrames * 16) []).length =
      6 + sprite.totalFrames * 16 := by
    simp only [List.length_cons, icoWriteEntries_length]
    omega
  have hout : (IcoFormat.onSave layer_render src sprite).out =
      (0 :: 0 :: 1 :: 0 :: toByte sprite.totalFrames ::
        toByte ((sprite.totalFrames : Int) / 256) ::
        icoWriteEntries sprite sprite.totalFrames (6 + sprite.totalFrames * 16) []) ++
      (icoWriteImage layer_render sprite 0 [] ++ icoWriteImages layer_render sprite k 1 []) := by
    rw [icoOnSave_out, ← icoWriteImages_succ, ← hk]
    rfl
  generalize hA : (IcoFormat.onSave layer_render src sprite).out = A at hout
  have hdrop : A.drop (6 + sprite.totalFrames * 16) =
      icoWriteImage layer_render sprite 0 [] ++ icoWriteImages layer_render sprite k 1 [] := by
    rw [hout]
    exact List.drop_left' hlen
  have hrun : icoReload layer_render src dst sprite =
      icoLoadImage dst ⟨0, 1, sprite.totalFrames⟩
        ⟨A, icoWriteEntries sprite (k + 1) (6 + sprite.totalFrames * 16) [] ++
          icoWriteImages layer_render sprite sprite.totalFrames 0 [], false, false, false⟩ := by
    unfold icoReload
    rw [hA]
    unfold File.open
    have hA2 := hA
    rw [icoOnSave_out] at hA2
    conv_lhs => arg 2; arg 2; rw [← hA2]
    rw [icoOnLoad_dir dst A _ _ hn, hk]
  generalize hes : (icoReadEntries sprite.totalFrames
      ⟨A, icoWriteEntries sprite (k + 1) (6 + sprite.totalFrames * 16) [] ++
        icoWriteImages layer_render sprite sprite.totalFrames 0 [], false, false, false⟩).2 = g
  have hall : g.all = A := by
    rw [← hes, icoReadEntries_all]
  refine ⟨A, g.rest, g.fault, g.eof, g.error, icoWriteImages layer_render sprite k 1 [], ?_, hdrop⟩
  rw [hrun]
  simp only [icoLoadImage]
  rw [icoReadEntries_head _ _ _ hn.1,
    icoReadEntry_encoded sprite hf k _ (by omega), hes, ← hall]

/-! ## ICO round trip of an indexed sprite -/

/-- The decoder on the record of an encoded indexed frame, for a directory
entry that carries the true width and height: the frame comes back. -/
theorem icoLoadEntry_indexed (fop : FileOp) (A R : List Nat) (fa e er : Bool)
    (layer_render : Sprite → Nat → Nat → Nat → Nat) (sprite : Sprite)
    (hf : sprite.pixelFormat = IMAGE_INDEXED) (tl : List Nat) (s off : Nat)
    (hw : 1 ≤ sprite.width ∧ sprite.width ≤ 255) (hh : 1 ≤ sprite.height ∧ sprite.height ≤ 255)
    (hd : A.drop off = icoWriteImage layer_render sprite 0 [] ++ tl) :
    (icoLoadEntry fop ⟨sprite.width % 256, sprite.height % 256, 0, 0, 1, 8, s, off⟩
        ⟨A, R, fa, e, er⟩).ok = true ∧
    (icoLoadEntry fop ⟨sprite.width % 256, sprite.height % 256, 0, 0, 1, 8, s, off⟩
        ⟨A, R, fa, e, er⟩).fop =
      { fop with document := some (
        { pixelFormat := IMAGE_INDEXED, width := sprite.width, height := sprite.height,
          ncolors := 256, totalFrames := 1,
          palette := fun _ => icoPaletteBack (sprite.palette 0),
          layers := [⟨[⟨0, icoImageBack (icoRendered layer_render sprite 0)⟩]⟩] } : Sprite) } := by
  rw [icoLoadEntry_encoded fop _ A R fa e er layer_render sprite hf 0 tl rfl rfl hd]
  refine ⟨rfl, ?_⟩
  have hw1 : sprite.width % 256 = sprite.width := Nat.mod_eq_of_lt (by omega)
  have hh1 : sprite.height % 256 = sprite.height := Nat.mod_eq_of_lt (by omega)
  have hw0 : ¬ sprite.width = 0 := by omega
  have hh0 : ¬ sprite.height = 0 := by omega
  simp only [hw1, hh1, if_neg hw0, if_neg hh0]
  have hsf : (icoRendered layer_render sprite 0).format = IMAGE_INDEXED := hf
  have hx := icoXorRows_mk (icoRendered layer_render sprite 0) hsf A
    (icoWriteAndRows (icoRendered layer_render sprite 0) sprite.height [] ++ tl) fa false er
    sprite.height
    (image_clear (Image.create IMAGE_INDEXED sprite.width sprite.height) 0)
    (le_refl _) (by simp [image_clear, Image.create, icoRendered])
    (by simp [image_clear, Image.create, icoRendered])
  rw [hx]
  simp only []
  have hy := icoAndRows_mk (icoRendered layer_render sprite 0)
    (icoImageBack (icoRendered layer_render sprite 0)) hsf rfl rfl
    (by
      intro x1 y1 h1 h2
      simp only [icoImageBack]
      rw [if_pos ⟨h2, h1⟩])
    A tl fa false er sprite.height
  have himg : ({ image_clear
        (Image.create IMAGE_INDEXED sprite.width sprite.height) 0 with
      pix := fun x1 y1 =>
        if y1 < sprite.height ∧ x1 < (icoRendered layer_render sprite 0).w
          then image_getpixel_fast (icoRendered layer_render sprite 0) x1 y1
          else (image_clear
            (Image.create IMAGE_INDEXED sprite.width sprite.height) 0).pix
              x1 y1 } : Image) =
      icoImageBack (icoRendered layer_render sprite 0) := by
    simp only [icoImageBack, image_clear, Image.create, icoRendered, Int.toNat_ofNat]
  rw [himg, hy]

/-- Encoding an indexed sprite of at most 255 by 255 pixels and 1 to 65535
frames, then decoding: the sprite that comes back. -/
theorem icoReload_indexed (layer_render : Sprite → Nat → Nat → Nat → Nat) (src dst : FileOp)
    (sprite : Sprite) (hf : sprite.pixelFormat = IMAGE_INDEXED)
    (hn : 1 ≤ sprite.totalFrames ∧ sprite.totalFrames ≤ 65535)
    (hw : 1 ≤ sprite.width ∧ sprite.width ≤ 255) (hh : 1 ≤ sprite.height ∧ sprite.height ≤ 255) :
    (icoReload layer_render src dst sprite).ok = true ∧
    (icoReload layer_render src dst sprite).fop =
      { dst with document := some (
        { pixelFormat := IMAGE_INDEXED, width := sprite.width, height := sprite.height,
          ncolors := 256, totalFrames := 1,
          palette := fun _ => icoPaletteBack (sprite.palette 0),
          layers := [⟨[⟨0, icoImageBack (icoRendered layer_render sprite 0)⟩]⟩] } : Sprite) } := by
  obtain ⟨A, R, fa, e, er, tl, h1, h2⟩ := icoReload_entry layer_render src dst sprite hf hn
  rw [h1]
  exact icoLoadEntry_indexed dst A R fa e er layer_render sprite hf tl _ _ hw hh h2

/-- Encoding an indexed sprite of 1 to 65535 frames and any size, then
decoding: the palette that comes back. -/
theorem icoReload_palette (layer_render : Sprite → Nat → Nat → Nat → Nat) (src dst : FileOp)
    (sprite : Sprite) (hf : sprite.pixelFormat = IMAGE_INDEXED)
    (hn : 1 ≤ sprite.totalFrames ∧ sprite.totalFrames ≤ 65535) :
    (icoReload layer_render src dst sprite).ok = true ∧
    ∃ doc, (icoReload layer_render src dst sprite).fop.document = some doc ∧
      doc.pixelFormat = IMAGE_INDEXED ∧ doc.ncolors = 256 ∧
      doc.palette = fun _ => icoPaletteBack (sprite.palette 0) := by
  obtain ⟨A, R, fa, e, er, tl, h1, h2⟩ := icoReload_entry layer_render src dst sprite hf hn
  rw [h1, icoLoadEntry_encoded dst _ A R fa e er layer_render sprite hf 0 tl rfl rfl h2]
  exact ⟨rfl, _, rfl, rfl, rfl, rfl⟩

/-! ## C4: ICO round trip of an indexed sprite -/

/-- C4. For every single-frame indexed sprite with `1 ≤ width ≤ 255` and
`1 ≤ height ≤ 255`, whatever its palette and whatever the compositor draws,
decoding exactly the bytes that `IcoFormat::onSave` wrote succeeds and builds
an indexed sprite of the same width and height with one frame, whose only cel
holds an indexed image of the same width and height; every bounds-checked
read of that image gives what the same read of the composited source frame
gives, so every pixel index is the source index. -/
theorem ico_indexed_round_trip (layer_render : Sprite → Nat → Nat → Nat → Nat)
    (src dst : FileOp) (sprite : Sprite)
    (hfmt : sprite.pixelFormat = IMAGE_INDEXED) (hframes : sprite.totalFrames = 1)
    (hw : 1 ≤ sprite.width ∧ sprite.width ≤ 255)
    (hh : 1 ≤ sprite.height ∧ sprite.height ≤ 255) :
    (icoReload layer_render src dst sprite).ok = true ∧
    ∃ doc image, (icoReload layer_render src dst sprite).fop.document = some doc ∧
      doc.pixelFormat = IMAGE_INDEXED ∧ doc.width = sprite.width ∧
      doc.height = sprite.height ∧ doc.totalFrames = 1 ∧
      doc.layers = [⟨[⟨0, image⟩]⟩] ∧
      image.format = IMAGE_INDEXED ∧ image.w = sprite.width ∧ image.h = sprite.height ∧
      ∀ x y, image_getpixel image x y =
        image_getpixel (icoRendered layer_render sprite 0) x y := by
  obtain ⟨h1, h2⟩ := icoReload_indexed layer_render src dst sprite hfmt
    (by omega) hw hh
  refine ⟨h1,
    { pixelFormat := IMAGE_INDEXED, width := sprite.width, height := sprite.height,
      ncolors := 256, totalFrames := 1,
      palette := fun _ => icoPaletteBack (sprite.palette 0),
      layers := [⟨[⟨0, icoImageBack (icoRendered layer_render sprite 0)⟩]⟩] },
    icoImageBack (icoRendered layer_render sprite 0), by rw [h2], rfl, rfl, rfl,
    rfl, rfl, rfl, rfl, rfl, ?_⟩
  intro x y
  have hsf : (icoRendered layer_render sprite 0).format = IMAGE_INDEXED := hfmt
  simp only [image_getpixel, icoImageBack]
  by_cases c : x < (icoRendered layer_render sprite 0).w ∧
      y < (icoRendered layer_render sprite 0).h
  · rw [if_pos c, if_pos c]
    simp only [image_getpixel_fast, if_pos (And.intro c.2 c.1), hsf, pixelBits, Nat.mod_mod]
  · rw [if_neg c, if_neg c]

/-- Witness for C4: the 3 by 2 sprite with one frame. -/
theorem ico_indexed_round_trip_witness :
    (icoReload icoPlain FileOp.blank FileOp.blank (icoSmall 1)).ok = true ∧
    ∃ doc image,
      (icoReload icoPlain FileOp.blank FileOp.blank (icoSmall 1)).fop.document = some doc ∧
      doc.pixelFormat = IMAGE_INDEXED ∧ doc.width = (icoSmall 1).width ∧
      doc.height = (icoSmall 1).height ∧ doc.totalFrames = 1 ∧
      doc.layers = [⟨[⟨0, image⟩]⟩] ∧
      image.format = IMAGE_INDEXED ∧ image.w = (icoSmall 1).width ∧
      image.h = (icoSmall 1).height ∧
      ∀ x y, image_getpixel image x y =
        image_getpixel (icoRendered icoPlain (icoSmall 1) 0) x y :=
  ico_indexed_round_trip icoPlain FileOp.blank FileOp.blank (icoSmall 1) rfl rfl
    (by decide) (by decide)

/-! ## C5: the ICO palette section -/

theorem flatMap_quad (f : Nat → List Nat) (hlen : ∀ a, (f a).length = 4) (l : List Nat)
    (i : Nat) (hi : i < l.length) :
    ((l.flatMap f).drop (4 * i)).take 4 = f (l.get ⟨i, hi⟩) := by
  induction l generalizing i with
  | nil => simp at hi
  | cons a l ih =>
    rw [List.flatMap_cons]
    cases i with
    | zero =>
      simp only [Nat.mul_zero, List.drop_zero, List.get_eq_getElem, List.getElem_cons_zero]
      rw [List.take_append_of_le_length (by rw [hlen]), List.take_of_length_le (by rw [hlen])]
    | succ i =>
      have h4 : 4 * (i + 1) = (f a).length + 4 * i := by rw [hlen]; omega
      rw [h4, List.drop_append]
      exact ih i (by simpa using hi)

/-- Quad `i` of the palette section. -/
theorem icoQuads_quad (pal : Palette) (i : Nat) (hi : i < 256) :
    ((icoQuads pal).drop (4 * i)).take 4 =
      if i = 0 then [0, 0, 0, 0]
      else [_rgba_getb (pal.getEntry i), _rgba_getg (pal.getEntry i),
        _rgba_getr (pal.getEntry i), 0] := by
  unfold icoQuads
  rw [flatMap_quad _ (by intro a; split_ifs <;> rfl) (List.range 256) i (by simpa using hi)]
  simp

/-- The first record of the file starts right after the directory and the
entries. -/
theorem icoOnSave_first_record (layer_render : Sprite → Nat → Nat → Nat → Nat) (fop : FileOp)
    (sprite : Sprite) (hf : sprite.pixelFormat = IMAGE_INDEXED) (hn : 1 ≤ sprite.totalFrames) :
    ∃ tl, ((IcoFormat.onSave layer_render fop sprite).out.drop
        (6 + sprite.totalFrames * 16 + 40)) = icoQuads (sprite.palette 0) ++ tl := by
  obtain ⟨k, hk⟩ : ∃ k, sprite.totalFrames = k + 1 := ⟨sprite.totalFrames - 1, by omega⟩
  have hlen : (0 :: 0 :: 1 :: 0 :: toByte sprite.totalFrames ::
        toByte ((sprite.totalFrames : Int) / 256) ::
        icoWriteEntries sprite sprite.totalFrames (6 + sprite.totalFrames * 16) [] ++
        icoWriteBmpHeader 8 (icoSize 8 sprite.width sprite.height) sprite.width
          sprite.height []).length =
      6 + sprite.totalFrames * 16 + 40 := by
    simp only [List.length_cons, List.length_append, icoWriteEntries_length,
      icoWriteBmpHeader_length]
    omega
  refine ⟨icoWriteXorRows (icoRendered layer_render sprite 0) sprite.height [] ++
    icoWriteAndRows (icoRendered layer_render sprite 0) sprite.height [] ++
    icoWriteImages layer_render sprite k 1 [], ?_⟩
  have hout : (IcoFormat.onSave layer_render fop sprite).out =
      (0 :: 0 :: 1 :: 0 :: toByte sprite.totalFrames ::
        toByte ((sprite.totalFrames : Int) / 256) ::
        icoWriteEntries sprite sprite.totalFrames (6 + sprite.totalFrames * 16) [] ++
        icoWriteBmpHeader 8 (icoSize 8 sprite.width sprite.height) sprite.width
          sprite.height []) ++
      (icoQuads (sprite.palette 0) ++
        (icoWriteXorRows (icoRendered layer_render sprite 0) sprite.height [] ++
        icoWriteAndRows (icoRendered layer_render sprite 0) sprite.height [] ++
        icoWriteImages layer_render sprite k 1 [])) := by
    rw [icoOnSave_out]
    conv_lhs => rw [hk, icoWriteImages_succ, icoWriteImage_indexed layer_render sprite hf, ← hk]
    simp only [List.append_assoc, List.cons_append, List.nil_append]
  rw [hout]
  exact List.drop_left' hlen

theorem icoPaletteBack_entries (pal : Palette) :
    (icoPaletteBack pal).size = 256 ∧
    (icoPaletteBack pal).getEntry 0 = _rgba 0 0 0 255 ∧
    ∀ i, 1 ≤ i → i ≤ 255 →
      _rgba_getr ((icoPaletteBack pal).getEntry i) = _rgba_getr (pal.getEntry i) ∧
      _rgba_getg ((icoPaletteBack pal).getEntry i) = _rgba_getg (pal.getEntry i) ∧
      _rgba_getb ((icoPaletteBack pal).getEntry i) = _rgba_getb (pal.getEntry i) ∧
      _rgba_geta ((icoPaletteBack pal).getEntry i) = 255 := by
  refine ⟨rfl, rfl, ?_⟩
  intro i h1 h2
  obtain ⟨hr, hg, hb, _⟩ := rgba_get_lt (pal.getEntry i)
  have e := rgba_channels _ _ _ 255 hr hg hb (by decide)
  simp only [Nat.cast_ofNat] at e
  have hc : (icoPaletteBack pal).getEntry i =
      _rgba (_rgba_getr (pal.getEntry i)) (_rgba_getg (pal.getEntry i))
        (_rgba_getb (pal.getEntry i)) 255 := by
    simp only [icoPaletteBack, Palette.getEntry]
    rw [if_pos (by omega)]
  rw [hc]
  exact e

/-- C5, with the frame count that the directory can hold.  For every indexed
sprite with 1 to 65535 frames, of any size and with any palette: the record
that `IcoFormat::onSave` writes for frame `n` is the 40-byte header, then
exactly the 256 four-byte quads of the palette of frame `n`, then the XOR and
the AND mask; quad 0 is (0, 0, 0, 0) whatever palette entry 0 is and quad `i`
(1 ≤ i ≤ 255) is blue, green, red, 0 of entry `i`; in the file the quads of
frame 0 start at offset `6 + 16 * frames + 40`.  Decoding that file succeeds
and gives a sprite with 256 colours whose palette has entry 0 opaque black and
entries 1 to 255 with the red, green and blue of the palette of frame 0, all
opaque. -/
theorem ico_palette_fidelity (layer_render : Sprite → Nat → Nat → Nat → Nat)
    (src dst : FileOp) (sprite : Sprite)
    (hfmt : sprite.pixelFormat = IMAGE_INDEXED)
    (hframes : 1 ≤ sprite.totalFrames ∧ sprite.totalFrames ≤ 65535) :
    (∀ n out, icoWriteImage layer_render sprite n out = out ++
      (icoWriteBmpHeader 8 (icoSize 8 sprite.width sprite.height) sprite.width sprite.height []
        ++ (icoQuads (sprite.palette n)
        ++ (icoWriteXorRows (icoRendered layer_render sprite n) sprite.height []
        ++ icoWriteAndRows (icoRendered layer_render sprite n) sprite.height [])))) ∧
    (icoWriteBmpHeader 8 (icoSize 8 sprite.width sprite.height) sprite.width
      sprite.height []).length = 40 ∧
    (∀ n, (icoQuads (sprite.palette n)).length = 4 * 256 ∧
      ((icoQuads (sprite.palette n)).drop (4 * 0)).take 4 = [0, 0, 0, 0] ∧
      ∀ i, 1 ≤ i → i ≤ 255 →
        ((icoQuads (sprite.palette n)).drop (4 * i)).take 4 =
          [_rgba_getb ((sprite.palette n).getEntry i), _rgba_getg ((sprite.palette n).getEntry i),
            _rgba_getr ((sprite.palette n).getEntry i), 0]) ∧
    (∃ tl, (IcoFormat.onSave layer_render src sprite).out.drop
        (6 + sprite.totalFrames * 16 + 40) = icoQuads (sprite.palette 0) ++ tl) ∧
    (icoReload layer_render src dst sprite).ok = true ∧
    ∃ doc, (icoReload layer_render src dst sprite).fop.document = some doc ∧
      doc.ncolors = 256 ∧
      ∀ frame, (doc.palette frame).size = 256 ∧
        (doc.palette frame).getEntry 0 = _rgba 0 0 0 255 ∧
        ∀ i, 1 ≤ i → i ≤ 255 →
          _rgba_getr ((doc.palette frame).getEntry i) =
            _rgba_getr ((sprite.palette 0).getEntry i) ∧
          _rgba_getg ((doc.palette frame).getEntry i) =
            _rgba_getg ((sprite.palette 0).getEntry i) ∧
          _rgba_getb ((doc.palette frame).getEntry i) =
            _rgba_getb ((sprite.palette 0).getEntry i) ∧
          _rgba_geta ((doc.palette frame).getEntry i) = 255 := by
  obtain ⟨hok, doc, hdoc, _, hnc, hpal⟩ :=
    icoReload_palette layer_render src dst sprite hfmt hframes
  refine ⟨fun n out => icoWriteImage_indexed layer_render sprite hfmt n out,
    icoWriteBmpHeader_length _ _ _ _, ?_,
    icoOnSave_first_record layer_render src sprite hfmt hframes.1, hok, doc, hdoc, hnc, ?_⟩
  · intro n
    refine ⟨icoQuads_length _, ?_, ?_⟩
    · rw [icoQuads_quad _ 0 (by decide), if_pos rfl]
    · intro i h1 h2
      rw [icoQuads_quad _ i (by omega), if_neg (by omega)]
  · intro frame
    rw [hpal]
    exact icoPaletteBack_entries (sprite.palette 0)

/-- Witness for C5: the 3 by 2 sprite with two frames and the ramp palette. -/
theorem ico_palette_fidelity_witness :
    (icoSmall 2).pixelFormat = IMAGE_INDEXED ∧
    (1 ≤ (icoSmall 2).totalFrames ∧ (icoSmall 2).totalFrames ≤ 65535) ∧
    (icoReload icoPlain FileOp.blank FileOp.blank (icoSmall 2)).ok = true ∧
    ∃ doc, (icoReload icoPlain FileOp.blank FileOp.blank (icoSmall 2)).fop.document = some doc ∧
      doc.ncolors = 256 ∧
      ∀ frame, (doc.palette frame).size = 256 ∧
        (doc.palette frame).getEntry 0 = _rgba 0 0 0 255 ∧
        ∀ i, 1 ≤ i → i ≤ 255 →
          _rgba_getr ((doc.palette frame).getEntry i) =
            _rgba_getr (((icoSmall 2).palette 0).getEntry i) ∧
          _rgba_getg ((doc.palette frame).getEntry i) =
            _rgba_getg (((icoSmall 2).palette 0).getEntry i) ∧
          _rgba_getb ((doc.palette frame).getEntry i) =
            _rgba_getb (((icoSmall 2).palette 0).getEntry i) ∧
          _rgba_geta ((doc.palette frame).getEntry i) = 255 :=
  ⟨rfl, by decide,
    (ico_palette_fidelity icoPlain FileOp.blank FileOp.blank (icoSmall 2) rfl
      (by decide)).2.2.2.2⟩

theorem icoOnLoad_no_images (fop : FileOp) (A tl : List Nat) :
    IcoFormat.onLoad fop ⟨A, 0 :: 0 :: 1 :: 0 :: 0 :: 0 :: tl, false, false, false⟩ =
      { ok := false, fop := fop_error fop "This ICO files does not contain images.\n",
        f := ⟨A, tl, false, false, false⟩ } := by
  have h1 : toU16 (((0 % 256 : Nat) : Int) * 256 + ((1 % 256 : Nat) : Int)) = 1 := rfl
  have h0 : toU16 (((0 % 256 : Nat) : Int) * 256 + ((0 % 256 : Nat) : Int)) = 0 := rfl
  simp only [IcoFormat.onLoad, icoReadHeader, fgetw_mk, h0, h1]
  rw [if_neg (by simp), if_pos (by decide)]

/-- C5 as stated fails: it speaks of every indexed sprite, but for the indexed
sprite with 65536 frames the 16-bit count field of the directory is written as
0, so decoding the encoder's output is refused and no palette comes back. -/
theorem ico_palette_lost_on_65536_frames :
    (icoSmall 65536).pixelFormat = IMAGE_INDEXED ∧
    (icoReload icoPlain FileOp.blank FileOp.blank (icoSmall 65536)).ok = false ∧
    (icoReload icoPlain FileOp.blank FileOp.blank (icoSmall 65536)).fop.document = none ∧
    (icoReload icoPlain FileOp.blank FileOp.blank (icoSmall 65536)).fop.errors =
      ["This ICO files does not contain images.\n"] := by
  have h : icoReload icoPlain FileOp.blank FileOp.blank (icoSmall 65536) =
      { ok := false,
        fop := fop_error FileOp.blank "This ICO files does not contain images.\n",
        f := ⟨(IcoFormat.onSave icoPlain FileOp.blank (icoSmall 65536)).out,
          icoWriteEntries (icoSmall 65536) (icoSmall 65536).totalFrames
            (6 + (icoSmall 65536).totalFrames * 16) [] ++
          icoWriteImages icoPlain (icoSmall 65536) (icoSmall 65536).totalFrames 0 [],
          false, false, false⟩ } := by
    unfold icoReload File.open
    have hA := icoOnSave_out icoPlain FileOp.blank (icoSmall 65536)
    have ha : toByte ((icoSmall 65536).totalFrames : Int) = 0 := rfl
    have hb : toByte (((icoSmall 65536).totalFrames : Int) / 256) = 0 := rfl
    rw [ha, hb] at hA
    generalize (IcoFormat.onSave icoPlain FileOp.blank (icoSmall 65536)).out = A at hA ⊢
    conv_lhs => arg 2; arg 2; rw [hA]
    exact icoOnLoad_no_images _ _ _
  rw [h]
  exact ⟨rfl, rfl, rfl, rfl⟩

/-! ## ICO scanlines: the decoder consumes what the encoder writes -/

theorem image_putpixel_w (image : Image) (x y c : Nat) : (image_putpixel image x y c).w = image.w := by
  unfold image_putpixel
  split_ifs <;> rfl

theorem icoXorPixels_w (bpp numcolors y n x : Nat) (f : File) (image : Image) :
    (icoXorPixels bpp numcolors y n x f image).2.w = image.w := by
  induction n generalizing x f image with
  | zero => rfl
  | succ n ih =>
    simp only [icoXorPixels]
    split_ifs <;> simp only [ih, image_putpixel_w]

theorem icoXorRows_w (bpp numcolors n : Nat) (f : File) (image : Image) :
    (icoXorRows bpp numcolors n f image).2.w = image.w := by
  induction n generalizing f image with
  | zero => rfl
  | succ n ih => simp only [icoXorRows, ih, icoXorPixels_w]

theorem icoAndBits_w (m : Int) (x y n b v : Nat) (image : Image) :
    (icoAndBits m x y n b v image).w = image.w := by
  induction n generalizing b v image with
  | zero => rfl
  | succ n ih =>
    simp only [icoAndBits, ih]
    split_ifs
    · exact image_putpixel_w _ _ _ _
    · rfl

theorem icoAndBytes_w (y n x : Nat) (f : File) (image : Image) :
    (icoAndBytes y n x f image).2.w = image.w := by
  induction n generalizing x f image with
  | zero => rfl
  | succ n ih => simp only [icoAndBytes, ih, icoAndBits_w]

/-- The decoder's loop over the pixels of an XOR scanline stops where the
encoder's loop stopped writing: one byte per pixel at 8 bits, three at 24. -/
theorem icoXorPixels_rest (src : Image) (numcolors y : Nat) (A tl : List Nat) (fa e er : Bool)
    (n x : Nat) (img : Image) :
    (icoXorPixels (if src.format = IMAGE_INDEXED then 8 else 24) numcolors y n x
        ⟨A, icoWriteXorPixels src y n x [] ++ tl, fa, e, er⟩ img).1 = ⟨A, tl, fa, e, er⟩ := by
  induction n generalizing x img with
  | zero => rfl
  | succ n ih =>
    simp only [icoWriteXorPixels]
    rw [icoWriteXorPixels_append]
    cases hf : src.format
    · simp only [reduceCtorEq, if_false, icoXorPixels, show ¬ (24 = 8) by decide,
        fputc_eq, List.nil_append, List.cons_append, List.append_assoc, fgetc_mk]
      have := ih (x + 1)
      simp only [hf, reduceCtorEq, if_false] at this
      exact this _
    · simp only [reduceCtorEq, if_false, icoXorPixels, show ¬ (24 = 8) by decide,
        fputc_eq, List.nil_append, List.cons_append, List.append_assoc, fgetc_mk]
      have := ih (x + 1)
      simp only [hf, reduceCtorEq, if_false] at this
      exact this _
    · simp only [if_true, icoXorPixels, fputc_eq, List.nil_append, List.cons_append,
        List.append_assoc, fgetc_mk]
      have := ih (x + 1)
      simp only [hf, if_true] at this
      exact this _

/-- The decoder reads an encoded XOR mask to its end, row after row. -/
theorem icoXorRows_rest (src : Image) (numcolors : Nat) (A tl : List Nat) (fa e er : Bool)
    (n : Nat) (img : Image) (hw : img.w = src.w) :
    (icoXorRows (if src.format = IMAGE_INDEXED then 8 else 24) numcolors n
        ⟨A, icoWriteXorRows src n [] ++ tl, fa, e, er⟩ img).1 = ⟨A, tl, fa, e, er⟩ := by
  induction n generalizing img with
  | zero => rfl
  | succ n ih =>
    simp only [icoXorRows, icoWriteXorRows]
    rw [icoWriteXorRows_append, icoWritePad_append, List.append_assoc, List.append_assoc]
    have h1 := icoXorPixels_rest src numcolors n A
      (icoWritePad 3 src.w [] ++ (icoWriteXorRows src n [] ++ tl)) fa e er src.w 0 img
    rw [hw, h1, icoSkipPad_mk]
    apply ih
    rw [icoXorPixels_w, hw]

theorem icoAndBytes_rest (src : Image) (y : Nat) (A tl : List Nat) (fa e er : Bool)
    (n x : Nat) (img : Image) :
    (icoAndBytes y n x ⟨A, icoWriteAndBytes src y n x [] ++ tl, fa, e, er⟩ img).1 =
      ⟨A, tl, fa, e, er⟩ := by
  induction n generalizing x img with
  | zero => rfl
  | succ n ih =>
    simp only [icoAndBytes, icoWriteAndBytes]
    rw [icoWriteAndBytes_append]
    simp only [fputc_eq, List.nil_append, List.cons_append, fgetc_mk]
    exact ih _ _

/-- The decoder reads an encoded AND mask to its end, row after row. -/
theorem icoAndRows_rest (src : Image) (A tl : List Nat) (fa e er : Bool)
    (n : Nat) (img : Image) (hw : img.w = src.w) :
    (icoAndRows n ⟨A, icoWriteAndRows src n [] ++ tl, fa, e, er⟩ img).1 =
      ⟨A, tl, fa, e, er⟩ := by
  induction n generalizing img with
  | zero => rfl
  | succ n ih =>
    simp only [icoAndRows, icoWriteAndRows]
    rw [icoWriteAndRows_append, icoWritePad_append, List.append_assoc, List.append_assoc]
    have h1 := icoAndBytes_rest src n A
      (icoWritePad 3 ((src.w + 7) / 8) [] ++ (icoWriteAndRows src n [] ++ tl)) fa e er
      ((src.w + 7) / 8) 0 img
    rw [hw, h1, icoSkipPad_mk]
    apply ih
    rw [icoAndBytes_w, hw]

theorem and_three (x : Nat) : x &&& 3 = x % 4 := Nat.and_pow_two_sub_one_eq_mod x 2

/-- The pad loop brings the counter to the next multiple of 4. -/
theorem icoWritePad_length (x : Nat) : (icoWritePad 3 x []).length = (4 - x % 4) % 4 := by
  have h1 := and_three x
  have h2 := and_three (x + 1)
  have h3 := and_three (x + 1 + 1)
  simp only [icoWritePad, h1, h2, h3, fputc_eq]
  split_ifs <;> simp <;> omega

theorem icoWriteXorPixels_length (src : Image) (y n x : Nat) :
    (icoWriteXorPixels src y n x []).length =
      (if src.format = IMAGE_INDEXED then 1 else 3) * n := by
  induction n generalizing x with
  | zero => simp [icoWriteXorPixels]
  | succ n ih =>
    simp only [icoWriteXorPixels]
    rw [icoWriteXorPixels_append, List.length_append, ih]
    cases src.format <;> simp [fputc_eq] <;> omega

/-- The bytes of one XOR scanline: the pixel bytes and the pad bytes, which
are counted on the pixel counter. -/
theorem icoXorLine_length (src : Image) (y : Nat) :
    (icoWritePad 3 src.w (icoWriteXorPixels src y src.w 0 [])).length =
      (if src.format = IMAGE_INDEXED then 1 else 3) * src.w + (4 - src.w % 4) % 4 := by
  rw [icoWritePad_append, List.length_append, icoWritePad_length, icoWriteXorPixels_length]

theorem icoWriteAndBytes_length (src : Image) (y n x : Nat) :
    (icoWriteAndBytes src y n x []).length = n := by
  induction n generalizing x with
  | zero => simp [icoWriteAndBytes]
  | succ n ih =>
    simp only [icoWriteAndBytes]
    rw [icoWriteAndBytes_append, List.length_append, ih]
    simp [fputc_eq]
    omega

/-! ## C11: the padding of ICO scanlines is read as it is written -/

/-- C12 at the RGB sprite of one pixel and one frame.  The directory entry
announces 48 bytes at offset 22 (one colour row of 4 bytes, one mask row of 4
bytes, the 40-byte header), and the record of the frame does start at offset
22, but the encoder writes 50 bytes for it: the XOR scanline has 6 bytes,
because the pad loop counts pixels, not bytes.  The file has 72 bytes, not
the 70 that offset and size announce. -/
theorem ico_rgb_entry_size_differs_from_bytes_written :
    (icoReadEntry ⟨[], (IcoFormat.onSave icoInk FileOp.blank icoRgbDot).out.drop 6,
      false, false, false⟩).1.image_size = 48 ∧
    (icoReadEntry ⟨[], (IcoFormat.onSave icoInk FileOp.blank icoRgbDot).out.drop 6,
      false, false, false⟩).1.image_offset = 22 ∧
    (IcoFormat.onSave icoInk FileOp.blank icoRgbDot).out.drop 22 =
      icoWriteImage icoInk icoRgbDot 0 [] ∧
    (icoWriteImage icoInk icoRgbDot 0 []).length = 50 ∧
    (IcoFormat.onSave icoInk FileOp.blank icoRgbDot).out.length = 72 := by
  decide

/-- C13, what the code does.  An XOR scanline of an image of width `w` has
`w` pixel bytes (indexed) or `3 * w` pixel bytes (RGB, grayscale), followed
by as many zero bytes as bring the pixel counter `w` to a multiple of 4.  For
the RGB image of one pixel that is 3 + 3 = 6 bytes, which is not a multiple of
4 and is not the colour-row-bytes value 4 of the size computation. -/
theorem ico_rgb_xor_scanline_is_not_aligned :
    (∀ (src : Image) (y : Nat),
      (icoWritePad 3 src.w (icoWriteXorPixels src y src.w 0 [])).length =
        (if src.format = IMAGE_INDEXED then 1 else 3) * src.w + (4 - src.w % 4) % 4) ∧
    icoWritePad 3 (icoRendered icoInk icoRgbDot 0).w
      (icoWriteXorPixels (icoRendered icoInk icoRgbDot 0) 0
        (icoRendered icoInk icoRgbDot 0).w 0 []) = [3, 2, 1, 0, 0, 0] ∧
    icoWriteXorRows (icoRendered icoInk icoRgbDot 0) 1 [] = [3, 2, 1, 0, 0, 0] ∧
    ([3, 2, 1, 0, 0, 0] : List Nat).length % 4 = 2 ∧
    ((icoRgbDot.width * icoBpp icoRgbDot / 8 + 3) / 4) * 4 = 4 := by
  refine ⟨fun src y => icoXorLine_length src y, ?_, ?_, ?_, ?_⟩ <;> decide

/-! ## C14: width and height bytes of the directory entry -/

theorem icoLoadEntry_dims (fop : FileOp) (entry : ICONDIRENTRY) (f : File) :
    (icoLoadEntry fop entry f).ok = true ∧
    ∃ doc, (icoLoadEntry fop entry f).fop.document = some doc ∧
      doc.width = (if entry.width = 0 then 256 else entry.width) ∧
      doc.height = (if entry.height = 0 then 256 else entry.height) ∧
      doc.pixelFormat = (if entry.bpp > 8 then IMAGE_RGB else IMAGE_INDEXED) :=
  ⟨rfl, _, rfl, rfl, rfl, rfl⟩

/-- The width and height that the decoder reads from the first encoded
directory entry, whatever the pixel format. -/
theorem icoReadEntry_dims (sprite : Sprite) (k offset : Nat) (A more : List Nat)
    (fa e er : Bool) :
    (icoReadEntry ⟨A, icoWriteEntries sprite (k + 1) offset [] ++ more, fa, e, er⟩).1.width =
      sprite.width % 256 ∧
    (icoReadEntry ⟨A, icoWriteEntries sprite (k + 1) offset [] ++ more, fa, e, er⟩).1.height =
      sprite.height % 256 := by
  rw [icoWriteEntries_succ]
  simp only [icoReadEntry, List.cons_append, fgetc_mk, fgetw_mk, fgetl_mk]
  constructor <;> rw [toByte_natCast, toByte_natCast, Nat.mod_mod, Nat.mod_mod]

/-- Encoding a sprite of 1 to 65535 frames and decoding the bytes: the
decoder builds the sprite from the first directory entry. -/
theorem icoReload_first (layer_render : Sprite → Nat → Nat → Nat → Nat) (src dst : FileOp)
    (sprite : Sprite) (hn : 1 ≤ sprite.totalFrames ∧ sprite.totalFrames ≤ 65535) :
    ∃ (k offset : Nat) (A more : List Nat) (g : File),
      icoReload layer_render src dst sprite =
        icoLoadEntry dst
          (icoReadEntry ⟨A, icoWriteEntries sprite (k + 1) offset [] ++ more,
            false, false, false⟩).1 g := by
  obtain ⟨k, hk⟩ : ∃ k, sprite.totalFrames = k + 1 := ⟨sprite.totalFrames - 1, by omega⟩
  have hA := icoOnSave_out layer_render src sprite
  have hrun : icoReload layer_render src dst sprite =
      icoLoadImage dst ⟨0, 1, sprite.totalFrames⟩
        ⟨(IcoFormat.onSave layer_render src sprite).out,
          icoWriteEntries sprite sprite.totalFrames (6 + sprite.totalFrames * 16) [] ++
            icoWriteImages layer_render sprite sprite.totalFrames 0 [], false, false, false⟩ := by
    unfold icoReload File.open
    generalize (IcoFormat.onSave layer_render src sprite).out = A at hA ⊢
    conv_lhs => arg 2; arg 2; rw [hA]
    exact icoOnLoad_dir dst A _ _ hn
  refine ⟨k, 6 + sprite.totalFrames * 16, (IcoFormat.onSave layer_render src sprite).out,
    icoWriteImages layer_render sprite sprite.totalFrames 0 [],
    (icoReadEntries sprite.totalFrames
      ⟨(IcoFormat.onSave layer_render src sprite).out,
        icoWriteEntries sprite sprite.totalFrames (6 + sprite.totalFrames * 16) [] ++
          icoWriteImages layer_render sprite sprite.totalFrames 0 [], false, false, false⟩).2, ?_⟩
  rw [hrun]
  simp only [icoLoadImage]
  rw [icoReadEntries_head _ _ _ hn.1]
  rw [hk]

theorem icoReload_dims (layer_render : Sprite → Nat → Nat → Nat → Nat) (src dst : FileOp)
    (sprite : Sprite) (hn : 1 ≤ sprite.totalFrames ∧ sprite.totalFrames ≤ 65535) :
    (icoReload layer_render src dst sprite).ok = true ∧
    ∃ doc, (icoReload layer_render src dst sprite).fop.document = some doc ∧
      doc.width = (if sprite.width % 256 = 0 then 256 else sprite.width % 256) ∧
      doc.height = (if sprite.height % 256 = 0 then 256 else sprite.height % 256) := by
  obtain ⟨k, offset, A, more, g, h⟩ := icoReload_first layer_render src dst sprite hn
  obtain ⟨hw, hh⟩ := icoReadEntry_dims sprite k offset A more false false false
  obtain ⟨h1, doc, h2, h3, h4, _⟩ := icoLoadEntry_dims dst
    (icoReadEntry ⟨A, icoWriteEntries sprite (k + 1) offset [] ++ more,
      false, false, false⟩).1 g
  rw [h]
  refine ⟨h1, doc, h2, ?_, ?_⟩
  · rw [h3, hw]
  · rw [h4, hh]

/-- C14 as stated fails: the indexed sprite of 256 by 1 pixels has a width of
at least 256, yet decoding its file gives the width 256 and the height 1,
since the width byte 0 is read as 256. -/
theorem ico_width_256_is_represented :
    256 ≤ (icoSized 256 1).width ∧
    ∃ doc, (icoReload icoPlain FileOp.blank FileOp.blank (icoSized 256 1)).fop.document
        = some doc ∧
      doc.width = (icoSized 256 1).width ∧ doc.height = (icoSized 256 1).height := by
  obtain ⟨_, doc, h2, h3, h4⟩ :=
    icoReload_dims icoPlain FileOp.blank FileOp.blank (icoSized 256 1) (by decide)
  exact ⟨by decide, doc, h2, h3, h4⟩

/-- C14, for a width or a height above 256.  For every sprite with 1 to
65535 frames whose width or height is greater than 256, decoding the file
that the encoder wrote succeeds and gives a sprite whose width is the low
byte of the source width and whose height is the low byte of the source
height, a byte 0 being read as 256; both are at most 256, so the width or the
height differs from the source's. -/
theorem ico_size_limit (layer_render : Sprite → Nat → Nat → Nat → Nat) (src dst : FileOp)
    (sprite : Sprite) (hframes : 1 ≤ sprite.totalFrames ∧ sprite.totalFrames ≤ 65535)
    (hbig : 256 < sprite.width ∨ 256 < sprite.height) :
    (icoReload layer_render src dst sprite).ok = true ∧
    ∃ doc, (icoReload layer_render src dst sprite).fop.document = some doc ∧
      doc.width = (if sprite.width % 256 = 0 then 256 else sprite.width % 256) ∧
      doc.height = (if sprite.height % 256 = 0 then 256 else sprite.height % 256) ∧
      doc.width ≤ 256 ∧ doc.height ≤ 256 ∧
      (doc.width ≠ sprite.width ∨ doc.height ≠ sprite.height) := by
  obtain ⟨h1, doc, h2, h3, h4⟩ := icoReload_dims layer_render src dst sprite hframes
  have hw : doc.width ≤ 256 := by rw [h3]; split_ifs <;> omega
  have hh : doc.height ≤ 256 := by rw [h4]; split_ifs <;> omega
  refine ⟨h1, doc, h2, h3, h4, hw, hh, ?_⟩
  rcases hbig with hb | hb
  · left; omega
  · right; omega

/-- Witness for C14: the indexed sprite of 300 by 2 pixels. -/
theorem ico_size_limit_witness :
    (icoReload icoPlain FileOp.blank FileOp.blank (icoSized 300 2)).ok = true ∧
    ∃ doc, (icoReload icoPlain FileOp.blank FileOp.blank (icoSized 300 2)).fop.document
        = some doc ∧
      doc.width = (if (icoSized 300 2).width % 256 = 0 then 256
        else (icoSized 300 2).width % 256) ∧
      doc.height = (if (icoSized 300 2).height % 256 = 0 then 256
        else (icoSized 300 2).height % 256) ∧
      doc.width ≤ 256 ∧ doc.height ≤ 256 ∧
      (doc.width ≠ (icoSized 300 2).width ∨ doc.height ≠ (icoSized 300 2).height) :=
  ico_size_limit icoPlain FileOp.blank FileOp.blank (icoSized 300 2) (by decide)
    (Or.inl (by decide))

/-! ## C15: a bit depth that the ICO decoder does not handle -/

/-- C15 at the stream `ico4bpp`, whose directory has type 1 and one entry
that declares 4 bits per pixel: the decoder returns success, reports no
message and builds a document (an indexed sprite of 1 by 1 pixel); and so it
does for every stream with type 1 and a count of at least 1, whatever the
first entry declares. -/
theorem ico_unsupported_depth_is_accepted :
    (icoReadHeader (File.open ico4bpp)).1.type = 1 ∧
    (icoReadHeader (File.open ico4bpp)).1.entries = 1 ∧
    (icoReadEntry (icoReadHeader (File.open ico4bpp)).2).1.bpp = 4 ∧
    (IcoFormat.onLoad FileOp.blank (File.open ico4bpp)).ok = true ∧
    (IcoFormat.onLoad FileOp.blank (File.open ico4bpp)).fop.errors = [] ∧
    (IcoFormat.onLoad FileOp.blank (File.open ico4bpp)).fop.document.isSome = true ∧
    (∀ (fop : FileOp) (f : File), (icoReadHeader f).1.type = 1 →
      1 ≤ (icoReadHeader f).1.entries →
      (IcoFormat.onLoad fop f).ok = true ∧
      (IcoFormat.onLoad fop f).fop.errors = fop.errors ∧
      (IcoFormat.onLoad fop f).fop.document.isSome = true) := by
  refine ⟨by decide, by decide, by decide, by decide, by decide, by decide, ?_⟩
  intro fop f h1 h2
  unfold IcoFormat.onLoad
  simp only []
  rw [if_neg (by simp [h1]), if_neg (by omega)]
  exact ⟨rfl, rfl, rfl⟩

/-! ## C19: how the PCX encoder writes a run -/

theorem pcxSpecItem_eq (k v : Nat) (hk : 1 ≤ k) : pcxSpecItem k v = pcxItemBytes (k, v) := by
  unfold pcxSpecItem pcxItemBytes
  by_cases h1 : k = 1 ∧ ¬ (v &&& 0xC0 = 0xC0)
  · rw [if_pos h1, if_neg]
    simp only []
    intro h
    rcases h with h | h
    · omega
    · exact h1.2 h
  · rw [if_neg h1, if_pos]
    simp only []
    by_cases h2 : v &&& 0xC0 = 0xC0
    · exact Or.inr h2
    · left
      have : ¬ k = 1 := fun hk1 => h1 ⟨hk1, h2⟩
      omega

/-- C19. Every flush of a pending run of length 1 to 63 writes the bare
literal byte if and only if the run length is 1 and the byte's top two bits
are not both set, and otherwise the control byte `0xC0 | runlength` followed
by the literal byte.  The bytes of every scanline of at least one sample are
the concatenation of such items, one per run, each run having a length from
1 to 63; so a byte that stands alone for a run never has both of its top two
bits set. -/
theorem pcx_rle_literal_rule (image : Image) (y ch : Nat) (out : List Nat)
    (hn : 1 ≤ image.w * pcxPlanes image) :
    (∀ (runcount runchar : Nat) (o : List Nat), 1 ≤ runcount → runcount ≤ 63 →
      runchar < 256 →
      pcxFlush runcount runchar o = o ++ pcxSpecItem runcount runchar ∧
      (pcxFlush runcount runchar o = o ++ [runchar] ↔
        (runcount = 1 ∧ ¬ (runchar &&& 0xC0 = 0xC0))) ∧
      (¬ (runcount = 1 ∧ ¬ (runchar &&& 0xC0 = 0xC0)) →
        pcxFlush runcount runchar o = o ++ [0xC0 ||| runcount, runchar])) ∧
    ∃ runs : List (Nat × Nat),
      (pcxSaveLine image (pcxDepth image) (pcxPlanes image) y ch out).out =
        out ++ runs.flatMap (fun r => pcxSpecItem r.1 r.2) ∧
      pcxExpand runs = pcxLineSamples image y ∧
      ∀ r ∈ runs, 1 ≤ r.1 ∧ r.1 ≤ 63 ∧ r.2 < 256 ∧
        ∀ b, pcxSpecItem r.1 r.2 = [b] → b = r.2 ∧ r.1 = 1 ∧ ¬ (b &&& 0xC0 = 0xC0) := by
  constructor
  · intro rc rchar o h1 h2 h3
    have hfl : pcxFlush rc rchar o = o ++ pcxSpecItem rc rchar := by
      rw [pcxFlush_eq rc rchar o h2 h3, pcxSpecItem_eq rc rchar h1]
    refine ⟨hfl, ?_, ?_⟩
    · rw [hfl]
      unfold pcxSpecItem
      constructor
      · intro h
        by_contra hc
        rw [if_neg hc] at h
        have := congrArg List.length h
        simp at this
      · intro h
        rw [if_pos h]
    · intro h
      rw [hfl]
      unfold pcxSpecItem
      rw [if_neg h]
  · have hb : ∀ r ∈ pcxRuns 0 0 (pcxLineSamples image y), 1 ≤ r.1 ∧ r.1 ≤ 63 ∧ r.2 < 256 := by
      apply pcxRuns_bounds _ _ _ (by omega) (by omega) (pcxLineSamples_lt image y)
      right
      intro h
      have := congrArg List.length h
      rw [pcxLineSamples_length] at this
      simp only [List.length_nil] at this
      omega
    refine ⟨pcxRuns 0 0 (pcxLineSamples image y), ?_, by simp [pcxRuns_expand], ?_⟩
    · rw [pcxSaveLine_out image y ch out]
      congr 1
      apply List.flatMap_congr
      intro r hr
      rw [pcxSpecItem_eq r.1 r.2 (hb r hr).1]
    · intro r hr
      refine ⟨(hb r hr).1, (hb r hr).2.1, (hb r hr).2.2, ?_⟩
      intro b hbb
      unfold pcxSpecItem at hbb
      by_cases hc : r.1 = 1 ∧ ¬ (r.2 &&& 0xC0 = 0xC0)
      · rw [if_pos hc] at hbb
        have hv : r.2 = b := by simpa using hbb
        exact ⟨hv.symm, hc.1, by rw [← hv]; exact hc.2⟩
      · rw [if_neg hc] at hbb
        have := congrArg List.length hbb
        simp at this

/-- Witness for C19: the row of 65 indexed pixels has at least one sample. -/
theorem pcx_rle_literal_rule_witness :
    1 ≤ pcxRow65.w * pcxPlanes pcxRow65 ∧
    ∃ runs : List (Nat × Nat),
      (pcxSaveLine pcxRow65 (pcxDepth pcxRow65) (pcxPlanes pcxRow65) 0 0 []).out =
        [] ++ runs.flatMap (fun r => pcxSpecItem r.1 r.2) ∧
      pcxExpand runs = pcxLineSamples pcxRow65 0 ∧
      ∀ r ∈ runs, 1 ≤ r.1 ∧ r.1 ≤ 63 ∧ r.2 < 256 ∧
        ∀ b, pcxSpecItem r.1 r.2 = [b] → b = r.2 ∧ r.1 = 1 ∧ ¬ (b &&& 0xC0 = 0xC0) :=
  ⟨by decide, (pcx_rle_literal_rule pcxRow65 0 0 [] (by decide)).2⟩

/-! ## C17: the PCX header -/

theorem pcxColorBytes_range (fop : FileOp) :
    pcxColorBytes fop 16 0 =
      (List.range 16).flatMap (fun c =>
        [(fop_sequence_get_color fop c).1, (fop_sequence_get_color fop c).2.1,
          (fop_sequence_get_color fop c).2.2]) := rfl

/-- The header that `onSave` writes is the header of the specification. -/
theorem pcxSpecHeader_eq (fop : FileOp) (image : Image) (hw : 1 ≤ image.w) (hh : 1 ≤ image.h) :
    pcxSaveHeader fop image (pcxPlanes image) [] = pcxSpecHeader fop image := by
  have e1 : toByte ((image.w : Int) - 1) = (image.w - 1) % 256 := by unfold toByte; omega
  have e2 : toByte (((image.w : Int) - 1) / 256) = (image.w - 1) / 256 % 256 := by
    unfold toByte; omega
  have e3 : toByte ((image.h : Int) - 1) = (image.h - 1) % 256 := by unfold toByte; omega
  have e4 : toByte (((image.h : Int) - 1) / 256) = (image.h - 1) / 256 % 256 := by
    unfold toByte; omega
  have e5 : toByte ((image.w : Int) / 256) = image.w / 256 % 256 := by unfold toByte; omega
  have e6 : toByte ((image.h : Int) / 256) = image.h / 256 % 256 := by unfold toByte; omega
  have e7 : pcxPlanes image % 256 = (if image.format = IMAGE_RGB then 3 else 1) := by
    unfold pcxPlanes; split_ifs <;> rfl
  rw [pcxSaveHeader_eq, pcxColorBytes_range, e1, e2, e3, e4, e5, e6, e7, toByte_natCast,
    toByte_natCast]
  simp only [pcxSpecHeader, le16, List.append_assoc, List.cons_append, List.nil_append]

theorem pcxSpecHeader_length (fop : FileOp) (image : Image) :
    (pcxSpecHeader fop image).length = 128 := by
  unfold pcxSpecHeader
  rw [← pcxColorBytes_range]
  simp [le16, pcxColorBytes_length]

/-- C17. For every image with `1 ≤ width, height ≤ 65535` the first 128 bytes
that `onSave` writes are the header of the specification: 10, 5, 1, 8, the
bounding box (0, 0, width-1, height-1) and the resolution 320 by 200 as
little-endian 16-bit fields, the 48 bytes red, green, blue of palette entries
0 to 15, a zero byte, the planes (3 for RGB, 1 otherwise; the fourth byte is 8
in either case), the bytes per line (the width), 1, the width, the height and
54 zero bytes.  When that header is followed by any bytes `body` and the
decoder is given an image, the scanline loop starts with exactly `body`
unread: the decoder has consumed the 128 bytes and nothing else. -/
theorem pcx_header_layout (src dst : FileOp) (image : Image) (body : List Nat)
    (hw : 1 ≤ image.w ∧ image.w ≤ 65535) (hh : 1 ≤ image.h ∧ image.h ≤ 65535)
    (ha : dst.can_allocate = true) :
    (PcxFormat.onSave src image).out.take 128 = pcxSpecHeader src image ∧
    (pcxSpecHeader src image).length = 128 ∧
    (pcxSpecHeader src image).take 4 = [10, 5, 1, 8] ∧
    PcxFormat.onLoad dst (File.open (pcxSpecHeader src image ++ body)) =
      pcxFinish
        { (pcxRows (pcxDepth image) image.w image.h image.h 0
            (fop_sequence_image
              { dst with seq_palette := pcxPaletteFrom src 0 16 dst.seq_palette }
              (if image.format = IMAGE_RGB then IMAGE_RGB else IMAGE_INDEXED)
              image.w image.h).2
            ⟨pcxSpecHeader src image ++ body, body, false, false, false⟩
            (pcxBlankImage (pcxDepth image) image.w image.h)).1 with
          seq_image := some
            (pcxRows (pcxDepth image) image.w image.h image.h 0
              (fop_sequence_image
                { dst with seq_palette := pcxPaletteFrom src 0 16 dst.seq_palette }
                (if image.format = IMAGE_RGB then IMAGE_RGB else IMAGE_INDEXED)
                image.w image.h).2
              ⟨pcxSpecHeader src image ++ body, body, false, false, false⟩
              (pcxBlankImage (pcxDepth image) image.w image.h)).2.2 }
        (pcxDepth image)
        (pcxRows (pcxDepth image) image.w image.h image.h 0
          (fop_sequence_image
            { dst with seq_palette := pcxPaletteFrom src 0 16 dst.seq_palette }
            (if image.format = IMAGE_RGB then IMAGE_RGB else IMAGE_INDEXED)
            image.w image.h).2
          ⟨pcxSpecHeader src image ++ body, body, false, false, false⟩
          (pcxBlankImage (pcxDepth image) image.w image.h)).2.1 := by
  have hlen := pcxSpecHeader_length src image
  have heq := pcxSpecHeader_eq src image hw.1 hh.1
  refine ⟨?_, hlen, rfl, ?_⟩
  · rw [pcxOnSave_out, heq]
    exact List.take_left' hlen
  · rw [← heq, pcx_onLoad_header dst src image body (by omega) (by omega)]
    have ew : ((toByte ((image.w : Int) / 256) % 256 : Nat) : Int) * 256 +
        ((toByte image.w % 256 : Nat) : Int) = (image.w : Int) :=
      le16_read image.w (by omega) (by omega)
    have hskip := fun tl => skipBytes_mk (pcxSaveHeader src image (pcxPlanes image) [] ++ body)
      false false false
      ([1, 0, toByte image.w, toByte ((image.w : Int) / 256),
        toByte image.h, toByte ((image.h : Int) / 256)] ++ List.replicate 54 0) tl
    have hl : ([1, 0, toByte image.w, toByte ((image.w : Int) / 256),
        toByte image.h, toByte ((image.h : Int) / 256)] ++ List.replicate 54 0).length = 60 := rfl
    rw [hl] at hskip
    simp only [pcxLoadImage, List.cons_append, List.nil_append, fgetw_mk, ew]
    rw [show (1 :: 0 :: toByte image.w :: toByte ((image.w : Int) / 256) ::
          toByte image.h :: toByte ((image.h : Int) / 256) :: (List.replicate 54 0 ++ body)) =
        ([1, 0, toByte image.w, toByte ((image.w : Int) / 256),
          toByte image.h, toByte ((image.h : Int) / 256)] ++ List.replicate 54 0) ++ body
        from rfl, hskip]
    by_cases hf : image.format = IMAGE_RGB
    · have hd : pcxDepth image = 24 := by simp [pcxDepth, hf]
      simp only [hd, hf, fop_sequence_image, ha, if_true, Nat.cast_ofNat,
        show ¬ ((24 : Int) = 8) by decide, if_false, pcxBlankImage, Int.toNat_ofNat]
    · have hd : pcxDepth image = 8 := by simp [pcxDepth, hf]
      simp only [hd, hf, fop_sequence_image, ha, if_true, Nat.cast_ofNat,
        show ¬ ((8 : Int) = 24) by decide, if_false, pcxBlankImage, Int.toNat_ofNat]

/-- Witness for C17: the row of 65 indexed pixels followed by no body. -/
theorem pcx_header_layout_witness :
    (PcxFormat.onSave FileOp.blank pcxRow65).out.take 128 = pcxSpecHeader FileOp.blank pcxRow65 ∧
    (pcxSpecHeader FileOp.blank pcxRow65).length = 128 ∧
    (pcxSpecHeader FileOp.blank pcxRow65).take 4 = [10, 5, 1, 8] :=
  ⟨(pcx_header_layout FileOp.blank FileOp.blank pcxRow65 [] (by decide) (by decide) rfl).1,
   (pcx_header_layout FileOp.blank FileOp.blank pcxRow65 [] (by decide) (by decide) rfl).2.1,
   (pcx_header_layout FileOp.blank FileOp.blank pcxRow65 [] (by decide) (by decide) rfl).2.2.1⟩

/-! ## What a PCX scanline leaves untouched -/

theorem pcxRun8_frame (y ch c : Nat) (p : PcxPen) :
    (pcxRun8 y ch c p).image.format = p.image.format ∧
    (pcxRun8 y ch c p).image.w = p.image.w ∧
    (pcxRun8 y ch c p).image.h = p.image.h ∧
    ∀ x1 y1, y1 ≠ y → (pcxRun8 y ch c p).image.pix x1 y1 = p.image.pix x1 y1 := by
  induction c generalizing p with
  | zero => exact ⟨rfl, rfl, rfl, fun _ _ _ => rfl⟩
  | succ c ih =>
    simp only [pcxRun8]
    obtain ⟨h1, h2, h3, h4⟩ := ih
      { p with image := if p.x < p.image.w then p.image.store p.x y ch else p.image,
               x := p.x + 1 }
    refine ⟨?_, ?_, ?_, ?_⟩
    · rw [h1]; simp only []; split_ifs <;> rfl
    · rw [h2]; simp only []; split_ifs <;> rfl
    · rw [h3]; simp only []; split_ifs <;> rfl
    · intro x1 y1 hy
      rw [h4 x1 y1 hy]
      simp only []
      split_ifs
      · simp only [Image.store]
        rw [if_neg (fun h => hy h.2)]
      · rfl

theorem pcxRun24_frame (bpl : Int) (y ch c : Nat) (p : PcxPen) :
    (pcxRun24 bpl y ch c p).image.format = p.image.format ∧
    (pcxRun24 bpl y ch c p).image.w = p.image.w ∧
    (pcxRun24 bpl y ch c p).image.h = p.image.h ∧
    ∀ x1 y1, y1 ≠ y → (pcxRun24 bpl y ch c p).image.pix x1 y1 = p.image.pix x1 y1 := by
  induction c generalizing p with
  | zero => exact ⟨rfl, rfl, rfl, fun _ _ _ => rfl⟩
  | succ c ih =>
    have hst : (if p.xx < p.image.w
          then p.image.store p.xx y (p.image.pix p.xx y ||| ((ch &&& 0xff) <<< p.po))
          else p.image).format = p.image.format ∧
        (if p.xx < p.image.w
          then p.image.store p.xx y (p.image.pix p.xx y ||| ((ch &&& 0xff) <<< p.po))
          else p.image).w = p.image.w ∧
        (if p.xx < p.image.w
          then p.image.store p.xx y (p.image.pix p.xx y ||| ((ch &&& 0xff) <<< p.po))
          else p.image).h = p.image.h ∧
        ∀ x1 y1, y1 ≠ y → (if p.xx < p.image.w
          then p.image.store p.xx y (p.image.pix p.xx y ||| ((ch &&& 0xff) <<< p.po))
          else p.image).pix x1 y1 = p.image.pix x1 y1 := by
      split_ifs
      · refine ⟨rfl, rfl, rfl, ?_⟩
        intro x1 y1 hy
        simp only [Image.store]
        rw [if_neg (fun h => hy h.2)]
      · exact ⟨rfl, rfl, rfl, fun _ _ _ => rfl⟩
    simp only [pcxRun24]
    generalize (if p.xx < p.image.w
      then p.image.store p.xx y (p.image.pix p.xx y ||| ((ch &&& 0xff) <<< p.po))
      else p.image) = image1 at hst ⊢
    obtain ⟨s1, s2, s3, s4⟩ := hst
    split_ifs
    all_goals
      obtain ⟨h1, h2, h3, h4⟩ := ih _
      exact ⟨h1.trans s1, h2.trans s2, h3.trans s3,
        fun x1 y1 hy => (h4 x1 y1 hy).trans (s4 x1 y1 hy)⟩

theorem pcxItem_frame (bpp bpl : Int) (y : Nat) (s : PcxScan) :
    (pcxItem bpp bpl y s).pen.image.format = s.pen.image.format ∧
    (pcxItem bpp bpl y s).pen.image.w = s.pen.image.w ∧
    (pcxItem bpp bpl y s).pen.image.h = s.pen.image.h ∧
    ∀ x1 y1, y1 ≠ y → (pcxItem bpp bpl y s).pen.image.pix x1 y1 = s.pen.image.pix x1 y1 := by
  unfold pcxItem
  simp only []
  split_ifs <;> first | exact pcxRun8_frame _ _ _ _ | exact pcxRun24_frame _ _ _ _ _

theorem pcxWhile_frame (bpp bpl : Int) (y fuel : Nat) (s : PcxScan) :
    (pcxWhile bpp bpl y fuel s).pen.image.format = s.pen.image.format ∧
    (pcxWhile bpp bpl y fuel s).pen.image.w = s.pen.image.w ∧
    (pcxWhile bpp bpl y fuel s).pen.image.h = s.pen.image.h ∧
    ∀ x1 y1, y1 ≠ y → (pcxWhile bpp bpl y fuel s).pen.image.pix x1 y1 = s.pen.image.pix x1 y1 := by
  induction fuel generalizing s with
  | zero => exact ⟨rfl, rfl, rfl, fun _ _ _ => rfl⟩
  | succ fuel ih =>
    simp only [pcxWhile]
    split_ifs
    · obtain ⟨h1, h2, h3, h4⟩ := ih (pcxItem bpp bpl y s)
      obtain ⟨s1, s2, s3, s4⟩ := pcxItem_frame bpp bpl y s
      exact ⟨h1.trans s1, h2.trans s2, h3.trans s3,
        fun x1 y1 hy => (h4 x1 y1 hy).trans (s4 x1 y1 hy)⟩
    · exact ⟨rfl, rfl, rfl, fun _ _ _ => rfl⟩

/-- Decoding scanline `y` keeps the format and the size of the image and
every pixel outside row `y`. -/
theorem pcxScanline_frame (bpp bpl : Int) (y : Nat) (f : File) (image : Image) :
    (pcxScanline bpp bpl y f image).2.format = image.format ∧
    (pcxScanline bpp bpl y f image).2.w = image.w ∧
    (pcxScanline bpp bpl y f image).2.h = image.h ∧
    ∀ x1 y1, y1 ≠ y → (pcxScanline bpp bpl y f image).2.pix x1 y1 = image.pix x1 y1 := by
  unfold pcxScanline
  exact pcxWhile_frame bpp bpl y _ _

/-- Decoding the scanlines `y .. y+n-1` keeps the format and the size of the
image and every pixel outside those rows. -/
theorem pcxScanRows_frame (bpp bpl : Int) (n y : Nat) (f : File) (image : Image) :
    (pcxScanRows bpp bpl n y f image).2.format = image.format ∧
    (pcxScanRows bpp bpl n y f image).2.w = image.w ∧
    (pcxScanRows bpp bpl n y f image).2.h = image.h ∧
    ∀ x1 y1, (y1 < y ∨ y + n ≤ y1) →
      (pcxScanRows bpp bpl n y f image).2.pix x1 y1 = image.pix x1 y1 := by
  induction n generalizing y f image with
  | zero => exact ⟨rfl, rfl, rfl, fun _ _ _ => rfl⟩
  | succ n ih =>
    simp only [pcxScanRows]
    obtain ⟨h1, h2, h3, h4⟩ := ih (y + 1) (pcxScanline bpp bpl y f image).1
      (pcxScanline bpp bpl y f image).2
    obtain ⟨s1, s2, s3, s4⟩ := pcxScanline_frame bpp bpl y f image
    refine ⟨h1.trans s1, h2.trans s2, h3.trans s3, ?_⟩
    intro x1 y1 hy
    rw [h4 x1 y1 (by omega), s4 x1 y1 (by omega)]

/-- Without a stop signal the row loop decodes every scanline. -/
theorem pcxRows_none (bpp bpl height : Int) (n y : Nat) (fop : FileOp) (f : File)
    (image : Image) (hs : fop.stop_at = none) :
    (pcxRows bpp bpl height n y fop f image).2 = pcxScanRows bpp bpl n y f image := by
  induction n generalizing y fop f image with
  | zero => rfl
  | succ n ih =>
    simp only [pcxRows, pcxScanRows]
    have h1 : (fop_is_stop (fop_progress fop (↑y + 1) height)).1 = false :=
      (fop_is_stop_none _ (by simpa [fop_progress] using hs)).1
    rw [h1]
    simp only [Bool.false_eq_true, if_false]
    exact ih _ _ _ _ (fop_is_stop_none _ (by simpa [fop_progress] using hs)).2

/-- When the stop flag is raised at the poll that follows scanline `y + k`,
the row loop decodes the scanlines `y .. y+k` and leaves the loop. -/
theorem pcxRows_stopped (bpp bpl height : Int) (k n y : Nat) (fop : FileOp) (f : File)
    (image : Image) (hk : k < n) (hs : fop.stop_at = some (fop.polls + k)) :
    (pcxRows bpp bpl height n y fop f image).2 = pcxScanRows bpp bpl (k + 1) y f image ∧
    (pcxRows bpp bpl height n y fop f image).1.polls = fop.polls + k + 1 := by
  induction k generalizing n y fop f image with
  | zero =>
    obtain ⟨n, rfl⟩ : ∃ m, n = m + 1 := ⟨n - 1, by omega⟩
    simp only [pcxRows, pcxScanRows]
    have h1 : (fop_is_stop (fop_progress fop (↑y + 1) height)).1 = true := by
      simp [fop_is_stop, fop_progress, hs]
    rw [h1]
    simp only [if_true]
    exact ⟨trivial, rfl⟩
  | succ k ih =>
    obtain ⟨n, rfl⟩ : ∃ m, n = m + 1 := ⟨n - 1, by omega⟩
    have h1 : (fop_is_stop (fop_progress fop (↑y + 1) height)).1 = false := by
      simp [fop_is_stop, fop_progress, hs]
    have h2 := ih n (y + 1) (fop_is_stop (fop_progress fop (↑y + 1) height)).2
      (pcxScanline bpp bpl y f image).1 (pcxScanline bpp bpl y f image).2 (by omega)
      (by simp only [fop_is_stop, fop_progress, hs]; congr 1; omega)
    have e1 : pcxRows bpp bpl height (n + 1) y fop f image =
        pcxRows bpp bpl height n (y + 1) (fop_is_stop (fop_progress fop (↑y + 1) height)).2
          (pcxScanline bpp bpl y f image).1 (pcxScanline bpp bpl y f image).2 := by
      simp only [pcxRows]
      rw [h1]
      simp only [Bool.false_eq_true, if_false]
    rw [e1]
    refine ⟨h2.1, ?_⟩
    rw [h2.2]
    simp only [fop_is_stop, fop_progress]
    omega

theorem pcxBlankImage_eq (bpp width height : Int) :
    (if bpp = 24
      then image_clear (Image.create (if bpp = 8 then IMAGE_INDEXED else IMAGE_RGB)
        width.toNat height.toNat) (_rgba 0 0 0 255)
      else Image.create (if bpp = 8 then IMAGE_INDEXED else IMAGE_RGB)
        width.toNat height.toNat) =
      pcxBlankImage bpp width height := by
  unfold pcxBlankImage
  by_cases h : bpp = 24
  · rw [if_pos h, if_pos h, if_neg (by omega)]
  · rw [if_neg h, if_neg h]

/-- With the stop flag raised, the end of the decoder does not look for a
palette: it only checks the error indicator of the stream. -/
theorem pcxFinish_stopped (fop : FileOp) (bpp : Int) (f : File)
    (h : (fop_is_stop fop).1 = true) :
    (pcxFinish fop bpp f).f = f ∧
    (pcxFinish fop bpp f).fop.seq_image = fop.seq_image ∧
    (pcxFinish fop bpp f).fop.seq_palette = fop.seq_palette ∧
    (pcxFinish fop bpp f).ok = !f.error := by
  unfold pcxFinish
  simp only [h, not_true_eq_false, false_and, if_false, ferror]
  cases he : f.error <;> simp [fop_error, fop_is_stop]

/-- The header stage of the decoder hands the stop flag and the poll counter
on unchanged. -/
theorem pcx_onLoad_reaches_image (fop : FileOp) (f : File) (h : peek f.rest 3 = 8)
    (hd : peek f.rest 65 * 8 = 8 ∨ peek f.rest 65 * 8 = 24) :
    ∃ (fop1 : FileOp) (width height bpp : Int) (f1 : File),
      PcxFormat.onLoad fop f = pcxLoadImage fop1 width height bpp f1 ∧
      fop1.can_allocate = fop.can_allocate ∧ fop1.stop_at = fop.stop_at ∧
      fop1.polls = fop.polls := by
  rw [pcx_onLoad_good_bits _ _ h]
  unfold pcxLoadDepth
  simp only []
  rw [if_neg]
  · refine ⟨_, _, _, _, _, rfl, ?_, ?_, ?_⟩
    · exact (pcxReadColors_frame _ _ _ _).2.2.2.1
    · exact (pcxReadColors_frame _ _ _ _).2.2.2.2.1
    · exact (pcxReadColors_frame _ _ _ _).2.2.2.2.2
  · rw [pcxLoadDepth_planes]
    simp only [fgetc_rest, List.drop_drop, peek_drop]
    intro hc
    rcases hd with hd | hd
    · exact hc.1 hd
    · exact hc.2 hd

/-! ## C16: cooperative cancellation of the PCX decoder -/

/-- C16. Let the decoder have passed the header checks and be given its
image, and let the stop flag be raised at the poll that follows scanline `k`,
`k` being less than the height (the earlier polls, one per scanline, find it
clear).  Then the stream is left exactly where the decoding of the scanlines
`0 .. k` left it, so no further scanline and no trailing palette has been
read; the image is the one those scanlines produced, and every row `y > k`
holds what it held before the first scanline was decoded; the palette is the
one the header left; and the decoder returns success exactly when the error
indicator of the stream is clear.  The header stage hands the stop flag and
the poll counter on unchanged. -/
theorem pcx_cooperative_cancellation (fop : FileOp) (width height bpp : Int) (f : File)
    (k : Nat) (ha : fop.can_allocate = true) (hk : k < height.toNat)
    (hs : fop.stop_at = some (fop.polls + k)) :
    (pcxLoadImage fop width height bpp f).f =
      (pcxScanRows bpp (fgetw f).1 (k + 1) 0 (skipBytes 60 (fgetw f).2)
        (pcxBlankImage bpp width height)).1 ∧
    (pcxLoadImage fop width height bpp f).fop.seq_image =
      some (pcxScanRows bpp (fgetw f).1 (k + 1) 0 (skipBytes 60 (fgetw f).2)
        (pcxBlankImage bpp width height)).2 ∧
    (∀ x y, k < y →
      (pcxScanRows bpp (fgetw f).1 (k + 1) 0 (skipBytes 60 (fgetw f).2)
        (pcxBlankImage bpp width height)).2.pix x y =
      (pcxBlankImage bpp width height).pix x y) ∧
    (pcxLoadImage fop width height bpp f).fop.seq_palette = fop.seq_palette ∧
    (pcxLoadImage fop width height bpp f).ok =
      !(pcxLoadImage fop width height bpp f).f.error ∧
    (∀ (fop0 : FileOp) (f0 : File), peek f0.rest 3 = 8 →
      (peek f0.rest 65 * 8 = 8 ∨ peek f0.rest 65 * 8 = 24) →
      ∃ (fop1 : FileOp) (w h b : Int) (f1 : File),
        PcxFormat.onLoad fop0 f0 = pcxLoadImage fop1 w h b f1 ∧
        fop1.can_allocate = fop0.can_allocate ∧ fop1.stop_at = fop0.stop_at ∧
        fop1.polls = fop0.polls) := by
  have hrun : pcxLoadImage fop width height bpp f =
      pcxFinish
        { (pcxRows bpp (fgetw f).1 height height.toNat 0
            (fop_sequence_image fop (if bpp = 8 then IMAGE_INDEXED else IMAGE_RGB)
              width height).2
            (skipBytes 60 (fgetw f).2) (pcxBlankImage bpp width height)).1 with
          seq_image := some
            (pcxRows bpp (fgetw f).1 height height.toNat 0
              (fop_sequence_image fop (if bpp = 8 then IMAGE_INDEXED else IMAGE_RGB)
                width height).2
              (skipBytes 60 (fgetw f).2) (pcxBlankImage bpp width height)).2.2 }
        bpp
        (pcxRows bpp (fgetw f).1 height height.toNat 0
          (fop_sequence_image fop (if bpp = 8 then IMAGE_INDEXED else IMAGE_RGB)
            width height).2
          (skipBytes 60 (fgetw f).2) (pcxBlankImage bpp width height)).2.1 := by
    rw [← pcxBlankImage_eq]
    simp only [pcxLoadImage, fop_sequence_image, ha, if_true]
  have hs2 : (fop_sequence_image fop (if bpp = 8 then IMAGE_INDEXED else IMAGE_RGB)
      width height).2.stop_at = some ((fop_sequence_image fop
        (if bpp = 8 then IMAGE_INDEXED else IMAGE_RGB) width height).2.polls + k) := by
    simp only [fop_sequence_image, ha, if_true]
    exact hs
  have hp2 : (fop_sequence_image fop (if bpp = 8 then IMAGE_INDEXED else IMAGE_RGB)
      width height).2.polls = fop.polls := by
    simp only [fop_sequence_image, ha, if_true]
  have hpal2 : (fop_sequence_image fop (if bpp = 8 then IMAGE_INDEXED else IMAGE_RGB)
      width height).2.seq_palette = fop.seq_palette := by
    simp only [fop_sequence_image, ha, if_true]
  obtain ⟨hr1, hr2⟩ := pcxRows_stopped bpp (fgetw f).1 height k height.toNat 0 _
    (skipBytes 60 (fgetw f).2) (pcxBlankImage bpp width height) hk hs2
  obtain ⟨hf1, hf2, _, _⟩ := pcxRows_frame bpp (fgetw f).1 height height.toNat 0
    (fop_sequence_image fop (if bpp = 8 then IMAGE_INDEXED else IMAGE_RGB) width height).2
    (skipBytes 60 (fgetw f).2) (pcxBlankImage bpp width height)
  have hstop : ∀ img, (fop_is_stop
      { (pcxRows bpp (fgetw f).1 height height.toNat 0
          (fop_sequence_image fop (if bpp = 8 then IMAGE_INDEXED else IMAGE_RGB)
            width height).2
          (skipBytes 60 (fgetw f).2) (pcxBlankImage bpp width height)).1 with
        seq_image := img }).1 = true := by
    intro img
    simp only [fop_is_stop, hf2, hs2, hr2]
    simp
  obtain ⟨g1, g2, g3, g4⟩ := pcxFinish_stopped _ bpp
    (pcxRows bpp (fgetw f).1 height height.toNat 0
      (fop_sequence_image fop (if bpp = 8 then IMAGE_INDEXED else IMAGE_RGB) width height).2
      (skipBytes 60 (fgetw f).2) (pcxBlankImage bpp width height)).2.1 (hstop _)
  rw [hrun]
  refine ⟨?_, ?_, ?_, ?_, ?_, fun fop0 f0 h8 hd => pcx_onLoad_reaches_image fop0 f0 h8 hd⟩
  · rw [g1, hr1]
  · rw [g2, hr1]
  · intro x y hy
    exact (pcxScanRows_frame bpp (fgetw f).1 (k + 1) 0 _ _).2.2.2 x y (Or.inr (by omega))
  · rw [g3]
    simp only []
    rw [hf1, hpal2]
  · rw [g4, g1]

/-- Witness for C16: a stream without scanline data, two rows, the stop flag
raised at the first poll. -/
theorem pcx_cooperative_cancellation_witness :
    (pcxLoadImage FileOp.stopping 1 2 8 (File.open [1, 0])).f =
      (pcxScanRows 8 (fgetw (File.open [1, 0])).1 (0 + 1) 0
        (skipBytes 60 (fgetw (File.open [1, 0])).2) (pcxBlankImage 8 1 2)).1 ∧
    (pcxLoadImage FileOp.stopping 1 2 8 (File.open [1, 0])).fop.seq_image =
      some (pcxScanRows 8 (fgetw (File.open [1, 0])).1 (0 + 1) 0
        (skipBytes 60 (fgetw (File.open [1, 0])).2) (pcxBlankImage 8 1 2)).2 ∧
    (pcxLoadImage FileOp.stopping 1 2 8 (File.open [1, 0])).ok =
      !(pcxLoadImage FileOp.stopping 1 2 8 (File.open [1, 0])).f.error :=
  ⟨(pcx_cooperative_cancellation FileOp.stopping 1 2 8 (File.open [1, 0]) 0 rfl
      (by decide) rfl).1,
   (pcx_cooperative_cancellation FileOp.stopping 1 2 8 (File.open [1, 0]) 0 rfl
      (by decide) rfl).2.1,
   (pcx_cooperative_cancellation FileOp.stopping 1 2 8 (File.open [1, 0]) 0 rfl
      (by decide) rfl).2.2.2.2.1⟩

/-! ## The size of the image that the PCX decoder allocates -/

theorem pcxFindPalette_seq_image (fuel : Nat) (fop : FileOp) (f : File) :
    (pcxFindPalette fuel fop f).1.seq_image = fop.seq_image := by
  induction fuel generalizing fop f with
  | zero => rfl
  | succ n ih =>
    simp only [pcxFindPalette]
    split_ifs
    · rfl
    · exact (pcxReadColors_frame _ _ _ _).1
    · exact ih _ _

theorem pcxFinish_seq_image (fop : FileOp) (bpp : Int) (f : File) :
    (pcxFinish fop bpp f).fop.seq_image = fop.seq_image := by
  unfold pcxFinish
  simp only []
  split_ifs <;> simp [fop_error, fop_is_stop, pcxFindPalette_seq_image]

theorem pcxRows_dims (bpp bpl height : Int) (n y : Nat) (fop : FileOp) (f : File)
    (image : Image) :
    (pcxRows bpp bpl height n y fop f image).2.2.w = image.w ∧
    (pcxRows bpp bpl height n y fop f image).2.2.h = image.h := by
  induction n generalizing y fop f image with
  | zero => exact ⟨rfl, rfl⟩
  | succ n ih =>
    obtain ⟨_, s2, s3, _⟩ := pcxScanline_frame bpp bpl y f image
    simp only [pcxRows]
    split_ifs
    · exact ⟨s2, s3⟩
    · obtain ⟨h1, h2⟩ := ih (y + 1) (fop_is_stop (fop_progress fop (↑y + 1) height)).2
        (pcxScanline bpp bpl y f image).1 (pcxScanline bpp bpl y f image).2
      exact ⟨h1.trans s2, h2.trans s3⟩

/-- The decoder once it has its image: the row loop and the end of the
decoder. -/
theorem pcxLoadImage_alloc (fop : FileOp) (width height bpp : Int) (f : File)
    (ha : fop.can_allocate = true) :
    pcxLoadImage fop width height bpp f =
      pcxFinish
        { (pcxRows bpp (fgetw f).1 height height.toNat 0
            (fop_sequence_image fop (if bpp = 8 then IMAGE_INDEXED else IMAGE_RGB)
              width height).2
            (skipBytes 60 (fgetw f).2) (pcxBlankImage bpp width height)).1 with
          seq_image := some
            (pcxRows bpp (fgetw f).1 height height.toNat 0
              (fop_sequence_image fop (if bpp = 8 then IMAGE_INDEXED else IMAGE_RGB)
                width height).2
              (skipBytes 60 (fgetw f).2) (pcxBlankImage bpp width height)).2.2 }
        bpp
        (pcxRows bpp (fgetw f).1 height height.toNat 0
          (fop_sequence_image fop (if bpp = 8 then IMAGE_INDEXED else IMAGE_RGB)
            width height).2
          (skipBytes 60 (fgetw f).2) (pcxBlankImage bpp width height)).2.1 := by
  rw [← pcxBlankImage_eq]
  simp only [pcxLoadImage, fop_sequence_image, ha, if_true]

theorem pcxBlankImage_dims (bpp width height : Int) :
    (pcxBlankImage bpp width height).w = width.toNat ∧
    (pcxBlankImage bpp width height).h = height.toNat := by
  unfold pcxBlankImage
  split_ifs <;> exact ⟨rfl, rfl⟩

/-- The image that the decoder leaves has the width and the height it was
allocated with. -/
theorem pcxLoadImage_dims (fop : FileOp) (width height bpp : Int) (f : File)
    (ha : fop.can_allocate = true) :
    ∃ img, (pcxLoadImage fop width height bpp f).fop.seq_image = some img ∧
      img.w = width.toNat ∧ img.h = height.toNat := by
  rw [pcxLoadImage_alloc fop width height bpp f ha, pcxFinish_seq_image]
  obtain ⟨h1, h2⟩ := pcxRows_dims bpp (fgetw f).1 height height.toNat 0
    (fop_sequence_image fop (if bpp = 8 then IMAGE_INDEXED else IMAGE_RGB) width height).2
    (skipBytes 60 (fgetw f).2) (pcxBlankImage bpp width height)
  obtain ⟨b1, b2⟩ := pcxBlankImage_dims bpp width height
  exact ⟨_, rfl, h1.trans b1, h2.trans b2⟩

theorem pcxPlanes_at (fop : FileOp) (g : File) :
    (fgetc (fgetc (pcxReadColors 16 0 fop (fgetl g).2).2).2).1 = peek g.rest 53 := by
  rw [fgetc_fst]
  simp only [fgetc_rest, pcxReadColors_rest, fgetl_rest, List.drop_drop, peek_drop]

/-! ## The PCX decoder on one row of an arbitrary stream -/

theorem pcxLineBytes_eight_int (bpl : Int) : pcxLineBytes 8 bpl = bpl := by
  unfold pcxLineBytes
  exact Int.mul_tdiv_cancel bpl (by decide)

theorem pcxByteAt_nil (i : Nat) : pcxByteAt [] i = 255 := by
  unfold pcxByteAt peek
  simp [EOF, toByte]

theorem pcxRowImage_nil (image : Image) (y : Nat) : pcxRowImage image y [] = image := by
  unfold pcxRowImage
  ext x1 y1 <;> try rfl
  simp

/-- One pixel of a run written behind the bytes `acc` of the row. -/
theorem pcxRun8_one (img : Image) (y v : Nat) (acc : List Nat) (xx po : Nat) :
    pcxRun8 y v 1 { image := pcxRowImage img y acc, x := acc.length, xx := xx, po := po } =
      { image := pcxRowImage img y (acc ++ [v]), x := (acc ++ [v]).length, xx := xx,
        po := po } := by
  simp only [pcxRun8, List.length_append, List.length_singleton, PcxPen.mk.injEq, and_true,
    and_self]
  have hw : (pcxRowImage img y acc).w = img.w := rfl
  rw [hw]
  by_cases hx : acc.length < img.w
  · rw [if_pos hx]
    unfold pcxRowImage Image.store
    ext x1 y1 <;> try rfl
    simp only [List.length_append, List.length_singleton]
    by_cases c1 : x1 = acc.length ∧ y1 = y
    · rw [if_pos c1, if_pos ⟨c1.2, by omega, by omega⟩, c1.1]
      simp
    · rw [if_neg c1]
      by_cases c2 : y1 = y ∧ x1 < img.w ∧ x1 < acc.length
      · rw [if_pos c2, if_pos ⟨c2.1, c2.2.1, by omega⟩, List.getD_append _ _ _ _ c2.2.2]
      · rw [if_neg c2, if_neg]
        intro h
        apply c2
        refine ⟨h.1, h.2.1, ?_⟩
        have : x1 ≠ acc.length := fun he => c1 ⟨he, h.1⟩
        omega
  · rw [if_neg hx]
    unfold pcxRowImage
    ext x1 y1 <;> try rfl
    simp only [List.length_append, List.length_singleton]
    by_cases c2 : y1 = y ∧ x1 < img.w ∧ x1 < acc.length
    · rw [if_pos c2, if_pos ⟨c2.1, c2.2.1, by omega⟩, List.getD_append _ _ _ _ c2.2.2]
    · rw [if_neg c2, if_neg]
      intro h
      apply c2
      exact ⟨h.1, h.2.1, by omega⟩

/-- A run of `c` copies of `v` written behind the bytes `acc` of the row. -/
theorem pcxRun8_row (img : Image) (y v c : Nat) (acc : List Nat) (xx po : Nat) :
    pcxRun8 y v c { image := pcxRowImage img y acc, x := acc.length, xx := xx, po := po } =
      { image := pcxRowImage img y (acc ++ List.replicate c v),
        x := (acc ++ List.replicate c v).length, xx := xx, po := po } := by
  induction c generalizing acc with
  | zero => simp [pcxRun8]
  | succ c ih =>
    rw [pcxRun8_succ, pcxRun8_one, ih, List.replicate_succ, List.append_assoc]
    rfl

/-- One round of the scanline loop at depth 8, in the words of the
specification. -/
theorem pcxItem_row (bpl : Int) (img : Image) (y : Nat) (f : File) (acc : List Nat)
    (xx po : Nat) :
    (pcxItem 8 bpl y
      (⟨f, ⟨pcxRowImage img y acc, acc.length, xx, po⟩⟩ : PcxScan)).pen =
      (if pcxByteAt f.rest 0 &&& 0xC0 = 0xC0 then
        { image := pcxRowImage img y
            (acc ++ List.replicate (pcxByteAt f.rest 0 &&& 0x3F) (pcxByteAt f.rest 1)),
          x := (acc ++ List.replicate (pcxByteAt f.rest 0 &&& 0x3F)
            (pcxByteAt f.rest 1)).length,
          xx := xx, po := po }
      else
        { image := pcxRowImage img y (acc ++ [pcxByteAt f.rest 0]),
          x := (acc ++ [pcxByteAt f.rest 0]).length, xx := xx, po := po }) ∧
    (pcxItem 8 bpl y
      (⟨f, ⟨pcxRowImage img y acc, acc.length, xx, po⟩⟩ : PcxScan)).f.rest =
      (if pcxByteAt f.rest 0 &&& 0xC0 = 0xC0 then f.rest.drop 2 else f.rest.drop 1) := by
  have h0 : toByte (fgetc f).1 = pcxByteAt f.rest 0 := by rw [fgetc_fst]; rfl
  have h1 : toByte (fgetc (fgetc f).2).1 = pcxByteAt f.rest 1 := by
    rw [fgetc_fst, fgetc_rest, peek_drop]; rfl
  simp only [pcxItem, if_true, h0]
  by_cases hm : pcxByteAt f.rest 0 &&& 0xC0 = 0xC0
  · simp only [hm, decide_True, if_true, h1, fgetc_rest, List.drop_drop]
    exact ⟨pcxRun8_row img y _ _ acc xx po, trivial⟩
  · simp only [hm, decide_False, Bool.false_eq_true, if_false, h0, fgetc_rest]
    exact ⟨pcxRun8_one img y _ acc xx po, trivial⟩

/-- The scanline loop at depth 8 produces the expansion of the
specification. -/
theorem pcxWhile_row (bpl : Int) (img : Image) (y : Nat) (fuel : Nat) (f : File)
    (acc : List Nat) (xx po : Nat) :
    (pcxWhile 8 bpl y fuel
      (⟨f, ⟨pcxRowImage img y acc, acc.length, xx, po⟩⟩ : PcxScan)).f.rest = (pcxSpecRow bpl fuel acc f.rest).2 ∧
    (pcxWhile 8 bpl y fuel
      (⟨f, ⟨pcxRowImage img y acc, acc.length, xx, po⟩⟩ : PcxScan)).pen.image = pcxRowImage img y (pcxSpecRow bpl fuel acc f.rest).1 := by
  induction fuel generalizing f acc with
  | zero => exact ⟨rfl, rfl⟩
  | succ fuel ih =>
    simp only [pcxWhile, pcxSpecRow, pcxLineBytes_eight_int]
    by_cases hx : (acc.length : Int) < bpl
    · rw [if_pos hx, if_pos hx]
      obtain ⟨hp, hr⟩ := pcxItem_row bpl img y f acc xx po
      generalize hs : pcxItem 8 bpl y
        (⟨f, ⟨pcxRowImage img y acc, acc.length, xx, po⟩⟩ : PcxScan) = s at hp hr
      obtain ⟨sf, sp⟩ := s
      simp only [] at hp hr
      by_cases hm : pcxByteAt f.rest 0 &&& 0xC0 = 0xC0
      · rw [if_pos hm] at hp hr ⊢
        rw [hp, ← hr]
        exact ih sf _
      · rw [if_neg hm] at hp hr ⊢
        rw [hp, ← hr]
        exact ih sf _
    · rw [if_neg hx, if_neg hx]
      exact ⟨rfl, rfl⟩

/-- With the fuel of the decoder the expansion reaches the bytes per line:
an item consumes a byte of the stream, or at the end of the stream produces
63 bytes. -/
theorem pcxSpecRow_done (bpl : Int) (fuel : Nat) (acc l : List Nat)
    (hf : l.length + (bpl - acc.length).toNat ≤ fuel) :
    bpl ≤ ((pcxSpecRow bpl fuel acc l).1.length : Int) := by
  induction fuel generalizing acc l with
  | zero =>
    show bpl ≤ (acc.length : Int)
    omega
  | succ fuel ih =>
    simp only [pcxSpecRow]
    by_cases hx : (acc.length : Int) < bpl
    · rw [if_pos hx]
      cases l with
      | nil =>
        have hb : pcxByteAt [] 0 &&& 0xC0 = 0xC0 := by rw [pcxByteAt_nil]; decide
        have hc : pcxByteAt [] 0 &&& 0x3F = 63 := by rw [pcxByteAt_nil]; decide
        rw [if_pos hb, hc]
        apply ih
        simp only [List.drop_nil, List.length_nil, List.length_append, List.length_replicate,
          Nat.cast_add, Nat.cast_ofNat] at hf ⊢
        omega
      | cons b tl =>
        split_ifs
        · apply ih
          simp only [List.length_cons, List.length_append, List.length_replicate,
            Nat.cast_add, List.length_drop] at hf ⊢
          omega
        · apply ih
          simp only [List.length_cons, List.length_append, List.length_singleton,
            Nat.cast_add, Nat.cast_one, List.drop_succ_cons, List.drop_zero] at hf ⊢
          omega
    · rw [if_neg hx]
      show bpl ≤ (acc.length : Int)
      omega

/-! ## C20: what the PCX decoder reads for one row at depth 8 -/

theorem toByte_le32 (v : Nat) :
    [toByte (v : Int), toByte ((v : Int) / 256), toByte ((v : Int) / 65536),
      toByte ((v : Int) / 16777216)] = le32 v := by
  unfold le32 toByte
  simp only [List.cons.injEq, and_true]
  refine ⟨?_, ?_, ?_, ?_⟩ <;> omega

theorem toByte_le16 (v : Nat) : [toByte (v : Int), toByte ((v : Int) / 256)] = le16 v := by
  unfold le16 toByte
  simp only [List.cons.injEq, and_true]
  refine ⟨?_, ?_⟩ <;> omega

/-- The header that the encoder writes, in the fields of the format. -/
theorem icoWriteBmpHeader_spec (bpp size w h : Nat) :
    icoWriteBmpHeader bpp size w h [] = icoSpecBmpHeader bpp size w h := by
  rw [icoWriteBmpHeader_eq]
  unfold icoSpecBmpHeader
  rw [Nat.mul_comm 2 h, ← toByte_le32 40, ← toByte_le32 w, ← toByte_le32 (h * 2),
    ← toByte_le16 1, ← toByte_le16 bpp, ← toByte_le32 0, ← toByte_le32 size]
  simp only [Nat.cast_ofNat, Nat.cast_zero, Nat.cast_one, List.append_assoc, List.cons_append,
    List.nil_append]

theorem icoSpecBmpHeader_length (bpp size w h : Nat) :
    (icoSpecBmpHeader bpp size w h).length = 40 := rfl

/-- The record of a frame starts with the bitmap-info header, whatever the
pixel format. -/
theorem icoWriteImage_header (layer_render : Sprite → Nat → Nat → Nat → Nat) (sprite : Sprite)
    (n : Nat) (out : List Nat) :
    ∃ tl, icoWriteImage layer_render sprite n out =
      out ++ icoSpecBmpHeader (icoBpp sprite)
        (icoSize (icoBpp sprite) sprite.width sprite.height) sprite.width sprite.height ++ tl := by
  rw [icoWriteImage_append, ← icoWriteBmpHeader_spec]
  simp only [icoWriteImage]
  rw [icoWriteAndRows_append, icoWriteXorRows_append]
  split_ifs
  · rw [icoWritePalette_append, fputl_eq]
    exact ⟨_, by simp only [List.append_assoc, List.nil_append]; rfl⟩
  · exact ⟨_, by simp only [List.append_assoc, List.nil_append]; rfl⟩

/-- C27 as stated fails: the image-size field of the header (bytes 20 to 23)
is not zero.  For the indexed sprite of 3 by 2 pixels it holds 1080, the size
written in the directory entry. -/
theorem ico_bmp_header_size_field_is_not_zero :
    icoSize (icoBpp (icoSmall 1)) (icoSmall 1).width (icoSmall 1).height = 1080 ∧
    ((icoWriteImage icoPlain (icoSmall 1) 0 []).drop 20).take 4 = [56, 4, 0, 0] ∧
    ((icoWriteImage icoPlain (icoSmall 1) 0 []).drop 20).take 4 ≠ [0, 0, 0, 0] := by
  obtain ⟨tl, h⟩ := icoWriteImage_header icoPlain (icoSmall 1) 0 []
  have h2 : ((icoWriteImage icoPlain (icoSmall 1) 0 []).drop 20).take 4 = [56, 4, 0, 0] := by
    rw [h]
    rfl
  refine ⟨by decide, h2, ?_⟩
  rw [h2]
  decide

/-- C27, with the image-size field as written.  For every sprite and every
frame the record that the encoder writes starts with a header of exactly 40
bytes: LE32(40), LE32(width), LE32(2 * height), LE16(1), LE16(bpp) with bpp =
8 for an indexed sprite and 24 otherwise, the compression field 0, the
image-size field holding the byte size computed for the directory entry
(which is at least 40), and the four remaining fields 0. -/
theorem ico_bmp_header_layout (layer_render : Sprite → Nat → Nat → Nat → Nat)
    (sprite : Sprite) (n : Nat) (out : List Nat) :
    (∃ tl, icoWriteImage layer_render sprite n out =
      out ++ (le32 40 ++ le32 sprite.width ++ le32 (2 * sprite.height) ++ le16 1 ++
        le16 (icoBpp sprite) ++ le32 0 ++
        le32 (icoSize (icoBpp sprite) sprite.width sprite.height) ++
        le32 0 ++ le32 0 ++ le32 0 ++ le32 0) ++ tl) ∧
    (le32 40 ++ le32 sprite.width ++ le32 (2 * sprite.height) ++ le16 1 ++
        le16 (icoBpp sprite) ++ le32 0 ++
        le32 (icoSize (icoBpp sprite) sprite.width sprite.height) ++
        le32 0 ++ le32 0 ++ le32 0 ++ le32 0).length = 40 ∧
    icoBpp sprite = (if sprite.pixelFormat = IMAGE_INDEXED then 8 else 24) ∧
    40 ≤ icoSize (icoBpp sprite) sprite.width sprite.height ∧
    le32 0 = [0, 0, 0, 0] := by
  refine ⟨icoWriteImage_header layer_render sprite n out, rfl, rfl, ?_, rfl⟩
  unfold icoSize
  simp only []
  split_ifs <;> omega

/-! ## C24: the AND mask that the ICO encoder writes -/

theorem and_two_pow_iff (t k : Nat) : t &&& 2 ^ k = 2 ^ k ↔ t.testBit k = true := by
  constructor
  · intro h
    have := congrArg (fun z => z.testBit k) h
    simpa [Nat.testBit_two_pow_self] using this
  · intro h
    apply Nat.eq_of_testBit_eq
    intro i
    rw [Nat.testBit_and, Nat.testBit_two_pow]
    by_cases hki : k = i
    · subst hki; simp [h]
    · simp [hki]

theorem mask_value (i : Nat) (hi : i < 8) : 128 >>> i = 2 ^ (7 - i) := by
  interval_cases i <;> rfl

/-- The test that the decoder makes on a mask byte is the test of the bit
`7 - i`. -/
theorem mask_test_iff (t i : Nat) (hi : i < 8) :
    t &&& (128 >>> i) = 128 >>> i ↔ t.testBit (7 - i) = true := by
  rw [mask_value i hi]
  exact and_two_pow_iff t (7 - i)

theorem rgba_geta_neg_one : _rgba_geta (-1) = 255 := by decide

theorem graya_geta_neg_one : _graya_geta (-1) = 255 := by decide

/-- One round of the encoder's loop over the bits of a mask byte. -/
theorem icoMaskBits_succ (image : Image) (x y n b m v : Nat) :
    icoMaskBits image x y (n + 1) b m v =
      icoMaskBits image x y n (b + 1)
        (if icoTransparent image (x * 8 + b) y = true then m ||| v else m) (v >>> 1) := by
  simp only [icoMaskBits, icoTransparent, image_getpixel]
  congr 1
  by_cases hin : x * 8 + b < image.w ∧ y < image.h
  · simp only [hin, and_self, decide_True, Bool.true_and, if_true]
    cases image.format <;> simp
  · simp only [hin, decide_False, Bool.false_and, if_false, Bool.false_eq_true,
      rgba_geta_neg_one, graya_geta_neg_one]
    cases image.format <;> simp

/-- The bits of the byte that the encoder's loop collects. -/
theorem icoMaskBits_bits (image : Image) (x y k : Nat) (n b m v : Nat) :
    (icoMaskBits image x y n b m v).testBit k = true ↔
      (m.testBit k = true ∨
        ∃ j, j < n ∧ (v >>> j).testBit k = true ∧
          icoTransparent image (x * 8 + (b + j)) y = true) := by
  induction n generalizing b m v with
  | zero =>
    simp only [icoMaskBits]
    constructor
    · exact Or.inl
    · rintro (h | ⟨j, hj, _⟩)
      · exact h
      · omega
  | succ n ih =>
    rw [icoMaskBits_succ, ih]
    constructor
    · rintro (h | ⟨j, hj, hv, hp⟩)
      · by_cases c : icoTransparent image (x * 8 + b) y = true
        · rw [if_pos c, Nat.testBit_or, Bool.or_eq_true] at h
          rcases h with h | h
          · exact Or.inl h
          · exact Or.inr ⟨0, by omega, by simpa using h, by simpa using c⟩
        · rw [if_neg c] at h
          exact Or.inl h
      · refine Or.inr ⟨j + 1, by omega, ?_, ?_⟩
        · rw [Nat.add_comm j 1, Nat.shiftRight_add]
          exact hv
        · rw [show b + (j + 1) = b + 1 + j by omega]
          exact hp
    · rintro (h | ⟨j, hj, hv, hp⟩)
      · left
        by_cases c : icoTransparent image (x * 8 + b) y = true
        · rw [if_pos c, Nat.testBit_or, h]
          rfl
        · rw [if_neg c]
          exact h
      · cases j with
        | zero =>
          left
          have c : icoTransparent image (x * 8 + b) y = true := by simpa using hp
          rw [if_pos c, Nat.testBit_or, Bool.or_eq_true]
          right
          simpa using hv
        | succ j =>
          right
          refine ⟨j, by omega, ?_, ?_⟩
          · rw [Nat.add_comm j 1, Nat.shiftRight_add] at hv
            exact hv
          · rw [show b + 1 + j = b + (j + 1) by omega]
            exact hp

theorem mask_bit_table :
    ∀ j, j < 8 → ∀ k, (128 >>> j).testBit k = true → k = 7 - j := by
  intro j hj k h
  rw [mask_value j hj, Nat.testBit_two_pow] at h
  have h2 : 7 - j = k := by simpa using h
  exact h2.symm

/-- Bit `7 - i` of the mask byte `x` of row `y` is set exactly for a
transparent pixel `(x * 8 + i, y)`; the other bits are clear. -/
theorem icoMaskByte_bit (image : Image) (x y i : Nat) (hi : i < 8) :
    (icoMaskBits image x y 8 0 0 128).testBit (7 - i) = icoTransparent image (x * 8 + i) y := by
  have h := icoMaskBits_bits image x y (7 - i) 8 0 0 128
  cases hc : icoTransparent image (x * 8 + i) y
  · cases ht : (icoMaskBits image x y 8 0 0 128).testBit (7 - i)
    · rfl
    · rcases h.mp ht with h0 | ⟨j, hj, hv, hp⟩
      · simp at h0
      · have := mask_bit_table j hj _ hv
        have hji : j = i := by omega
        rw [hji, Nat.zero_add, hc] at hp
        exact absurd hp (by decide)
  · apply h.mpr
    refine Or.inr ⟨i, hi, ?_, by rw [Nat.zero_add]; exact hc⟩
    rw [mask_value i hi]
    exact Nat.testBit_two_pow_self

theorem icoMaskByte_lt (image : Image) (x y : Nat) : icoMaskBits image x y 8 0 0 128 < 256 := by
  apply Nat.lt_pow_two_of_testBit _ (n := 8)
  intro k hk
  cases ht : (icoMaskBits image x y 8 0 0 128).testBit k
  · rfl
  · rcases (icoMaskBits_bits image x y k 8 0 0 128).mp ht with h0 | ⟨j, hj, hv, _⟩
    · simp at h0
    · have := mask_bit_table j hj _ hv
      omega

/-- The pad bytes that follow `x` bytes of a row are zeros. -/
theorem icoWritePad_zeros (x : Nat) :
    icoWritePad 3 x [] = List.replicate ((4 - x % 4) % 4) 0 := by
  have h1 := and_three x
  have h2 := and_three (x + 1)
  have h3 := and_three (x + 1 + 1)
  have hz : toByte 0 = 0 := rfl
  simp only [icoWritePad, h1, h2, h3, fputc_eq, hz]
  have c : x % 4 = 0 ∨ x % 4 = 1 ∨ x % 4 = 2 ∨ x % 4 = 3 := by omega
  rcases c with c | c | c | c
  · have e : ¬ (x % 4 ≠ 0) := by omega
    rw [if_neg e, c]
    rfl
  · have e0 : x % 4 ≠ 0 := by omega
    have e1 : (x + 1) % 4 ≠ 0 := by omega
    have e2 : (x + 1 + 1) % 4 ≠ 0 := by omega
    rw [if_pos e0, if_pos e1, if_pos e2, c]
    rfl
  · have e0 : x % 4 ≠ 0 := by omega
    have e1 : (x + 1) % 4 ≠ 0 := by omega
    have e2 : ¬ ((x + 1 + 1) % 4 ≠ 0) := by omega
    rw [if_pos e0, if_pos e1, if_neg e2, c]
    rfl
  · have e0 : x % 4 ≠ 0 := by omega
    have e1 : ¬ ((x + 1) % 4 ≠ 0) := by omega
    rw [if_pos e0, if_neg e1, c]
    rfl

/-- The mask bytes of one row, from byte `x` on. -/
theorem icoWriteAndBytes_map (image : Image) (y n x : Nat) :
    icoWriteAndBytes image y n x [] =
      (List.range' x n).map (fun i => icoMaskBits image i y 8 0 0 128) := by
  induction n generalizing x with
  | zero => simp [icoWriteAndBytes]
  | succ n ih =>
    simp only [icoWriteAndBytes]
    rw [icoWriteAndBytes_append, ih, fputc_eq, toByte_byte _ (icoMaskByte_lt image x y)]
    simp [List.range'_succ]

/-- The rows of the AND mask, the last row of the image first. -/
theorem icoWriteAndRows_rows (image : Image) (n : Nat) :
    icoWriteAndRows image n [] =
      (List.range n).reverse.flatMap (fun y =>
        (List.range ((image.w + 7) / 8)).map (fun i => icoMaskBits image i y 8 0 0 128) ++
          List.replicate ((4 - (image.w + 7) / 8 % 4) % 4) 0) := by
  induction n with
  | zero => simp [icoWriteAndRows]
  | succ n ih =>
    simp only [icoWriteAndRows]
    rw [icoWriteAndRows_append, ih, icoWritePad_append, icoWritePad_zeros,
      icoWriteAndBytes_map, List.range_succ, List.reverse_append]
    simp [List.range_eq_range']

/-- The AND mask is the last part of the record of a frame. -/
theorem icoWriteImage_mask (layer_render : Sprite → Nat → Nat → Nat → Nat) (sprite : Sprite)
    (n : Nat) (out : List Nat) :
    ∃ pre, icoWriteImage layer_render sprite n out =
      pre ++ icoWriteAndRows ⟨sprite.pixelFormat, sprite.width, sprite.height,
        layer_render sprite n⟩ sprite.height [] := by
  unfold icoWriteImage
  simp only []
  rw [icoWriteAndRows_append]
  exact ⟨_, rfl⟩

/-- C24. For every sprite, frame and compositor, the record of the frame ends
with the AND mask of the composited image; for every image the AND mask is
the rows `h - 1` down to `0`, each row being `(w + 7) / 8` mask bytes followed
by zero bytes up to a multiple of 4; every mask byte is below 256, and bit
`7 - (x mod 8)` of mask byte `x / 8` of row `y` is set if and only if the
pixel `(x, y)` lies in the image and has alpha 0 (RGB, grayscale) or index 0
(indexed); in particular the bits of the columns `x >= w` are clear. -/
theorem ico_and_mask_encoding (image : Image) :
    (∀ (layer_render : Sprite → Nat → Nat → Nat → Nat) (sprite : Sprite) (n : Nat)
        (out : List Nat),
      ∃ pre, icoWriteImage layer_render sprite n out =
        pre ++ icoWriteAndRows ⟨sprite.pixelFormat, sprite.width, sprite.height,
          layer_render sprite n⟩ sprite.height []) ∧
    icoWriteAndRows image image.h [] =
      (List.range image.h).reverse.flatMap (fun y =>
        (List.range ((image.w + 7) / 8)).map (fun i => icoMaskBits image i y 8 0 0 128) ++
          List.replicate ((4 - (image.w + 7) / 8 % 4) % 4) 0) ∧
    ((image.w + 7) / 8 + (4 - (image.w + 7) / 8 % 4) % 4) % 4 = 0 ∧
    (∀ i y, icoMaskBits image i y 8 0 0 128 < 256) ∧
    (∀ x y, (icoMaskBits image (x / 8) y 8 0 0 128).testBit (7 - x % 8) =
      icoTransparent image x y) ∧
    (∀ x y, x < image.w → y < image.h →
      (icoTransparent image x y = true ↔
        (image.format = IMAGE_RGB ∧ _rgba_geta (image_getpixel_fast image x y) = 0) ∨
        (image.format = IMAGE_GRAYSCALE ∧ _graya_geta (image_getpixel_fast image x y) = 0) ∨
        (image.format = IMAGE_INDEXED ∧ image_getpixel_fast image x y = 0))) ∧
    (∀ x y, image.w ≤ x →
      (icoMaskBits image (x / 8) y 8 0 0 128).testBit (7 - x % 8) = false) := by
  have hbit : ∀ x y, (icoMaskBits image (x / 8) y 8 0 0 128).testBit (7 - x % 8) =
      icoTransparent image x y := by
    intro x y
    have h := icoMaskByte_bit image (x / 8) y (x % 8) (Nat.mod_lt _ (by omega))
    rw [h]
    congr 1
    omega
  refine ⟨fun lr sprite n out => icoWriteImage_mask lr sprite n out,
    icoWriteAndRows_rows image image.h, by omega, fun i y => icoMaskByte_lt image i y,
    hbit, ?_, ?_⟩
  · intro x y hx hy
    unfold icoTransparent
    cases hf : image.format <;> simp [hx, hy]
  · intro x y hx
    rw [hbit]
    unfold icoTransparent
    have : ¬ (x < image.w ∧ y < image.h) := by omega
    simp [this]

/-! ## C25: the AND mask that the ICO decoder reads -/

theorem icoOnLoad_first (fop : FileOp) (f : File) (h1 : (icoReadHeader f).1.type = 1)
    (h2 : 1 ≤ (icoReadHeader f).1.entries) :
    IcoFormat.onLoad fop f = icoLoadEntry fop (icoFirstEntry f) (icoEntriesEnd f) := by
  unfold IcoFormat.onLoad
  simp only []
  rw [if_neg (by simp [h1]), if_neg (by omega)]
  rfl

/-- The document that the decoder builds: the image of its only cel is the
result of the AND pass over the image of the XOR pass. -/
theorem icoLoadEntry_stage (fop : FileOp) (entry : ICONDIRENTRY) (f : File) :
    (icoLoadEntry fop entry f).ok = true ∧
    (icoLoadEntry fop entry f).fop =
      { fop with document := some (
        { pixelFormat := if entry.bpp > 8 then IMAGE_RGB else IMAGE_INDEXED,
          width := if entry.width = 0 then 256 else entry.width,
          height := if entry.height = 0 then 256 else entry.height,
          ncolors := if entry.color_count = 0 then 256 else entry.color_count,
          totalFrames := 1,
          palette := fun _ => (icoXorStage entry f).2.2,
          layers := [⟨[⟨0, (icoAndRows (icoXorStage entry f).2.1.h (icoXorStage entry f).1
            (icoXorStage entry f).2.1).2⟩]⟩] } : Sprite) } :=
  ⟨rfl, rfl⟩

theorem icoXorStage_dims (entry : ICONDIRENTRY) (f : File) :
    (icoXorStage entry f).2.1.w = (if entry.width = 0 then 256 else entry.width) ∧
    (icoXorStage entry f).2.1.h = (if entry.height = 0 then 256 else entry.height) := by
  unfold icoXorStage
  simp only [icoXorRows_w, icoXorRows_h]
  constructor <;> simp only [image_clear, Image.create]

theorem image_putpixel_pix (image : Image) (x y c x1 y1 : Nat) :
    (image_putpixel image x y c).pix x1 y1 =
      if (x1 = x ∧ y1 = y) ∧ x < image.w ∧ y < image.h then c else image.pix x1 y1 := by
  unfold image_putpixel
  by_cases hin : x < image.w ∧ y < image.h
  · rw [if_pos hin]
    simp only [Image.store]
    by_cases c1 : x1 = x ∧ y1 = y
    · rw [if_pos c1, if_pos ⟨c1, hin⟩]
    · rw [if_neg c1, if_neg (fun h => c1 h.1)]
  · rw [if_neg hin, if_neg (fun h => hin h.2)]

theorem icoAndBits_h (m : Int) (x y n b v : Nat) (image : Image) :
    (icoAndBits m x y n b v image).h = image.h := by
  induction n generalizing b v image with
  | zero => rfl
  | succ n ih =>
    simp only [icoAndBits, ih]
    split_ifs
    · exact image_putpixel_h _ _ _ _
    · rfl

theorem icoAndBytes_h (y n x : Nat) (f : File) (image : Image) :
    (icoAndBytes y n x f image).2.h = image.h := by
  induction n generalizing x f image with
  | zero => rfl
  | succ n ih => simp only [icoAndBytes, ih, icoAndBits_h]

/-- The pixels after the decoder's loop over the bits `b` to `b + n - 1` of
a mask byte `m`: a pixel of the image is set to 0 when its bit is set. -/
theorem icoAndBits_pix (m : Int) (x y n b : Nat) (hb : b + n ≤ 8) (img : Image) (x1 y1 : Nat) :
    (icoAndBits m x y n b (128 >>> b) img).pix x1 y1 =
      if y1 = y ∧ y < img.h ∧ x1 < img.w ∧ x * 8 + b ≤ x1 ∧ x1 < x * 8 + b + n then
        (if (toByte m).testBit (7 - (x1 - x * 8)) = true then 0 else img.pix x1 y1)
      else img.pix x1 y1 := by
  induction n generalizing b img with
  | zero =>
    simp only [icoAndBits]
    rw [if_neg (by omega)]
  | succ n ih =>
    simp only [icoAndBits]
    have hv : 128 >>> b >>> 1 = 128 >>> (b + 1) := by rw [← Nat.shiftRight_add]
    rw [hv, ih (b + 1) (by omega)]
    have ht := mask_test_iff (toByte m) b (by omega)
    by_cases hs : toByte m &&& (128 >>> b) = 128 >>> b
    · have hbit := ht.mp hs
      rw [if_pos hs, image_putpixel_h, image_putpixel_w, image_putpixel_pix]
      by_cases c1 : y1 = y ∧ y < img.h ∧ x1 < img.w ∧ x * 8 + (b + 1) ≤ x1 ∧
          x1 < x * 8 + (b + 1) + n
      · have c3 : y1 = y ∧ y < img.h ∧ x1 < img.w ∧ x * 8 + b ≤ x1 ∧
            x1 < x * 8 + b + (n + 1) := by omega
        have c2 : ¬ ((x1 = x * 8 + b ∧ y1 = y) ∧ x * 8 + b < img.w ∧ y < img.h) := by omega
        rw [if_pos c1, if_pos c3, if_neg c2]
      · rw [if_neg c1]
        by_cases c2 : (x1 = x * 8 + b ∧ y1 = y) ∧ x * 8 + b < img.w ∧ y < img.h
        · have e : x1 - x * 8 = b := by omega
          have c3 : y1 = y ∧ y < img.h ∧ x1 < img.w ∧ x * 8 + b ≤ x1 ∧
              x1 < x * 8 + b + (n + 1) := by omega
          rw [if_pos c2, if_pos c3, e, if_pos hbit]
        · have c3 : ¬ (y1 = y ∧ y < img.h ∧ x1 < img.w ∧ x * 8 + b ≤ x1 ∧
              x1 < x * 8 + b + (n + 1)) := by omega
          rw [if_neg c2, if_neg c3]
    · have hbit : ¬ (toByte m).testBit (7 - b) = true := fun h => hs (ht.mpr h)
      rw [if_neg hs]
      by_cases c1 : y1 = y ∧ y < img.h ∧ x1 < img.w ∧ x * 8 + (b + 1) ≤ x1 ∧
          x1 < x * 8 + (b + 1) + n
      · have c3 : y1 = y ∧ y < img.h ∧ x1 < img.w ∧ x * 8 + b ≤ x1 ∧
            x1 < x * 8 + b + (n + 1) := by omega
        rw [if_pos c1, if_pos c3]
      · rw [if_neg c1]
        by_cases c3 : y1 = y ∧ y < img.h ∧ x1 < img.w ∧ x * 8 + b ≤ x1 ∧
            x1 < x * 8 + b + (n + 1)
        · have e : x1 - x * 8 = b := by omega
          rw [if_pos c3, e, if_neg hbit]
        · rw [if_neg c3]

/-- The pixels after the decoder's loop over one mask byte. -/
theorem icoAndBits_byte (m : Int) (x y : Nat) (img : Image) (x1 y1 : Nat) :
    (icoAndBits m x y 8 0 128 img).pix x1 y1 =
      if y1 = y ∧ y < img.h ∧ x1 < img.w ∧ x * 8 ≤ x1 ∧ x1 < x * 8 + 8 then
        (if (toByte m).testBit (7 - x1 % 8) = true then 0 else img.pix x1 y1)
      else img.pix x1 y1 := by
  have h := icoAndBits_pix m x y 8 0 (by omega) img x1 y1
  have e : (128 >>> 0 : Nat) = 128 := rfl
  rw [e] at h
  rw [h]
  by_cases c : y1 = y ∧ y < img.h ∧ x1 < img.w ∧ x * 8 ≤ x1 ∧ x1 < x * 8 + 8
  · have e2 : x1 - x * 8 = x1 % 8 := by omega
    have c0 : y1 = y ∧ y < img.h ∧ x1 < img.w ∧ x * 8 + 0 ≤ x1 ∧ x1 < x * 8 + 0 + 8 := by omega
    rw [if_pos c, if_pos c0, e2]
  · have c0 : ¬ (y1 = y ∧ y < img.h ∧ x1 < img.w ∧ x * 8 + 0 ≤ x1 ∧ x1 < x * 8 + 0 + 8) := by
      omega
    rw [if_neg c, if_neg c0]

theorem icoSkipPad_rest (x : Nat) (f : File) :
    (icoSkipPad 3 x f).rest = f.rest.drop ((4 - x % 4) % 4) := by
  have h1 := and_three x
  have h2 := and_three (x + 1)
  have h3 := and_three (x + 1 + 1)
  simp only [icoSkipPad, h1, h2, h3]
  have c : x % 4 = 0 ∨ x % 4 = 1 ∨ x % 4 = 2 ∨ x % 4 = 3 := by omega
  rcases c with c | c | c | c
  · have e : ¬ (x % 4 ≠ 0) := by omega
    rw [if_neg e, c]
    rfl
  · have e0 : x % 4 ≠ 0 := by omega
    have e1 : (x + 1) % 4 ≠ 0 := by omega
    have e2 : (x + 1 + 1) % 4 ≠ 0 := by omega
    rw [if_pos e0, if_pos e1, if_pos e2, c]
    simp only [fgetc_rest, List.drop_drop]
  · have e0 : x % 4 ≠ 0 := by omega
    have e1 : (x + 1) % 4 ≠ 0 := by omega
    have e2 : ¬ ((x + 1 + 1) % 4 ≠ 0) := by omega
    rw [if_pos e0, if_pos e1, if_neg e2, c]
    simp only [fgetc_rest, List.drop_drop]
  · have e0 : x % 4 ≠ 0 := by omega
    have e1 : ¬ ((x + 1) % 4 ≠ 0) := by omega
    rw [if_pos e0, if_neg e1, c]
    simp only [fgetc_rest]

/-- The loop over the mask bytes of a row reads one byte per round. -/
theorem icoAndBytes_drop (y n x : Nat) (f : File) (img : Image) :
    (icoAndBytes y n x f img).1.rest = f.rest.drop n := by
  induction n generalizing x f img with
  | zero => rfl
  | succ n ih =>
    simp only [icoAndBytes]
    rw [ih, fgetc_rest, List.drop_drop]
    congr 1
    omega

/-- The pixels after the decoder's loop over the mask bytes `x` to
`x + n - 1` of row `y`. -/
theorem icoAndBytes_pix (y n x : Nat) (f : File) (img : Image) (x1 y1 : Nat) :
    (icoAndBytes y n x f img).2.pix x1 y1 =
      if y1 = y ∧ y < img.h ∧ x1 < img.w ∧ x * 8 ≤ x1 ∧ x1 < (x + n) * 8 then
        (if (toByte (peek f.rest (x1 / 8 - x))).testBit (7 - x1 % 8) = true then 0
          else img.pix x1 y1)
      else img.pix x1 y1 := by
  induction n generalizing x f img with
  | zero =>
    simp only [icoAndBytes]
    rw [if_neg (by omega)]
  | succ n ih =>
    simp only [icoAndBytes]
    rw [ih, icoAndBits_h, icoAndBits_w, icoAndBits_byte, fgetc_rest, peek_drop, fgetc_fst]
    by_cases c1 : y1 = y ∧ y < img.h ∧ x1 < img.w ∧ (x + 1) * 8 ≤ x1 ∧ x1 < (x + 1 + n) * 8
    · have e : 1 + (x1 / 8 - (x + 1)) = x1 / 8 - x := by omega
      have c3 : y1 = y ∧ y < img.h ∧ x1 < img.w ∧ x * 8 ≤ x1 ∧ x1 < (x + (n + 1)) * 8 := by
        omega
      have c2 : ¬ (y1 = y ∧ y < img.h ∧ x1 < img.w ∧ x * 8 ≤ x1 ∧ x1 < x * 8 + 8) := by omega
      rw [if_pos c1, if_pos c3, if_neg c2, e]
    · rw [if_neg c1]
      by_cases c2 : y1 = y ∧ y < img.h ∧ x1 < img.w ∧ x * 8 ≤ x1 ∧ x1 < x * 8 + 8
      · have e : x1 / 8 - x = 0 := by omega
        have c3 : y1 = y ∧ y < img.h ∧ x1 < img.w ∧ x * 8 ≤ x1 ∧ x1 < (x + (n + 1)) * 8 := by
          omega
        rw [if_pos c2, if_pos c3, e]
      · have c3 : ¬ (y1 = y ∧ y < img.h ∧ x1 < img.w ∧ x * 8 ≤ x1 ∧
            x1 < (x + (n + 1)) * 8) := by omega
        rw [if_neg c2, if_neg c3]

theorem icoAndRows_w (n : Nat) (f : File) (img : Image) : (icoAndRows n f img).2.w = img.w := by
  induction n generalizing f img with
  | zero => rfl
  | succ n ih => simp only [icoAndRows, ih, icoAndBytes_w]

theorem icoAndRows_h (n : Nat) (f : File) (img : Image) : (icoAndRows n f img).2.h = img.h := by
  induction n generalizing f img with
  | zero => rfl
  | succ n ih => simp only [icoAndRows, ih, icoAndBytes_h]

/-- The pixels after the AND pass over the rows `n - 1` down to 0: the mask
byte of the pixel `(x1, y1)` is the byte number
`(n - 1 - y1) * icoMaskRowBytes w + x1 / 8` that the pass reads, and its bit
`7 - x1 mod 8` decides. -/
theorem icoAndRows_pix (n : Nat) (f : File) (img : Image) (x1 y1 : Nat) :
    (icoAndRows n f img).2.pix x1 y1 =
      if y1 < n ∧ y1 < img.h ∧ x1 < img.w then
        (if (toByte (peek f.rest
            ((n - 1 - y1) * icoMaskRowBytes img.w + x1 / 8))).testBit (7 - x1 % 8) = true
          then 0 else img.pix x1 y1)
      else img.pix x1 y1 := by
  induction n generalizing f img with
  | zero =>
    simp only [icoAndRows]
    rw [if_neg (by omega)]
  | succ n ih =>
    simp only [icoAndRows]
    rw [ih, icoAndBytes_h, icoAndBytes_w, icoSkipPad_rest, icoAndBytes_drop, List.drop_drop,
      peek_drop, icoAndBytes_pix]
    by_cases c1 : y1 < n ∧ y1 < img.h ∧ x1 < img.w
    · have e : n + 1 - 1 - y1 = (n - 1 - y1) + 1 := by omega
      have c3 : y1 < n + 1 ∧ y1 < img.h ∧ x1 < img.w := by omega
      have c2 : ¬ (y1 = n ∧ n < img.h ∧ x1 < img.w ∧ 0 * 8 ≤ x1 ∧
          x1 < (0 + (img.w + 7) / 8) * 8) := by omega
      have e2 : (img.w + 7) / 8 + (4 - (img.w + 7) / 8 % 4) % 4 +
          ((n - 1 - y1) * icoMaskRowBytes img.w + x1 / 8) =
          (n - 1 - y1) * icoMaskRowBytes img.w + icoMaskRowBytes img.w + x1 / 8 := by
        unfold icoMaskRowBytes
        omega
      rw [if_pos c1, if_pos c3, if_neg c2, e, Nat.succ_mul, e2]
    · rw [if_neg c1]
      by_cases c2 : y1 = n ∧ n < img.h ∧ x1 < img.w ∧ 0 * 8 ≤ x1 ∧
          x1 < (0 + (img.w + 7) / 8) * 8
      · have e : n + 1 - 1 - y1 = 0 := by omega
        have c3 : y1 < n + 1 ∧ y1 < img.h ∧ x1 < img.w := by omega
        rw [if_pos c2, if_pos c3, e, Nat.zero_mul, Nat.zero_add, Nat.sub_zero]
      · have c3 : ¬ (y1 < n + 1 ∧ y1 < img.h ∧ x1 < img.w) := by omega
        rw [if_neg c2, if_neg c3]

/-- C25. For every stream whose directory header has type 1 and a count of at
least 1, the decoder succeeds and its document has one layer with one cel;
each pixel `(x, y)` of the cel's image is 0 when bit `7 - x mod 8` of its
mask byte is set, and is the value left by the XOR pass when that bit is
clear.  The mask byte is the byte number `(h - 1 - y) * rowbytes + x / 8`
read after the XOR pass (rows bottom-up, `rowbytes` the mask bytes of a row
padded to a multiple of 4; a byte missing at the end of the stream is read
as `EOF`, all bits set).  So an image whose XOR pass leaves only zeros
decodes to zeros. -/
theorem ico_and_mask_decoding (fop : FileOp) (f : File)
    (h1 : (icoReadHeader f).1.type = 1) (h2 : 1 ≤ (icoReadHeader f).1.entries) :
    ∃ doc image,
      (IcoFormat.onLoad fop f).ok = true ∧
      (IcoFormat.onLoad fop f).fop.document = some doc ∧
      doc.layers = [⟨[⟨0, image⟩]⟩] ∧
      image.w = doc.width ∧ image.h = doc.height ∧
      (∀ x y, x < image.w → y < image.h →
        image.pix x y =
          if (toByte (peek (icoXorStage (icoFirstEntry f) (icoEntriesEnd f)).1.rest
              ((image.h - 1 - y) * icoMaskRowBytes image.w + x / 8))).testBit (7 - x % 8) = true
          then 0
          else (icoXorStage (icoFirstEntry f) (icoEntriesEnd f)).2.1.pix x y) ∧
      ((∀ x y, (icoXorStage (icoFirstEntry f) (icoEntriesEnd f)).2.1.pix x y = 0) →
        ∀ x y, image.pix x y = 0) ∧
      icoMaskRowBytes image.w % 4 = 0 ∧ (image.w + 7) / 8 ≤ icoMaskRowBytes image.w ∧
      icoMaskRowBytes image.w < (image.w + 7) / 8 + 4 := by
  rw [icoOnLoad_first fop f h1 h2]
  obtain ⟨hok, hfop⟩ := icoLoadEntry_stage fop (icoFirstEntry f) (icoEntriesEnd f)
  obtain ⟨hw, hh⟩ := icoXorStage_dims (icoFirstEntry f) (icoEntriesEnd f)
  generalize icoXorStage (icoFirstEntry f) (icoEntriesEnd f) = X at hfop hw hh ⊢
  refine ⟨_, (icoAndRows X.2.1.h X.1 X.2.1).2, hok, by rw [hfop], rfl, ?_, ?_, ?_, ?_, ?_⟩
  · rw [icoAndRows_w]
    exact hw
  · rw [icoAndRows_h]
    exact hh
  · intro x y hx hy
    rw [icoAndRows_w] at hx
    rw [icoAndRows_h] at hy
    rw [icoAndRows_pix, icoAndRows_w, icoAndRows_h, if_pos ⟨hy, hy, hx⟩]
  · intro h0 x y
    rw [icoAndRows_pix, h0]
    split_ifs <;> rfl
  · unfold icoMaskRowBytes
    omega

/-- The theorem at the stream `icoBlank`: every XOR index is 0, every mask bit
is 1, and the four pixels that come back are 0. -/
theorem ico_and_mask_decoding_witness :
    (icoReadHeader (File.open icoBlank)).1.type = 1 ∧
    1 ≤ (icoReadHeader (File.open icoBlank)).1.entries ∧
    icoCorners (IcoFormat.onLoad FileOp.blank (File.open icoBlank)) = some [[[0, 0, 0, 0]]] ∧
    ∃ doc image,
      (IcoFormat.onLoad FileOp.blank (File.open icoBlank)).ok = true ∧
      (IcoFormat.onLoad FileOp.blank (File.open icoBlank)).fop.document = some doc ∧
      doc.layers = [⟨[⟨0, image⟩]⟩] ∧
      image.w = doc.width ∧ image.h = doc.height ∧
      (∀ x y, x < image.w → y < image.h →
        image.pix x y =
          if (toByte (peek (icoXorStage (icoFirstEntry (File.open icoBlank))
                (icoEntriesEnd (File.open icoBlank))).1.rest
              ((image.h - 1 - y) * icoMaskRowBytes image.w + x / 8))).testBit (7 - x % 8) = true
          then 0
          else (icoXorStage (icoFirstEntry (File.open icoBlank))
            (icoEntriesEnd (File.open icoBlank))).2.1.pix x y) ∧
      ((∀ x y, (icoXorStage (icoFirstEntry (File.open icoBlank))
            (icoEntriesEnd (File.open icoBlank))).2.1.pix x y = 0) →
        ∀ x y, image.pix x y = 0) ∧
      icoMaskRowBytes image.w % 4 = 0 ∧ (image.w + 7) / 8 ≤ icoMaskRowBytes image.w ∧
      icoMaskRowBytes image.w < (image.w + 7) / 8 + 4 :=
  ⟨by decide, by decide, by decide,
    ico_and_mask_decoding FileOp.blank (File.open icoBlank) (by decide) (by decide)⟩

/-! ## C30: ICO round trip of an RGB sprite -/

/-- The decoder reads the first encoded directory entry back, whatever the
pixel format. -/
theorem icoReadEntry_encoded_any (sprite : Sprite)
    (k offset : Nat) (hoff : offset < 4294967296) (A more : List Nat) (fa e er : Bool) :
    (icoReadEntry ⟨A, icoWriteEntries sprite (k + 1) offset [] ++ more, fa, e, er⟩).1 =
      ⟨sprite.width % 256, sprite.height % 256, 0, 0, 1, icoBpp sprite,
        icoSize (icoBpp sprite) sprite.width sprite.height % 4294967296, offset⟩ := by
  by_cases hf : sprite.pixelFormat = IMAGE_INDEXED
  · have hb : icoBpp sprite = 8 := by simp [icoBpp, hf]
    rw [hb]
    exact icoReadEntry_encoded sprite hf k offset hoff A more fa e er
  · have hb : icoBpp sprite = 24 := by simp [icoBpp, hf]
    have hsz : ∀ s : Nat, toU32 (((toByte ((s : Int) / 16777216) % 256 : Nat) : Int) * 16777216 +
        ((toByte ((s : Int) / 65536) % 256 : Nat) : Int) * 65536 +
        ((toByte ((s : Int) / 256) % 256 : Nat) : Int) * 256 +
        ((toByte (s : Int) % 256 : Nat) : Int)) = s % 4294967296 := by
      intro s
      unfold toU32 toByte; omega
    rw [icoWriteEntries_succ, hb]
    simp only [icoReadEntry, List.cons_append, fgetc_mk, fgetw_mk, fgetl_mk]
    rw [hsz, hsz, Nat.mod_eq_of_lt hoff]
    simp only [ICONDIRENTRY.mk.injEq]
    and_intros
    all_goals first
      | trivial
      | rfl
      | rw [toByte_natCast, toByte_natCast, Nat.mod_mod, Nat.mod_mod]

/-- Encoding a sprite of 1 to 65535 frames and decoding the bytes: the decoder
takes the first directory entry and seeks to the record of frame 0. -/
theorem icoReload_entry_any (layer_render : Sprite → Nat → Nat → Nat → Nat) (src dst : FileOp)
    (sprite : Sprite) (hn : 1 ≤ sprite.totalFrames ∧ sprite.totalFrames ≤ 65535) :
    ∃ (A R : List Nat) (fa e er : Bool) (tl : List Nat),
      icoReload layer_render src dst sprite =
        icoLoadEntry dst
          ⟨sprite.width % 256, sprite.height % 256, 0, 0, 1, icoBpp sprite,
            icoSize (icoBpp sprite) sprite.width sprite.height % 4294967296,
            6 + sprite.totalFrames * 16⟩
          ⟨A, R, fa, e, er⟩ ∧
      A.drop (6 + sprite.totalFrames * 16) = icoWriteImage layer_render sprite 0 [] ++ tl := by
  obtain ⟨k, hk⟩ : ∃ k, sprite.totalFrames = k + 1 := ⟨sprite.totalFrames - 1, by omega⟩
  have hlen : (0 :: 0 :: 1 :: 0 :: toByte sprite.totalFrames ::
        toByte ((sprite.totalFrames : Int) / 256) ::
        icoWriteEntries sprite sprite.totalFrames (6 + sprite.totalFrames * 16) []).length =
      6 + sprite.totalFrames * 16 := by
    simp only [List.length_cons, icoWriteEntries_length]
    omega
  have hout : (IcoFormat.onSave layer_render src sprite).out =
      (0 :: 0 :: 1 :: 0 :: toByte sprite.totalFrames ::
        toByte ((sprite.totalFrames : Int) / 256) ::
        icoWriteEntries sprite sprite.totalFrames (6 + sprite.totalFrames * 16) []) ++
      (icoWriteImage layer_render sprite 0 [] ++ icoWriteImages layer_render sprite k 1 []) := by
    rw [icoOnSave_out, ← icoWriteImages_succ, ← hk]
    rfl
  generalize hA : (IcoFormat.onSave layer_render src sprite).out = A at hout
  have hdrop : A.drop (6 + sprite.totalFrames * 16) =
      icoWriteImage layer_render sprite 0 [] ++ icoWriteImages layer_render sprite k 1 [] := by
    rw [hout]
    exact List.drop_left' hlen
  have hrun : icoReload layer_render src dst sprite =
      icoLoadImage dst ⟨0, 1, sprite.totalFrames⟩
        ⟨A, icoWriteEntries sprite (k + 1) (6 + sprite.totalFrames * 16) [] ++
          icoWriteImages layer_render sprite sprite.totalFrames 0 [], false, false, false⟩ := by
    unfold icoReload
    rw [hA]
    unfold File.open
    have hA2 := hA
    rw [icoOnSave_out] at hA2
    conv_lhs => arg 2; arg 2; rw [← hA2]
    rw [icoOnLoad_dir dst A _ _ hn, hk]
  generalize hes : (icoReadEntries sprite.totalFrames
      ⟨A, icoWriteEntries sprite (k + 1) (6 + sprite.totalFrames * 16) [] ++
        icoWriteImages layer_render sprite sprite.totalFrames 0 [], false, false, false⟩).2 = g
  have hall : g.all = A := by
    rw [← hes, icoReadEntries_all]
  refine ⟨A, g.rest, g.fault, g.eof, g.error, icoWriteImages layer_render sprite k 1 [], ?_, hdrop⟩
  rw [hrun]
  simp only [icoLoadImage]
  rw [icoReadEntries_head _ _ _ hn.1,
    icoReadEntry_encoded_any sprite k _ (by omega), hes, ← hall]

/-- The record of one frame of a sprite that is not indexed: header, the XOR
mask and the AND mask. -/
theorem icoWriteImage_direct (layer_render : Sprite → Nat → Nat → Nat → Nat) (sprite : Sprite)
    (hf : sprite.pixelFormat ≠ IMAGE_INDEXED) (n : Nat) :
    icoWriteImage layer_render sprite n [] =
      icoWriteBmpHeader 24 (icoSize 24 sprite.width sprite.height) sprite.width sprite.height []
        ++ (icoWriteXorRows (icoRendered layer_render sprite n) sprite.height []
        ++ icoWriteAndRows (icoRendered layer_render sprite n) sprite.height []) := by
  have hb : icoBpp sprite = 24 := by simp [icoBpp, hf]
  have h8 : ¬ ((24 : Nat) = 8) := by decide
  simp only [icoWriteImage, hb, if_neg h8]
  rw [icoWriteAndRows_append, icoWriteXorRows_append]
  simp only [List.append_assoc]
  rfl

theorem getpixel_fast_rgb_cast (c : Nat) :
    toByte ((_rgba_getr (c : Int) : Nat) : Int) % 256 = _rgba_getr (c : Int) ∧
    toByte ((_rgba_getg (c : Int) : Nat) : Int) % 256 = _rgba_getg (c : Int) ∧
    toByte ((_rgba_getb (c : Int) : Nat) : Int) % 256 = _rgba_getb (c : Int) := by
  obtain ⟨hr, hg, hb, _⟩ := rgba_get_lt (c : Int)
  exact ⟨byte_back _ hr, byte_back _ hg, byte_back _ hb⟩

/-- One row of the XOR mask of an RGB image comes back as the opaque pixels
of the source row. -/
theorem icoXorPixels_rgb_mk (src : Image) (hf : src.format = IMAGE_RGB) (y : Nat)
    (hy : y < src.h) (A tl : List Nat) (fa e er : Bool) (n x : Nat) (img : Image)
    (hx : x + n ≤ src.w) (hw : img.w = src.w) (hh : img.h = src.h) :
    icoXorPixels 24 256 y n x ⟨A, icoWriteXorPixels src y n x [] ++ tl, fa, e, er⟩ img =
      (⟨A, tl, fa, e, er⟩,
       { img with pix := fun x1 y1 =>
          if y1 = y ∧ x ≤ x1 ∧ x1 < x + n then icoOpaque (image_getpixel_fast src x1 y)
          else img.pix x1 y1 }) := by
  induction n generalizing x img with
  | zero =>
    simp only [icoXorPixels, icoWriteXorPixels, List.nil_append, Prod.mk.injEq, true_and]
    ext x1 y1 <;> try rfl
    simp only []
    rw [if_neg (by omega)]
  | succ n ih =>
    obtain ⟨hr, hg, hb⟩ := getpixel_fast_rgb_cast (image_getpixel_fast src x y)
    have hin : x < src.w ∧ y < src.h := ⟨by omega, hy⟩
    have h8 : ¬ ((24 : Nat) = 8) := by decide
    simp only [icoXorPixels, icoWriteXorPixels, hf, if_neg h8, if_true]
    rw [icoWriteXorPixels_append]
    simp only [fputc_eq, List.nil_append, List.cons_append, fgetc_mk, image_getpixel,
      if_pos hin, hr, hg, hb]
    rw [ih (x + 1) _ (by omega) (by simp [image_putpixel, hw, hh, hin, Image.store])
      (by simp [image_putpixel, hw, hh, hin, Image.store])]
    simp only [Prod.mk.injEq, true_and]
    simp only [image_putpixel, hw, hh, hin, and_self, if_true, Image.store]
    ext x1 y1 <;> try rfl
    simp only []
    by_cases c1 : y1 = y ∧ x + 1 ≤ x1 ∧ x1 < x + 1 + n
    · have c3 : y1 = y ∧ x ≤ x1 ∧ x1 < x + (n + 1) := by omega
      rw [if_pos c1, if_pos c3]
    · rw [if_neg c1]
      by_cases c2 : x1 = x ∧ y1 = y
      · have c3 : y1 = y ∧ x ≤ x1 ∧ x1 < x + (n + 1) := by omega
        rw [if_pos c2, if_pos c3, c2.1]
        rfl
      · have c3 : ¬ (y1 = y ∧ x ≤ x1 ∧ x1 < x + (n + 1)) := by omega
        rw [if_neg c2, if_neg c3]

/-- The XOR mask of an RGB image comes back as the opaque rows of the source,
bottom row first. -/
theorem icoXorRows_rgb_mk (src : Image) (hf : src.format = IMAGE_RGB)
    (A tl : List Nat) (fa e er : Bool) (n : Nat) (img : Image)
    (hn : n ≤ src.h) (hw : img.w = src.w) (hh : img.h = src.h) :
    icoXorRows 24 256 n ⟨A, icoWriteXorRows src n [] ++ tl, fa, e, er⟩ img =
      (⟨A, tl, fa, e, er⟩,
       { img with pix := fun x1 y1 =>
          if y1 < n ∧ x1 < src.w then icoOpaque (image_getpixel_fast src x1 y1)
          else img.pix x1 y1 }) := by
  induction n generalizing img with
  | zero =>
    simp only [icoXorRows, icoWriteXorRows, List.nil_append, Prod.mk.injEq, true_and]
    ext x1 y1 <;> simp
  | succ n ih =>
    simp only [icoXorRows, icoWriteXorRows]
    rw [icoWriteXorRows_append, icoWritePad_append, List.append_assoc, List.append_assoc]
    conv_lhs => rw [hw]
    have h1 := icoXorPixels_rgb_mk src hf n (by omega) A
      (icoWritePad 3 src.w [] ++ (icoWriteXorRows src n [] ++ tl)) fa e er src.w 0 img
      (by omega) hw hh
    rw [h1]
    simp only [icoSkipPad_mk]
    rw [ih]
    rotate_left
    · omega
    · exact hw
    · exact hh
    simp only [Prod.mk.injEq, true_and]
    ext x1 y1 <;> try rfl
    simp only []
    by_cases c1 : y1 < n ∧ x1 < src.w
    · have c3 : y1 < n + 1 ∧ x1 < src.w := by omega
      rw [if_pos c1, if_pos c3]
    · rw [if_neg c1]
      by_cases c2 : y1 = n ∧ 0 ≤ x1 ∧ x1 < 0 + src.w
      · have c3 : y1 < n + 1 ∧ x1 < src.w := by omega
        rw [if_pos c2, if_pos c3, c2.1]
      · have c3 : ¬ (y1 < n + 1 ∧ x1 < src.w) := by omega
        rw [if_neg c2, if_neg c3]

theorem peek_map_range (g : Nat → Nat) (x n i : Nat) (tl : List Nat) (hi : i < n) :
    peek ((List.range' x n).map g ++ tl) i = ((g (x + i) % 256 : Nat) : Int) := by
  unfold peek
  rw [List.getElem?_append_left (by simpa using hi)]
  simp [List.getElem?_range' , hi]

/-- The pixels after the decoder's loop over the encoded mask bytes of a row:
the transparent pixels of the source are set to 0. -/
theorem icoAndBytes_enc (src img : Image) (y : Nat) (A tl : List Nat) (fa e er : Bool)
    (n x x1 y1 : Nat) :
    (icoAndBytes y n x ⟨A, icoWriteAndBytes src y n x [] ++ tl, fa, e, er⟩ img).2.pix x1 y1 =
      if y1 = y ∧ y < img.h ∧ x1 < img.w ∧ x * 8 ≤ x1 ∧ x1 < (x + n) * 8 then
        (if icoTransparent src x1 y = true then 0 else img.pix x1 y1)
      else img.pix x1 y1 := by
  rw [icoAndBytes_pix]
  by_cases c : y1 = y ∧ y < img.h ∧ x1 < img.w ∧ x * 8 ≤ x1 ∧ x1 < (x + n) * 8
  · rw [if_pos c, if_pos c]
    simp only []
    have hi : x1 / 8 - x < n := by omega
    have e1 : x + (x1 / 8 - x) = x1 / 8 := by omega
    have e2 : x1 / 8 * 8 + x1 % 8 = x1 := by omega
    rw [icoWriteAndBytes_map, peek_map_range _ _ _ _ _ hi, e1,
      Nat.mod_eq_of_lt (icoMaskByte_lt src (x1 / 8) y),
      toByte_byte _ (icoMaskByte_lt src (x1 / 8) y),
      icoMaskByte_bit src (x1 / 8) y (x1 % 8) (Nat.mod_lt _ (by omega)), e2]
  · rw [if_neg c, if_neg c]

/-- The pixels after the decoder's AND pass over an encoded mask: the
transparent pixels of the source are set to 0, the others are kept. -/
theorem icoAndRows_enc (src : Image) (A tl : List Nat) (fa e er : Bool) (n : Nat)
    (img : Image) (hw : img.w = src.w) (x1 y1 : Nat) :
    (icoAndRows n ⟨A, icoWriteAndRows src n [] ++ tl, fa, e, er⟩ img).2.pix x1 y1 =
      if y1 < n ∧ y1 < img.h ∧ x1 < img.w then
        (if icoTransparent src x1 y1 = true then 0 else img.pix x1 y1)
      else img.pix x1 y1 := by
  induction n generalizing img with
  | zero =>
    simp only [icoAndRows]
    rw [if_neg (by omega)]
  | succ n ih =>
    simp only [icoAndRows, icoWriteAndRows]
    rw [icoWriteAndRows_append, icoWritePad_append, List.append_assoc, List.append_assoc]
    conv_lhs => rw [hw]
    rw [icoAndBytes_rest, icoSkipPad_mk, ih _ (by rw [icoAndBytes_w]; exact hw),
      icoAndBytes_h, icoAndBytes_w, icoAndBytes_enc]
    by_cases c1 : y1 < n ∧ y1 < img.h ∧ x1 < img.w
    · have c3 : y1 < n + 1 ∧ y1 < img.h ∧ x1 < img.w := by omega
      have c2 : ¬ (y1 = n ∧ n < img.h ∧ x1 < img.w ∧ 0 * 8 ≤ x1 ∧
          x1 < (0 + (src.w + 7) / 8) * 8) := by omega
      rw [if_pos c1, if_pos c3, if_neg c2]
    · rw [if_neg c1]
      by_cases c2 : y1 = n ∧ n < img.h ∧ x1 < img.w ∧ 0 * 8 ≤ x1 ∧
          x1 < (0 + (src.w + 7) / 8) * 8
      · have c3 : y1 < n + 1 ∧ y1 < img.h ∧ x1 < img.w := by omega
        rw [if_pos c2, if_pos c3, c2.1]
      · have c3 : ¬ (y1 < n + 1 ∧ y1 < img.h ∧ x1 < img.w) := by omega
        rw [if_neg c2, if_neg c3]

theorem image_putpixel_format (image : Image) (x y c : Nat) :
    (image_putpixel image x y c).format = image.format := by
  unfold image_putpixel
  split_ifs <;> rfl

theorem icoAndBits_format (m : Int) (x y n b v : Nat) (image : Image) :
    (icoAndBits m x y n b v image).format = image.format := by
  induction n generalizing b v image with
  | zero => rfl
  | succ n ih =>
    simp only [icoAndBits, ih]
    split_ifs
    · exact image_putpixel_format _ _ _ _
    · rfl

theorem icoAndBytes_format (y n x : Nat) (f : File) (image : Image) :
    (icoAndBytes y n x f image).2.format = image.format := by
  induction n generalizing x f image with
  | zero => rfl
  | succ n ih => simp only [icoAndBytes, ih, icoAndBits_format]

theorem icoAndRows_format (n : Nat) (f : File) (img : Image) :
    (icoAndRows n f img).2.format = img.format := by
  induction n generalizing f img with
  | zero => rfl
  | succ n ih => simp only [icoAndRows, ih, icoAndBytes_format]

/-- The XOR pass of the decoder on the record of an encoded RGB frame, for a
directory entry that carries the true width and height. -/
theorem icoXorStage_rgb (A R : List Nat) (fa e er : Bool)
    (layer_render : Sprite → Nat → Nat → Nat → Nat) (sprite : Sprite)
    (hf : sprite.pixelFormat = IMAGE_RGB) (tl : List Nat) (s off : Nat)
    (hw : 1 ≤ sprite.width ∧ sprite.width ≤ 255) (hh : 1 ≤ sprite.height ∧ sprite.height ≤ 255)
    (hd : A.drop off = icoWriteImage layer_render sprite 0 [] ++ tl) :
    icoXorStage ⟨sprite.width % 256, sprite.height % 256, 0, 0, 1, 24, s, off⟩
        ⟨A, R, fa, e, er⟩ =
      (⟨A, icoWriteAndRows (icoRendered layer_render sprite 0) sprite.height [] ++ tl,
          fa, false, er⟩,
       { format := IMAGE_RGB, w := sprite.width, h := sprite.height,
         pix := fun x1 y1 =>
          if y1 < sprite.height ∧ x1 < sprite.width
            then icoOpaque (image_getpixel_fast (icoRendered layer_render sprite 0) x1 y1)
            else 0 },
       Palette.create 256) := by
  have hw1 : sprite.width % 256 = sprite.width := Nat.mod_eq_of_lt (by omega)
  have hh1 : sprite.height % 256 = sprite.height := Nat.mod_eq_of_lt (by omega)
  have hw0 : ¬ sprite.width = 0 := by omega
  have hh0 : ¬ sprite.height = 0 := by omega
  have hni : sprite.pixelFormat ≠ IMAGE_INDEXED := by rw [hf]; decide
  have h24 : (24 : Nat) > 8 := by decide
  have h24n : ¬ ((24 : Nat) ≤ 8) := by decide
  have hsf : (icoRendered layer_render sprite 0).format = IMAGE_RGB := hf
  simp only [icoXorStage, hw1, hh1, if_neg hw0, if_neg hh0, if_pos h24, if_neg h24n, if_true,
    fseek, hd]
  rw [icoWriteImage_direct layer_render sprite hni, List.append_assoc, icoReadBmpHeader_mk,
    List.append_assoc]
  have hx := icoXorRows_rgb_mk (icoRendered layer_render sprite 0) hsf A
    (icoWriteAndRows (icoRendered layer_render sprite 0) sprite.height [] ++ tl) fa false er
    sprite.height
    (image_clear (Image.create IMAGE_RGB sprite.width sprite.height) 0)
    (le_refl _) (by simp [image_clear, Image.create, icoRendered])
    (by simp [image_clear, Image.create, icoRendered])
  have hh2 : (image_clear (Image.create IMAGE_RGB sprite.width sprite.height)
      0).h = sprite.height := by simp [image_clear, Image.create]
  rw [hh2, hx]
  simp only [image_clear, Image.create, icoRendered, Int.toNat_ofNat]

/-- Encoding an RGB sprite of at most 255 by 255 pixels and 1 to 65535 frames,
then decoding: the image of the only cel that comes back. -/
theorem icoReload_rgb (layer_render : Sprite → Nat → Nat → Nat → Nat) (src dst : FileOp)
    (sprite : Sprite) (hf : sprite.pixelFormat = IMAGE_RGB)
    (hn : 1 ≤ sprite.totalFrames ∧ sprite.totalFrames ≤ 65535)
    (hw : 1 ≤ sprite.width ∧ sprite.width ≤ 255) (hh : 1 ≤ sprite.height ∧ sprite.height ≤ 255) :
    (icoReload layer_render src dst sprite).ok = true ∧
    ∃ image, (icoReload layer_render src dst sprite).fop =
      { dst with document := some (
        { pixelFormat := IMAGE_RGB, width := sprite.width, height := sprite.height,
          ncolors := 256, totalFrames := 1,
          palette := fun _ => Palette.create 256,
          layers := [⟨[⟨0, image⟩]⟩] } : Sprite) } ∧
      image.format = IMAGE_RGB ∧ image.w = sprite.width ∧ image.h = sprite.height ∧
      ∀ x y, x < sprite.width → y < sprite.height →
        image.pix x y =
          if icoTransparent (icoRendered layer_render sprite 0) x y = true then 0
          else icoOpaque (image_getpixel_fast (icoRendered layer_render sprite 0) x y) := by
  obtain ⟨A, R, fa, e, er, tl, h1, h2⟩ := icoReload_entry_any layer_render src dst sprite hn
  have hni : sprite.pixelFormat ≠ IMAGE_INDEXED := by rw [hf]; decide
  have hb : icoBpp sprite = 24 := by simp [icoBpp, hni]
  have hw1 : sprite.width % 256 = sprite.width := Nat.mod_eq_of_lt (by omega)
  have hh1 : sprite.height % 256 = sprite.height := Nat.mod_eq_of_lt (by omega)
  have hw0 : ¬ sprite.width = 0 := by omega
  have hh0 : ¬ sprite.height = 0 := by omega
  have h24 : (24 : Nat) > 8 := by decide
  rw [hb, hw1, hh1] at h1
  obtain ⟨hok, hfop⟩ := icoLoadEntry_stage dst
    ⟨sprite.width, sprite.height, 0, 0, 1, 24,
      icoSize 24 sprite.width sprite.height % 4294967296, 6 + sprite.totalFrames * 16⟩
    ⟨A, R, fa, e, er⟩
  have hX := icoXorStage_rgb A R fa e er layer_render sprite hf tl
    (icoSize 24 sprite.width sprite.height % 4294967296) (6 + sprite.totalFrames * 16) hw hh h2
  rw [hw1, hh1] at hX
  rw [hX] at hfop
  simp only [if_neg hw0, if_neg hh0, if_pos h24, if_true] at hfop
  rw [h1]
  refine ⟨hok, _, hfop, ?_, ?_, ?_, ?_⟩
  · rw [icoAndRows_format]
  · rw [icoAndRows_w]
  · rw [icoAndRows_h]
  · intro x y hx hy
    rw [icoAndRows_enc (icoRendered layer_render sprite 0) A tl fa false er sprite.height
      ⟨IMAGE_RGB, sprite.width, sprite.height, _⟩ rfl]
    simp only []
    have c1 : y < sprite.height ∧ y < sprite.height ∧ x < sprite.width := ⟨hy, hy, hx⟩
    have c2 : y < sprite.height ∧ x < sprite.width := ⟨hy, hx⟩
    rw [if_pos c1, if_pos c2]

theorem icoOpaque_lt (c : Int) : icoOpaque c < 4294967296 := by
  obtain ⟨hr, hg, hb, _⟩ := rgba_get_lt c
  have h := rgba_eq (_rgba_getr c) (_rgba_getg c) (_rgba_getb c) 255 hr hg hb (by decide)
  simp only [Nat.cast_ofNat] at h
  unfold icoOpaque
  rw [h]
  omega

/-- C30. For every RGB sprite with one frame, `1 ≤ width ≤ 255` and
`1 ≤ height ≤ 255` (odd widths included), whatever the compositor draws,
decoding exactly the bytes that `IcoFormat::onSave` wrote succeeds and builds
an RGB sprite of the same width and height with one frame, whose only cel
holds an RGB image of the same width and height; a pixel of that image is 0
where the alpha of the composited source pixel is 0, and is
`rgba(r, g, b, 255)` with the source red, green and blue elsewhere. -/
theorem ico_rgb_round_trip (layer_render : Sprite → Nat → Nat → Nat → Nat)
    (src dst : FileOp) (sprite : Sprite)
    (hfmt : sprite.pixelFormat = IMAGE_RGB) (hframes : sprite.totalFrames = 1)
    (hw : 1 ≤ sprite.width ∧ sprite.width ≤ 255)
    (hh : 1 ≤ sprite.height ∧ sprite.height ≤ 255) :
    (icoReload layer_render src dst sprite).ok = true ∧
    ∃ doc image, (icoReload layer_render src dst sprite).fop.document = some doc ∧
      doc.pixelFormat = IMAGE_RGB ∧ doc.width = sprite.width ∧
      doc.height = sprite.height ∧ doc.totalFrames = 1 ∧
      doc.layers = [⟨[⟨0, image⟩]⟩] ∧
      image.format = IMAGE_RGB ∧ image.w = sprite.width ∧ image.h = sprite.height ∧
      ∀ x y, x < sprite.width → y < sprite.height →
        image_getpixel_fast image x y =
          if _rgba_geta (image_getpixel (icoRendered layer_render sprite 0) x y) = 0 then 0
          else _rgba (_rgba_getr (image_getpixel (icoRendered layer_render sprite 0) x y))
            (_rgba_getg (image_getpixel (icoRendered layer_render sprite 0) x y))
            (_rgba_getb (image_getpixel (icoRendered layer_render sprite 0) x y)) 255 := by
  obtain ⟨h1, image, h2, h3, h4, h5, h6⟩ := icoReload_rgb layer_render src dst sprite hfmt
    (by omega) hw hh
  refine ⟨h1,
    { pixelFormat := IMAGE_RGB, width := sprite.width, height := sprite.height,
      ncolors := 256, totalFrames := 1, palette := fun _ => Palette.create 256,
      layers := [⟨[⟨0, image⟩]⟩] },
    image, by rw [h2], rfl, rfl, rfl, rfl, rfl, h3, h4, h5, ?_⟩
  intro x y hx hy
  have hin : x < (icoRendered layer_render sprite 0).w ∧
      y < (icoRendered layer_render sprite 0).h := ⟨hx, hy⟩
  have hsf : (icoRendered layer_render sprite 0).format = IMAGE_RGB := hfmt
  have ht : icoTransparent (icoRendered layer_render sprite 0) x y =
      decide (_rgba_geta (image_getpixel_fast (icoRendered layer_render sprite 0) x y) = 0) := by
    unfold icoTransparent
    rw [hsf]
    simp only [hin, and_self, decide_True, Bool.true_and]
  unfold image_getpixel_fast at ht ⊢
  rw [h6 x y hx hy, ht, h3]
  simp only [image_getpixel, if_pos hin, image_getpixel_fast, hsf, decide_eq_true_eq]
  split_ifs with c
  · rfl
  · exact Nat.mod_eq_of_lt (icoOpaque_lt _)

/-- Witness for C30: the RGB sprite of one pixel, drawn with the colour
`0xFF030201`. -/
theorem ico_rgb_round_trip_witness :
    (icoReload icoInk FileOp.blank FileOp.blank icoRgbDot).ok = true ∧
    ∃ doc image, (icoReload icoInk FileOp.blank FileOp.blank icoRgbDot).fop.document = some doc ∧
      doc.pixelFormat = IMAGE_RGB ∧ doc.width = icoRgbDot.width ∧
      doc.height = icoRgbDot.height ∧ doc.totalFrames = 1 ∧
      doc.layers = [⟨[⟨0, image⟩]⟩] ∧
      image.format = IMAGE_RGB ∧ image.w = icoRgbDot.width ∧ image.h = icoRgbDot.height ∧
      ∀ x y, x < icoRgbDot.width → y < icoRgbDot.height →
        image_getpixel_fast image x y =
          if _rgba_geta (image_getpixel (icoRendered icoInk icoRgbDot 0) x y) = 0 then 0
          else _rgba (_rgba_getr (image_getpixel (icoRendered icoInk icoRgbDot 0) x y))
            (_rgba_getg (image_getpixel (icoRendered icoInk icoRgbDot 0) x y))
            (_rgba_getb (image_getpixel (icoRendered icoInk icoRgbDot 0) x y)) 255 :=
  ico_rgb_round_trip icoInk FileOp.blank FileOp.blank icoRgbDot rfl rfl
    (by decide) (by decide)

/-! ## C29: the indices that the ICO decoder stores -/

theorem icoXorStage_eq (entry : ICONDIRENTRY) (f : File) :
    icoXorStage entry f =
      ((icoXorRows entry.bpp (if entry.color_count = 0 then 256 else entry.color_count)
          (if entry.height = 0 then 256 else entry.height) (icoPaletteStage entry f).1
          (image_clear (Image.create (if entry.bpp > 8 then IMAGE_RGB else IMAGE_INDEXED)
            (if entry.width = 0 then 256 else entry.width)
            (if entry.height = 0 then 256 else entry.height)) 0)).1,
       (icoXorRows entry.bpp (if entry.color_count = 0 then 256 else entry.color_count)
          (if entry.height = 0 then 256 else entry.height) (icoPaletteStage entry f).1
          (image_clear (Image.create (if entry.bpp > 8 then IMAGE_RGB else IMAGE_INDEXED)
            (if entry.width = 0 then 256 else entry.width)
            (if entry.height = 0 then 256 else entry.height)) 0)).2,
       (icoPaletteStage entry f).2) := rfl

theorem icoReadPalette_size (n i : Nat) (pal : Palette) (f : File) :
    (icoReadPalette n i pal f).1.size = pal.size := by
  induction n generalizing i pal f with
  | zero => rfl
  | succ n ih =>
    rw [icoReadPalette_succ, ih]
    rfl

theorem icoPaletteStage_size (entry : ICONDIRENTRY) (f : File) :
    (icoPaletteStage entry f).2.size =
      (if entry.color_count = 0 then 256 else entry.color_count) := by
  unfold icoPaletteStage
  simp only []
  split_ifs <;> first | rfl | (rw [icoReadPalette_size]; rfl)

theorem icoIndex_lt (numcolors : Nat) (c : Int) (h : 0 < numcolors) :
    icoIndex numcolors c < numcolors := by
  unfold icoIndex
  split_ifs with hc
  · omega
  · exact h

/-- One round of the XOR loop at 8 bits per pixel. -/
theorem icoXorPixels_eight (numcolors y n x : Nat) (f : File) (image : Image) :
    icoXorPixels 8 numcolors y (n + 1) x f image =
      icoXorPixels 8 numcolors y n (x + 1) (fgetc f).2
        (image_putpixel image x y (icoIndex numcolors (fgetc f).1)) := by
  simp only [icoXorPixels, if_true, icoIndex]
  split_ifs <;> rfl

/-- The XOR loop of a row reads one byte per pixel at 8 bits per pixel. -/
theorem icoXorPixels_drop (numcolors y n x : Nat) (f : File) (img : Image) :
    (icoXorPixels 8 numcolors y n x f img).1.rest = f.rest.drop n := by
  induction n generalizing x f img with
  | zero => rfl
  | succ n ih =>
    rw [icoXorPixels_eight, ih, fgetc_rest, List.drop_drop]
    congr 1
    omega

/-- The pixels after the XOR loop over the columns `x` to `x + n - 1` of row
`y` at 8 bits per pixel. -/
theorem icoXorPixels_pix (numcolors y n x : Nat) (f : File) (img : Image) (x1 y1 : Nat) :
    (icoXorPixels 8 numcolors y n x f img).2.pix x1 y1 =
      if y1 = y ∧ y < img.h ∧ x1 < img.w ∧ x ≤ x1 ∧ x1 < x + n then
        icoIndex numcolors (peek f.rest (x1 - x))
      else img.pix x1 y1 := by
  induction n generalizing x f img with
  | zero =>
    simp only [icoXorPixels]
    rw [if_neg (by omega)]
  | succ n ih =>
    rw [icoXorPixels_eight, ih, image_putpixel_h, image_putpixel_w, image_putpixel_pix,
      fgetc_rest, peek_drop, fgetc_fst]
    by_cases c1 : y1 = y ∧ y < img.h ∧ x1 < img.w ∧ x + 1 ≤ x1 ∧ x1 < x + 1 + n
    · have e : 1 + (x1 - (x + 1)) = x1 - x := by omega
      have c3 : y1 = y ∧ y < img.h ∧ x1 < img.w ∧ x ≤ x1 ∧ x1 < x + (n + 1) := by omega
      rw [if_pos c1, if_pos c3, e]
    · rw [if_neg c1]
      by_cases c2 : (x1 = x ∧ y1 = y) ∧ x < img.w ∧ y < img.h
      · have e : x1 - x = 0 := by omega
        have c3 : y1 = y ∧ y < img.h ∧ x1 < img.w ∧ x ≤ x1 ∧ x1 < x + (n + 1) := by omega
        rw [if_pos c2, if_pos c3, e]
      · have c3 : ¬ (y1 = y ∧ y < img.h ∧ x1 < img.w ∧ x ≤ x1 ∧ x1 < x + (n + 1)) := by omega
        rw [if_neg c2, if_neg c3]

/-- The pixels after the XOR pass over the rows `n - 1` down to 0 at 8 bits
per pixel: the byte of the pixel `(x1, y1)` is the byte number
`(n - 1 - y1) * icoXorRowBytes w + x1` that the pass reads. -/
theorem icoXorRows_pix (numcolors n : Nat) (f : File) (img : Image) (x1 y1 : Nat) :
    (icoXorRows 8 numcolors n f img).2.pix x1 y1 =
      if y1 < n ∧ y1 < img.h ∧ x1 < img.w then
        icoIndex numcolors (peek f.rest ((n - 1 - y1) * icoXorRowBytes img.w + x1))
      else img.pix x1 y1 := by
  induction n generalizing f img with
  | zero =>
    simp only [icoXorRows]
    rw [if_neg (by omega)]
  | succ n ih =>
    simp only [icoXorRows]
    rw [ih, icoXorPixels_h, icoXorPixels_w, icoSkipPad_rest, icoXorPixels_drop, List.drop_drop,
      peek_drop, icoXorPixels_pix]
    by_cases c1 : y1 < n ∧ y1 < img.h ∧ x1 < img.w
    · have e : n + 1 - 1 - y1 = (n - 1 - y1) + 1 := by omega
      have c3 : y1 < n + 1 ∧ y1 < img.h ∧ x1 < img.w := by omega
      have e2 : img.w + (4 - img.w % 4) % 4 + ((n - 1 - y1) * icoXorRowBytes img.w + x1) =
          (n - 1 - y1) * icoXorRowBytes img.w + icoXorRowBytes img.w + x1 := by
        unfold icoXorRowBytes
        omega
      rw [if_pos c1, if_pos c3, e, Nat.succ_mul, e2]
    · rw [if_neg c1]
      by_cases c2 : y1 = n ∧ n < img.h ∧ x1 < img.w ∧ 0 ≤ x1 ∧ x1 < 0 + img.w
      · have e : n + 1 - 1 - y1 = 0 := by omega
        have c3 : y1 < n + 1 ∧ y1 < img.h ∧ x1 < img.w := by omega
        rw [if_pos c2, if_pos c3, e, Nat.zero_mul, Nat.zero_add, Nat.sub_zero]
      · have c3 : ¬ (y1 < n + 1 ∧ y1 < img.h ∧ x1 < img.w) := by omega
        rw [if_neg c2, if_neg c3]

/-- The XOR loop of a row keeps every pixel below `numcolors` when the image
is indexed (at most 8 bits per pixel). -/
theorem icoXorPixels_lt (bpp numcolors y n x : Nat) (f : File) (img : Image)
    (hb : bpp ≤ 8) (hc : 0 < numcolors) (hinv : ∀ x1 y1, img.pix x1 y1 < numcolors) :
    ∀ x1 y1, (icoXorPixels bpp numcolors y n x f img).2.pix x1 y1 < numcolors := by
  induction n generalizing x f img with
  | zero => exact hinv
  | succ n ih =>
    by_cases h8 : bpp = 8
    · subst h8
      rw [icoXorPixels_eight]
      apply ih
      intro x1 y1
      rw [image_putpixel_pix]
      split_ifs
      · exact icoIndex_lt numcolors _ hc
      · exact hinv x1 y1
    · have h24 : ¬ bpp = 24 := by omega
      simp only [icoXorPixels, if_neg h8, if_neg h24]
      exact ih _ _ _ hinv

theorem icoXorRows_lt (bpp numcolors n : Nat) (f : File) (img : Image)
    (hb : bpp ≤ 8) (hc : 0 < numcolors) (hinv : ∀ x1 y1, img.pix x1 y1 < numcolors) :
    ∀ x1 y1, (icoXorRows bpp numcolors n f img).2.pix x1 y1 < numcolors := by
  induction n generalizing f img with
  | zero => exact hinv
  | succ n ih =>
    simp only [icoXorRows]
    exact ih _ _ (icoXorPixels_lt bpp numcolors n img.w 0 f img hb hc hinv)

/-- The AND pass keeps every pixel below `numcolors`: it stores only 0. -/
theorem icoAndRows_lt (numcolors n : Nat) (f : File) (img : Image)
    (hc : 0 < numcolors) (hinv : ∀ x1 y1, img.pix x1 y1 < numcolors) :
    ∀ x1 y1, (icoAndRows n f img).2.pix x1 y1 < numcolors := by
  intro x1 y1
  rw [icoAndRows_pix]
  split_ifs
  · exact hc
  · exact hinv x1 y1
  · exact hinv x1 y1

theorem icoFirstEntry_bytes (f : File) (h2 : 1 ≤ (icoReadHeader f).1.entries) :
    (icoFirstEntry f).width < 256 ∧ (icoFirstEntry f).height < 256 ∧
    (icoFirstEntry f).color_count < 256 := by
  unfold icoFirstEntry
  rw [icoReadEntries_head _ _ _ h2]
  exact ⟨toByte_lt _, toByte_lt _, toByte_lt _⟩

theorem icoXorStage_size (entry : ICONDIRENTRY) (f : File) :
    (icoXorStage entry f).2.2.size =
      (if entry.color_count = 0 then 256 else entry.color_count) := by
  rw [icoXorStage_eq]
  exact icoPaletteStage_size entry f

/-- After the XOR pass of an indexed image every pixel is below the number of
colours. -/
theorem icoXorStage_lt (entry : ICONDIRENTRY) (f : File) (hb : entry.bpp ≤ 8) :
    ∀ x y, (icoXorStage entry f).2.1.pix x y <
      (if entry.color_count = 0 then 256 else entry.color_count) := by
  have hnc : 0 < (if entry.color_count = 0 then 256 else (entry.color_count : Nat)) := by
    split_ifs <;> omega
  rw [icoXorStage_eq]
  apply icoXorRows_lt _ _ _ _ _ hb hnc
  intro x1 y1
  exact hnc

/-- After the XOR pass at 8 bits per pixel the pixel `(x, y)` holds the index
stored for its byte. -/
theorem icoXorStage_index (entry : ICONDIRENTRY) (f : File) (h8 : entry.bpp = 8) (x y : Nat)
    (hx : x < (if entry.width = 0 then 256 else entry.width))
    (hy : y < (if entry.height = 0 then 256 else entry.height)) :
    (icoXorStage entry f).2.1.pix x y =
      icoIndex (if entry.color_count = 0 then 256 else entry.color_count)
        (peek (icoPaletteStage entry f).1.rest
          (((if entry.height = 0 then 256 else entry.height) - 1 - y) *
            icoXorRowBytes (if entry.width = 0 then 256 else entry.width) + x)) := by
  rw [icoXorStage_eq]
  simp only []
  rw [h8, icoXorRows_pix]
  have e1 : ∀ (fmt : PixelFormat) (w h : Nat),
      (image_clear (Image.create fmt w h) 0).w = w := fun _ _ _ => rfl
  have e2 : ∀ (fmt : PixelFormat) (w h : Nat),
      (image_clear (Image.create fmt w h) 0).h = h := fun _ _ _ => rfl
  rw [e1, e2, if_pos ⟨hy, hy, hx⟩]

/-- C29. For every stream whose directory header has type 1 and a count of at
least 1 and whose first entry declares at most 8 bits per pixel, the decoder
builds an indexed sprite whose palette has `numcolors` entries, `numcolors`
being the colour-count byte of the first entry with 0 read as 256, and every
pixel of the image is below `numcolors`.  At 8 bits per pixel the XOR pass
stores, for the pixel `(x, y)`, the byte number
`(h - 1 - y) * rowbytes + x` behind the palette when that byte is below
`numcolors`, and 0 when it is not or when the stream has ended (`EOF`). -/
theorem ico_decoded_indices_in_range (fop : FileOp) (f : File)
    (h1 : (icoReadHeader f).1.type = 1) (h2 : 1 ≤ (icoReadHeader f).1.entries)
    (hb : (icoFirstEntry f).bpp ≤ 8) :
    ∃ doc image numcolors,
      numcolors = (if (icoFirstEntry f).color_count = 0 then 256
        else (icoFirstEntry f).color_count) ∧
      1 ≤ numcolors ∧ numcolors ≤ 256 ∧
      (IcoFormat.onLoad fop f).ok = true ∧
      (IcoFormat.onLoad fop f).fop.document = some doc ∧
      doc.pixelFormat = IMAGE_INDEXED ∧ doc.layers = [⟨[⟨0, image⟩]⟩] ∧
      image.w = doc.width ∧ image.h = doc.height ∧
      doc.ncolors = numcolors ∧ (doc.palette 0).size = numcolors ∧
      (∀ x y, image.pix x y < numcolors) ∧
      ((icoFirstEntry f).bpp = 8 → ∀ x y, x < image.w → y < image.h →
        (icoXorStage (icoFirstEntry f) (icoEntriesEnd f)).2.1.pix x y =
          icoIndex numcolors (peek (icoPaletteStage (icoFirstEntry f) (icoEntriesEnd f)).1.rest
            ((image.h - 1 - y) * icoXorRowBytes image.w + x))) ∧
      (∀ c : Int, c < 0 ∨ (numcolors : Int) ≤ c → icoIndex numcolors c = 0) ∧
      (∀ c : Nat, c < numcolors → icoIndex numcolors (c : Int) = c) ∧
      icoIndex numcolors EOF = 0 := by
  rw [icoOnLoad_first fop f h1 h2]
  obtain ⟨hok, hfop⟩ := icoLoadEntry_stage fop (icoFirstEntry f) (icoEntriesEnd f)
  obtain ⟨hw, hh⟩ := icoXorStage_dims (icoFirstEntry f) (icoEntriesEnd f)
  have hcc := icoFirstEntry_bytes f h2
  generalize icoEntriesEnd f = g at hok hfop hw hh ⊢
  generalize icoFirstEntry f = entry at hb hok hfop hw hh hcc ⊢
  have hb8 : ¬ entry.bpp > 8 := by omega
  have hnc : 0 < (if entry.color_count = 0 then 256 else (entry.color_count : Nat)) := by
    split_ifs <;> omega
  have hnc2 : (if entry.color_count = 0 then 256 else (entry.color_count : Nat)) ≤ 256 := by
    split_ifs <;> omega
  refine ⟨_, (icoAndRows (icoXorStage entry g).2.1.h (icoXorStage entry g).1
      (icoXorStage entry g).2.1).2, _, rfl, hnc, hnc2, hok, by rw [hfop],
    if_neg hb8, rfl, ?_, ?_, rfl, ?_, ?_, ?_, ?_, ?_, ?_⟩
  · rw [icoAndRows_w]
    exact hw
  · rw [icoAndRows_h]
    exact hh
  · exact icoXorStage_size entry g
  · exact icoAndRows_lt _ _ _ _ hnc (icoXorStage_lt entry g hb)
  · intro h8 x y hx hy
    rw [icoAndRows_w, hw] at hx
    rw [icoAndRows_h, hh] at hy
    rw [icoAndRows_w, icoAndRows_h, hw, hh]
    exact icoXorStage_index entry g h8 x y hx hy
  · intro c hc
    unfold icoIndex
    rw [if_neg (by omega)]
  · intro c hc
    unfold icoIndex
    rw [if_pos (by omega)]
    rfl
  · unfold icoIndex EOF
    rw [if_neg (by omega)]

/-- The theorem at the stream `icoStray`: the XOR byte 1 is kept, the XOR
byte 7, which is not below the two colours of the palette, is stored as 0. -/
theorem ico_decoded_indices_in_range_witness :
    (icoReadHeader (File.open icoStray)).1.type = 1 ∧
    1 ≤ (icoReadHeader (File.open icoStray)).1.entries ∧
    (icoFirstEntry (File.open icoStray)).bpp ≤ 8 ∧
    icoCorners (IcoFormat.onLoad FileOp.blank (File.open icoStray)) = some [[[1, 0, 0, 0]]] ∧
    ∃ doc image numcolors,
      numcolors = (if (icoFirstEntry (File.open icoStray)).color_count = 0 then 256
        else (icoFirstEntry (File.open icoStray)).color_count) ∧
      1 ≤ numcolors ∧ numcolors ≤ 256 ∧
      (IcoFormat.onLoad FileOp.blank (File.open icoStray)).ok = true ∧
      (IcoFormat.onLoad FileOp.blank (File.open icoStray)).fop.document = some doc ∧
      doc.pixelFormat = IMAGE_INDEXED ∧ doc.layers = [⟨[⟨0, image⟩]⟩] ∧
      image.w = doc.width ∧ image.h = doc.height ∧
      doc.ncolors = numcolors ∧ (doc.palette 0).size = numcolors ∧
      (∀ x y, image.pix x y < numcolors) ∧
      ((icoFirstEntry (File.open icoStray)).bpp = 8 → ∀ x y, x < image.w → y < image.h →
        (icoXorStage (icoFirstEntry (File.open icoStray))
            (icoEntriesEnd (File.open icoStray))).2.1.pix x y =
          icoIndex numcolors (peek (icoPaletteStage (icoFirstEntry (File.open icoStray))
              (icoEntriesEnd (File.open icoStray))).1.rest
            ((image.h - 1 - y) * icoXorRowBytes image.w + x))) ∧
      (∀ c : Int, c < 0 ∨ (numcolors : Int) ≤ c → icoIndex numcolors c = 0) ∧
      (∀ c : Nat, c < numcolors → icoIndex numcolors (c : Int) = c) ∧
      icoIndex numcolors EOF = 0 :=
  ⟨by decide, by decide, by decide, by decide,
    ico_decoded_indices_in_range FileOp.blank (File.open icoStray) (by decide) (by decide)
      (by decide)⟩

/-! ## C26: the decoder builds the document from the first entry -/

theorem icoReadBmpHeader_drop (f : File) : (icoReadBmpHeader f).2.rest = f.rest.drop 40 := by
  simp only [icoReadBmpHeader, fgetl_rest, fgetw_rest, List.drop_drop]

/-- The palette that the decoder reads depends on the unread bytes only. -/
theorem icoReadPalette_congr (n i : Nat) (pal : Palette) (f g : File) (h : f.rest = g.rest) :
    (icoReadPalette n i pal f).1 = (icoReadPalette n i pal g).1 ∧
    (icoReadPalette n i pal f).2.rest = (icoReadPalette n i pal g).2.rest := by
  induction n generalizing i pal f g with
  | zero => exact ⟨rfl, h⟩
  | succ n ih =>
    rw [icoReadPalette_succ, icoReadPalette_succ]
    simp only [fgetc_fst, fgetc_rest, h]
    apply ih
    simp only [fgetc_rest, h]

theorem icoSkipPad_congr (x : Nat) (f g : File) (h : f.rest = g.rest) :
    (icoSkipPad 3 x f).rest = (icoSkipPad 3 x g).rest := by
  rw [icoSkipPad_rest, icoSkipPad_rest, h]

/-- The XOR loop of a row depends on the unread bytes only. -/
theorem icoXorPixels_congr (bpp numcolors y n x : Nat) (img : Image) (f g : File)
    (h : f.rest = g.rest) :
    (icoXorPixels bpp numcolors y n x f img).2 = (icoXorPixels bpp numcolors y n x g img).2 ∧
    (icoXorPixels bpp numcolors y n x f img).1.rest =
      (icoXorPixels bpp numcolors y n x g img).1.rest := by
  induction n generalizing x img f g with
  | zero => exact ⟨rfl, h⟩
  | succ n ih =>
    by_cases h8 : bpp = 8
    · subst h8
      rw [icoXorPixels_eight, icoXorPixels_eight, fgetc_fst, fgetc_fst, h]
      apply ih
      simp only [fgetc_rest, h]
    · by_cases h24 : bpp = 24
      · simp only [icoXorPixels, if_neg h8, if_pos h24, fgetc_fst, fgetc_rest, h]
        apply ih
        simp only [fgetc_rest, h]
      · simp only [icoXorPixels, if_neg h8, if_neg h24]
        exact ih _ _ _ _ h

theorem icoXorRows_congr (bpp numcolors n : Nat) (img : Image) (f g : File)
    (h : f.rest = g.rest) :
    (icoXorRows bpp numcolors n f img).2 = (icoXorRows bpp numcolors n g img).2 ∧
    (icoXorRows bpp numcolors n f img).1.rest = (icoXorRows bpp numcolors n g img).1.rest := by
  induction n generalizing img f g with
  | zero => exact ⟨rfl, h⟩
  | succ n ih =>
    simp only [icoXorRows]
    obtain ⟨h1, h2⟩ := icoXorPixels_congr bpp numcolors n img.w 0 img f g h
    rw [h1]
    apply ih
    exact icoSkipPad_congr _ _ _ h2

/-- The AND loop of a row depends on the unread bytes only. -/
theorem icoAndBytes_congr (y n x : Nat) (img : Image) (f g : File) (h : f.rest = g.rest) :
    (icoAndBytes y n x f img).2 = (icoAndBytes y n x g img).2 ∧
    (icoAndBytes y n x f img).1.rest = (icoAndBytes y n x g img).1.rest := by
  induction n generalizing x img f g with
  | zero => exact ⟨rfl, h⟩
  | succ n ih =>
    simp only [icoAndBytes, fgetc_fst, h]
    apply ih
    simp only [fgetc_rest, h]

theorem icoAndRows_congr (n : Nat) (img : Image) (f g : File) (h : f.rest = g.rest) :
    (icoAndRows n f img).2 = (icoAndRows n g img).2 ∧
    (icoAndRows n f img).1.rest = (icoAndRows n g img).1.rest := by
  induction n generalizing img f g with
  | zero => exact ⟨rfl, h⟩
  | succ n ih =>
    simp only [icoAndRows]
    obtain ⟨h1, h2⟩ := icoAndBytes_congr n ((img.w + 7) / 8) 0 img f g h
    rw [h1]
    apply ih
    exact icoSkipPad_congr _ _ _ h2

/-- The palette and the stream before the XOR pass depend only on the bytes
from the image offset of the entry on. -/
theorem icoPaletteStage_congr (entry : ICONDIRENTRY) (f g : File)
    (h : f.all.drop entry.image_offset = g.all.drop entry.image_offset) :
    (icoPaletteStage entry f).2 = (icoPaletteStage entry g).2 ∧
    (icoPaletteStage entry f).1.rest = (icoPaletteStage entry g).1.rest := by
  have hb : (icoReadBmpHeader (fseek f entry.image_offset)).2.rest =
      (icoReadBmpHeader (fseek g entry.image_offset)).2.rest := by
    rw [icoReadBmpHeader_drop, icoReadBmpHeader_drop]
    simp only [fseek, h]
  unfold icoPaletteStage
  simp only []
  by_cases hbpp : entry.bpp ≤ 8
  · rw [if_pos hbpp, if_pos hbpp]
    exact icoReadPalette_congr _ _ _ _ _ hb
  · rw [if_neg hbpp, if_neg hbpp]
    exact ⟨rfl, hb⟩

/-- The image, the palette and the stream after the XOR pass depend only on
the bytes from the image offset of the entry on. -/
theorem icoXorStage_congr (entry : ICONDIRENTRY) (f g : File)
    (h : f.all.drop entry.image_offset = g.all.drop entry.image_offset) :
    (icoXorStage entry f).2 = (icoXorStage entry g).2 ∧
    (icoXorStage entry f).1.rest = (icoXorStage entry g).1.rest := by
  obtain ⟨h1, h2⟩ := icoPaletteStage_congr entry f g h
  rw [icoXorStage_eq, icoXorStage_eq]
  simp only []
  obtain ⟨h3, h4⟩ := icoXorRows_congr entry.bpp
    (if entry.color_count = 0 then 256 else entry.color_count)
    (if entry.height = 0 then 256 else entry.height)
    (image_clear (Image.create (if entry.bpp > 8 then IMAGE_RGB else IMAGE_INDEXED)
      (if entry.width = 0 then 256 else entry.width)
      (if entry.height = 0 then 256 else entry.height)) 0)
    (icoPaletteStage entry f).1 (icoPaletteStage entry g).1 h2
  rw [h3, h1]
  exact ⟨rfl, h4⟩

/-- The document that the decoder builds from an entry depends only on the
entry and on the bytes from its image offset on. -/
theorem icoLoadEntry_congr (fop : FileOp) (entry : ICONDIRENTRY) (f g : File)
    (h : f.all.drop entry.image_offset = g.all.drop entry.image_offset) :
    (icoLoadEntry fop entry f).fop = (icoLoadEntry fop entry g).fop := by
  obtain ⟨h1, h2⟩ := icoXorStage_congr entry f g h
  rw [(icoLoadEntry_stage fop entry f).2, (icoLoadEntry_stage fop entry g).2]
  obtain ⟨h3, _⟩ := icoAndRows_congr (icoXorStage entry f).2.1.h (icoXorStage entry f).2.1
    (icoXorStage entry f).1 (icoXorStage entry g).1 h2
  rw [h3, h1]

theorem icoReadHeader_all (f : File) : (icoReadHeader f).2.all = f.all := by
  simp only [icoReadHeader, fgetw_all]

theorem icoEntriesEnd_all (f : File) : (icoEntriesEnd f).all = f.all := by
  unfold icoEntriesEnd
  rw [icoReadEntries_all, icoReadHeader_all]

theorem icoReadHeader_drop (f : File) : (icoReadHeader f).2.rest = f.rest.drop 6 := by
  simp only [icoReadHeader, fgetw_rest, List.drop_drop]

theorem icoXorPixels_format (bpp numcolors y n x : Nat) (f : File) (image : Image) :
    (icoXorPixels bpp numcolors y n x f image).2.format = image.format := by
  induction n generalizing x f image with
  | zero => rfl
  | succ n ih =>
    simp only [icoXorPixels]
    split_ifs <;> simp only [ih, image_putpixel_format]

theorem icoXorRows_format (bpp numcolors n : Nat) (f : File) (image : Image) :
    (icoXorRows bpp numcolors n f image).2.format = image.format := by
  induction n generalizing f image with
  | zero => rfl
  | succ n ih => simp only [icoXorRows, ih, icoXorPixels_format]

theorem icoXorStage_format (entry : ICONDIRENTRY) (f : File) :
    (icoXorStage entry f).2.1.format = (if entry.bpp > 8 then IMAGE_RGB else IMAGE_INDEXED) := by
  rw [icoXorStage_eq]
  simp only [icoXorRows_format]
  rfl

/-- The first entry is the one read right behind the 6 bytes of the directory
header; its width, height and colour count are the bytes 6, 7 and 8 of the
stream. -/
theorem icoFirstEntry_eq (f : File) (h2 : 1 ≤ (icoReadHeader f).1.entries) :
    icoFirstEntry f = (icoReadEntry (icoReadHeader f).2).1 ∧
    (icoFirstEntry f).width = toByte (peek f.rest 6) ∧
    (icoFirstEntry f).height = toByte (peek f.rest 7) ∧
    (icoFirstEntry f).color_count = toByte (peek f.rest 8) := by
  have h : icoFirstEntry f = (icoReadEntry (icoReadHeader f).2).1 := by
    unfold icoFirstEntry
    rw [icoReadEntries_head _ _ _ h2]
  rw [h]
  refine ⟨rfl, ?_, ?_, ?_⟩
  · simp only [icoReadEntry, fgetc_fst, icoReadHeader_drop, peek_drop]
  · simp only [icoReadEntry, fgetc_fst, fgetc_rest, icoReadHeader_drop, peek_drop, List.drop_drop]
  · simp only [icoReadEntry, fgetc_fst, fgetc_rest, icoReadHeader_drop, peek_drop, List.drop_drop]

/-- C26 as stated fails: the streams `icoOverlapA` and `icoOverlapB` have the
same directory header (type 1, four entries) and the same first entry, they
are 70 bytes long (the directory alone) and differ only in one byte of the
third entry; the first entry gives the image offset 0, so the decoder reads
the record from the directory, and the pixel `(0, 0)` that it decodes is 0
for the one stream and 1 for the other. -/
theorem ico_changing_a_later_entry_changes_the_document :
    (icoReadHeader (File.open icoOverlapA)).1.type = 1 ∧
    (icoReadHeader (File.open icoOverlapA)).1.entries = 4 ∧
    (icoReadHeader (File.open icoOverlapB)).1.type = 1 ∧
    (icoReadHeader (File.open icoOverlapB)).1.entries = 4 ∧
    icoOverlapA.length = 70 ∧ icoOverlapB.length = 70 ∧
    icoOverlapA.take 48 = icoOverlapB.take 48 ∧
    icoOverlapA.drop 49 = icoOverlapB.drop 49 ∧
    icoFirstEntry (File.open icoOverlapA) = icoFirstEntry (File.open icoOverlapB) ∧
    (icoFirstEntry (File.open icoOverlapA)).image_offset = 0 ∧
    icoCorners (IcoFormat.onLoad FileOp.blank (File.open icoOverlapA)) = some [[[0, 0, 0, 0]]] ∧
    icoCorners (IcoFormat.onLoad FileOp.blank (File.open icoOverlapB)) = some [[[1, 0, 0, 0]]] ∧
    (IcoFormat.onLoad FileOp.blank (File.open icoOverlapA)).fop.document ≠
      (IcoFormat.onLoad FileOp.blank (File.open icoOverlapB)).fop.document := by
  have hA : icoCorners (IcoFormat.onLoad FileOp.blank (File.open icoOverlapA)) =
      some [[[0, 0, 0, 0]]] := by decide
  have hB : icoCorners (IcoFormat.onLoad FileOp.blank (File.open icoOverlapB)) =
      some [[[1, 0, 0, 0]]] := by decide
  refine ⟨by decide, by decide, by decide, by decide, by decide, by decide, by decide,
    by decide, rfl, by decide, hA, hB, ?_⟩
  intro h
  unfold icoCorners at hA hB
  rw [h, hB] at hA
  exact absurd hA (by decide)

/-- C26, with the condition that the record of the first entry is unchanged.
For every stream whose directory header has type 1 and a count of at least 1,
the decoder succeeds and its document has exactly one layer with one cel at
frame 0 and one frame; its width and height are the width and height bytes of
the first entry with 0 read as 256, its colour count is the colour-count byte
of the first entry with 0 read as 256, and its pixel format is indexed when
the first entry declares at most 8 bits per pixel and RGB otherwise.  Every
stream with an accepted header, the same first entry and the same bytes from
the image offset of that entry on decodes to the same document, whatever its
other directory entries hold. -/
theorem ico_decode_first_entry_only (fop : FileOp) (f : File)
    (h1 : (icoReadHeader f).1.type = 1) (h2 : 1 ≤ (icoReadHeader f).1.entries) :
    ∃ doc image,
      (IcoFormat.onLoad fop f).ok = true ∧
      (IcoFormat.onLoad fop f).fop.document = some doc ∧
      doc.layers = [⟨[⟨0, image⟩]⟩] ∧ doc.totalFrames = 1 ∧
      doc.width = (if (icoFirstEntry f).width = 0 then 256 else (icoFirstEntry f).width) ∧
      doc.height = (if (icoFirstEntry f).height = 0 then 256 else (icoFirstEntry f).height) ∧
      doc.ncolors = (if (icoFirstEntry f).color_count = 0 then 256
        else (icoFirstEntry f).color_count) ∧
      (doc.palette 0).size = doc.ncolors ∧
      doc.pixelFormat = (if (icoFirstEntry f).bpp ≤ 8 then IMAGE_INDEXED else IMAGE_RGB) ∧
      image.w = doc.width ∧ image.h = doc.height ∧ image.format = doc.pixelFormat ∧
      icoFirstEntry f = (icoReadEntry (icoReadHeader f).2).1 ∧
      (icoFirstEntry f).width = toByte (peek f.rest 6) ∧
      (icoFirstEntry f).height = toByte (peek f.rest 7) ∧
      (icoFirstEntry f).color_count = toByte (peek f.rest 8) ∧
      (∀ g : File, (icoReadHeader g).1.type = 1 → 1 ≤ (icoReadHeader g).1.entries →
        icoFirstEntry g = icoFirstEntry f →
        g.all.drop (icoFirstEntry f).image_offset = f.all.drop (icoFirstEntry f).image_offset →
        (IcoFormat.onLoad fop g).ok = true ∧
        (IcoFormat.onLoad fop g).fop.document = some doc) := by
  obtain ⟨he1, he2, he3, he4⟩ := icoFirstEntry_eq f h2
  have hind : ∀ g : File, (icoReadHeader g).1.type = 1 → 1 ≤ (icoReadHeader g).1.entries →
      icoFirstEntry g = icoFirstEntry f →
      g.all.drop (icoFirstEntry f).image_offset = f.all.drop (icoFirstEntry f).image_offset →
      (IcoFormat.onLoad fop g).fop = (IcoFormat.onLoad fop f).fop := by
    intro g g1 g2 ge gd
    rw [icoOnLoad_first fop g g1 g2, icoOnLoad_first fop f h1 h2, ge]
    apply icoLoadEntry_congr
    rw [icoEntriesEnd_all, icoEntriesEnd_all]
    exact gd
  have hokg : ∀ g : File, (icoReadHeader g).1.type = 1 → 1 ≤ (icoReadHeader g).1.entries →
      (IcoFormat.onLoad fop g).ok = true := by
    intro g g1 g2
    rw [icoOnLoad_first fop g g1 g2]
    rfl
  rw [icoOnLoad_first fop f h1 h2] at hind ⊢
  obtain ⟨hok, hfop⟩ := icoLoadEntry_stage fop (icoFirstEntry f) (icoEntriesEnd f)
  obtain ⟨hw, hh⟩ := icoXorStage_dims (icoFirstEntry f) (icoEntriesEnd f)
  have hfm := icoXorStage_format (icoFirstEntry f) (icoEntriesEnd f)
  have hsz := icoXorStage_size (icoFirstEntry f) (icoEntriesEnd f)
  have hpf : (if (icoFirstEntry f).bpp > 8 then IMAGE_RGB else IMAGE_INDEXED) =
      (if (icoFirstEntry f).bpp ≤ 8 then IMAGE_INDEXED else IMAGE_RGB) := by
    split_ifs <;> first | rfl | omega
  refine ⟨_, (icoAndRows (icoXorStage (icoFirstEntry f) (icoEntriesEnd f)).2.1.h
      (icoXorStage (icoFirstEntry f) (icoEntriesEnd f)).1
      (icoXorStage (icoFirstEntry f) (icoEntriesEnd f)).2.1).2,
    hok, by rw [hfop], rfl, rfl, rfl, rfl, rfl, hsz, hpf, ?_, ?_, ?_, he1, he2, he3, he4, ?_⟩
  · rw [icoAndRows_w]
    exact hw
  · rw [icoAndRows_h]
    exact hh
  · rw [icoAndRows_format]
    exact hfm
  · intro g g1 g2 ge gd
    refine ⟨hokg g g1 g2, ?_⟩
    rw [hind g g1 g2 ge gd, hfop]

/-- The theorem at the stream `icoPairA`, whose directory has two entries and
whose first entry places its record behind the directory, at the offset 38.
The stream `icoPairB` has the same directory header, the same first entry and
the same bytes from the offset 38 on, and another second entry: it decodes to
the same document, whose one pixel is the index 1. -/
theorem ico_decode_first_entry_only_witness :
    (icoReadHeader (File.open icoPairA)).1.type = 1 ∧
    1 ≤ (icoReadHeader (File.open icoPairA)).1.entries ∧
    (icoReadHeader (File.open icoPairA)).1.entries = 2 ∧
    (icoReadHeader (File.open icoPairB)).1.entries = 2 ∧
    (icoFirstEntry (File.open icoPairA)).image_offset = 38 ∧
    icoPairA.take 22 = icoPairB.take 22 ∧
    (icoPairA.drop 22).take 16 = [16, 16, 16, 0, 1, 0, 4, 0, 40, 1, 0, 0, 94, 0, 0, 0] ∧
    (icoPairB.drop 22).take 16 = [32, 32, 0, 0, 1, 0, 24, 0, 168, 12, 0, 0, 200, 0, 0, 0] ∧
    icoPairA.drop 38 = icoPairB.drop 38 ∧
    (IcoFormat.onLoad FileOp.blank (File.open icoPairB)).ok = true ∧
    (IcoFormat.onLoad FileOp.blank (File.open icoPairB)).fop.document =
      (IcoFormat.onLoad FileOp.blank (File.open icoPairA)).fop.document ∧
    icoCorners (IcoFormat.onLoad FileOp.blank (File.open icoPairA)) = some [[[1, 0, 0, 0]]] ∧
    ∃ doc image,
      (IcoFormat.onLoad FileOp.blank (File.open icoPairA)).ok = true ∧
      (IcoFormat.onLoad FileOp.blank (File.open icoPairA)).fop.document = some doc ∧
      doc.layers = [⟨[⟨0, image⟩]⟩] ∧ doc.totalFrames = 1 ∧
      doc.width = (if (icoFirstEntry (File.open icoPairA)).width = 0 then 256
        else (icoFirstEntry (File.open icoPairA)).width) ∧
      doc.height = (if (icoFirstEntry (File.open icoPairA)).height = 0 then 256
        else (icoFirstEntry (File.open icoPairA)).height) ∧
      doc.ncolors = (if (icoFirstEntry (File.open icoPairA)).color_count = 0 then 256
        else (icoFirstEntry (File.open icoPairA)).color_count) ∧
      (doc.palette 0).size = doc.ncolors ∧
      doc.pixelFormat = (if (icoFirstEntry (File.open icoPairA)).bpp ≤ 8 then IMAGE_INDEXED
        else IMAGE_RGB) ∧
      image.w = doc.width ∧ image.h = doc.height ∧ image.format = doc.pixelFormat ∧
      icoFirstEntry (File.open icoPairA) =
        (icoReadEntry (icoReadHeader (File.open icoPairA)).2).1 ∧
      (icoFirstEntry (File.open icoPairA)).width = toByte (peek (File.open icoPairA).rest 6) ∧
      (icoFirstEntry (File.open icoPairA)).height = toByte (peek (File.open icoPairA).rest 7) ∧
      (icoFirstEntry (File.open icoPairA)).color_count =
        toByte (peek (File.open icoPairA).rest 8) ∧
      (∀ g : File, (icoReadHeader g).1.type = 1 → 1 ≤ (icoReadHeader g).1.entries →
        icoFirstEntry g = icoFirstEntry (File.open icoPairA) →
        g.all.drop (icoFirstEntry (File.open icoPairA)).image_offset =
          (File.open icoPairA).all.drop (icoFirstEntry (File.open icoPairA)).image_offset →
        (IcoFormat.onLoad FileOp.blank g).ok = true ∧
        (IcoFormat.onLoad FileOp.blank g).fop.document = some doc) := by
  have h := ico_decode_first_entry_only FileOp.blank (File.open icoPairA) (by decide) (by decide)
  have hB : (IcoFormat.onLoad FileOp.blank (File.open icoPairB)).ok = true ∧
      (IcoFormat.onLoad FileOp.blank (File.open icoPairB)).fop.document =
        (IcoFormat.onLoad FileOp.blank (File.open icoPairA)).fop.document := by
    obtain ⟨doc, image, _, hdoc, _, _, _, _, _, _, _, _, _, _, _, _, _, _, hg⟩ := h
    obtain ⟨b1, b2⟩ := hg (File.open icoPairB) (by decide) (by decide) rfl (by decide)
    exact ⟨b1, b2.trans hdoc.symm⟩
  exact ⟨by decide, by decide, by decide, by decide, by decide, by decide, by decide, by decide,
    by decide, hB.1, hB.2, by decide, h⟩

/-! ## C23: what the PCX encoder writes after the last scanline -/

theorem pcxColorBytes_flat (fop : FileOp) (n c : Nat) :
    pcxColorBytes fop n c =
      (List.range' c n).flatMap (fun i =>
        [(fop_sequence_get_color fop i).1, (fop_sequence_get_color fop i).2.1,
          (fop_sequence_get_color fop i).2.2]) := by
  induction n generalizing c with
  | zero => rfl
  | succ n ih =>
    rw [pcxColorBytes, ih, List.range'_succ, List.flatMap_cons]

/-- C23. For every image and every context, the output of `PcxFormat::onSave`
is the output of its loop over the scanlines (the header followed by the code
of the rows 0 to `h - 1`) followed by a trailer.  For an indexed or grayscale
image the trailer is the byte 12 followed by the red, green and blue of the
palette entries 0 to 255, 769 bytes in all; for an RGB image it is empty. -/
theorem pcx_trailing_palette_on_encode (fop : FileOp) (image : Image) :
    (PcxFormat.onSave fop image).out =
      (pcxSaveRows image (pcxDepth image) (pcxPlanes image) image.h 0 fop 0
        (pcxSaveHeader fop image (pcxPlanes image) [])).2.2 ++
      (if image.format = IMAGE_INDEXED ∨ image.format = IMAGE_GRAYSCALE then
        12 :: (List.range 256).flatMap (fun i =>
          [(fop_sequence_get_color fop i).1, (fop_sequence_get_color fop i).2.1,
            (fop_sequence_get_color fop i).2.2])
      else []) ∧
    (pcxSaveRows image (pcxDepth image) (pcxPlanes image) image.h 0 fop 0
        (pcxSaveHeader fop image (pcxPlanes image) [])).2.2 =
      pcxSaveHeader fop image (pcxPlanes image) [] ++
        (List.range image.h).flatMap
          (fun y => pcxLineCode (pcxSamples image y) (image.w * pcxPlanes image)) ∧
    (12 :: (List.range 256).flatMap (fun i =>
      [(fop_sequence_get_color fop i).1, (fop_sequence_get_color fop i).2.1,
        (fop_sequence_get_color fop i).2.2])).length = 769 ∧
    (image.format = IMAGE_RGB ∨ image.format = IMAGE_INDEXED ∨
      image.format = IMAGE_GRAYSCALE) := by
  refine ⟨?_, ?_, ?_, ?_⟩
  · rw [pcxOnSave_out, pcxSaveRows_out, pcxColorBytes_flat, List.append_assoc]
    simp only [List.range_eq_range']
    congr 2
    unfold pcxDepth
    cases image.format <;> simp
  · rw [pcxSaveRows_out]
    simp only [List.range_eq_range']
  · rw [List.range_eq_range', ← pcxColorBytes_flat, List.length_cons, pcxColorBytes_length]
  · cases image.format <;> simp

/-! ## C22: the palette that the PCX decoder looks for behind the scanlines -/

/-- The decoder when both header checks pass: the rest of it runs with what
the header stage has read. -/
theorem pcx_onLoad_stage (fop : FileOp) (f : File) (h : peek f.rest 3 = 8)
    (hd : peek f.rest 65 * 8 = 8 ∨ peek f.rest 65 * 8 = 24) :
    PcxFormat.onLoad fop f =
      pcxLoadImage (pcxHeaderStage fop f).1 (pcxHeaderStage fop f).2.1
        (pcxHeaderStage fop f).2.2.1 (pcxHeaderStage fop f).2.2.2.1
        (pcxHeaderStage fop f).2.2.2.2 ∧
    (pcxHeaderStage fop f).2.2.2.1 = peek f.rest 65 * 8 := by
  rw [pcx_onLoad_good_bits _ _ h]
  have hp : (pcxHeaderStage fop f).2.2.2.1 = peek f.rest 65 * 8 := by
    unfold pcxHeaderStage
    simp only []
    rw [pcxLoadDepth_planes]
    simp only [fgetc_rest, List.drop_drop, peek_drop]
  refine ⟨?_, hp⟩
  unfold pcxLoadDepth
  simp only []
  rw [if_neg]
  · rfl
  · rw [pcxLoadDepth_planes]
    simp only [fgetc_rest, List.drop_drop, peek_drop]
    intro hc
    rcases hd with hd | hd
    · exact hc.1 hd
    · exact hc.2 hd

/-- The palette entries after the loop that reads `n` triples from entry `c`
on: a missing byte is read as `EOF`. -/
theorem pcxReadColors_peek (n c : Nat) (fop : FileOp) (f : File) (i : Nat) :
    (pcxReadColors n c fop f).1.seq_palette.getEntry i =
      if c ≤ i ∧ i < c + n then
        _rgba (peek f.rest (3 * (i - c))) (peek f.rest (3 * (i - c) + 1))
          (peek f.rest (3 * (i - c) + 2)) 255
      else fop.seq_palette.getEntry i := by
  induction n generalizing c fop f with
  | zero =>
    simp only [pcxReadColors]
    rw [if_neg (by omega)]
  | succ n ih =>
    simp only [pcxReadColors]
    rw [ih]
    simp only [fgetc_rest, List.drop_drop, peek_drop, fgetc_fst]
    by_cases c1 : c + 1 ≤ i ∧ i < c + 1 + n
    · have c3 : c ≤ i ∧ i < c + (n + 1) := by omega
      have e0 : 1 + 1 + 1 + 3 * (i - (c + 1)) = 3 * (i - c) := by omega
      have e1 : 1 + 1 + 1 + (3 * (i - (c + 1)) + 1) = 3 * (i - c) + 1 := by omega
      have e2 : 1 + 1 + 1 + (3 * (i - (c + 1)) + 2) = 3 * (i - c) + 2 := by omega
      rw [if_pos c1, if_pos c3, e0, e1, e2]
    · rw [if_neg c1]
      by_cases c2 : i = c
      · have c3 : c ≤ i ∧ i < c + (n + 1) := by omega
        have e0 : 3 * (i - c) = 0 := by omega
        rw [if_pos c3, e0]
        simp only [fop_sequence_set_color, Palette.setEntry, Palette.getEntry, if_pos c2]
      · have c3 : ¬ (c ≤ i ∧ i < c + (n + 1)) := by omega
        rw [if_neg c3]
        simp only [fop_sequence_set_color, Palette.setEntry, Palette.getEntry, if_neg c2]

theorem pcxReadColors_size (n c : Nat) (fop : FileOp) (f : File) :
    (pcxReadColors n c fop f).1.seq_palette.size = fop.seq_palette.size := by
  induction n generalizing c fop f with
  | zero => rfl
  | succ n ih =>
    simp only [pcxReadColors]
    rw [ih]
    rfl

theorem peek_eof_mono (l : List Nat) (i j : Nat) (hij : i ≤ j) (h : peek l i = EOF) :
    peek l j = EOF := by
  unfold peek at h ⊢
  cases hi : l[i]? with
  | some b =>
    rw [hi] at h
    simp only [EOF] at h
    omega
  | none =>
    have : l.length ≤ i := by simpa using hi
    rw [List.getElem?_eq_none (by omega)]

/-- The search for the marker 12 when the first marker is the byte number `k`
of the unread bytes: the 256 palette entries are read from the bytes behind
it. -/
theorem pcxFindPalette_found (k fuel : Nat) (fop : FileOp) (f : File)
    (hk : peek f.rest k = 12) (hj : ∀ j, j < k → peek f.rest j ≠ 12) (hfuel : k < fuel) :
    ∃ g : File, g.rest = f.rest.drop (k + 1) ∧
      pcxFindPalette fuel fop f = pcxReadColors 256 0 fop g := by
  induction k generalizing fuel f with
  | zero =>
    obtain ⟨m, rfl⟩ : ∃ m, fuel = m + 1 := ⟨fuel - 1, by omega⟩
    refine ⟨(fgetc f).2, fgetc_rest f, ?_⟩
    simp only [pcxFindPalette, fgetc_fst, hk]
    rw [if_neg (by unfold EOF; omega), if_pos trivial]
  | succ k ih =>
    obtain ⟨m, rfl⟩ : ∃ m, fuel = m + 1 := ⟨fuel - 1, by omega⟩
    have h0 : peek f.rest 0 ≠ 12 := hj 0 (by omega)
    have h1 : peek f.rest 0 ≠ EOF := by
      intro he
      have := peek_eof_mono f.rest 0 (k + 1) (by omega) he
      rw [hk] at this
      unfold EOF at this
      omega
    obtain ⟨g, hg1, hg2⟩ := ih m (fgetc f).2
      (by rw [fgetc_rest, peek_drop, Nat.add_comm]; exact hk)
      (by
        intro j hjk
        rw [fgetc_rest, peek_drop, Nat.add_comm]
        exact hj (j + 1) (by omega))
      (by omega)
    refine ⟨g, ?_, ?_⟩
    · rw [hg1, fgetc_rest, List.drop_drop]
      congr 1
      omega
    · simp only [pcxFindPalette, fgetc_fst]
      rw [if_neg h1, if_neg h0]
      exact hg2

/-- The search for the marker 12 when no unread byte is 12: the context is
left as it is. -/
theorem pcxFindPalette_none (fuel : Nat) (fop : FileOp) (f : File)
    (h : ∀ j, peek f.rest j ≠ 12) : (pcxFindPalette fuel fop f).1 = fop := by
  induction fuel generalizing f with
  | zero => rfl
  | succ n ih =>
    simp only [pcxFindPalette, fgetc_fst]
    split_ifs with h1 h2
    · rfl
    · exact absurd h2 (h 0)
    · apply ih
      intro j
      rw [fgetc_rest, peek_drop]
      exact h _

theorem peek_lt_length (l : List Nat) (k : Nat) (h : peek l k ≠ EOF) : k < l.length := by
  by_contra hc
  apply h
  unfold peek
  rw [List.getElem?_eq_none (by omega)]

/-- The palette at the end of the decoder of a stream of depth 8 that was not
stopped. -/
theorem pcxFinish_scan (fop : FileOp) (f : File) (hs : fop.stop_at = none) :
    (pcxFinish fop 8 f).fop.seq_palette =
      (pcxFindPalette (f.rest.length + 1) (fop_is_stop fop).2 f).1.seq_palette := by
  obtain ⟨h1, _⟩ := fop_is_stop_none fop hs
  unfold pcxFinish
  simp only [h1, Bool.false_eq_true, not_false_eq_true, true_and, if_true]
  split_ifs <;> rfl

/-- The end of the decoder of a stream whose depth is not 8: the palette and
the stream are left as they are. -/
theorem pcxFinish_other (fop : FileOp) (bpp : Int) (f : File) (hb : bpp ≠ 8) :
    (pcxFinish fop bpp f).fop.seq_palette = fop.seq_palette ∧ (pcxFinish fop bpp f).f = f := by
  unfold pcxFinish
  have hc : ¬ (¬ (fop_is_stop fop).1 = true ∧ bpp = 8) := fun h => hb h.2
  simp only [if_neg hc]
  split_ifs <;> exact ⟨rfl, rfl⟩

/-- The palette at the end of the decoder once it has its image and is not
stopped, in terms of the stream that the loop over the scanlines leaves. -/
theorem pcxLoadImage_palette (fop : FileOp) (width height bpp : Int) (f : File)
    (ha : fop.can_allocate = true) (hs : fop.stop_at = none) :
    (bpp = 8 →
      (∀ k, peek (pcxScanRows bpp (fgetw f).1 height.toNat 0 (skipBytes 60 (fgetw f).2)
            (pcxBlankImage bpp width height)).1.rest k = 12 →
        (∀ j, j < k → peek (pcxScanRows bpp (fgetw f).1 height.toNat 0
            (skipBytes 60 (fgetw f).2) (pcxBlankImage bpp width height)).1.rest j ≠ 12) →
        ∀ i, (pcxLoadImage fop width height bpp f).fop.seq_palette.getEntry i =
          if i < 256 then
            _rgba (peek (pcxScanRows bpp (fgetw f).1 height.toNat 0 (skipBytes 60 (fgetw f).2)
                (pcxBlankImage bpp width height)).1.rest (k + 1 + 3 * i))
              (peek (pcxScanRows bpp (fgetw f).1 height.toNat 0 (skipBytes 60 (fgetw f).2)
                (pcxBlankImage bpp width height)).1.rest (k + 2 + 3 * i))
              (peek (pcxScanRows bpp (fgetw f).1 height.toNat 0 (skipBytes 60 (fgetw f).2)
                (pcxBlankImage bpp width height)).1.rest (k + 3 + 3 * i)) 255
          else fop.seq_palette.getEntry i) ∧
      ((∀ j, peek (pcxScanRows bpp (fgetw f).1 height.toNat 0 (skipBytes 60 (fgetw f).2)
            (pcxBlankImage bpp width height)).1.rest j ≠ 12) →
        (pcxLoadImage fop width height bpp f).fop.seq_palette = fop.seq_palette)) ∧
    (bpp ≠ 8 →
      (pcxLoadImage fop width height bpp f).fop.seq_palette = fop.seq_palette ∧
      (pcxLoadImage fop width height bpp f).f =
        (pcxScanRows bpp (fgetw f).1 height.toNat 0 (skipBytes 60 (fgetw f).2)
          (pcxBlankImage bpp width height)).1) := by
  have hF : (fop_sequence_image fop (if bpp = 8 then IMAGE_INDEXED else IMAGE_RGB)
      width height).2.stop_at = none := by
    simp [fop_sequence_image, ha, hs]
  have hFp : (fop_sequence_image fop (if bpp = 8 then IMAGE_INDEXED else IMAGE_RGB)
      width height).2.seq_palette = fop.seq_palette := by
    simp [fop_sequence_image, ha]
  rw [pcxLoadImage_alloc fop width height bpp f ha]
  generalize (fop_sequence_image fop (if bpp = 8 then IMAGE_INDEXED else IMAGE_RGB)
      width height).2 = F at hF hFp ⊢
  have hrows := pcxRows_none bpp (fgetw f).1 height height.toNat 0 F
    (skipBytes 60 (fgetw f).2) (pcxBlankImage bpp width height) hF
  obtain ⟨hp, hst, _, _⟩ := pcxRows_frame bpp (fgetw f).1 height height.toNat 0 F
    (skipBytes 60 (fgetw f).2) (pcxBlankImage bpp width height)
  have hafter : (pcxRows bpp (fgetw f).1 height height.toNat 0 F
      (skipBytes 60 (fgetw f).2) (pcxBlankImage bpp width height)).2.1 =
      (pcxScanRows bpp (fgetw f).1 height.toNat 0 (skipBytes 60 (fgetw f).2)
        (pcxBlankImage bpp width height)).1 := by rw [hrows]
  rw [hafter]
  generalize (pcxScanRows bpp (fgetw f).1 height.toNat 0 (skipBytes 60 (fgetw f).2)
        (pcxBlankImage bpp width height)).1 = after
  generalize hR : ({ (pcxRows bpp (fgetw f).1 height height.toNat 0 F
      (skipBytes 60 (fgetw f).2) (pcxBlankImage bpp width height)).1 with
      seq_image := some (pcxRows bpp (fgetw f).1 height height.toNat 0 F
        (skipBytes 60 (fgetw f).2) (pcxBlankImage bpp width height)).2.2 } : FileOp) = fopR
  have hRs : fopR.stop_at = none := by
    rw [← hR]
    exact hst.trans hF
  have hRp : fopR.seq_palette = fop.seq_palette := by
    rw [← hR]
    exact hp.trans hFp
  have hRp2 : (fop_is_stop fopR).2.seq_palette = fop.seq_palette := hRp
  constructor
  · intro h8
    subst h8
    rw [pcxFinish_scan fopR after hRs]
    constructor
    · intro k hk hj i
      have hlen : k < after.rest.length := by
        apply peek_lt_length
        rw [hk]
        unfold EOF
        omega
      obtain ⟨g, hg1, hg2⟩ := pcxFindPalette_found k (after.rest.length + 1)
        (fop_is_stop fopR).2 after hk hj (by omega)
      rw [hg2, pcxReadColors_peek, hg1, peek_drop, peek_drop, peek_drop]
      by_cases c : i < 256
      · have c2 : 0 ≤ i ∧ i < 0 + 256 := by omega
        have e0 : k + 1 + 3 * (i - 0) = k + 1 + 3 * i := by omega
        have e1 : k + 1 + (3 * (i - 0) + 1) = k + 2 + 3 * i := by omega
        have e2 : k + 1 + (3 * (i - 0) + 2) = k + 3 + 3 * i := by omega
        rw [if_pos c, if_pos c2, e0, e1, e2]
      · have c2 : ¬ (0 ≤ i ∧ i < 0 + 256) := by omega
        rw [if_neg c, if_neg c2]
        show (fop_is_stop fopR).2.seq_palette.getEntry i = _
        rw [hRp2]
    · intro hno
      rw [pcxFindPalette_none _ _ _ hno]
      exact hRp2
  · intro h8
    obtain ⟨h1, h2⟩ := pcxFinish_other fopR bpp after h8
    exact ⟨h1.trans hRp, h2⟩

/-- The context that the header stage hands on: the 16 header colours are the
triples at the bytes 16 to 63 of the stream, the other entries and the rest
of the context are as before. -/
theorem pcxHeaderStage_fop (fop : FileOp) (f : File) :
    (pcxHeaderStage fop f).1.can_allocate = fop.can_allocate ∧
    (pcxHeaderStage fop f).1.stop_at = fop.stop_at ∧
    (pcxHeaderStage fop f).1.seq_palette.size = fop.seq_palette.size ∧
    ∀ i, (pcxHeaderStage fop f).1.seq_palette.getEntry i =
      if i < 16 then
        _rgba (peek f.rest (16 + 3 * i)) (peek f.rest (17 + 3 * i)) (peek f.rest (18 + 3 * i)) 255
      else fop.seq_palette.getEntry i := by
  unfold pcxHeaderStage
  simp only []
  refine ⟨(pcxReadColors_frame _ _ _ _).2.2.2.1, (pcxReadColors_frame _ _ _ _).2.2.2.2.1,
    pcxReadColors_size _ _ _ _, ?_⟩
  intro i
  rw [pcxReadColors_peek]
  simp only [fgetc_rest, fgetw_rest, fgetl_rest, List.drop_drop, peek_drop]
  by_cases c : i < 16
  · have c2 : 0 ≤ i ∧ i < 0 + 16 := by omega
    rw [if_pos c, if_pos c2]
    congr 2 <;> omega
  · have c2 : ¬ (0 ≤ i ∧ i < 0 + 16) := by omega
    rw [if_neg c, if_neg c2]

/-- C22. Let the stream pass both header checks with the planes byte 1
(depth 8) or 3 (depth 24), let the image be allocated and let no stop be
signalled.  The 16 header colours are the triples at the bytes 16 to 63.
For depth 8: when the byte number `k` of the bytes left after the last
scanline is the first one of value 12, palette entry `i` below 256 becomes the
opaque colour of the triple at the offset `3 * i` behind that marker (a byte
missing at the end of the stream is read as `EOF`) and the entries from 256
on are kept; when no byte left is 12 the palette is the one of the header
stage, so the entries 0 to 15 keep the header colours and no other entry is
set.  For depth 24 the palette is the one of the header stage and the stream
is left where the last scanline ended. -/
theorem pcx_trailing_palette_on_decode (fop : FileOp) (f : File)
    (h3 : peek f.rest 3 = 8) (hd : peek f.rest 65 = 1 ∨ peek f.rest 65 = 3)
    (ha : fop.can_allocate = true) (hs : fop.stop_at = none) :
    (∀ i, (pcxHeaderStage fop f).1.seq_palette.getEntry i =
      if i < 16 then
        _rgba (peek f.rest (16 + 3 * i)) (peek f.rest (17 + 3 * i)) (peek f.rest (18 + 3 * i)) 255
      else fop.seq_palette.getEntry i) ∧
    (peek f.rest 65 = 1 →
      (∀ k, peek (pcxAfterRows fop f).1.rest k = 12 →
        (∀ j, j < k → peek (pcxAfterRows fop f).1.rest j ≠ 12) →
        ∀ i, (PcxFormat.onLoad fop f).fop.seq_palette.getEntry i =
          if i < 256 then
            _rgba (peek (pcxAfterRows fop f).1.rest (k + 1 + 3 * i))
              (peek (pcxAfterRows fop f).1.rest (k + 2 + 3 * i))
              (peek (pcxAfterRows fop f).1.rest (k + 3 + 3 * i)) 255
          else (pcxHeaderStage fop f).1.seq_palette.getEntry i) ∧
      ((∀ j, peek (pcxAfterRows fop f).1.rest j ≠ 12) →
        (PcxFormat.onLoad fop f).fop.seq_palette = (pcxHeaderStage fop f).1.seq_palette)) ∧
    (peek f.rest 65 = 3 →
      (PcxFormat.onLoad fop f).fop.seq_palette = (pcxHeaderStage fop f).1.seq_palette ∧
      (PcxFormat.onLoad fop f).f = (pcxAfterRows fop f).1) := by
  have hd2 : peek f.rest 65 * 8 = 8 ∨ peek f.rest 65 * 8 = 24 := by
    rcases hd with hd | hd
    · left; rw [hd]; rfl
    · right; rw [hd]; rfl
  obtain ⟨hload, hbpp⟩ := pcx_onLoad_stage fop f h3 hd2
  obtain ⟨hsa, hss, _, hpal⟩ := pcxHeaderStage_fop fop f
  obtain ⟨p8, p24⟩ := pcxLoadImage_palette (pcxHeaderStage fop f).1 (pcxHeaderStage fop f).2.1
    (pcxHeaderStage fop f).2.2.1 (pcxHeaderStage fop f).2.2.2.1 (pcxHeaderStage fop f).2.2.2.2
    (hsa.trans ha) (hss.trans hs)
  rw [hload]
  refine ⟨hpal, ?_, ?_⟩
  · intro h1
    have hb : (pcxHeaderStage fop f).2.2.2.1 = 8 := by rw [hbpp, h1]; rfl
    exact p8 hb
  · intro h1
    have hb : (pcxHeaderStage fop f).2.2.2.1 ≠ 8 := by rw [hbpp, h1]; decide
    exact p24 hb

/-- The theorem at the stream `pcxShortPalette`: one scanline byte, then the
marker 12 and a palette of which only the first triple is there. -/
theorem pcx_trailing_palette_on_decode_witness :
    peek (File.open pcxShortPalette).rest 3 = 8 ∧
    (peek (File.open pcxShortPalette).rest 65 = 1 ∨
      peek (File.open pcxShortPalette).rest 65 = 3) ∧
    FileOp.blank.can_allocate = true ∧ FileOp.blank.stop_at = none ∧
    (pcxAfterRows FileOp.blank (File.open pcxShortPalette)).1.rest = [12, 1, 2, 3] ∧
    (PcxFormat.onLoad FileOp.blank (File.open pcxShortPalette)).fop.seq_palette.getEntry 0 =
      _rgba 1 2 3 255 ∧
    (PcxFormat.onLoad FileOp.blank (File.open pcxShortPalette)).fop.seq_palette.getEntry 1 =
      _rgba 255 255 255 255 ∧
    (∀ i, (pcxHeaderStage FileOp.blank (File.open pcxShortPalette)).1.seq_palette.getEntry i =
      if i < 16 then
        _rgba (peek (File.open pcxShortPalette).rest (16 + 3 * i))
          (peek (File.open pcxShortPalette).rest (17 + 3 * i))
          (peek (File.open pcxShortPalette).rest (18 + 3 * i)) 255
      else FileOp.blank.seq_palette.getEntry i) ∧
    (peek (File.open pcxShortPalette).rest 65 = 1 →
      (∀ k, peek (pcxAfterRows FileOp.blank (File.open pcxShortPalette)).1.rest k = 12 →
        (∀ j, j < k →
          peek (pcxAfterRows FileOp.blank (File.open pcxShortPalette)).1.rest j ≠ 12) →
        ∀ i, (PcxFormat.onLoad FileOp.blank
            (File.open pcxShortPalette)).fop.seq_palette.getEntry i =
          if i < 256 then
            _rgba (peek (pcxAfterRows FileOp.blank (File.open pcxShortPalette)).1.rest
                (k + 1 + 3 * i))
              (peek (pcxAfterRows FileOp.blank (File.open pcxShortPalette)).1.rest
                (k + 2 + 3 * i))
              (peek (pcxAfterRows FileOp.blank (File.open pcxShortPalette)).1.rest
                (k + 3 + 3 * i)) 255
          else (pcxHeaderStage FileOp.blank
            (File.open pcxShortPalette)).1.seq_palette.getEntry i) ∧
      ((∀ j, peek (pcxAfterRows FileOp.blank (File.open pcxShortPalette)).1.rest j ≠ 12) →
        (PcxFormat.onLoad FileOp.blank (File.open pcxShortPalette)).fop.seq_palette =
          (pcxHeaderStage FileOp.blank (File.open pcxShortPalette)).1.seq_palette)) ∧
    (peek (File.open pcxShortPalette).rest 65 = 3 →
      (PcxFormat.onLoad FileOp.blank (File.open pcxShortPalette)).fop.seq_palette =
        (pcxHeaderStage FileOp.blank (File.open pcxShortPalette)).1.seq_palette ∧
      (PcxFormat.onLoad FileOp.blank (File.open pcxShortPalette)).f =
        (pcxAfterRows FileOp.blank (File.open pcxShortPalette)).1) := by
  have h := pcx_trailing_palette_on_decode FileOp.blank (File.open pcxShortPalette)
    (by decide) (by decide) rfl rfl
  have e0 := (h.2.1 (by decide)).1 0 rfl (fun j hj => absurd hj (Nat.not_lt_zero j)) 0
  have e1 := (h.2.1 (by decide)).1 0 rfl (fun j hj => absurd hj (Nat.not_lt_zero j)) 1
  exact ⟨by decide, by decide, rfl, rfl, rfl, e0.trans rfl, e1.trans rfl, h⟩

/-! ## C28: the loops of the PCX decoder end -/

theorem pcxItem_x (bpp bpl : Int) (y : Nat) (s : PcxScan) :
    (pcxItem bpp bpl y s).pen.x = s.pen.x +
      (if toByte (fgetc s.f).1 &&& 0xC0 = 0xC0 then toByte (fgetc s.f).1 &&& 0x3F else 1) := by
  unfold pcxItem
  simp only []
  by_cases hb : bpp = 8
  · rw [if_pos hb, pcxRun8_x]
    simp only [decide_eq_true_eq]
  · rw [if_neg hb, pcxRun24_x]
    simp only [decide_eq_true_eq]

theorem pcxItem_rest (bpp bpl : Int) (y : Nat) (s : PcxScan) :
    (pcxItem bpp bpl y s).f.rest =
      s.f.rest.drop (if toByte (fgetc s.f).1 &&& 0xC0 = 0xC0 then 2 else 1) := by
  unfold pcxItem
  simp only [decide_eq_true_eq]
  split_ifs
  · rw [fgetc_rest, fgetc_rest, List.drop_drop]
  · rw [fgetc_rest]

theorem pcxItem_all (bpp bpl : Int) (y : Nat) (s : PcxScan) :
    (pcxItem bpp bpl y s).f.all = s.f.all := by
  unfold pcxItem
  simp only [decide_eq_true_eq]
  split_ifs
  · rw [fgetc_all, fgetc_all]
  · rw [fgetc_all]

/-- A round of the scanline loop either consumes a byte of the stream or, at
the end of the stream, advances `x` by 63: the bound `pcxFuel` goes down. -/
theorem pcxItem_fuel (bpp bpl : Int) (y : Nat) (s : PcxScan)
    (hx : (s.pen.x : Int) < pcxLineBytes bpp bpl) :
    pcxFuel bpp bpl (pcxItem bpp bpl y s) < pcxFuel bpp bpl s := by
  unfold pcxFuel
  rw [pcxItem_x, pcxItem_rest]
  cases hr : s.f.rest with
  | nil =>
    have h1 : (fgetc s.f).1 = EOF := by
      rw [fgetc_fst, hr]
      rfl
    have h2 : toByte EOF &&& 0xC0 = 0xC0 := by decide
    have h3 : toByte EOF &&& 0x3F = 63 := by decide
    rw [h1, if_pos h2, if_pos h2, h3]
    simp only [List.drop_nil, List.length_nil]
    omega
  | cons b tl =>
    have hlen : ∀ k, 1 ≤ k → ((b :: tl).drop k).length ≤ tl.length := by
      intro k hk
      rw [List.length_drop]
      simp only [List.length_cons]
      omega
    split_ifs
    · have := hlen 2 (by omega)
      simp only [List.length_cons]
      omega
    · have := hlen 1 (by omega)
      simp only [List.length_cons]
      omega

/-- With at least `pcxFuel` rounds the scanline loop ends because its
condition fails, and more rounds change nothing. -/
theorem pcxWhile_fuel (bpp bpl : Int) (y : Nat) (fuel : Nat) (s : PcxScan)
    (h : pcxFuel bpp bpl s ≤ fuel) :
    ¬ (((pcxWhile bpp bpl y fuel s).pen.x : Int) < pcxLineBytes bpp bpl) ∧
    ∀ extra, pcxWhile bpp bpl y (fuel + extra) s = pcxWhile bpp bpl y fuel s := by
  induction fuel generalizing s with
  | zero =>
    have hx : ¬ ((s.pen.x : Int) < pcxLineBytes bpp bpl) := by
      unfold pcxFuel at h
      omega
    refine ⟨by simpa [pcxWhile] using hx, ?_⟩
    intro extra
    rw [pcxWhile_stop _ _ _ _ _ hx, pcxWhile_stop _ _ _ _ _ hx]
  | succ n ih =>
    by_cases hx : (s.pen.x : Int) < pcxLineBytes bpp bpl
    · have hlt := pcxItem_fuel bpp bpl y s hx
      obtain ⟨h1, h2⟩ := ih (pcxItem bpp bpl y s) (by omega)
      constructor
      · simp only [pcxWhile, if_pos hx]
        exact h1
      · intro extra
        have e : n + 1 + extra = (n + extra) + 1 := by omega
        rw [e]
        simp only [pcxWhile, if_pos hx]
        exact h2 extra
    · refine ⟨by rw [pcxWhile_stop _ _ _ _ _ hx]; exact hx, ?_⟩
      intro extra
      rw [pcxWhile_stop _ _ _ _ _ hx, pcxWhile_stop _ _ _ _ _ hx]

theorem File.behind_refl (f : File) : f.behind f := ⟨⟨0, rfl⟩, rfl⟩

theorem File.behind_trans {h g f : File} (h1 : h.behind g) (h2 : g.behind f) : h.behind f := by
  obtain ⟨⟨a, ha⟩, ha2⟩ := h1
  obtain ⟨⟨b, hb⟩, hb2⟩ := h2
  refine ⟨⟨b + a, ?_⟩, ha2.trans hb2⟩
  rw [ha, hb, List.drop_drop]

theorem fgetc_behind (f : File) : (fgetc f).2.behind f := ⟨⟨1, fgetc_rest f⟩, fgetc_all f⟩

theorem fgetw_behind (f : File) : (fgetw f).2.behind f := ⟨⟨2, fgetw_rest f⟩, fgetw_all f⟩

theorem fgetl_behind (f : File) : (fgetl f).2.behind f := ⟨⟨4, fgetl_rest f⟩, fgetl_all f⟩

theorem pcxReadColors_all (n c : Nat) (fop : FileOp) (f : File) :
    (pcxReadColors n c fop f).2.all = f.all := by
  induction n generalizing c fop f with
  | zero => rfl
  | succ n ih => simp only [pcxReadColors, ih, fgetc_all]

theorem skipBytes_all (n : Nat) (f : File) : (skipBytes n f).all = f.all := by
  induction n generalizing f with
  | zero => rfl
  | succ n ih => simp only [skipBytes, ih, fgetc_all]

theorem pcxReadColors_behind (n c : Nat) (fop : FileOp) (f : File) :
    (pcxReadColors n c fop f).2.behind f :=
  ⟨⟨3 * n, pcxReadColors_rest n c fop f⟩, pcxReadColors_all n c fop f⟩

theorem skipBytes_behind (n : Nat) (f : File) : (skipBytes n f).behind f :=
  ⟨⟨n, skipBytes_rest n f⟩, skipBytes_all n f⟩

theorem pcxItem_behind (bpp bpl : Int) (y : Nat) (s : PcxScan) :
    (pcxItem bpp bpl y s).f.behind s.f :=
  ⟨⟨_, pcxItem_rest bpp bpl y s⟩, pcxItem_all bpp bpl y s⟩

/-- The scanline loop only moves forward in the stream. -/
theorem pcxWhile_behind (bpp bpl : Int) (y fuel : Nat) (s : PcxScan) :
    (pcxWhile bpp bpl y fuel s).f.behind s.f := by
  induction fuel generalizing s with
  | zero => exact File.behind_refl _
  | succ n ih =>
    simp only [pcxWhile]
    split_ifs
    · exact File.behind_trans (ih (pcxItem bpp bpl y s)) (pcxItem_behind bpp bpl y s)
    · exact File.behind_refl _

theorem pcxScanline_behind (bpp bpl : Int) (y : Nat) (f : File) (image : Image) :
    (pcxScanline bpp bpl y f image).1.behind f := by
  unfold pcxScanline
  exact pcxWhile_behind bpp bpl y _ _

/-- The loop over the scanlines only moves forward in the stream. -/
theorem pcxRows_behind (bpp bpl height : Int) (n y : Nat) (fop : FileOp) (f : File)
    (image : Image) : (pcxRows bpp bpl height n y fop f image).2.1.behind f := by
  induction n generalizing y fop f image with
  | zero => exact File.behind_refl _
  | succ n ih =>
    simp only [pcxRows]
    split_ifs
    · exact pcxScanline_behind bpp bpl y f image
    · exact File.behind_trans (ih (y + 1) (fop_is_stop (fop_progress fop (↑y + 1) height)).2
        (pcxScanline bpp bpl y f image).1 (pcxScanline bpp bpl y f image).2)
        (pcxScanline_behind bpp bpl y f image)

/-- The search for the marker 12 only moves forward in the stream. -/
theorem pcxFindPalette_behind (fuel : Nat) (fop : FileOp) (f : File) :
    (pcxFindPalette fuel fop f).2.behind f := by
  induction fuel generalizing f with
  | zero => exact File.behind_refl _
  | succ n ih =>
    simp only [pcxFindPalette]
    split_ifs
    · exact fgetc_behind f
    · exact File.behind_trans (pcxReadColors_behind 256 0 fop (fgetc f).2) (fgetc_behind f)
    · exact File.behind_trans (ih (fgetc f).2) (fgetc_behind f)

/-- With more rounds than unread bytes the search for the marker 12 ends by
itself, and more rounds change nothing. -/
theorem pcxFindPalette_fuel (fuel extra : Nat) (fop : FileOp) (f : File)
    (h : f.rest.length < fuel) :
    pcxFindPalette (fuel + extra) fop f = pcxFindPalette fuel fop f := by
  induction fuel generalizing f with
  | zero => omega
  | succ n ih =>
    have e : n + 1 + extra = (n + extra) + 1 := by omega
    rw [e]
    simp only [pcxFindPalette]
    split_ifs with h1 h2
    · rfl
    · rfl
    · apply ih
      rw [fgetc_rest, List.length_drop]
      have hne : f.rest ≠ [] := by
        intro hnil
        apply h1
        rw [fgetc_fst, hnil]
        rfl
      have : 0 < f.rest.length := List.length_pos.mpr hne
      omega

theorem pcxFinish_behind (fop : FileOp) (bpp : Int) (f : File) :
    (pcxFinish fop bpp f).f.behind f := by
  unfold pcxFinish
  simp only []
  split_ifs
  all_goals first
    | exact pcxFindPalette_behind _ _ _
    | exact File.behind_refl _

theorem pcxLoadImage_behind (fop : FileOp) (width height bpp : Int) (f : File) :
    (pcxLoadImage fop width height bpp f).f.behind f := by
  cases ha : fop.can_allocate
  · simp only [pcxLoadImage, fop_sequence_image, ha, Bool.false_eq_true, if_false]
    exact File.behind_trans (skipBytes_behind 60 _) (fgetw_behind f)
  · rw [pcxLoadImage_alloc fop width height bpp f ha]
    exact File.behind_trans
      (File.behind_trans (pcxFinish_behind _ _ _) (pcxRows_behind _ _ _ _ _ _ _ _))
      (File.behind_trans (skipBytes_behind 60 _) (fgetw_behind f))

/-- The whole decoder only moves forward in the stream. -/
theorem pcx_onLoad_behind (fop : FileOp) (f : File) : (PcxFormat.onLoad fop f).f.behind f := by
  have h4 : (fgetc (fgetc (fgetc (fgetc f).2).2).2).2.behind f :=
    File.behind_trans (fgetc_behind _) (File.behind_trans (fgetc_behind _)
      (File.behind_trans (fgetc_behind _) (fgetc_behind f)))
  unfold PcxFormat.onLoad
  simp only []
  split_ifs
  · exact h4
  · generalize (fgetc (fgetc (fgetc (fgetc f).2).2).2).2 = g at h4 ⊢
    have h5 : (fgetc (fgetc (pcxReadColors 16 0 fop
        (fgetl (fgetw (fgetw (fgetw (fgetw g).2).2).2).2).2).2).2).2.behind g :=
      File.behind_trans (fgetc_behind _) (File.behind_trans (fgetc_behind _)
        (File.behind_trans (pcxReadColors_behind _ _ _ _) (File.behind_trans (fgetl_behind _)
          (File.behind_trans (fgetw_behind _) (File.behind_trans (fgetw_behind _)
            (File.behind_trans (fgetw_behind _) (fgetw_behind g)))))))
    unfold pcxLoadDepth
    simp only []
    split_ifs
    · exact File.behind_trans h5 h4
    · exact File.behind_trans (File.behind_trans (pcxLoadImage_behind _ _ _ _ _) h5) h4

/-- The expansion only grows: what has been produced stays in front. -/
theorem pcxSpecRow_prefix (bpl : Int) (fuel : Nat) (acc l : List Nat) :
    ∃ t, (pcxSpecRow bpl fuel acc l).1 = acc ++ t := by
  induction fuel generalizing acc l with
  | zero => exact ⟨[], (List.append_nil acc).symm⟩
  | succ fuel ih =>
    simp only [pcxSpecRow]
    split_ifs
    · obtain ⟨t, ht⟩ := ih (acc ++ List.replicate (pcxByteAt l 0 &&& 0x3F) (pcxByteAt l 1))
        (l.drop 2)
      exact ⟨_, by rw [ht, List.append_assoc]⟩
    · obtain ⟨t, ht⟩ := ih (acc ++ [pcxByteAt l 0]) (l.drop 1)
      exact ⟨_, by rw [ht, List.append_assoc]⟩
    · exact ⟨[], (List.append_nil acc).symm⟩

theorem pcxByteAt_lt (l : List Nat) (i : Nat) : pcxByteAt l i < 256 := toByte_lt _

/-- Every element of the expansion is a byte. -/
theorem pcxSpecRow_lt (bpl : Int) (fuel : Nat) (acc l : List Nat)
    (h : ∀ v ∈ acc, v < 256) : ∀ v ∈ (pcxSpecRow bpl fuel acc l).1, v < 256 := by
  induction fuel generalizing acc l with
  | zero => exact h
  | succ fuel ih =>
    simp only [pcxSpecRow]
    split_ifs
    · apply ih
      intro v hv
      rw [List.mem_append] at hv
      rcases hv with hv | hv
      · exact h v hv
      · rw [List.eq_of_mem_replicate hv]
        exact pcxByteAt_lt _ _
    · apply ih
      intro v hv
      rw [List.mem_append] at hv
      rcases hv with hv | hv
      · exact h v hv
      · rw [List.mem_singleton.mp hv]
        exact pcxByteAt_lt _ _
    · exact h

theorem getD_lt (l : List Nat) (h : ∀ v ∈ l, v < 256) (i : Nat) : l.getD i 0 < 256 := by
  by_cases hi : i < l.length
  · rw [List.getD_eq_getElem l 0 hi]
    exact h _ (List.getElem_mem hi)
  · rw [List.getD_eq_default l 0 (by omega)]
    decide

/-- Samples painted beyond the third plane leave the image as it is: the
column counter is at or beyond the width. -/
theorem pcxPaint24_over (w y : Nat) (σ : Nat → Nat) (n : Nat) (p : PcxPen)
    (hx : w * 2 ≤ p.x) (hw : 1 ≤ w) (hxx : p.image.w ≤ p.xx) :
    (pcxPaint 24 (w : Int) y σ n p).image = p.image := by
  induction n generalizing p with
  | zero => rfl
  | succ n ih =>
    have h8 : ¬ ((24 : Int) = 8) := by decide
    have h1 : ¬ (p.xx < p.image.w) := by omega
    have h2 : ¬ (((p.x + 1 : Nat) : Int) = (w : Int)) := by omega
    have h3 : ¬ (((p.x + 1 : Nat) : Int) = (w : Int) * 2) := by omega
    simp only [pcxPaint, if_neg h8, pcxRun24, if_neg h1, if_neg h2, if_neg h3]
    rw [ih]
    · simp only []
      omega
    · simp only []
      omega

/-- The pen when the three planes of a row have been painted. -/
theorem pcxPaint24_three (w y : Nat) (σ : Nat → Nat) (image : Image) (hw : 1 ≤ w)
    (hiw : image.w = w) :
    (pcxPaint 24 (w : Int) y σ (w * 3)
        { image := image, x := 0, xx := 0, po := _rgba_r_shift }).xx = w := by
  rw [show w * 3 = w + (w + w) by omega, pcxPaint_add, pcxPaint_add]
  rw [pcxPaint24_whole w y σ image 0 _ hw hiw (Or.inl rfl)]
  simp only [if_true, Nat.zero_add, show ¬ (0 = w * 2) by omega, if_false]
  rw [pcxPaint24_whole w y σ]
  rotate_left
  · exact hw
  · exact hiw
  · exact Or.inr (Or.inl rfl)
  simp only [show ¬ (w = 0) by omega, show ¬ (w = w * 2) by omega, if_true, if_false]
  rw [pcxPaint24_whole w y σ]
  rotate_left
  · exact hw
  · exact hiw
  · exact Or.inr (Or.inr (by omega))
  simp only []
  rw [if_pos (by omega)]

/-- Painting at least the three planes of a row gives the image of the three
planes: what lies beyond is dropped. -/
theorem pcxPaint24_row (w y : Nat) (σ : Nat → Nat) (image : Image) (hw : 1 ≤ w)
    (hiw : image.w = w) (n : Nat) (hn : w * 3 ≤ n) :
    (pcxPaint 24 (w : Int) y σ n
        { image := image, x := 0, xx := 0, po := _rgba_r_shift }).image =
      pcxRowsImage 24 (fun _ => σ) y 1 image := by
  obtain ⟨m, rfl⟩ : ∃ m, n = w * 3 + m := ⟨n - w * 3, by omega⟩
  rw [pcxPaint_add, pcxPaint24_over w y σ m _ (by rw [pcxPaint_x]; simp only []; omega) hw,
    pcxPaint24_line w y σ image hw hiw]
  rw [pcxPaint24_three w y σ image hw hiw, pcxPaint24_line w y σ image hw hiw]
  show image.w ≤ w
  omega

/-- One round of the scanline loop at depth 24 paints the samples of its
item. -/
theorem pcxItem_paint (w y : Nat) (σ : Nat → Nat) (f : File) (p0 : PcxPen) (hp0 : p0.x = 0)
    (acc : List Nat)
    (hσ : ∀ i, i < (if pcxByteAt f.rest 0 &&& 0xC0 = 0xC0 then pcxByteAt f.rest 0 &&& 0x3F
        else 1) →
      σ (acc.length + i) =
        (if pcxByteAt f.rest 0 &&& 0xC0 = 0xC0 then pcxByteAt f.rest 1
          else pcxByteAt f.rest 0)) :
    pcxItem 24 (w : Int) y (⟨f, pcxPaint 24 (w : Int) y σ acc.length p0⟩ : PcxScan) =
      (if pcxByteAt f.rest 0 &&& 0xC0 = 0xC0 then
        (⟨(fgetc (fgetc f).2).2, pcxPaint 24 (w : Int) y σ
          (acc ++ List.replicate (pcxByteAt f.rest 0 &&& 0x3F) (pcxByteAt f.rest 1)).length
          p0⟩ : PcxScan)
      else
        (⟨(fgetc f).2, pcxPaint 24 (w : Int) y σ (acc ++ [pcxByteAt f.rest 0]).length
          p0⟩ : PcxScan)) := by
  have h0 : toByte (fgetc f).1 = pcxByteAt f.rest 0 := by rw [fgetc_fst]; rfl
  have h1 : toByte (fgetc (fgetc f).2).1 = pcxByteAt f.rest 1 := by
    rw [fgetc_fst, fgetc_rest, peek_drop]; rfl
  have h8 : ¬ ((24 : Int) = 8) := by decide
  have hx : (pcxPaint 24 (w : Int) y σ acc.length p0).x = acc.length := by
    rw [pcxPaint_x, hp0, Nat.zero_add]
  simp only [pcxItem, if_neg h8, h0]
  by_cases hm : pcxByteAt f.rest 0 &&& 0xC0 = 0xC0
  · rw [if_pos hm] at hσ
    rw [if_pos hm] at hσ
    simp only [hm, decide_True, if_true, h1]
    have hr := pcxRun_eq_paint 24 (w : Int) y σ (pcxByteAt f.rest 1)
      (pcxByteAt f.rest 0 &&& 0x3F) (pcxPaint 24 (w : Int) y σ acc.length p0)
      (by rw [hx]; exact hσ)
    rw [if_neg h8] at hr
    rw [hr, ← pcxPaint_add, List.length_append, List.length_replicate]
  · rw [if_neg hm] at hσ
    rw [if_neg hm] at hσ
    simp only [hm, decide_False, Bool.false_eq_true, if_false, h0]
    have hr := pcxRun_eq_paint 24 (w : Int) y σ (pcxByteAt f.rest 0) 1
      (pcxPaint 24 (w : Int) y σ acc.length p0) (by rw [hx]; exact hσ)
    rw [if_neg h8] at hr
    rw [hr, ← pcxPaint_add, List.length_append, List.length_singleton]

theorem getD_append_mid (acc t : List Nat) (i : Nat) :
    (acc ++ t).getD (acc.length + i) 0 = t.getD i 0 := by
  rw [List.getD_eq_getElem?_getD, List.getD_eq_getElem?_getD,
    List.getElem?_append_right (by omega)]
  congr 2
  omega

/-- The scanline loop at depth 24 paints the expansion of the specification,
sample after sample. -/
theorem pcxWhile_paint (w y : Nat) (σ : Nat → Nat) (p0 : PcxPen) (hp0 : p0.x = 0)
    (fuel : Nat) (f : File) (acc : List Nat)
    (hσ : ∀ i, acc.length ≤ i → i < (pcxSpecRow ((w * 3 : Nat) : Int) fuel acc f.rest).1.length →
      σ i = (pcxSpecRow ((w * 3 : Nat) : Int) fuel acc f.rest).1.getD i 0) :
    (pcxWhile 24 (w : Int) y fuel
      (⟨f, pcxPaint 24 (w : Int) y σ acc.length p0⟩ : PcxScan)).f.rest =
        (pcxSpecRow ((w * 3 : Nat) : Int) fuel acc f.rest).2 ∧
    (pcxWhile 24 (w : Int) y fuel
      (⟨f, pcxPaint 24 (w : Int) y σ acc.length p0⟩ : PcxScan)).pen =
        pcxPaint 24 (w : Int) y σ
          (pcxSpecRow ((w * 3 : Nat) : Int) fuel acc f.rest).1.length p0 := by
  induction fuel generalizing f acc with
  | zero => exact ⟨rfl, rfl⟩
  | succ fuel ih =>
    have hx : (pcxPaint 24 (w : Int) y σ acc.length p0).x = acc.length := by
      rw [pcxPaint_x, hp0, Nat.zero_add]
    simp only [pcxWhile, pcxSpecRow, pcxLineBytes_twentyfour, hx] at hσ ⊢
    by_cases hc : (acc.length : Int) < ((w * 3 : Nat) : Int)
    · rw [if_pos hc] at hσ ⊢
      rw [if_pos hc]
      by_cases hm : pcxByteAt f.rest 0 &&& 0xC0 = 0xC0
      · rw [if_pos hm] at hσ ⊢
        obtain ⟨t, ht⟩ := pcxSpecRow_prefix ((w * 3 : Nat) : Int) fuel
          (acc ++ List.replicate (pcxByteAt f.rest 0 &&& 0x3F) (pcxByteAt f.rest 1))
          (f.rest.drop 2)
        have hitem := pcxItem_paint w y σ f p0 hp0 acc (by
          intro i hi
          rw [if_pos hm] at hi
          rw [if_pos hm, hσ (acc.length + i) (by omega)
            (by rw [ht]; simp only [List.length_append, List.length_replicate]; omega), ht,
            List.append_assoc, getD_append_mid,
            List.getD_append _ _ _ _ (by rw [List.length_replicate]; exact hi),
            List.getD_eq_getElem _ _ (by rw [List.length_replicate]; exact hi),
            List.getElem_replicate])
        rw [if_pos hm] at hitem
        rw [hitem]
        have hd : f.rest.drop 2 = (fgetc (fgetc f).2).2.rest := by
          rw [fgetc_rest, fgetc_rest, List.drop_drop]
        rw [hd] at hσ ⊢
        exact ih _ _ (fun i hi1 hi2 => hσ i (by
          rw [List.length_append] at hi1
          omega) hi2)
      · rw [if_neg hm] at hσ ⊢
        obtain ⟨t, ht⟩ := pcxSpecRow_prefix ((w * 3 : Nat) : Int) fuel
          (acc ++ [pcxByteAt f.rest 0]) (f.rest.drop 1)
        have hitem := pcxItem_paint w y σ f p0 hp0 acc (by
          intro i hi
          rw [if_neg hm] at hi
          have hi0 : i = 0 := by omega
          subst hi0
          rw [if_neg hm, hσ (acc.length + 0) (by omega)
            (by rw [ht]; simp only [List.length_append, List.length_singleton]; omega), ht,
            List.append_assoc, getD_append_mid]
          rfl)
        rw [if_neg hm] at hitem
        rw [hitem]
        have hd : f.rest.drop 1 = (fgetc f).2.rest := by rw [fgetc_rest]
        rw [hd] at hσ ⊢
        exact ih _ _ (fun i hi1 hi2 => hσ i (by
          rw [List.length_append] at hi1
          omega) hi2)
    · rw [if_neg hc]
      rw [if_neg hc]
      exact ⟨rfl, rfl⟩

/-- One scanline at depth 24 with as many bytes per line as the image is
wide: the stream is left behind the last item of the expansion, and the
three planes of the expansion are or-ed into the three channels. -/
theorem pcxScanline_planes (w y : Nat) (f : File) (image : Image) (hw : 1 ≤ w)
    (hiw : image.w = w) :
    (pcxScanline 24 (w : Int) y f image).1.rest =
      (pcxSpecRow ((w * 3 : Nat) : Int) (f.rest.length + w * 3) [] f.rest).2 ∧
    (pcxScanline 24 (w : Int) y f image).2 =
      pcxRowsImage 24 (fun _ i =>
        (pcxSpecRow ((w * 3 : Nat) : Int) (f.rest.length + w * 3) [] f.rest).1.getD i 0)
        y 1 image ∧
    w * 3 ≤ (pcxSpecRow ((w * 3 : Nat) : Int) (f.rest.length + w * 3) [] f.rest).1.length := by
  have hfuel : pcxFuel 24 (w : Int)
      { f := f, pen := { image := image, x := 0, xx := 0, po := _rgba_r_shift } } =
      f.rest.length + w * 3 := by
    simp only [pcxFuel, pcxLineBytes_twentyfour]
    omega
  have hdone : ((w * 3 : Nat) : Int) ≤
      ((pcxSpecRow ((w * 3 : Nat) : Int) (f.rest.length + w * 3) [] f.rest).1.length : Int) := by
    apply pcxSpecRow_done
    simp
  have hlen : w * 3 ≤
      (pcxSpecRow ((w * 3 : Nat) : Int) (f.rest.length + w * 3) [] f.rest).1.length := by
    omega
  have hrun := pcxWhile_paint w y
    (fun i => (pcxSpecRow ((w * 3 : Nat) : Int) (f.rest.length + w * 3) [] f.rest).1.getD i 0)
    { image := image, x := 0, xx := 0, po := _rgba_r_shift } rfl (f.rest.length + w * 3) f []
    (fun i _ _ => rfl)
  have hstart : pcxPaint 24 (w : Int) y
      (fun i => (pcxSpecRow ((w * 3 : Nat) : Int) (f.rest.length + w * 3) [] f.rest).1.getD i 0)
      ([] : List Nat).length { image := image, x := 0, xx := 0, po := _rgba_r_shift } =
      { image := image, x := 0, xx := 0, po := _rgba_r_shift } := rfl
  rw [hstart] at hrun
  refine ⟨?_, ?_, hlen⟩
  · simp only [pcxScanline, hfuel]
    exact hrun.1
  · simp only [pcxScanline, hfuel]
    rw [hrun.2]
    exact pcxPaint24_row w y _ image hw hiw _ hlen

/-- A pixel of a scanline decoded at depth 24 into a row that was opaque
black: the opaque colour of the three planes. -/
theorem pcxScanline_pixel (w y : Nat) (f : File) (image : Image) (hw : 1 ≤ w)
    (hiw : image.w = w) (x : Nat) (hx : x < w) (hb : image.pix x y = _rgba 0 0 0 255) :
    (pcxScanline 24 (w : Int) y f image).2.pix x y =
      _rgba ((pcxSpecRow ((w * 3 : Nat) : Int) (f.rest.length + w * 3) [] f.rest).1.getD x 0)
        ((pcxSpecRow ((w * 3 : Nat) : Int) (f.rest.length + w * 3) [] f.rest).1.getD (w + x) 0)
        ((pcxSpecRow ((w * 3 : Nat) : Int) (f.rest.length + w * 3) [] f.rest).1.getD
          (w * 2 + x) 0) 255 := by
  have hlt := pcxSpecRow_lt ((w * 3 : Nat) : Int) (f.rest.length + w * 3) [] f.rest
    (fun v hv => absurd hv (List.not_mem_nil v))
  have h8 : ¬ ((24 : Int) = 8) := by decide
  have hc : y ≤ y ∧ y < y + 1 ∧ x < w := by omega
  rw [(pcxScanline_planes w y f image hw hiw).2.1]
  simp only [pcxRowsImage, if_neg h8, hiw, if_pos hc, hb]
  exact or_into_black _ _ _ (getD_lt _ hlt _) (getD_lt _ hlt _) (getD_lt _ hlt _)

/-- The rows decoded at depth 24 into an image that was opaque black: row `y`
holds the opaque colours of the three planes of its expansion, which starts
where the rows before it ended. -/
theorem pcxScanRows_planes (w : Nat) (hw : 1 ≤ w) (n y0 : Nat) (f : File) (image : Image)
    (hiw : image.w = w) (hb : ∀ x y, y0 ≤ y → image.pix x y = _rgba 0 0 0 255)
    (x y : Nat) (hx : x < w) (hy0 : y0 ≤ y) (hy : y < y0 + n) :
    (pcxScanRows 24 (w : Int) n y0 f image).2.pix x y =
      _rgba ((pcxSpecRow ((w * 3 : Nat) : Int)
          ((pcxScanRows 24 (w : Int) (y - y0) y0 f image).1.rest.length + w * 3) []
          (pcxScanRows 24 (w : Int) (y - y0) y0 f image).1.rest).1.getD x 0)
        ((pcxSpecRow ((w * 3 : Nat) : Int)
          ((pcxScanRows 24 (w : Int) (y - y0) y0 f image).1.rest.length + w * 3) []
          (pcxScanRows 24 (w : Int) (y - y0) y0 f image).1.rest).1.getD (w + x) 0)
        ((pcxSpecRow ((w * 3 : Nat) : Int)
          ((pcxScanRows 24 (w : Int) (y - y0) y0 f image).1.rest.length + w * 3) []
          (pcxScanRows 24 (w : Int) (y - y0) y0 f image).1.rest).1.getD (w * 2 + x) 0) 255 := by
  induction n generalizing y0 f image with
  | zero => omega
  | succ n ih =>
    obtain ⟨s1, s2, s3, s4⟩ := pcxScanline_frame 24 (w : Int) y0 f image
    by_cases hyy : y = y0
    · subst hyy
      have e0 : y - y = 0 := by omega
      rw [e0]
      simp only [pcxScanRows]
      rw [(pcxScanRows_frame 24 (w : Int) n (y + 1) _ _).2.2.2 x y (Or.inl (by omega))]
      exact pcxScanline_pixel w y f image hw hiw x hx (hb x y (le_refl _))
    · obtain ⟨k, hk⟩ : ∃ k, y - y0 = k + 1 := ⟨y - y0 - 1, by omega⟩
      have hk2 : y - (y0 + 1) = k := by omega
      have h := ih (y0 + 1) (pcxScanline 24 (w : Int) y0 f image).1
        (pcxScanline 24 (w : Int) y0 f image).2 (s2.trans hiw)
        (fun x1 y1 hy1 => by
          rw [s4 x1 y1 (by omega)]
          exact hb x1 y1 (by omega))
        (by omega) (by omega)
      rw [hk2] at h
      rw [hk]
      simp only [pcxScanRows]
      exact h

/-- The image that the decoder hands over when it has its image and is not
stopped: the result of the loop over the scanlines. -/
theorem pcxLoadImage_image (fop : FileOp) (width height bpp : Int) (f : File)
    (ha : fop.can_allocate = true) (hs : fop.stop_at = none) :
    (pcxLoadImage fop width height bpp f).fop.seq_image =
      some (pcxScanRows bpp (fgetw f).1 height.toNat 0 (skipBytes 60 (fgetw f).2)
        (pcxBlankImage bpp width height)).2 := by
  have hF : (fop_sequence_image fop (if bpp = 8 then IMAGE_INDEXED else IMAGE_RGB)
      width height).2.stop_at = none := by
    simp [fop_sequence_image, ha, hs]
  rw [pcxLoadImage_alloc fop width height bpp f ha, pcxFinish_seq_image]
  simp only []
  rw [pcxRows_none _ _ _ _ _ _ _ _ hF]

theorem pcxBlankImage_rgb (width height : Int) :
    (pcxBlankImage 24 width height).format = IMAGE_RGB ∧
    ∀ x y, (pcxBlankImage 24 width height).pix x y = _rgba 0 0 0 255 := by
  unfold pcxBlankImage
  rw [if_pos rfl]
  exact ⟨rfl, fun _ _ => rfl⟩

/-- The image of a stream of depth 24 whose bytes per line equal the width
`w`, once the decoder has its image and is not stopped. -/
theorem pcxLoadImage_planes (fop : FileOp) (w : Nat) (height : Int) (f : File)
    (ha : fop.can_allocate = true) (hs : fop.stop_at = none) (hw : 1 ≤ w)
    (hbpl : (fgetw f).1 = (w : Int)) :
    (pcxLoadImage fop (w : Int) height 24 f).fop.seq_image =
      some (pcxScanRows 24 (w : Int) height.toNat 0 (skipBytes 60 (fgetw f).2)
        (pcxBlankImage 24 (w : Int) height)).2 ∧
    (pcxScanRows 24 (w : Int) height.toNat 0 (skipBytes 60 (fgetw f).2)
        (pcxBlankImage 24 (w : Int) height)).2.format = IMAGE_RGB ∧
    (pcxScanRows 24 (w : Int) height.toNat 0 (skipBytes 60 (fgetw f).2)
        (pcxBlankImage 24 (w : Int) height)).2.w = w ∧
    (pcxScanRows 24 (w : Int) height.toNat 0 (skipBytes 60 (fgetw f).2)
        (pcxBlankImage 24 (w : Int) height)).2.h = height.toNat ∧
    ∀ x y, x < w → y < height.toNat →
      (pcxScanRows 24 (w : Int) height.toNat 0 (skipBytes 60 (fgetw f).2)
        (pcxBlankImage 24 (w : Int) height)).2.pix x y =
      _rgba ((pcxSpecRow ((w * 3 : Nat) : Int)
          ((pcxScanRows 24 (w : Int) y 0 (skipBytes 60 (fgetw f).2)
            (pcxBlankImage 24 (w : Int) height)).1.rest.length + w * 3) []
          (pcxScanRows 24 (w : Int) y 0 (skipBytes 60 (fgetw f).2)
            (pcxBlankImage 24 (w : Int) height)).1.rest).1.getD x 0)
        ((pcxSpecRow ((w * 3 : Nat) : Int)
          ((pcxScanRows 24 (w : Int) y 0 (skipBytes 60 (fgetw f).2)
            (pcxBlankImage 24 (w : Int) height)).1.rest.length + w * 3) []
          (pcxScanRows 24 (w : Int) y 0 (skipBytes 60 (fgetw f).2)
            (pcxBlankImage 24 (w : Int) height)).1.rest).1.getD (w + x) 0)
        ((pcxSpecRow ((w * 3 : Nat) : Int)
          ((pcxScanRows 24 (w : Int) y 0 (skipBytes 60 (fgetw f).2)
            (pcxBlankImage 24 (w : Int) height)).1.rest.length + w * 3) []
          (pcxScanRows 24 (w : Int) y 0 (skipBytes 60 (fgetw f).2)
            (pcxBlankImage 24 (w : Int) height)).1.rest).1.getD (w * 2 + x) 0) 255 := by
  obtain ⟨hbf, hbb⟩ := pcxBlankImage_rgb (w : Int) height
  obtain ⟨hbw, hbh⟩ := pcxBlankImage_dims 24 (w : Int) height
  have hbw2 : (pcxBlankImage 24 (w : Int) height).w = w := by
    rw [hbw]
    exact Int.toNat_ofNat w
  obtain ⟨r1, r2, r3, _⟩ := pcxScanRows_frame 24 (w : Int) height.toNat 0
    (skipBytes 60 (fgetw f).2) (pcxBlankImage 24 (w : Int) height)
  have himg := pcxLoadImage_image fop (w : Int) height 24 f ha hs
  rw [hbpl] at himg
  refine ⟨himg, r1.trans hbf, r2.trans hbw2, r3.trans hbh, ?_⟩
  intro x y hx hy
  have h := pcxScanRows_planes w hw height.toNat 0 (skipBytes 60 (fgetw f).2)
    (pcxBlankImage 24 (w : Int) height) hbw2 (fun x1 y1 _ => hbb x1 y1) x y hx (by omega)
    (by omega)
  rw [Nat.sub_zero] at h
  exact h

/-- C21. Let the stream pass both header checks with the planes byte 3
(depth 24), let its bytes-per-line field equal the width `w` computed from
the header, `w` at least 1, let the image be allocated and let no stop be
signalled.  The decoder hands over an RGB image of that width; for every
pixel `(x, y)` of it, the expansion of row `y` has at least `3 * w` bytes
and the pixel is the opaque colour `rgba(E[x], E[w + x], E[2 * w + x], 255)`
of the first, second and third segment of `w` bytes of that expansion,
whatever the runs that produce these bytes; what the expansion holds beyond
`3 * w` bytes is dropped.  The alpha of every pixel is 255. -/
theorem pcx_plane_assembly (fop : FileOp) (f : File) (w : Nat)
    (h3 : peek f.rest 3 = 8) (hd : peek f.rest 65 = 3)
    (ha : fop.can_allocate = true) (hs : fop.stop_at = none) (hw : 1 ≤ w)
    (hwidth : (pcxHeaderStage fop f).2.1 = (w : Int))
    (hbpl : (fgetw (pcxHeaderStage fop f).2.2.2.2).1 = (w : Int)) :
    ∃ image, (PcxFormat.onLoad fop f).fop.seq_image = some image ∧
      image = (pcxAfterRows fop f).2 ∧
      image.format = IMAGE_RGB ∧ image.w = w ∧
      image.h = (pcxHeaderStage fop f).2.2.1.toNat ∧
      ∀ x y, x < image.w → y < image.h →
        w * 3 ≤ (pcxRowExpansion fop f y).length ∧
        image.pix x y =
          _rgba ((pcxRowExpansion fop f y).getD x 0) ((pcxRowExpansion fop f y).getD (w + x) 0)
            ((pcxRowExpansion fop f y).getD (w * 2 + x) 0) 255 ∧
        _rgba_geta (image.pix x y) = 255 := by
  have hd2 : peek f.rest 65 * 8 = 8 ∨ peek f.rest 65 * 8 = 24 := by
    right; rw [hd]; rfl
  obtain ⟨hload, hbpp⟩ := pcx_onLoad_stage fop f h3 hd2
  obtain ⟨hsa, hss, _, _⟩ := pcxHeaderStage_fop fop f
  have hb24 : (pcxHeaderStage fop f).2.2.2.1 = 24 := by rw [hbpp, hd]; rfl
  rw [hload]
  unfold pcxAfterRows pcxRowExpansion
  simp only []
  rw [hb24, hwidth, hbpl]
  generalize (pcxHeaderStage fop f).2.2.2.2 = f1 at hbpl ⊢
  generalize (pcxHeaderStage fop f).2.2.1 = height
  generalize (pcxHeaderStage fop f).1 = fop1 at hsa hss
  obtain ⟨p1, p2, p3, p4, p5⟩ := pcxLoadImage_planes fop1 w height f1 (hsa.trans ha)
    (hss.trans hs) hw hbpl
  refine ⟨_, p1, rfl, p2, p3, p4, ?_⟩
  intro x y hx hy
  rw [p3] at hx
  rw [p4] at hy
  rw [pcxLineBytes_twentyfour, Int.toNat_ofNat]
  have hlt := pcxSpecRow_lt ((w * 3 : Nat) : Int)
    ((pcxScanRows 24 (w : Int) y 0 (skipBytes 60 (fgetw f1).2)
      (pcxBlankImage 24 (w : Int) height)).1.rest.length + w * 3) []
    (pcxScanRows 24 (w : Int) y 0 (skipBytes 60 (fgetw f1).2)
      (pcxBlankImage 24 (w : Int) height)).1.rest
    (fun v hv => absurd hv (List.not_mem_nil v))
  have hdone := pcxSpecRow_done ((w * 3 : Nat) : Int)
    ((pcxScanRows 24 (w : Int) y 0 (skipBytes 60 (fgetw f1).2)
      (pcxBlankImage 24 (w : Int) height)).1.rest.length + w * 3) []
    (pcxScanRows 24 (w : Int) y 0 (skipBytes 60 (fgetw f1).2)
      (pcxBlankImage 24 (w : Int) height)).1.rest (by simp)
  refine ⟨by omega, p5 x y hx hy, ?_⟩
  rw [p5 x y hx hy]
  exact (rgba_channels _ _ _ 255 (getD_lt _ hlt _) (getD_lt _ hlt _) (getD_lt _ hlt _)
    (by decide)).2.2.2

/-- The theorem at the stream `pcxRgbRuns`: the expansion of row 0 is
9, 9, 9, 5, 5, 5, so the red plane is 9, 9, the green plane 9, 5 and the blue
plane 5, 5; the first run spans the red and the green plane. -/
theorem pcx_plane_assembly_witness :
    peek (File.open pcxRgbRuns).rest 3 = 8 ∧ peek (File.open pcxRgbRuns).rest 65 = 3 ∧
    FileOp.blank.can_allocate = true ∧ FileOp.blank.stop_at = none ∧ 1 ≤ 2 ∧
    (pcxHeaderStage FileOp.blank (File.open pcxRgbRuns)).2.1 = ((2 : Nat) : Int) ∧
    (fgetw (pcxHeaderStage FileOp.blank (File.open pcxRgbRuns)).2.2.2.2).1 = ((2 : Nat) : Int) ∧
    pcxRowExpansion FileOp.blank (File.open pcxRgbRuns) 0 = [9, 9, 9, 5, 5, 5] ∧
    (pcxAfterRows FileOp.blank (File.open pcxRgbRuns)).2.pix 0 0 = _rgba 9 9 5 255 ∧
    (pcxAfterRows FileOp.blank (File.open pcxRgbRuns)).2.pix 1 0 = _rgba 9 5 5 255 ∧
    ∃ image, (PcxFormat.onLoad FileOp.blank (File.open pcxRgbRuns)).fop.seq_image = some image ∧
      image = (pcxAfterRows FileOp.blank (File.open pcxRgbRuns)).2 ∧
      image.format = IMAGE_RGB ∧ image.w = 2 ∧
      image.h = (pcxHeaderStage FileOp.blank (File.open pcxRgbRuns)).2.2.1.toNat ∧
      ∀ x y, x < image.w → y < image.h →
        2 * 3 ≤ (pcxRowExpansion FileOp.blank (File.open pcxRgbRuns) y).length ∧
        image.pix x y =
          _rgba ((pcxRowExpansion FileOp.blank (File.open pcxRgbRuns) y).getD x 0)
            ((pcxRowExpansion FileOp.blank (File.open pcxRgbRuns) y).getD (2 + x) 0)
            ((pcxRowExpansion FileOp.blank (File.open pcxRgbRuns) y).getD (2 * 2 + x) 0) 255 ∧
        _rgba_geta (image.pix x y) = 255 :=
  ⟨by decide, by decide, rfl, rfl, by decide, rfl, rfl, rfl, rfl, rfl,
    pcx_plane_assembly FileOp.blank (File.open pcxRgbRuns) 2 (by decide) (by decide) rfl rfl
      (by decide) rfl rfl⟩

/-- Lines 80 to 83 on a stream that holds the four fields: the width is
`-xmin + (xmax + 1)` and the height `-ymin + (ymax + 1)` of the values that
`fgetw` returns, with no conversion in between. -/
theorem pcxHeaderStage_dims (fop : FileOp) (A tl : List Nat) (fa e er : Bool)
    (b0 b1 b2 b3 x0 x1 y0 y1 X0 X1 Y0 Y1 : Nat) :
    (pcxHeaderStage fop
      ⟨A, b0 :: b1 :: b2 :: b3 :: x0 :: x1 :: y0 :: y1 :: X0 :: X1 :: Y0 :: Y1 :: tl,
        fa, e, er⟩).2.1 = pcxField X0 X1 - pcxField x0 x1 + 1 ∧
    (pcxHeaderStage fop
      ⟨A, b0 :: b1 :: b2 :: b3 :: x0 :: x1 :: y0 :: y1 :: X0 :: X1 :: Y0 :: Y1 :: tl,
        fa, e, er⟩).2.2.1 = pcxField Y0 Y1 - pcxField y0 y1 + 1 := by
  simp only [pcxHeaderStage, fgetc_mk, fgetw_mk]
  constructor <;>
  · unfold pcxField
    push_cast
    ring

/-- The image that the decoder leaves for sizes of at least 1 has these
sizes. -/
theorem pcxLoadImage_sizes (fop : FileOp) (width height bpp : Int) (f : File)
    (ha : fop.can_allocate = true) (hw : 1 ≤ width) (hh : 1 ≤ height) :
    ∃ img, (pcxLoadImage fop width height bpp f).fop.seq_image = some img ∧
      (img.w : Int) = width ∧ (img.h : Int) = height := by
  obtain ⟨img, h1, h2, h3⟩ := pcxLoadImage_dims fop width height bpp f ha
  refine ⟨img, h1, ?_, ?_⟩
  · rw [h2]
    exact Int.toNat_of_nonneg (by omega)
  · rw [h3]
    exact Int.toNat_of_nonneg (by omega)

/-! ## C18: the bounding box of a PCX header -/

/-- C18 as stated fails.  The field bytes FF FF are read as 65535, not as -1:
for the header with xmin = FF FF and xmax = 0 (and ymin = ymax = 0) the width
that the decoder derives is 0 - 65535 + 1 = -65534, where the claim promises
the width 2, and this is the width with which the decoder goes on to request
its image (height 1, depth 8). -/
theorem pcx_xmin_ffff_is_read_unsigned :
    pcxField 0xFF 0xFF = 65535 ∧
    (pcxHeaderStage FileOp.blank (File.open pcxSignedHeader)).2.1 = -65534 ∧
    (pcxHeaderStage FileOp.blank (File.open pcxSignedHeader)).2.1 ≠ 2 ∧
    (pcxHeaderStage FileOp.blank (File.open pcxSignedHeader)).2.2.1 = 1 ∧
    PcxFormat.onLoad FileOp.blank (File.open pcxSignedHeader) =
      pcxLoadImage (pcxHeaderStage FileOp.blank (File.open pcxSignedHeader)).1 (-65534) 1 8
        (pcxHeaderStage FileOp.blank (File.open pcxSignedHeader)).2.2.2.2 := by
  have hw : (pcxHeaderStage FileOp.blank (File.open pcxSignedHeader)).2.1 = -65534 := by
    decide
  have hh : (pcxHeaderStage FileOp.blank (File.open pcxSignedHeader)).2.2.1 = 1 := by
    decide
  obtain ⟨h1, h2⟩ := pcx_onLoad_stage FileOp.blank (File.open pcxSignedHeader) (by decide)
    (Or.inl (by decide))
  have hb : (pcxHeaderStage FileOp.blank (File.open pcxSignedHeader)).2.2.2.1 = 8 := by
    rw [h2]
    decide
  refine ⟨by decide, hw, ?_, hh, ?_⟩
  · rw [hw]
    decide
  · rw [h1, hw, hh, hb]

/-- C18, with the fields read as unsigned numbers.  For every stream that
holds the four bounding-box fields, each field is the unsigned 16-bit
little-endian value of its two bytes, between 0 and 65535, and the decoder
derives the width `xmax - xmin + 1` and the height `ymax - ymin + 1` from
these values.  When the bits-per-plane byte is 8 and the planes byte is 1 or
3, these are the sizes with which the rest of the decoder runs; when moreover
both are at least 1 and the allocation is granted, the image that the decoder
leaves has this width and this height. -/
theorem pcx_decoded_dimensions (fop : FileOp) (A tl : List Nat) (fa e er : Bool)
    (b0 b1 b2 b3 x0 x1 y0 y1 X0 X1 Y0 Y1 : Nat) :
    (0 ≤ pcxField x0 x1 ∧ pcxField x0 x1 ≤ 65535) ∧
    (0 ≤ pcxField X0 X1 ∧ pcxField X0 X1 ≤ 65535) ∧
    (0 ≤ pcxField y0 y1 ∧ pcxField y0 y1 ≤ 65535) ∧
    (0 ≤ pcxField Y0 Y1 ∧ pcxField Y0 Y1 ≤ 65535) ∧
    (pcxHeaderStage fop
      ⟨A, b0 :: b1 :: b2 :: b3 :: x0 :: x1 :: y0 :: y1 :: X0 :: X1 :: Y0 :: Y1 :: tl,
        fa, e, er⟩).2.1 = pcxField X0 X1 - pcxField x0 x1 + 1 ∧
    (pcxHeaderStage fop
      ⟨A, b0 :: b1 :: b2 :: b3 :: x0 :: x1 :: y0 :: y1 :: X0 :: X1 :: Y0 :: Y1 :: tl,
        fa, e, er⟩).2.2.1 = pcxField Y0 Y1 - pcxField y0 y1 + 1 ∧
    (b3 % 256 = 8 → (peek tl 53 * 8 = 8 ∨ peek tl 53 * 8 = 24) →
      PcxFormat.onLoad fop
        ⟨A, b0 :: b1 :: b2 :: b3 :: x0 :: x1 :: y0 :: y1 :: X0 :: X1 :: Y0 :: Y1 :: tl,
          fa, e, er⟩ =
        pcxLoadImage
          (pcxHeaderStage fop
            ⟨A, b0 :: b1 :: b2 :: b3 :: x0 :: x1 :: y0 :: y1 :: X0 :: X1 :: Y0 :: Y1 :: tl,
              fa, e, er⟩).1
          (pcxField X0 X1 - pcxField x0 x1 + 1) (pcxField Y0 Y1 - pcxField y0 y1 + 1)
          (peek tl 53 * 8)
          (pcxHeaderStage fop
            ⟨A, b0 :: b1 :: b2 :: b3 :: x0 :: x1 :: y0 :: y1 :: X0 :: X1 :: Y0 :: Y1 :: tl,
              fa, e, er⟩).2.2.2.2) ∧
    (b3 % 256 = 8 → (peek tl 53 * 8 = 8 ∨ peek tl 53 * 8 = 24) →
      fop.can_allocate = true →
      1 ≤ pcxField X0 X1 - pcxField x0 x1 + 1 → 1 ≤ pcxField Y0 Y1 - pcxField y0 y1 + 1 →
      ∃ img, (PcxFormat.onLoad fop
          ⟨A, b0 :: b1 :: b2 :: b3 :: x0 :: x1 :: y0 :: y1 :: X0 :: X1 :: Y0 :: Y1 :: tl,
            fa, e, er⟩).fop.seq_image = some img ∧
        (img.w : Int) = pcxField X0 X1 - pcxField x0 x1 + 1 ∧
        (img.h : Int) = pcxField Y0 Y1 - pcxField y0 y1 + 1) := by
  have hb : ∀ lo hi, 0 ≤ pcxField lo hi ∧ pcxField lo hi ≤ 65535 := by
    intro lo hi
    unfold pcxField
    omega
  obtain ⟨hw, hh⟩ := pcxHeaderStage_dims fop A tl fa e er b0 b1 b2 b3 x0 x1 y0 y1 X0 X1 Y0 Y1
  have hrun : b3 % 256 = 8 → (peek tl 53 * 8 = 8 ∨ peek tl 53 * 8 = 24) →
      PcxFormat.onLoad fop
        ⟨A, b0 :: b1 :: b2 :: b3 :: x0 :: x1 :: y0 :: y1 :: X0 :: X1 :: Y0 :: Y1 :: tl,
          fa, e, er⟩ =
        pcxLoadImage
          (pcxHeaderStage fop
            ⟨A, b0 :: b1 :: b2 :: b3 :: x0 :: x1 :: y0 :: y1 :: X0 :: X1 :: Y0 :: Y1 :: tl,
              fa, e, er⟩).1
          (pcxField X0 X1 - pcxField x0 x1 + 1) (pcxField Y0 Y1 - pcxField y0 y1 + 1)
          (peek tl 53 * 8)
          (pcxHeaderStage fop
            ⟨A, b0 :: b1 :: b2 :: b3 :: x0 :: x1 :: y0 :: y1 :: X0 :: X1 :: Y0 :: Y1 :: tl,
              fa, e, er⟩).2.2.2.2 := by
    intro h8 hp
    have p3 : peek (b0 :: b1 :: b2 :: b3 :: x0 :: x1 :: y0 :: y1 :: X0 :: X1 :: Y0 :: Y1 :: tl)
        3 = 8 := by
      simp only [peek, List.getElem?_cons_succ, List.getElem?_cons_zero, h8]
      rfl
    have p65 : peek (b0 :: b1 :: b2 :: b3 :: x0 :: x1 :: y0 :: y1 :: X0 :: X1 :: Y0 :: Y1 :: tl)
        65 = peek tl 53 := by
      simp only [peek, List.getElem?_cons_succ]
    obtain ⟨h1, h2⟩ := pcx_onLoad_stage fop
      ⟨A, b0 :: b1 :: b2 :: b3 :: x0 :: x1 :: y0 :: y1 :: X0 :: X1 :: Y0 :: Y1 :: tl, fa, e, er⟩
      p3 (by rw [p65]; exact hp)
    rw [h1, hw, hh, h2, p65]
  refine ⟨hb _ _, hb _ _, hb _ _, hb _ _, hw, hh, hrun, ?_⟩
  intro h8 hp ha h1w h1h
  rw [hrun h8 hp]
  exact pcxLoadImage_sizes _ _ _ _ _
    ((pcxHeaderStage_fop fop _).1.trans ha) h1w h1h

/-- The theorem at a header with the bounding box (3, 1) to (10, 5) and one
plane, with nothing after the planes byte: the width is 8, the height is 5,
and the image that the decoder leaves is 8 by 5. -/
theorem pcx_decoded_dimensions_witness :
    (pcxHeaderStage FileOp.blank
      ⟨[], 10 :: 5 :: 1 :: 8 :: 3 :: 0 :: 1 :: 0 :: 10 :: 0 :: 5 :: 0 ::
        ([64, 1, 200, 0] ++ List.replicate 48 0 ++ [0, 1]), false, false, false⟩).2.1 = 8 ∧
    (pcxHeaderStage FileOp.blank
      ⟨[], 10 :: 5 :: 1 :: 8 :: 3 :: 0 :: 1 :: 0 :: 10 :: 0 :: 5 :: 0 ::
        ([64, 1, 200, 0] ++ List.replicate 48 0 ++ [0, 1]), false, false, false⟩).2.2.1 = 5 ∧
    ∃ img, (PcxFormat.onLoad FileOp.blank
        ⟨[], 10 :: 5 :: 1 :: 8 :: 3 :: 0 :: 1 :: 0 :: 10 :: 0 :: 5 :: 0 ::
          ([64, 1, 200, 0] ++ List.replicate 48 0 ++ [0, 1]),
          false, false, false⟩).fop.seq_image = some img ∧
      (img.w : Int) = 8 ∧ (img.h : Int) = 5 := by
  have h := pcx_decoded_dimensions FileOp.blank []
    ([64, 1, 200, 0] ++ List.replicate 48 0 ++ [0, 1]) false false false 10 5 1 8 3 0 1 0 10 0 5 0
  obtain ⟨img, h1, h2, h3⟩ := h.2.2.2.2.2.2.2 (by decide) (Or.inl (by decide)) rfl
    (by decide) (by decide)
  exact ⟨h.2.2.2.2.1.trans (by decide), h.2.2.2.2.2.1.trans (by decide),
    img, h1, h2.trans (by decide), h3.trans (by decide)⟩

end Aseprite
